import Mathlib

/-!
# The CIF API: the `linguist` emitter, the walker and the block store

A shallow embedding of the output routines and event handlers of `src/tools/linguist.c`
(namespace `Linguist`) and of the walker and the block functions of `src/cif.c` (namespace
`Cif`).

* A `UChar` (a 16-bit code unit) is a natural number; a NUL-terminated `UChar *` string is the
  list of the code units before the terminator, and reading the terminator itself is reading
  index `length` with the default `0`.
* `int` and `ptrdiff_t` values that can be negative are integers; lengths and the window are
  natural numbers.  The arithmetic is exact: the sums of columns and lengths that the emitter
  forms are taken to stay within the range of `int`.
* The output sink `context->out` is the list of the code units written so far.  The sink is
  taken not to fail: every `u_fprintf` / `u_fputc` writes all of its characters and returns
  their number, so the branches that answer `CIF_ERROR` to a failed write are not taken.
* A run that never comes back (a loop that does not advance, a failed `assert`) has no result:
  the functions that can do so return an `Option`.
* A handler of the walker works on a state of its own; a callback is a function from its
  argument and that state to the value returned and the state left.
-/

namespace Linguist

/-! ## Constants and macros -/

abbrev UChar := Nat

def MAX_LINE_LENGTH : Nat := 2048

def UCHAR_TAB : UChar := 0x09
def UCHAR_LF : UChar := 0x0a
def UCHAR_CR : UChar := 0x0d
def UCHAR_SP : UChar := 0x20
def UCHAR_HASH : UChar := 0x23
def UCHAR_DOT : UChar := 0x2e
def UCHAR_COLON : UChar := 0x3a
def UCHAR_SEMI : UChar := 0x3b
def UCHAR_GT : UChar := 0x3e
def UCHAR_QUERY : UChar := 0x3f
def UCHAR_OBRK : UChar := 0x5b
def UCHAR_BSL : UChar := 0x5c
def UCHAR_CBRK : UChar := 0x5d
def UCHAR_UNDER : UChar := 0x5f
def UCHAR_OBRC : UChar := 0x7b
def UCHAR_CBRC : UChar := 0x7d

/-- The text prefix `"> "` used when one is required (`PREFIX`). -/
def PREFIX : List UChar := [UCHAR_GT, UCHAR_SP]

/-- The halfwidth of the window in which the folding algorithm looks for a place to fold. -/
def FOLD_WINDOW : Nat := 8

/-- The maximum length of the data content of a physical line of a folded text field. -/
def MAX_FOLD_LENGTH : Nat := MAX_LINE_LENGTH - 1

def SPACE_FORBIDDEN : Int := -1
def SPACE_ALLOWED : Int := 0
def SPACE_REQUIRED : Int := 1

/-! ## `compute_fold_length` -/

/-- The test `(this_char == UCHAR_SP) || (this_char == UCHAR_TAB)` of `compute_fold_length`. -/
def is_space_char (this_char : UChar) : Bool :=
  this_char == UCHAR_SP || this_char == UCHAR_TAB

/-- The expression assigned to `category` in both loops of `compute_fold_length`:
`(allow_folding_before_semi || (this_char != UCHAR_SEMI)) ? ((was_space * 2) + !is_space) : 0`. -/
def fold_category (allow_folding_before_semi was_space : Bool) (this_char : UChar) : Nat :=
  if allow_folding_before_semi || this_char != UCHAR_SEMI then
    (if was_space then 2 else 0) + (if is_space_char this_char then 0 else 1)
  else 0

/-- The local variables of `compute_fold_length` that live across loop iterations. -/
structure fold_scan where
  best_category : Nat
  best_diff : Int
  is_space : Bool
  deriving DecidableEq, Repr

/-- The first loop of `compute_fold_length`, `for (diff = -window; diff; diff += 1)`, with `k`
iterations still to run: the next one has `diff = -k`. -/
def fold_scan_bottom (fold_start : List UChar) (target_length : Nat)
    (allow_folding_before_semi : Bool) : Nat → fold_scan → fold_scan
  | 0, s => s
  | k + 1, s =>
    let diff : Int := -((k : Int) + 1)
    let was_space := s.is_space
    let this_char := fold_start.getD ((target_length : Int) + diff).toNat 0
    let is_space := is_space_char this_char
    let category := fold_category allow_folding_before_semi was_space this_char
    fold_scan_bottom fold_start target_length allow_folding_before_semi k
      (if category ≥ s.best_category then
        { best_category := category, best_diff := diff, is_space := is_space }
      else
        { best_category := s.best_category, best_diff := s.best_diff, is_space := is_space })

/-- The second loop of `compute_fold_length`, `for (; diff <= window; diff += 1)`, with `n`
iterations still to run, the next one at `diff`.  A category-3 position ends the loop at once
(`break`), recording `best_diff` only. -/
def fold_scan_top (fold_start : List UChar) (target_length : Nat)
    (allow_folding_before_semi : Bool) : Nat → Int → fold_scan → fold_scan
  | 0, _, s => s
  | n + 1, diff, s =>
    let was_space := s.is_space
    let this_char := fold_start.getD ((target_length : Int) + diff).toNat 0
    let is_space := is_space_char this_char
    let category := fold_category allow_folding_before_semi was_space this_char
    if category = 3 then
      { best_category := s.best_category, best_diff := diff, is_space := is_space }
    else if category > s.best_category then
      fold_scan_top fold_start target_length allow_folding_before_semi n (diff + 1)
        { best_category := category, best_diff := diff, is_space := is_space }
    else if category = s.best_category ∧ diff ≤ -s.best_diff then
      fold_scan_top fold_start target_length allow_folding_before_semi n (diff + 1)
        { best_category := category, best_diff := diff, is_space := is_space }
    else
      fold_scan_top fold_start target_length allow_folding_before_semi n (diff + 1)
        { best_category := s.best_category, best_diff := s.best_diff, is_space := is_space }

/-- The last loop of `compute_fold_length`,
`for (best_length = ...; best_length > 0; best_length -= 1) if (fold_start[best_length] != UCHAR_SEMI) break;`
started at the given `best_length`; the value is `best_length` after the loop. -/
def fold_scan_back (fold_start : List UChar) : Nat → Nat
  | 0 => 0
  | best_length + 1 =>
    if fold_start.getD (best_length + 1) 0 ≠ UCHAR_SEMI then best_length + 1
    else fold_scan_back fold_start best_length

/-- The state of `compute_fold_length` after its two window loops: `is_space` starts from the
character just before the window, `best_category` from 0 and `best_diff` from `-(window + 1)`. -/
def fold_window_scan (fold_start : List UChar) (target_length window : Nat)
    (allow_folding_before_semi : Bool) : fold_scan :=
  let this_char := fold_start.getD (target_length - (window + 1)) 0
  let s0 : fold_scan :=
    { best_category := 0, best_diff := -((window : Int) + 1), is_space := is_space_char this_char }
  let s1 := fold_scan_bottom fold_start target_length allow_folding_before_semi window s0
  fold_scan_top fold_start target_length allow_folding_before_semi (window + 1) 0 s1

/-- `compute_fold_length`: how much of the given line goes into the next folded segment.
`assert(target_length > window)` is the function's precondition. -/
def compute_fold_length (fold_start : List UChar) (line_length target_length window : Nat)
    (allow_folding_before_semi : Bool) : Int :=
  if line_length ≤ target_length + window then
    (line_length : Int)
  else
    let s := fold_window_scan fold_start target_length window allow_folding_before_semi
    if s.best_category ≠ 0 then
      (target_length : Int) + s.best_diff
    else
      (fold_scan_back fold_start (target_length - (window + 1)) : Int)

/-- The category of folding at position `p` of the line: the value `category` takes in the
loops of `compute_fold_length` when `target_length + diff = p`, computed from the characters
on both sides of the boundary (`fold_start[p - 1]` and `fold_start[p]`). -/
def boundary_category (allow_folding_before_semi : Bool) (fold_start : List UChar) (p : Nat) : Nat :=
  fold_category allow_folding_before_semi (is_space_char (fold_start.getD (p - 1) 0))
    (fold_start.getD p 0)

/-- The category of folding `d` characters after the target length (before it, for `d < 0`). -/
def offset_category (allow_folding_before_semi : Bool) (fold_start : List UChar)
    (target_length : Nat) (d : Int) : Nat :=
  boundary_category allow_folding_before_semi fold_start ((target_length : Int) + d).toNat

/-- What the two window loops know once the offsets `-W ≤ d' < d` have been looked at: no
offset seen has a higher category than `best_category`, and unless nothing has been seen
`best_diff` is a seen offset of that category which is nearest to the target, the higher
offset winning a tie in distance. -/
def scan_inv (cat : Int → Nat) (W : Nat) (s : fold_scan) (d : Int) : Prop :=
  (∀ d' : Int, -(W : Int) ≤ d' → d' < d → cat d' ≤ s.best_category) ∧
  ((s.best_category = 0 ∧ s.best_diff = -((W : Int) + 1) ∧ d = -(W : Int)) ∨
    (-(W : Int) ≤ s.best_diff ∧ s.best_diff < d ∧ cat s.best_diff = s.best_category ∧
      ∀ d' : Int, -(W : Int) ≤ d' → d' < d → cat d' = s.best_category →
        s.best_diff.natAbs < d'.natAbs ∨ (s.best_diff.natAbs = d'.natAbs ∧ d' ≤ s.best_diff)))

/-- What the window loops hand over to the final test on `best_category`: a non-zero
`best_category` comes with a `best_diff` of the highest category in the whole window, nearest
to the target, the higher offset winning a tie in distance; a zero one means the whole window
has category 0. -/
def scan_final (cat : Int → Nat) (W : Nat) (s : fold_scan) : Prop :=
  (s.best_category ≠ 0 → -(W : Int) ≤ s.best_diff ∧ s.best_diff ≤ W ∧ cat s.best_diff ≠ 0 ∧
    ∀ d' : Int, -(W : Int) ≤ d' → d' ≤ W → cat d' ≤ cat s.best_diff ∧
      (cat d' = cat s.best_diff →
        s.best_diff.natAbs < d'.natAbs ∨ (s.best_diff.natAbs = d'.natAbs ∧ d' ≤ s.best_diff))) ∧
  (s.best_category = 0 → ∀ d' : Int, -(W : Int) ≤ d' → d' ≤ W → cat d' = 0)

/-- A line of 2048 characters: `a`, 2045 semicolons, a space and a semicolon. -/
def semicolon_line : List UChar := [97] ++ (List.replicate 2045 UCHAR_SEMI ++ [UCHAR_SP, UCHAR_SEMI])

/-- A line of 2048 characters, all `a` but for semicolons at the indices 2038, 2039 and 2040. -/
def tie_line : List UChar :=
  List.replicate 2038 97 ++ [UCHAR_SEMI, UCHAR_SEMI, UCHAR_SEMI] ++ List.replicate 7 97

/-- A line of 2048 characters: seven semicolons and a space just before the index 2039. -/
def stale_line : List UChar :=
  List.replicate 2031 97 ++ List.replicate 7 UCHAR_SEMI ++ [UCHAR_SP] ++ List.replicate 9 97

/-! ## Status codes, formats and the emitter context -/

/-- Modelled from the spec: the status codes and traversal directives of `cif.h`, which is not
among the sources.  The handlers hand `CIF_OK` to the walker where it expects
`CIF_TRAVERSE_CONTINUE`, so the two are one value; nothing else about the values is used but
that they differ. -/
def CIF_OK : Int := 0

/-- Modelled from the spec: the status of a failed write (`cif.h`, not among the sources). -/
def CIF_ERROR : Int := 2

/-- Modelled from the spec: the status of an invariant violation (`cif.h`). -/
def CIF_INTERNAL_ERROR : Int := 5

/-- Modelled from the spec: the status `DisallowedValue` (`cif.h`). -/
def CIF_DISALLOWED_VALUE : Int := 62

/-- Modelled from the spec: the status `OverlengthLine` (`cif.h`). -/
def CIF_OVERLENGTH_LINE : Int := 108

/-- Modelled from the spec: the directive `Continue` (`cif.h`), the same value as `CIF_OK`. -/
def CIF_TRAVERSE_CONTINUE : Int := 0

/-- The output formats (`typedef enum { CIF11 = 0, CIF20 = 1, STAR20 = 2, NONE } format`). -/
inductive format where
  | CIF11
  | CIF20
  | STAR20
  | NONE
  deriving DecidableEq, Repr

/-- A `struct ws_node *`: null, or a node with its text and its two links. -/
inductive ws_node where
  | null : ws_node
  | node (ws : List UChar) (next_piece : ws_node) (next_run : ws_node) : ws_node
  deriving DecidableEq, Repr

/-- The emitter state (`struct context`), without the program name, the encodings, the element
separator and the error stream; `out` is the text written to `context->out` so far. -/
structure context where
  out : List UChar
  extra_ws : List UChar
  extra_eol : List UChar
  no_fold11_output : Int
  prefix11_output : Int
  quiet : Int
  halt_on_error : Int
  input_format : format
  output_format : format
  error_count : Nat
  at_start : Int
  in_container : Int
  in_loop : Int
  in_ws_run : Int
  column : Int
  synthesize_packet : Int
  ws_queue : ws_node
  deriving DecidableEq, Repr

/-- The kinds of value of the data model (spec §3); a Character value carries its text and
whether it was quoted, a Number its text. -/
inductive cif_value where
  | unk : cif_value
  | na : cif_value
  | char (text : List UChar) (quoted : Bool) : cif_value
  | numb (text : List UChar) : cif_value
  | list (elements : List cif_value) : cif_value
  | table (entries : List (List UChar × cif_value)) : cif_value

/-- Modelled from the spec: the report of the string analyzer (`struct cif_string_analysis_s`
of `cif.h`, spec §4.4), which is not among the sources. -/
structure cif_string_analysis_s where
  delim : List UChar
  delim_length : Int
  num_lines : Int
  length_first : Int
  length_last : Int
  length_max : Int
  max_semi_run : Int
  contains_text_delim : Bool
  has_reserved_start : Bool
  has_trailing_ws : Bool
  deriving DecidableEq, Repr

/-- The string analyzer `cif_analyze_string(text, allow_unquoted, allow_triple_quote,
max_line_length, &analysis)`, an external collaborator: its status and its report. -/
abbrev analyzer := List UChar → Bool → Bool → Nat → Int × cif_string_analysis_s

/-! ## Whitespace output -/

/-- Discards cached whitespace starting at the given node.  The argument is a copy of the
caller's pointer: the nodes are released and nothing the caller holds is assigned. -/
def flush_ws (_start : ws_node) : Unit := ()

/-- The scan of `print_ws_run` for line terminators in one piece, from position `pos` on:
`(nlines, uncounted)`, the number of terminators and the position after the last one.  A CR
followed by LF is one terminator (`brk += 2`): `after_cr` tells that the character before was
a CR, which an LF then only extends. -/
def count_eol : List UChar → Bool → Nat → Nat × Nat → Nat × Nat
  | [], _, _, r => r
  | c :: rest, after_cr, pos, r =>
    if after_cr && c == UCHAR_LF then count_eol rest false (pos + 1) (r.1, pos + 1)
    else if c = UCHAR_CR then count_eol rest true (pos + 1) (r.1 + 1, pos + 1)
    else if c = UCHAR_LF then count_eol rest false (pos + 1) (r.1 + 1, pos + 1)
    else count_eol rest false (pos + 1) r

/-- The loop `while (current)` of `print_ws_run` over the pieces of one run: prints each piece,
moves the column, and adds the lengths to `rval`. -/
def print_ws_pieces : ws_node → context → Int → Int × context
  | .null, ctx, rval => (rval, ctx)
  | .node ws next_piece _, ctx, rval =>
    let r := count_eol ws false 0 (0, 0)
    let nlines := r.1
    let uncounted : Int := r.2
    let nprinted : Int := ws.length
    print_ws_pieces next_piece
      { ctx with
        out := ctx.out ++ ws
        column := if nlines ≠ 0 then nprinted - uncounted else ctx.column + nprinted }
      (rval + nprinted)

/-- `print_ws_run`: prints and releases the next whitespace run of the context; the number of
characters printed. -/
def print_ws_run (ctx : context) : Int × context :=
  match ctx.ws_queue with
  | .null => (0, ctx)
  | .node ws next_piece next_run =>
    print_ws_pieces (.node ws next_piece next_run) { ctx with ws_queue := next_run } 0

/-- The loop `while (context->ws_queue)` of `print_all_ws_runs`, the queue being `queue`. -/
def print_all_ws_runs_loop : ws_node → context → Int → Int × context
  | .null, ctx, rval => (rval, ctx)
  | .node ws next_piece next_run, ctx, rval =>
    let r := print_ws_run { ctx with ws_queue := .node ws next_piece next_run }
    print_all_ws_runs_loop next_run r.2 (rval + r.1)

/-- `print_all_ws_runs`: prints and releases all whitespace runs of the context. -/
def print_all_ws_runs (ctx : context) : Int × context :=
  print_all_ws_runs_loop ctx.ws_queue ctx 0

/-- `ensure_space`: makes room for `data_length` characters after `minimum_space` spaces. -/
def ensure_space (minimum_space data_length : Int) (ctx : context) : Int × context :=
  if ctx.column > 0 then
    if minimum_space + data_length + ctx.column > MAX_LINE_LENGTH then
      (CIF_OK, { ctx with out := ctx.out ++ [UCHAR_LF], column := 0 })
    else if minimum_space ≠ 0 then
      (CIF_OK, { ctx with out := ctx.out ++ [UCHAR_SP], column := ctx.column + 1 })
    else (CIF_OK, ctx)
  else (CIF_OK, ctx)

/-- `print_u_literal`: prints a literal string, possibly preceded by a newline or by spaces. -/
def print_u_literal (preceding_space : Int) (str : List UChar) (line1_length : Int)
    (ctx : context) : Int × context :=
  if ctx.column ≠ 0 then
    let nspace : Int := if preceding_space > 0 then preceding_space else 0
    let need_newline := line1_length + ctx.column + nspace > MAX_LINE_LENGTH
    if need_newline then
      if preceding_space < 0 then (CIF_OVERLENGTH_LINE, ctx)
      else
        let nprinted : Int := 1 + str.length
        (CIF_OK, { ctx with out := ctx.out ++ [UCHAR_LF] ++ str, column := nprinted - 1 })
    else
      let nprinted : Int := nspace + str.length
      (CIF_OK, { ctx with
                 out := ctx.out ++ List.replicate nspace.toNat UCHAR_SP ++ str
                 column := ctx.column + nprinted })
  else
    let nprinted : Int := str.length
    (CIF_OK, { ctx with out := ctx.out ++ str, column := nprinted })

/-- `print_delimited`: the text written by `u_fprintf(out, "%S%S%S", delim, str, delim)`. -/
def print_delimited (str delim : List UChar) : List UChar := delim ++ str ++ delim

/-! ## Text fields -/

/-- The physical lines of a text: its maximal pieces without a newline. -/
def physical_lines : List UChar → List (List UChar)
  | [] => [[]]
  | c :: cs =>
    if c = UCHAR_LF then [] :: physical_lines cs
    else
      match physical_lines cs with
      | [] => [[c]]
      | l :: ls => (c :: l) :: ls

/-- The target length `MAX_FOLD_LENGTH - FOLD_WINDOW - prefix_len` that `print_text_field`
passes to `compute_fold_length`. -/
def fold_target ( do_prefix : Bool) : Nat :=
  MAX_FOLD_LENGTH - FOLD_WINDOW - (if do_prefix then 2 else 0)

/-- The text that one turn of the folding loop of `print_text_field` writes for the segment of
length `fold_len` at `fold_start`, the rest of the logical line: the last segment of the line
(`fold_len == limit`) with its protection, or a continued one. -/
def print_fold_segment ( do_prefix : Bool) (fold_start : List UChar) (fold_len : Int) : List UChar :=
  let limit : Int := fold_start.length
  if fold_len = limit then
    let last := fold_start.getD (fold_len - 1).toNat 0
    let protect := decide (fold_len > 0) &&
      (last == UCHAR_SP || last == UCHAR_TAB || last == UCHAR_BSL)
    (if do_prefix then PREFIX else []) ++ fold_start.take fold_len.toNat
      ++ (if protect then [UCHAR_BSL, UCHAR_LF] else []) ++ [UCHAR_LF]
  else
    (if do_prefix then PREFIX else []) ++ fold_start.take fold_len.toNat ++ [UCHAR_BSL, UCHAR_LF]

/-- The loop `do { ... } while (fold_start < line_end)` of `print_text_field` over the folded
segments of one logical line, `fold_start` being the rest of the line; the text written.
`fuel` bounds the number of turns: a loop that stops advancing uses it up and has no result.
With assertions compiled in (`NDEBUG` false) a segment length that fails
`assert(0 < fold_len && fold_len <= limit)` aborts the run, which has no result either. -/
def print_folded_line (NDEBUG do_prefix : Bool) : Nat → List UChar → Option (List UChar)
  | 0, _ => none
  | fuel + 1, fold_start =>
    let limit : Int := fold_start.length
    let fold_len := compute_fold_length fold_start fold_start.length (fold_target do_prefix)
      FOLD_WINDOW do_prefix
    if ¬ NDEBUG ∧ ¬ (0 < fold_len ∧ fold_len ≤ limit) then none
    else
      let written := print_fold_segment do_prefix fold_start fold_len
      let fold_start' := fold_start.drop fold_len.toNat
      if 0 < fold_start'.length then
        (print_folded_line NDEBUG do_prefix fuel fold_start').map (fun w => written ++ w)
      else some written

/-- Whether a character is one of the CIF line terminators `line_term[] = { 0xa, 0xd, 0 }`. -/
def is_line_term (c : UChar) : Bool := c == UCHAR_LF || c == UCHAR_CR

/-- The loop `for (line_start = str; *line_start; line_start = line_end + 1)` of
`print_text_field` over the logical lines of the text; the text written.  Each turn consumes
at least one character, so `fuel` above the length of the text is never used up. -/
def print_text_lines (NDEBUG do_fold do_prefix : Bool) : Nat → List UChar → Option (List UChar)
  | 0, _ => none
  | fuel + 1, line_start =>
    if line_start = [] then some []
    else
      let line := line_start.takeWhile (fun c => !is_line_term c)
      let line_len := line.length
      let line_end := line_start.drop line_len
      let written : Option (List UChar) :=
        if ¬ do_fold then some (PREFIX ++ line ++ [UCHAR_LF])
        else print_folded_line NDEBUG do_prefix (line_len + 1) line
      match written with
      | none => none
      | some w =>
        let line_end' :=
          if line_end.getD 0 0 = UCHAR_CR ∧ line_end.getD 1 0 = UCHAR_LF then line_end.drop 1
          else line_end
        match line_end' with
        | [] => some w
        | _ :: next =>
          (print_text_lines NDEBUG do_fold do_prefix fuel next).map (fun rest => w ++ rest)

/-- `print_text_field`: prints a string in text-field form, applying line folding and / or
text prefixing as directed. -/
def print_text_field (NDEBUG : Bool) (str : List UChar) (do_fold do_prefix : Bool)
    (ctx : context) : Option (Int × context) :=
  if ¬ ( do_prefix || do_fold) then
    some (CIF_OK,
      { ctx with out := ctx.out ++ ([UCHAR_LF, UCHAR_SEMI] ++ str ++ [UCHAR_LF, UCHAR_SEMI])
                 column := 1 })
  else
    let opening := [UCHAR_LF, UCHAR_SEMI] ++ (if do_prefix then PREFIX ++ [UCHAR_BSL] else [])
      ++ (if do_fold then [UCHAR_BSL] else []) ++ [UCHAR_LF]
    match print_text_lines NDEBUG do_fold do_prefix (str.length + 1) str with
    | none => none
    | some body =>
      some (CIF_OK, { ctx with out := ctx.out ++ (opening ++ body ++ [UCHAR_SEMI]), column := 1 })

/-! ## Values and items -/

/-- `print_value_text`: prints the text of a Character or Number value, which enters through
its text (`cif_value_get_text`, taken to succeed) and its quoted flag (`cif_value_is_quoted`).
If `ws_needed` is greater than 1 all cached whitespace is printed first, otherwise the first
run only. -/
def print_value_text (NDEBUG : Bool) (analyze : analyzer) (text : List UChar) (quoted : Bool)
    (ctx : context) (ws_needed : Nat) : Option (Int × context) :=
  let r := if ws_needed > 1 then print_all_ws_runs ctx else print_ws_run ctx
  let n_ws := r.1
  let ctx := r.2
  if n_ws < 0 then some (CIF_ERROR, ctx)
  else
    let a := analyze text (!quoted) (ctx.output_format != format.CIF11) MAX_LINE_LENGTH
    let analysis := a.2
    if a.1 ≠ CIF_OK then some (a.1, ctx)
    else
      let minimum_ws : Int := if n_ws ≠ 0 ∨ ws_needed = 0 then 0 else 1
      if analysis.delim_length = 3 ∧ analysis.num_lines > 1 then
        let e := ensure_space minimum_ws (analysis.length_first + 3) ctx
        if e.1 ≠ CIF_OK then some e
        else
          some (CIF_OK,
            { e.2 with out := e.2.out ++ print_delimited text analysis.delim
                       column := analysis.length_last + 3 })
      else if analysis.delim_length = 3 ∨ analysis.delim_length = 1 ∨ analysis.delim_length = 0 then
        let length := analysis.length_first + 2 * analysis.delim_length
        let e := ensure_space minimum_ws length ctx
        if e.1 ≠ CIF_OK then some e
        else
          some (CIF_OK,
            { e.2 with out := e.2.out ++ print_delimited text analysis.delim, column := length })
      else if analysis.delim_length = 2 then
        print_text_field NDEBUG text
          (decide (analysis.length_max > MAX_LINE_LENGTH)
            || decide (analysis.length_first ≥ MAX_LINE_LENGTH)
            || analysis.has_reserved_start
            || analysis.has_trailing_ws
            || decide (analysis.max_semi_run ≥ (MAX_FOLD_LENGTH : Int) - 1))
          (analysis.contains_text_delim
            || decide (analysis.max_semi_run ≥ (MAX_FOLD_LENGTH : Int) - 1))
          ctx
      else some (CIF_INTERNAL_ERROR, ctx)

/-- The loop `for (index = 0; index < count; index += 1)` of `print_list` over the elements
still to print; a result other than `CIF_TRAVERSE_CONTINUE` ends `print_list` with it. -/
def print_list_elements (print_value : cif_value → context → Nat → Option (Int × context)) :
    List cif_value → Nat → context → Option (Int × context)
  | [], _, ctx => some (CIF_TRAVERSE_CONTINUE, ctx)
  | element :: rest, index, ctx =>
    match print_value element ctx (if index ≠ 0 then 1 else 0) with
    | none => none
    | some r =>
      if r.1 ≠ CIF_TRAVERSE_CONTINUE then some r
      else print_list_elements print_value rest (index + 1) r.2

/-- `print_list`: prints a List value, given its elements; `print_value` is the function of
that name, which `print_list` calls for the elements. -/
def print_list (print_value : cif_value → context → Nat → Option (Int × context))
    (elements : List cif_value) (ctx : context) : Option (Int × context) :=
  if ctx.output_format = format.CIF11 then
    let _ := flush_ws ctx.ws_queue
    some (CIF_DISALLOWED_VALUE, ctx)
  else
    let o := print_u_literal SPACE_ALLOWED [UCHAR_OBRK] 1 ctx
    if o.1 ≠ CIF_OK then some o
    else
      match print_list_elements print_value elements 0 o.2 with
      | none => none
      | some r =>
        if r.1 ≠ CIF_TRAVERSE_CONTINUE then some r
        else
          let w := print_ws_run r.2
          if w.1 < 0 then some (CIF_ERROR, w.2)
          else some (print_u_literal SPACE_ALLOWED [UCHAR_CBRK] 1 w.2)

/-- The loop `for (key = keys; *key; key += 1)` of `print_table` over the entries still to
print; `first` is the flag of that name.  A key is printed as the text of a quoted Character
value. -/
def print_table_entries (NDEBUG : Bool) (analyze : analyzer)
    (print_value : cif_value → context → Nat → Option (Int × context)) :
    List (List UChar × cif_value) → Bool → context → Option (Int × context)
  | [], _, ctx => some (CIF_OK, ctx)
  | (key, ev) :: rest, first, ctx =>
    match print_value_text NDEBUG analyze key true ctx (if first then 0 else 1) with
    | none => none
    | some k =>
      if k.1 ≠ CIF_OK then some k
      else
        let c := print_u_literal SPACE_FORBIDDEN [UCHAR_COLON] 1 k.2
        if c.1 ≠ CIF_OK then some c
        else
          match print_value ev c.2 0 with
          | none => none
          | some v =>
            if v.1 ≠ CIF_TRAVERSE_CONTINUE then some v
            else print_table_entries NDEBUG analyze print_value rest false v.2

/-- `print_table`: prints a Table value, given its entries in key order. -/
def print_table (NDEBUG : Bool) (analyze : analyzer)
    (print_value : cif_value → context → Nat → Option (Int × context))
    (entries : List (List UChar × cif_value)) (ctx : context) : Option (Int × context) :=
  if ctx.output_format = format.CIF11 then
    let _ := flush_ws ctx.ws_queue
    some (CIF_DISALLOWED_VALUE, ctx)
  else
    let o := print_u_literal SPACE_ALLOWED [UCHAR_OBRC] 1 ctx
    if o.1 ≠ CIF_OK then some o
    else
      match print_table_entries NDEBUG analyze print_value entries true o.2 with
      | none => none
      | some r =>
        if r.1 ≠ CIF_OK then some r
        else
          let w := print_ws_run r.2
          if w.1 < 0 then some (CIF_ERROR, w.2)
          else some (print_u_literal SPACE_ALLOWED [UCHAR_CBRC] 1 w.2)

/-- `print_value`: prints a value along with appropriate whitespace.  The first argument bounds
the nesting of lists and tables that is followed; a value nested deeper has no result. -/
def print_value (NDEBUG : Bool) (analyze : analyzer) :
    Nat → cif_value → context → Nat → Option (Int × context)
  | 0, _, _, _ => none
  | depth + 1, value, ctx, ws_needed_max =>
    match value with
    | .char text quoted => print_value_text NDEBUG analyze text quoted ctx ws_needed_max
    | .numb text => print_value_text NDEBUG analyze text false ctx ws_needed_max
    | .na =>
      let r := if ws_needed_max > 1 then print_all_ws_runs ctx else print_ws_run ctx
      if r.1 < 0 then some (CIF_ERROR, r.2)
      else some (print_u_literal (if ws_needed_max ≠ 0 ∧ r.1 = 0 then 1 else 0) [UCHAR_DOT] 1 r.2)
    | .unk =>
      let r := if ws_needed_max > 1 then print_all_ws_runs ctx else print_ws_run ctx
      if r.1 < 0 then some (CIF_ERROR, r.2)
      else some (print_u_literal (if ws_needed_max ≠ 0 ∧ r.1 = 0 then 1 else 0) [UCHAR_QUERY] 1 r.2)
    | .list elements =>
      let r := print_ws_run ctx
      let e := if ws_needed_max ≠ 0 ∧ r.1 = 0 then ensure_space 1 1 r.2 else (CIF_OK, r.2)
      if e.1 ≠ CIF_OK then some e
      else print_list (print_value NDEBUG analyze depth) elements e.2
    | .table entries =>
      let r := print_ws_run ctx
      let e := if ws_needed_max ≠ 0 ∧ r.1 = 0 then ensure_space 1 1 r.2 else (CIF_OK, r.2)
      if e.1 ≠ CIF_OK then some e
      else print_table NDEBUG analyze (print_value NDEBUG analyze depth) entries e.2

/-- The assignment `node->next_run = next_run` (nothing for a null `node`). -/
def ws_set_next_run : ws_node → ws_node → ws_node
  | .null, _ => .null
  | .node ws next_piece _, next_run => .node ws next_piece next_run

/-- The walk `while (this_piece->next_piece) this_piece = this_piece->next_piece;` of
`print_item` followed by `this_piece->next_piece = last_run`. -/
def ws_append_piece : ws_node → ws_node → ws_node
  | .null, last_run => last_run
  | .node ws next_piece next_run, last_run =>
    .node ws (ws_append_piece next_piece last_run) next_run

/-- `print_item`: the handler of item events; `name` is `none` for a null name. -/
def print_item (NDEBUG : Bool) (analyze : analyzer) (depth : Nat) (name : Option (List UChar))
    (value : cif_value) (ctx : context) : Option (Int × context) :=
  if ¬ (ctx.in_container ≠ 0 ∧ name.isSome) then
    match ctx.ws_queue with
    | .null => some (CIF_TRAVERSE_CONTINUE, ctx)
    | .node ws next_piece next_run =>
      let ws_start := ws_node.node ws next_piece next_run
      let queue :=
        if ctx.in_loop ≠ 0 then
          let _ := flush_ws next_run
          ws_set_next_run ws_start .null
        else
          match next_run with
          | .null => ws_start
          | .node ws2 next_piece2 next_run2 =>
            let _ := flush_ws next_run2
            ws_set_next_run (ws_append_piece ws_start (.node ws2 next_piece2 .null)) .null
      some (CIF_TRAVERSE_CONTINUE, { ctx with ws_queue := queue, in_ws_run := 1 })
  else
    let name := name.getD []
    let ctx := { ctx with in_ws_run := 0 }
    if ctx.in_loop = 0 then
      let r := print_ws_run ctx
      if r.1 > 0 then
        let p := print_u_literal SPACE_ALLOWED name name.length r.2
        if p.1 ≠ CIF_OK then some p
        else print_value NDEBUG analyze depth value p.2 2
      else if r.1 = 0 then
        let n_printed : Int := 1 + name.length
        let c := { r.2 with out := r.2.out ++ [UCHAR_LF] ++ name }
        if n_printed < 3 then some (CIF_ERROR, c)
        else print_value NDEBUG analyze depth value { c with column := n_printed - 1 } 2
      else some (CIF_ERROR, r.2)
    else print_value NDEBUG analyze depth value ctx 2

/-! ## Notions used in the statements -/

/-- Every physical line of the text has at most `n` characters. -/
def lines_within (n : Nat) (out : List UChar) : Prop :=
  ∀ l ∈ physical_lines out, l.length ≤ n

/-- Neither a space nor a tab, a semicolon or a line terminator. -/
def plain_char (c : UChar) : Prop :=
  c ≠ UCHAR_SP ∧ c ≠ UCHAR_TAB ∧ c ≠ UCHAR_SEMI ∧ c ≠ UCHAR_LF ∧ c ≠ UCHAR_CR

/-- The number of characters written since the last newline: the length of the last physical
line of the output. -/
def output_column (out : List UChar) : Nat :=
  ((physical_lines out).getLastD []).length

/-- The context of `main` before the options are read: `struct context context = { 0 }`. -/
def zero_context : context :=
  { out := [], extra_ws := [], extra_eol := [], no_fold11_output := 0, prefix11_output := 0,
    quiet := 0, halt_on_error := 0, input_format := format.CIF11, output_format := format.CIF11,
    error_count := 0, at_start := 0, in_container := 0, in_loop := 0, in_ws_run := 0, column := 0,
    synthesize_packet := 0, ws_queue := ws_node.null }

/-- The code units of a string literal. -/
def ustr (s : String) : List UChar := s.toList.map Char.toNat

/-- An analyzer that reports every text as a single line that needs no delimiter. -/
def bare_analyzer : analyzer := fun text _ _ _ =>
  (CIF_OK,
    { delim := [], delim_length := 0, num_lines := 1, length_first := text.length,
      length_last := text.length, length_max := text.length, max_semi_run := 0,
      contains_text_delim := false, has_reserved_start := false, has_trailing_ws := false })

/-- The context inside a loop packet of a block, at column 0 with nothing written and an empty
whitespace queue, for CIF 2.0 output. -/
def packet_context : context :=
  { zero_context with output_format := format.CIF20, in_container := 1, in_loop := 1 }

/-! ## Loop headers and cached whitespace -/

/-- The keyword `loop_` (`loop_kw`). -/
def loop_kw : List UChar := [0x6c, 0x6f, 0x6f, 0x70, UCHAR_UNDER]

/-- The first loop `for (name = names; *name; name += 1)` of `handle_loop_start`, which prints
the data names still to come; `result` is the variable of that name, and a name is printed only
while it is `CIF_OK`. -/
def print_loop_names : List (List UChar) → Int → context → Int × context
  | [], result, ctx => (result, ctx)
  | name :: rest, result, ctx =>
    if result = CIF_OK then
      let r := print_ws_run ctx
      if r.1 = 0 then
        let p := print_u_literal SPACE_ALLOWED name name.length
          { r.2 with out := r.2.out ++ [UCHAR_LF], column := 0 }
        print_loop_names rest p.1 p.2
      else if r.1 ≤ 0 then print_loop_names rest CIF_ERROR r.2
      else
        let p := print_u_literal SPACE_ALLOWED name name.length r.2
        print_loop_names rest p.1 p.2
    else print_loop_names rest result ctx

/-- The second loop `for (name = names; (result == CIF_OK) && *name; name += 1)` of
`handle_loop_start`, which prints one placeholder `?` for each data name. -/
def print_placeholders : List (List UChar) → Int → context → Int × context
  | [], result, ctx => (result, ctx)
  | _ :: rest, result, ctx =>
    if result = CIF_OK then
      let p := print_u_literal SPACE_REQUIRED [UCHAR_QUERY] 1 ctx
      if p.1 ≠ CIF_OK then p else print_placeholders rest p.1 p.2
    else (result, ctx)

/-- The part of `handle_loop_start` that prints the loop header: the first whitespace run and
the keyword `loop_`, then the data names (`cif_loop_get_names`, taken to succeed), each after
a whitespace run or a newline. -/
def print_loop_header (names : List (List UChar)) (ctx : context) : Int × context :=
  let r := print_ws_run ctx
  let k : Int × context :=
    if r.1 > 0 then print_u_literal SPACE_ALLOWED loop_kw 5 r.2
    else if r.1 = 0 then
      (CIF_OK, { r.2 with out := r.2.out ++ [UCHAR_LF] ++ loop_kw, column := 5 })
    else (CIF_ERROR, r.2)
  if k.1 ≠ CIF_OK then k else print_loop_names names CIF_OK k.2

/-- `handle_loop_start`: the handler of loop-start events, for a loop with the given data
names.  Prints the loop header, and a dummy packet if the context asks for one. -/
def handle_loop_start (names : List (List UChar)) (ctx : context) : Int × context :=
  let ctx := { ctx with in_ws_run := 0 }
  if ctx.in_container = 0 then
    let r := print_all_ws_runs ctx
    (if r.1 < 0 then CIF_ERROR else CIF_OK, r.2)
  else
    let n := print_loop_header names { ctx with in_loop := 1 }
    if n.1 = CIF_OK ∧ n.2.synthesize_packet ≠ 0 then
      let p := print_placeholders names CIF_OK
        { n.2 with synthesize_packet := 0, out := n.2.out ++ [UCHAR_LF], column := 0 }
      if p.1 = CIF_OK then (CIF_OK, { p.2 with out := p.2.out ++ [UCHAR_LF] }) else p
    else n

/-- One pass of `translate_whitespace`: every character of `chars` in the text becomes
`standard`; nothing is done for an empty `chars`.  The scan uses `u_strcspn`, which also stops
at a NUL, so a NUL inside the text is replaced as well. -/
def translate_chars (chars : List UChar) (standard : UChar) (text : List UChar) : List UChar :=
  if chars = [] then text
  else text.map (fun c => if c = 0 ∨ c ∈ chars then standard else c)

/-- `translate_whitespace`: translates the extra end-of-line characters to newlines, then the
extra whitespace characters to spaces. -/
def translate_whitespace (text extra_eol extra_ws : List UChar) : List UChar :=
  translate_chars extra_ws UCHAR_SP (translate_chars extra_eol UCHAR_LF text)

/-- The walk `while (ws_cache->next_run) ws_cache = ws_cache->next_run;` of
`preserve_whitespace` followed by `ws_cache->next_run = ws_node`. -/
def ws_append_run : ws_node → ws_node → ws_node
  | .null, node => node
  | .node ws next_piece next_run, node => .node ws next_piece (ws_append_run next_run node)

/-- The walk to the last run of `preserve_whitespace` followed by the walk to its last piece
and `ws_cache->next_piece = ws_node`. -/
def ws_append_to_last_run : ws_node → ws_node → ws_node
  | .null, node => node
  | .node ws next_piece .null, node => ws_append_piece (.node ws next_piece .null) node
  | .node ws next_piece (.node ws2 next_piece2 next_run2), node =>
    .node ws next_piece (ws_append_to_last_run (.node ws2 next_piece2 next_run2) node)

/-- The text of the node that `preserve_whitespace` makes for a segment: a copy of the
segment, translated by `translate_whitespace` unless its length is zero. -/
def whitespace_piece (segment : List UChar) (ctx : context) : List UChar :=
  if segment.length ≠ 0 then translate_whitespace segment ctx.extra_eol ctx.extra_ws else []

/-- `preserve_whitespace`: the whitespace callback, which appends the segment `ws` (`none` for
a null pointer) to the queue of the context.  Allocation is taken to succeed. -/
def preserve_whitespace (ws : Option (List UChar)) (ctx : context) : context :=
  match ws with
  | none => ctx
  | some segment =>
    let node := ws_node.node (whitespace_piece segment ctx) .null .null
    let queue :=
      match ctx.ws_queue with
      | .null => node
      | .node ws next_piece next_run =>
        if ctx.in_ws_run ≠ 0 then ws_append_to_last_run (.node ws next_piece next_run) node
        else ws_append_run (.node ws next_piece next_run) node
    { ctx with ws_queue := queue, in_ws_run := if segment.length ≠ 0 then 1 else 0 }

/-- The pieces of a run, from its first node on. -/
def ws_pieces : ws_node → List (List UChar)
  | .null => []
  | .node ws next_piece _ => ws :: ws_pieces next_piece

/-- The runs of a queue, each with its pieces, in order. -/
def ws_runs : ws_node → List (List (List UChar))
  | .null => []
  | .node ws next_piece next_run => (ws :: ws_pieces next_piece) :: ws_runs next_run

/-- The queue of three runs of one piece each. -/
def three_runs (a b c : List UChar) : ws_node :=
  .node a .null (.node b .null (.node c .null .null))

/-- The queue of two runs of one piece each. -/
def two_runs (a b : List UChar) : ws_node :=
  .node a .null (.node b .null .null)

/-- A context inside a container in which the error callback has asked for a dummy packet,
with nothing written and no whitespace cached. -/
def loop_context : context :=
  { zero_context with in_container := 1, synthesize_packet := 1 }

/-- The data names `_a` and `_b`. -/
def names_a_b : List (List UChar) := [ustr "_a", ustr "_b"]

/-- The 1025 data names made of an underscore and one of the characters from `a` on. -/
def many_names : List (List UChar) :=
  (List.range 1025).map (fun i => [UCHAR_UNDER, 0x61 + i])

/-! ## The text of a dummy packet, as the statement about `handle_loop_start` describes it -/

/-- What precedes the placeholder number `k`, counted from 0, of a dummy packet: nothing
before the first one, a newline before each one whose number is a multiple of 1024, which a
space and the placeholder would take past the 2048 characters of a line, and a space before
any other one. -/
def placeholder_separator (k : Nat) : List UChar :=
  if k = 0 then [] else if k % 1024 = 0 then [UCHAR_LF] else [UCHAR_SP]

/-- The text of a dummy packet of `n` placeholders, without the newline that ends it: each
placeholder `?` after what precedes it. -/
def dummy_packet (n : Nat) : List UChar :=
  ((List.range n).map (fun k => placeholder_separator k ++ [UCHAR_QUERY])).flatten

/-- Whether the text starts with the pattern. -/
def starts_with : List UChar → List UChar → Bool
  | [], _ => true
  | _ :: _, [] => false
  | p :: pattern, c :: text => p = c && starts_with pattern text

/-- The number of places of the text at which the pattern occurs. -/
def occurrences (pattern : List UChar) : List UChar → Nat
  | [] => if starts_with pattern [] then 1 else 0
  | c :: text => (if starts_with pattern (c :: text) then 1 else 0) + occurrences pattern text

def UCHAR_C : UChar := 0x43
def UCHAR_F : UChar := 0x46
def UCHAR_I : UChar := 0x49

/-- The line terminators `standard_eol_chars`. -/
def standard_eol_chars : List UChar := [UCHAR_LF, UCHAR_CR]

/-- The array `headers`, indexed by the output format: `none` for an index past its end. -/
def headers : format → Option (List UChar)
  | .CIF11 => some [UCHAR_HASH, UCHAR_BSL, UCHAR_HASH, UCHAR_C, UCHAR_I, UCHAR_F, UCHAR_UNDER,
      0x31, UCHAR_DOT, 0x31, UCHAR_LF]
  | .CIF20 => some [UCHAR_HASH, UCHAR_BSL, UCHAR_HASH, UCHAR_C, UCHAR_I, UCHAR_F, UCHAR_UNDER,
      0x32, UCHAR_DOT, 0x30, UCHAR_LF]
  | .STAR20 => some []
  | .NONE => none

/-- `print_header`: the handler of cif-start events.  For the format `NONE` the assertion
`fmt < NONE` fails, and without assertions the array is read past its end: no result. -/
def print_header (ctx : context) : Option (Int × context) :=
  match headers ctx.output_format with
  | none => none
  | some header => some (CIF_OK, { ctx with out := ctx.out ++ header, column := 0 })

/-- The start of a CIF version comment (`cif_header_start`). -/
def cif_header_start : List UChar :=
  [UCHAR_HASH, UCHAR_BSL, UCHAR_HASH, UCHAR_C, UCHAR_I, UCHAR_F, UCHAR_UNDER]

/-- The number of characters of `cif_header_start` (`check_length`). -/
def check_length : Nat := 7

/-- `u_strpbrk(str, accept)`: the rest of the string from its first character that is one of
`accept`; `none` for a null result. -/
def u_strpbrk : List UChar → List UChar → Option (List UChar)
  | [], _ => none
  | c :: rest, accept => if c ∈ accept then some (c :: rest) else u_strpbrk rest accept

/-- How the inner loop `for (next_char = this_piece->ws; *next_char; )` of
`consume_version_comment` ends for one piece. -/
inductive header_scan where
  | no_match : header_scan
  | unfinished (checked : Nat) : header_scan
  | matched (next_char : List UChar) : header_scan

/-- The inner loop of `consume_version_comment` over the characters of a piece still to
compare, `checked` characters of the header having been matched: a mismatch, the end of the
piece, or the match of the last character of the header, with the rest of the piece. -/
def scan_header : List UChar → Nat → header_scan
  | [], checked => .unfinished checked
  | c :: next_char, checked =>
    if c ≠ cif_header_start.getD checked 0 then .no_match
    else if checked + 1 ≥ check_length then .matched next_char
    else scan_header next_char (checked + 1)

/-- The scan forward to the next line terminator in `consume_version_comment`, through the
pieces after the one in which the header ended: the piece that holds a terminator and the
text of that piece from the terminator on. -/
def find_eol : ws_node → Option (ws_node × List UChar)
  | .null => none
  | .node ws next_piece next_run =>
    match u_strpbrk ws standard_eol_chars with
    | some next_char => some (.node ws next_piece next_run, next_char)
    | none => find_eol next_piece

/-- The step `next_char += ((*next_char == UCHAR_CR) && (*(next_char + 1) == UCHAR_LF)) ? 2 : 1`
of `consume_version_comment`. -/
def past_eol (next_char : List UChar) : List UChar :=
  if next_char.getD 0 0 = UCHAR_CR ∧ next_char.getD 1 0 = UCHAR_LF then next_char.drop 2
  else next_char.drop 1

/-- What `consume_version_comment` leaves of the run once the header is matched and a line
terminator found at `next_char` in `this_piece`: the pieces before are discarded, the piece
keeps its text after the terminator, and `next_run` is the run after it. -/
def discard_matched (this_piece : ws_node) (next_char : List UChar) (next_run : ws_node) :
    ws_node :=
  match this_piece with
  | .null => next_run
  | .node _ next_piece _ => .node (past_eol next_char) next_piece next_run

/-- The outer loop `for (this_piece = context->ws_queue; this_piece; ...)` of
`consume_version_comment` over the pieces still to compare: the new value of
`context->ws_queue`, or `none` when the function returns without a match. -/
def consume_version_comment_pieces (next_run : ws_node) : ws_node → Nat → Option ws_node
  | .null, _ => none
  | .node ws next_piece piece_next_run, checked =>
    match scan_header ws checked with
    | .no_match => none
    | .unfinished checked => consume_version_comment_pieces next_run next_piece checked
    | .matched next_char =>
      match u_strpbrk next_char standard_eol_chars with
      | some at_eol =>
        some (discard_matched (.node ws next_piece piece_next_run) at_eol next_run)
      | none =>
        match find_eol next_piece with
        | some found => some (discard_matched found.1 found.2 next_run)
        | none => some next_run

/-- `consume_version_comment`: consumes a leading CIF version comment if one has been
cached. -/
def consume_version_comment (ctx : context) : context :=
  match ctx.ws_queue with
  | .null => ctx
  | .node ws next_piece next_run =>
    match consume_version_comment_pieces next_run (.node ws next_piece next_run) 0 with
    | none => ctx
    | some queue => { ctx with ws_queue := queue }

/-- `handle_cif_end`: the handler of cif-end events.  Closing the streams leaves the text
written as it is. -/
def handle_cif_end (ctx : context) : Int × context :=
  let ctx := if ctx.at_start ≠ 0 then { consume_version_comment ctx with at_start := 0 } else ctx
  let r := print_all_ws_runs ctx
  if r.1 ≤ 0 then (0, { r.2 with out := r.2.out ++ [UCHAR_LF] }) else (0, r.2)

/-- `print_code`: prints a data block or save frame header with the given code
(`cif_container_get_code`, taken to succeed); `type` is `data_` or `save_`. -/
def print_code (code : List UChar) (ctx : context) (type : List UChar) : Int × context :=
  let r := print_all_ws_runs ctx
  if r.1 ≠ 0 then
    let code_length : Int := code.length
    let e := ensure_space 0 (type.length + code_length) r.2
    if e.1 ≠ CIF_OK then e
    else
      let nchars : Int := type.length + code.length
      if nchars ≤ code_length then (CIF_ERROR, { e.2 with out := e.2.out ++ type ++ code })
      else (CIF_OK, { e.2 with out := e.2.out ++ type ++ code, column := e.2.column + nchars })
  else
    let nchars : Int := 1 + type.length + code.length
    if nchars < 7 then (CIF_ERROR, { r.2 with out := r.2.out ++ [UCHAR_LF] ++ type ++ code })
    else
      (CIF_OK, { r.2 with out := r.2.out ++ [UCHAR_LF] ++ type ++ code, column := nchars - 1 })

/-- The keyword `data_`. -/
def data_kw : List UChar := [0x64, 0x61, 0x74, 0x61, UCHAR_UNDER]

/-- `open_block`: the handler of block-start events, for a block with the given code. -/
def open_block (code : List UChar) (ctx : context) : Int × context :=
  let ctx := if ctx.at_start ≠ 0 then { consume_version_comment ctx with at_start := 0 } else ctx
  let ctx := { ctx with in_ws_run := 0 }
  let ctx := { ctx with in_container := ctx.in_container + 1 }
  print_code code ctx data_kw

/-- `flush_container`: the handler of block-end events.  The save frames and loops of the
container are destroyed in the store, which is taken to succeed. -/
def flush_container (ctx : context) : Int × context :=
  (CIF_OK, { ctx with in_container := ctx.in_container - 1 })

/-! ## Errors, options and the exit status -/

/-- Modelled from the spec: the error code EmptyLoop (`cif.h`, not among the sources). -/
def CIF_EMPTY_LOOP : Int := 34

/-- `error_callback`: the error counter is an `unsigned`, taken to have 32 bits; the
diagnostic message goes to the error stream, which is not part of the model. -/
def error_callback (code : Int) (ctx : context) : Int × context :=
  let ctx := { ctx with error_count := (ctx.error_count + 1) % 4294967296 }
  if ctx.halt_on_error ≠ 0 then (code, ctx)
  else
    (CIF_OK, if code = CIF_EMPTY_LOOP then { ctx with synthesize_packet := 1 } else ctx)

/-- The end of `main`, from the call of `cif_parse` on: `parse` stands for the parser with the
handlers and callbacks of the program, which gives the result of the parse and the context
it leaves; the value is the exit status and the context at the end. -/
def main (parse : context → Int × context) (ctx : context) : Int × context :=
  let p := parse ctx
  let result := p.1
  let ctx := if result ≠ CIF_OK then (handle_cif_end p.2).2 else p.2
  (if result ≠ CIF_OK then 3 else if ctx.error_count ≠ 0 then 1 else 0, ctx)

/-- `tolower` for the characters of an option argument, in the C locale. -/
def tolower (c : UChar) : UChar := if 0x41 ≤ c ∧ c ≤ 0x5a then c + 0x20 else c

/-- `to_boolean`: 1 if the string represents truth, 0 if it represents falsehood, -1 if it is
not recognized. -/
def to_boolean (val : List UChar) : Int :=
  let len := val.length
  let val := val.map tolower
  if len > 5 then -1
  else if ¬ (val ≠ ustr "1" ∧ val ≠ ustr "yes" ∧ val ≠ ustr "true") then 1
  else if ¬ (val ≠ ustr "0" ∧ val ≠ ustr "no" ∧ val ≠ ustr "false") then 0
  else -1

/-- `process_args_output_folding`: `none` when `usage` ends the program; the option argument
is `none` when it is not given. -/
def process_args_output_folding (folding : Option (List UChar)) (ctx : context) : Option context :=
  let argval : Int := match folding with
    | some f => to_boolean f
    | none => 1
  if argval < 0 then none
  else some { ctx with no_fold11_output := 1 - argval }

/-- `process_args_output_prefixing`: `none` when `usage` ends the program; the option argument
is `none` when it is not given. -/
def process_args_output_prefixing ( prefixing : Option (List UChar)) (ctx : context) :
    Option context :=
  let argval : Int := match prefixing with
    | some p => to_boolean p
    | none => 1
  if argval < 0 then none
  else some { ctx with no_fold11_output := argval }

/-! ## Notions used in the statements about the queue and the scenarios -/

/-- The text of a run: its pieces one after the other. -/
def run_text (pieces : List (List UChar)) : List UChar := pieces.flatten

/-- The text of a queue: its runs one after the other. -/
def queue_text (queue : ws_node) : List UChar := ((ws_runs queue).map run_text).flatten

/-- The context after the given segments have been handed to `preserve_whitespace`, one call
after the other. -/
def preserve_all (segments : List (List UChar)) (ctx : context) : context :=
  segments.foldl (fun c segment => preserve_whitespace (some segment) c) ctx

/-- The context of `main` when the parse begins, for CIF 2.0 output: nothing written, no
whitespace cached, `at_start` set. -/
def start_context : context :=
  { zero_context with output_format := format.CIF20, at_start := 1 }

/-- The folding decision in the words of the specification. -/
def folds (analysis : cif_string_analysis_s) : Prop :=
  analysis.length_max > 2048 ∨ analysis.length_first ≥ 2048 ∨ analysis.has_reserved_start = true
    ∨ analysis.has_trailing_ws = true ∨ analysis.max_semi_run ≥ 2046

/-- The prefixing decision in the words of the specification. -/
def prefixes (analysis : cif_string_analysis_s) : Prop :=
  analysis.contains_text_delim = true ∨ analysis.max_semi_run ≥ 2046

instance (analysis : cif_string_analysis_s) : Decidable (folds analysis) := by
  unfold folds
  infer_instance

instance (analysis : cif_string_analysis_s) : Decidable (prefixes analysis) := by
  unfold prefixes
  infer_instance

/-- The literal written for an Unknown (`?`) or NotApplicable (`.`) value. -/
def value_literal : cif_value → UChar
  | .na => UCHAR_DOT
  | _ => UCHAR_QUERY

/-- The elements of a list as they are written after the first one: each after one space. -/
def spaced_literals : List cif_value → List UChar
  | [] => []
  | element :: rest => UCHAR_SP :: value_literal element :: spaced_literals rest

/-- The elements of a list as they are written: the first as it is, each later one after
one space. -/
def list_literals : List cif_value → List UChar
  | [] => []
  | element :: rest => value_literal element :: spaced_literals rest

/-- The text after the first line terminator of a text, LF, CR or CR LF; `none` when the text
holds no line terminator. -/
def after_first_eol (text : List UChar) : Option (List UChar) :=
  (u_strpbrk text standard_eol_chars).map past_eol

/-- A queue whose first run holds a CIF 2.0 version comment ended by CR LF, the CR at the end
of the first piece and the LF at the start of the second, and a comment; a second run
follows. -/
def split_eol_queue : ws_node :=
  .node (ustr "#\\#CIF_2.0\r") (.node (ustr "\n# c\n") .null .null) (.node (ustr " ") .null .null)

/-- The same text with the version comment in one piece. -/
def whole_eol_queue : ws_node :=
  .node (ustr "#\\#CIF_2.0\r\n") (.node (ustr "# c\n") .null .null) (.node (ustr " ") .null .null)

/-- The same text with the start of the version comment split over two pieces. -/
def split_header_queue : ws_node :=
  .node (ustr "#\\#C") (.node (ustr "IF_2.0\r\n# c\n") .null .null) (.node (ustr " ") .null .null)

/-- An analyzer that reports every text as one that holds a text-field delimiter, for which it
selects a text field. -/
def text_delim_analyzer : analyzer := fun text _ _ _ =>
  (CIF_OK,
    { delim := [UCHAR_LF, UCHAR_SEMI], delim_length := 2, num_lines := 2, length_first := 1,
      length_last := text.length - 2, length_max := text.length - 2, max_semi_run := 1,
      contains_text_delim := true, has_reserved_start := false, has_trailing_ws := false })

/-! ## The input encoding option -/

/-- Modelled from the spec: the two fields of the parse options (`struct cif_parse_opts_s` of
`cif.h`, not among the sources) that `process_args_input_encoding` assigns;
`default_encoding_name` is `none` for a null pointer. -/
structure cif_parse_opts_s where
  default_encoding_name : Option (List UChar)
  force_default_encoding : Int
  deriving DecidableEq, Repr

/-- `process_args_input_encoding`: `none` when `usage` ends the program; the option argument
is `none` when it is not given.  `strcmp(encoding, "auto")` is non-zero when the argument
differs from `auto`. -/
def process_args_input_encoding (parse_opts : cif_parse_opts_s)
    (encoding : Option (List UChar)) : Option cif_parse_opts_s :=
  match encoding with
  | none => none
  | some encoding =>
    if encoding ≠ ustr "auto" then
      some { parse_opts with default_encoding_name := none, force_default_encoding := 0 }
    else
      some { parse_opts with default_encoding_name := some encoding, force_default_encoding := 1 }

/-- The parse options before the options are read: no encoding name, not forced. -/
def zero_parse_opts : cif_parse_opts_s :=
  { default_encoding_name := none, force_default_encoding := 0 }

/-! ## The container handlers when output or the store may fail -/

/-- The keyword `save_`, which is also the terminator `term` of `finish_frame`. -/
def save_kw : List UChar := [0x73, 0x61, 0x76, 0x65, UCHAR_UNDER]

/-- The operations that the handlers of container events call, as they behave in one call of
a handler: `print_code(container, context, type)`, `print_all_ws_runs(context)`,
`print_u_literal(SPACE_ALLOWED, term, 5, context)` and `u_fprintf(context->out, "\nsave_\n")`
give their result and the context they leave, and `flush` is the result of the store
operations of `flush_container`, which do not touch the context. -/
structure container_ops where
  print_code : context → Int × context
  print_all_ws_runs : context → Int × context
  print_u_literal : context → Int × context
  u_fprintf : context → Int × context
  flush : Int

/-- `open_block` over the given operations. -/
def open_block_with (ops : container_ops) (ctx : context) : Int × context :=
  let ctx := if ctx.at_start ≠ 0 then { consume_version_comment ctx with at_start := 0 } else ctx
  let ctx := { ctx with in_ws_run := 0 }
  let ctx := { ctx with in_container := ctx.in_container + 1 }
  ops.print_code ctx

/-- `flush_container` over the given operations: `CONTEXT_POP_CONTAINER` follows the store
operations whatever their result. -/
def flush_container_with (ops : container_ops) (ctx : context) : Int × context :=
  (ops.flush, { ctx with in_container := ctx.in_container - 1 })

/-- `open_frame` over the given operations. -/
def open_frame_with (ops : container_ops) (ctx : context) : Int × context :=
  let ctx : context := { ctx with in_ws_run := 0 }
  if ctx.in_container ≠ 0 then
    ops.print_code { ctx with in_container := ctx.in_container + 1 }
  else (CIF_OK, ctx)

/-- `finish_frame` over the given operations. -/
def finish_frame_with (ops : container_ops) (ctx : context) : Int × context :=
  let r := ops.print_all_ws_runs ctx
  let printed_ws := r.1
  let ctx : context := { r.2 with in_ws_run := 0 }
  if ctx.in_container ≠ 0 then
    if printed_ws > 0 then
      let p := ops.print_u_literal ctx
      if p.1 ≠ CIF_OK then p
      else flush_container_with ops p.2
    else if printed_ws = 0 then
      let w := ops.u_fprintf ctx
      if w.1 ≠ 7 then (CIF_ERROR, w.2)
      else flush_container_with ops { w.2 with column := 0 }
    else (CIF_ERROR, ctx)
  else flush_container_with ops ctx

/-- The operations as the emitter performs them when output and the store succeed, for a
container with the given code and the keyword `type`. -/
def emitter_ops (code type : List UChar) : container_ops :=
  { print_code := fun ctx => print_code code ctx type
    print_all_ws_runs := print_all_ws_runs
    print_u_literal := print_u_literal SPACE_ALLOWED save_kw 5
    u_fprintf := fun ctx => (7, { ctx with out := ctx.out ++ [UCHAR_LF] ++ save_kw ++ [UCHAR_LF] })
    flush := CIF_OK }

/-- The four container events. -/
inductive container_event where
  | block_start
  | frame_start
  | frame_end
  | block_end
  deriving DecidableEq, Repr

/-- The handler of a container event, over the given operations. -/
def handle_container_event (event : container_event) (ops : container_ops) (ctx : context) :
    Int × context :=
  match event with
  | .block_start => open_block_with ops ctx
  | .frame_start => open_frame_with ops ctx
  | .frame_end => finish_frame_with ops ctx
  | .block_end => flush_container_with ops ctx

/-- The handlers called for a sequence of container events, each with the operations as they
behave during that call: the result and the context after each event handled.  A result other
than `CIF_OK` ends the parse, so that no later event is handled. -/
def run_container_events : List (container_event × container_ops) → context →
    List (Int × context)
  | [], _ => []
  | (event, ops) :: rest, ctx =>
    let r := handle_container_event event ops ctx
    r :: (if r.1 ≠ CIF_OK then [] else run_container_events rest r.2)

/-- The change of the nesting depth with an event. -/
def event_step : container_event → Int
  | .block_start => 1
  | .frame_start => 1
  | .frame_end => -1
  | .block_end => -1

/-- The nesting depth after each event of a sequence that starts at depth `depth`. -/
def depths_from (depth : Int) : List container_event → List Int
  | [] => []
  | event :: rest => (depth + event_step event) :: depths_from (depth + event_step event) rest

/-- A sequence of container events that can follow a point at depth `depth` in a well-nested
sequence: a block starts at depth 0 and ends at depth 1, a frame starts inside a container and
ends inside a frame. -/
def well_nested_from (depth : Int) : List container_event → Bool
  | [] => true
  | .block_start :: rest => decide (depth = 0) && well_nested_from 1 rest
  | .frame_start :: rest => decide (1 ≤ depth) && well_nested_from (depth + 1) rest
  | .frame_end :: rest => decide (2 ≤ depth) && well_nested_from (depth - 1) rest
  | .block_end :: rest => decide (depth = 1) && well_nested_from 0 rest

/-- The operations leave `in_container` as it is. -/
def keeps_depth (ops : container_ops) : Prop :=
  (∀ ctx, (ops.print_code ctx).2.in_container = ctx.in_container) ∧
  (∀ ctx, (ops.print_all_ws_runs ctx).2.in_container = ctx.in_container) ∧
  (∀ ctx, (ops.print_u_literal ctx).2.in_container = ctx.in_container) ∧
  (∀ ctx, (ops.u_fprintf ctx).2.in_container = ctx.in_container)

/-- The output operations of `finish_frame` succeed: `print_all_ws_runs` does not return a
negative count, `print_u_literal` returns `CIF_OK`, and `u_fprintf` prints the seven
characters. -/
def frame_end_output_ok (ops : container_ops) : Prop :=
  (∀ ctx, 0 ≤ (ops.print_all_ws_runs ctx).1) ∧
  (∀ ctx, (ops.print_u_literal ctx).1 = CIF_OK) ∧
  (∀ ctx, (ops.u_fprintf ctx).1 = 7)

/-- Operations in which writing the cached whitespace fails: `print_all_ws_runs` returns -1. -/
def failing_output_ops : container_ops :=
  { emitter_ops [] save_kw with print_all_ws_runs := fun ctx => (-1, ctx) }

/-- Operations in which the store fails: `flush_container` finds `CIF_ERROR`. -/
def failing_store_ops : container_ops :=
  { emitter_ops [] save_kw with flush := CIF_ERROR }

/-! ## Notions used in the statements about options, folding and suppressed items -/

/-- Two characters that are the same without regard to ASCII letter case: equal, or an upper
case ASCII letter and the corresponding lower case one. -/
def same_letter (c d : UChar) : Prop :=
  c = d ∨ (0x41 ≤ c ∧ c ≤ 0x5a ∧ d = c + 0x20) ∨ (0x41 ≤ d ∧ d ≤ 0x5a ∧ c = d + 0x20)

/-- Two strings that are the same without regard to ASCII letter case. -/
def same_ignoring_case (a b : List UChar) : Prop := List.Forall₂ same_letter a b

/-- No logical line of the text begins with a semicolon: the text does not begin with one, and
none follows a line terminator (LF or CR) directly. -/
def no_line_starts_with_semi (text : List UChar) : Prop :=
  List.Chain (fun a b => is_line_term a = true → b ≠ UCHAR_SEMI) UCHAR_LF text

/-- The 3000 characters `a`. -/
def long_line : List UChar := List.replicate 3000 0x61

/-- An analyzer that reports every text as a single line without anything that needs care,
for which it selects a text field. -/
def text_field_analyzer : analyzer := fun text _ _ _ =>
  (CIF_OK,
    { delim := [UCHAR_LF, UCHAR_SEMI], delim_length := 2, num_lines := 1,
      length_first := text.length, length_last := text.length, length_max := text.length,
      max_semi_run := 0, contains_text_delim := false, has_reserved_start := false,
      has_trailing_ws := false })

end Linguist

namespace Cif

open Linguist

/-! ## The walker of `cif.c`

The CIF is what the enumeration operations of the store hand to the walker: the blocks of the
CIF, the save frames and the loops of a container, the packets of a loop, the items of a
packet, each in enumeration order.  These operations (`cif_get_all_blocks`,
`cif_container_get_all_frames`, `cif_container_get_all_loops`, the packet iterator) are taken
to succeed, and the handler not to change what they enumerate.  A handler works on a state of
its own, the `context` argument of the callbacks. -/

/-- Modelled from the spec: the directive `SkipCurrent` (`cif.h`, not among the sources). -/
def CIF_TRAVERSE_SKIP_CURRENT : Int := -1

/-- Modelled from the spec: the directive `SkipSiblings` (`cif.h`). -/
def CIF_TRAVERSE_SKIP_SIBLINGS : Int := -2

/-- Modelled from the spec: the directive `End` (`cif.h`). -/
def CIF_TRAVERSE_END : Int := -3

/-- Modelled from the spec: the status `Finished` of an exhausted iterator (`cif.h`). -/
def CIF_FINISHED : Int := 1

/-- A packet: its entries, name and value, in order (`packet->map.head` and the links). -/
abbrev cif_packet_t := List (List UChar × cif_value)

/-- A loop as the walker sees it: its category, its data names, and the packets that its
iterator yields. -/
structure cif_loop_t where
  category : List UChar
  names : List (List UChar)
  packets : List cif_packet_t

/-- A data block or save frame as the walker sees it: its code, its save frames and its
loops. -/
inductive cif_container_t where
  | mk (code : List UChar) (frames : List cif_container_t) (loops : List cif_loop_t) :
      cif_container_t

/-- The loops of a container (`cif_container_get_all_loops`). -/
def cif_container_t.loops : cif_container_t → List cif_loop_t
  | .mk _ _ loops => loops

/-- The save frames of a container (`cif_container_get_all_frames`). -/
def cif_container_t.frames : cif_container_t → List cif_container_t
  | .mk _ frames _ => frames

/-- A CIF as the walker sees it: its data blocks (`cif_get_all_blocks`). -/
structure cif_t where
  blocks : List cif_container_t

/-- The handler object (`cif_handler_t`): eleven callbacks, each of which may be absent, on a
state `σ` (the `context` pointer). -/
structure cif_handler_t (σ : Type) where
  handle_cif_start : Option (cif_t → σ → Int × σ)
  handle_cif_end : Option (cif_t → σ → Int × σ)
  handle_block_start : Option (cif_container_t → σ → Int × σ)
  handle_block_end : Option (cif_container_t → σ → Int × σ)
  handle_frame_start : Option (cif_container_t → σ → Int × σ)
  handle_frame_end : Option (cif_container_t → σ → Int × σ)
  handle_loop_start : Option (cif_loop_t → σ → Int × σ)
  handle_loop_end : Option (cif_loop_t → σ → Int × σ)
  handle_packet_start : Option (cif_packet_t → σ → Int × σ)
  handle_packet_end : Option (cif_packet_t → σ → Int × σ)
  handle_item : Option (List UChar × cif_value → σ → Int × σ)

/-- The macro `HANDLER_RESULT(handler_name, args, default_val)`: the result of the callback if
there is one, `default_val` otherwise. -/
def HANDLER_RESULT {α σ : Type} (callback : Option (α → σ → Int × σ)) (arg : α) (context : σ)
    (default_val : Int) : Int × σ :=
  match callback with
  | some f => f arg context
  | none => (default_val, context)

/-- `walk_item`: the item callback for one entry of a packet. -/
def walk_item {σ : Type} (item : List UChar × cif_value) (handler : cif_handler_t σ)
    (context : σ) : Int × σ :=
  HANDLER_RESULT handler.handle_item item context CIF_TRAVERSE_CONTINUE

/-- The loop `for (item = packet->map.head; item != NULL; ...)` of `walk_packet` over the
entries still to walk, and the return after it. -/
def walk_packet_items {σ : Type} (handler : cif_handler_t σ) (packet : cif_packet_t) :
    List (List UChar × cif_value) → σ → Int × σ
  | [], context => HANDLER_RESULT handler.handle_packet_end packet context CIF_TRAVERSE_CONTINUE
  | item :: rest, context =>
    let r := walk_item item handler context
    if r.1 = CIF_TRAVERSE_CONTINUE ∨ r.1 = CIF_TRAVERSE_SKIP_CURRENT then
      walk_packet_items handler packet rest r.2
    else if r.1 = CIF_TRAVERSE_SKIP_SIBLINGS then (CIF_TRAVERSE_CONTINUE, r.2)
    else r

/-- `walk_packet`. -/
def walk_packet {σ : Type} (packet : cif_packet_t) (handler : cif_handler_t σ) (context : σ) :
    Int × σ :=
  let r := HANDLER_RESULT handler.handle_packet_start packet context CIF_TRAVERSE_CONTINUE
  if r.1 ≠ CIF_TRAVERSE_CONTINUE then r
  else walk_packet_items handler packet packet r.2

/-- The loop `while ((result = cif_pktitr_next_packet(iterator, &packet)) == CIF_OK)` of
`walk_loop` over the packets still to come: the value of `result` after the loop, which is
`CIF_FINISHED` when the iterator is exhausted. -/
def walk_loop_packets {σ : Type} (handler : cif_handler_t σ) :
    List cif_packet_t → σ → Int × σ
  | [], context => (CIF_FINISHED, context)
  | packet :: rest, context =>
    let r := walk_packet packet handler context
    if r.1 = CIF_TRAVERSE_CONTINUE ∨ r.1 = CIF_TRAVERSE_SKIP_CURRENT then
      walk_loop_packets handler rest r.2
    else if r.1 = CIF_TRAVERSE_SKIP_SIBLINGS then (CIF_TRAVERSE_CONTINUE, r.2)
    else r

/-- `walk_loop`. -/
def walk_loop {σ : Type} (loop : cif_loop_t) (handler : cif_handler_t σ) (context : σ) : Int × σ :=
  let r := HANDLER_RESULT handler.handle_loop_start loop context CIF_TRAVERSE_CONTINUE
  if r.1 ≠ CIF_TRAVERSE_CONTINUE then r
  else
    let p := walk_loop_packets handler loop.packets r.2
    if p.1 ≠ CIF_FINISHED then p
    else HANDLER_RESULT handler.handle_loop_end loop p.2 CIF_TRAVERSE_CONTINUE

/-- The loop `for (current_loop = loops; *current_loop != NULL; current_loop += 1)` of
`walk_loops` over the loops still to come, with the variables `result` and `handle_loops`. -/
def walk_loops_loop {σ : Type} (handler : cif_handler_t σ) :
    List cif_loop_t → Int → Bool → σ → Int × σ
  | [], result, _, context => (result, context)
  | loop :: rest, result, handle_loops, context =>
    if handle_loops then
      let r := walk_loop loop handler context
      if r.1 = CIF_TRAVERSE_SKIP_CURRENT ∨ r.1 = CIF_TRAVERSE_CONTINUE then
        walk_loops_loop handler rest r.1 true r.2
      else walk_loops_loop handler rest r.1 false r.2
    else walk_loops_loop handler rest result false context

/-- `walk_loops`. -/
def walk_loops {σ : Type} (container : cif_container_t) (handler : cif_handler_t σ)
    (context : σ) : Int × σ :=
  walk_loops_loop handler container.loops CIF_OK true context

/-- The `switch (result)` that ends `walk_container`, on the result of `walk_loops`: the end
callback of the container is called after Continue and SkipCurrent. -/
def walk_container_end {σ : Type} (container : cif_container_t) (depth : Nat)
    (handler : cif_handler_t σ) (l : Int × σ) : Int × σ :=
  if l.1 = CIF_TRAVERSE_CONTINUE ∨ l.1 = CIF_TRAVERSE_SKIP_CURRENT then
    if depth ≠ 0 then HANDLER_RESULT handler.handle_frame_end container l.2 CIF_TRAVERSE_CONTINUE
    else HANDLER_RESULT handler.handle_block_end container l.2 CIF_TRAVERSE_CONTINUE
  else if l.1 = CIF_TRAVERSE_SKIP_SIBLINGS then (CIF_TRAVERSE_CONTINUE, l.2)
  else l

/-- The part of `walk_container` after the loop over the save frames, on the values that
`result`, `handle_loops` and the state have there: `if (!handle_loops) return result;`, then
the loops of the container and the `switch` on their result. -/
def walk_container_loops {σ : Type} (container : cif_container_t) (depth : Nat)
    (handler : cif_handler_t σ) (f : Int × Bool × σ) : Int × σ :=
  if ¬ f.2.1 then (f.1, f.2.2)
  else walk_container_end container depth handler (walk_loops container handler f.2.2)

mutual

/-- `walk_container`, for a data block (`depth` 0) or a save frame. -/
def walk_container {σ : Type} (handler : cif_handler_t σ) :
    cif_container_t → Nat → σ → Int × σ
  | .mk code frames loops, depth, context =>
    let r :=
      if depth ≠ 0 then
        HANDLER_RESULT handler.handle_frame_start (.mk code frames loops) context
          CIF_TRAVERSE_CONTINUE
      else
        HANDLER_RESULT handler.handle_block_start (.mk code frames loops) context
          CIF_TRAVERSE_CONTINUE
    if r.1 ≠ CIF_TRAVERSE_CONTINUE then r
    else
      walk_container_loops (.mk code frames loops) depth handler
        (walk_frames handler frames (depth + 1) CIF_OK true true r.2)

/-- The loop `for (current_frame = frames; *current_frame; current_frame += 1)` of
`walk_container` over the save frames still to come, walked at `depth`, with the variables
`result`, `handle_frames` and `handle_loops`; the value is `result`, `handle_loops` and the
state after the loop. -/
def walk_frames {σ : Type} (handler : cif_handler_t σ) :
    List cif_container_t → Nat → Int → Bool → Bool → σ → Int × Bool × σ
  | [], _, result, _, handle_loops, context => (result, handle_loops, context)
  | frame :: rest, depth, result, handle_frames, handle_loops, context =>
    if handle_frames then
      let r := walk_container handler frame depth context
      if r.1 = CIF_TRAVERSE_CONTINUE ∨ r.1 = CIF_TRAVERSE_SKIP_CURRENT then
        walk_frames handler rest depth r.1 true handle_loops r.2
      else if r.1 = CIF_TRAVERSE_SKIP_SIBLINGS then
        walk_frames handler rest depth r.1 false handle_loops r.2
      else walk_frames handler rest depth r.1 false false r.2
    else walk_frames handler rest depth result false handle_loops context

end

/-- The loop `for (current_block = blocks; *current_block; current_block += 1)` of `cif_walk`
over the blocks still to come, with the variables `result` and `handle_blocks`. -/
def walk_blocks {σ : Type} (handler : cif_handler_t σ) :
    List cif_container_t → Int → Bool → σ → Int × Bool × σ
  | [], result, handle_blocks, context => (result, handle_blocks, context)
  | block :: rest, result, handle_blocks, context =>
    if handle_blocks then
      let r := walk_container handler block 0 context
      if r.1 = CIF_TRAVERSE_SKIP_SIBLINGS ∨ r.1 = CIF_TRAVERSE_END then
        walk_blocks handler rest CIF_OK false r.2
      else if r.1 = CIF_TRAVERSE_CONTINUE ∨ r.1 = CIF_TRAVERSE_SKIP_CURRENT then
        walk_blocks handler rest r.1 true r.2
      else walk_blocks handler rest r.1 false r.2
    else walk_blocks handler rest result false context

/-- The end of `cif_walk`, after the loop over the blocks: the end callback is called if and
only if the end of the block list was reached normally. -/
def cif_walk_end {σ : Type} (cif : cif_t) (handler : cif_handler_t σ) (b : Int × Bool × σ) :
    Int × σ :=
  if b.2.1 then
    let e := HANDLER_RESULT handler.handle_cif_end cif b.2.2 CIF_TRAVERSE_CONTINUE
    if e.1 = CIF_TRAVERSE_CONTINUE ∨ e.1 = CIF_TRAVERSE_SKIP_CURRENT
        ∨ e.1 = CIF_TRAVERSE_SKIP_SIBLINGS ∨ e.1 = CIF_TRAVERSE_END then (CIF_OK, e.2)
    else e
  else (b.1, b.2.2)

/-- `cif_walk`. -/
def cif_walk {σ : Type} (cif : cif_t) (handler : cif_handler_t σ) (context : σ) : Int × σ :=
  let r := HANDLER_RESULT handler.handle_cif_start cif context CIF_TRAVERSE_CONTINUE
  if r.1 = CIF_TRAVERSE_CONTINUE then
    cif_walk_end cif handler (walk_blocks handler cif.blocks CIF_OK true r.2)
  else if r.1 = CIF_TRAVERSE_SKIP_CURRENT ∨ r.1 = CIF_TRAVERSE_SKIP_SIBLINGS
      ∨ r.1 = CIF_TRAVERSE_END then (CIF_OK, r.2)
  else r

/-! ## Recording the callbacks -/

/-- A callback invocation: which callback, on which element. -/
inductive walk_event where
  | cif_start (cif : cif_t) : walk_event
  | cif_end (cif : cif_t) : walk_event
  | block_start (container : cif_container_t) : walk_event
  | block_end (container : cif_container_t) : walk_event
  | frame_start (container : cif_container_t) : walk_event
  | frame_end (container : cif_container_t) : walk_event
  | loop_start (loop : cif_loop_t) : walk_event
  | loop_end (loop : cif_loop_t) : walk_event
  | packet_start (packet : cif_packet_t) : walk_event
  | packet_end (packet : cif_packet_t) : walk_event
  | item (item : List UChar × cif_value) : walk_event

/-- A callback that also records its invocation and the value it returns at the end of a log
kept beside the state; an absent callback stays absent. -/
def logged_callback {α σ : Type} (event : α → walk_event) (callback : Option (α → σ → Int × σ)) :
    Option (α → σ × List (walk_event × Int) → Int × (σ × List (walk_event × Int))) :=
  match callback with
  | none => none
  | some f => some (fun a s => ((f a s.1).1, ((f a s.1).2, s.2 ++ [(event a, (f a s.1).1)])))

/-- The handler that works as `handler` does and records every callback invocation, in
order, with the value returned. -/
def logged {σ : Type} (handler : cif_handler_t σ) :
    cif_handler_t (σ × List (walk_event × Int)) :=
  { handle_cif_start := logged_callback walk_event.cif_start handler.handle_cif_start
    handle_cif_end := logged_callback walk_event.cif_end handler.handle_cif_end
    handle_block_start := logged_callback walk_event.block_start handler.handle_block_start
    handle_block_end := logged_callback walk_event.block_end handler.handle_block_end
    handle_frame_start := logged_callback walk_event.frame_start handler.handle_frame_start
    handle_frame_end := logged_callback walk_event.frame_end handler.handle_frame_end
    handle_loop_start := logged_callback walk_event.loop_start handler.handle_loop_start
    handle_loop_end := logged_callback walk_event.loop_end handler.handle_loop_end
    handle_packet_start := logged_callback walk_event.packet_start handler.handle_packet_start
    handle_packet_end := logged_callback walk_event.packet_end handler.handle_packet_end
    handle_item := logged_callback walk_event.item handler.handle_item }

/-- An absent callback replaced by one that returns `CIF_TRAVERSE_CONTINUE` and leaves the
state alone. -/
def filled_callback {α σ : Type} (callback : Option (α → σ → Int × σ)) :
    Option (α → σ → Int × σ) :=
  match callback with
  | none => some (fun _ s => (CIF_TRAVERSE_CONTINUE, s))
  | some f => some f

/-- The handler with every absent callback replaced by one returning
`CIF_TRAVERSE_CONTINUE`. -/
def filled {σ : Type} (handler : cif_handler_t σ) : cif_handler_t σ :=
  { handle_cif_start := filled_callback handler.handle_cif_start
    handle_cif_end := filled_callback handler.handle_cif_end
    handle_block_start := filled_callback handler.handle_block_start
    handle_block_end := filled_callback handler.handle_block_end
    handle_frame_start := filled_callback handler.handle_frame_start
    handle_frame_end := filled_callback handler.handle_frame_end
    handle_loop_start := filled_callback handler.handle_loop_start
    handle_loop_end := filled_callback handler.handle_loop_end
    handle_packet_start := filled_callback handler.handle_packet_start
    handle_packet_end := filled_callback handler.handle_packet_end
    handle_item := filled_callback handler.handle_item }

/-- The log of callback invocations kept by a `logged` handler. -/
abbrev call_log := List (walk_event × Int)

/-- A value that ends the walk wherever a callback returns it: none of Continue, SkipCurrent
and SkipSiblings, and not `CIF_FINISHED`. -/
def stops (v : Int) : Prop :=
  v ≠ CIF_TRAVERSE_CONTINUE ∧ v ≠ CIF_TRAVERSE_SKIP_CURRENT ∧ v ≠ CIF_TRAVERSE_SKIP_SIBLINGS
    ∧ v ≠ CIF_FINISHED

instance (v : Int) : Decidable (stops v) := by
  unfold stops
  infer_instance

/-- From the log `log0` on, no callback returned a value that stops the walk. -/
def log_clean {σ : Type} (log0 : call_log) (x : Int × (σ × call_log)) : Prop :=
  ∃ new, x.2.2 = log0 ++ new ∧ ∀ e ∈ new, ¬ stops e.2

/-- From the log `log0` on, the last callback invoked, and no other, returned a value that
stops the walk, and that value is the result. -/
def log_stopped {σ : Type} (log0 : call_log) (x : Int × (σ × call_log)) : Prop :=
  ∃ init e, x.2.2 = log0 ++ init ++ [e] ∧ (∀ e' ∈ init, ¬ stops e'.2) ∧ stops e.2 ∧ x.1 = e.2

/-- Either of the two. -/
def log_good {σ : Type} (log0 : call_log) (x : Int × (σ × call_log)) : Prop :=
  log_clean log0 x ∨ log_stopped log0 x

/-- As `log_good`, for the result of `cif_walk`: the value End becomes `CIF_OK`. -/
def log_final {σ : Type} (log0 : call_log) (x : Int × (σ × call_log)) : Prop :=
  log_clean log0 x ∨
    ∃ init e, x.2.2 = log0 ++ init ++ [e] ∧ (∀ e' ∈ init, ¬ stops e'.2) ∧ stops e.2 ∧
      x.1 = if e.2 = CIF_TRAVERSE_END then CIF_OK else e.2

/-! ## Two handlers that work alike -/

/-- Two callbacks work alike with respect to a relation between their states: on related
states they return the same value and leave related states, where an absent callback counts
as one that returns `CIF_TRAVERSE_CONTINUE` and leaves the state alone. -/
def callback_sim {α σ₁ σ₂ : Type} (Rel : σ₁ → σ₂ → Prop) (c₁ : Option (α → σ₁ → Int × σ₁))
    (c₂ : Option (α → σ₂ → Int × σ₂)) : Prop :=
  ∀ a s₁ s₂, Rel s₁ s₂ →
    (HANDLER_RESULT c₁ a s₁ CIF_TRAVERSE_CONTINUE).1
        = (HANDLER_RESULT c₂ a s₂ CIF_TRAVERSE_CONTINUE).1 ∧
      Rel (HANDLER_RESULT c₁ a s₁ CIF_TRAVERSE_CONTINUE).2
        (HANDLER_RESULT c₂ a s₂ CIF_TRAVERSE_CONTINUE).2

/-- Two handlers work alike: each of the eleven callbacks does. -/
structure handler_sim {σ₁ σ₂ : Type} (Rel : σ₁ → σ₂ → Prop) (h₁ : cif_handler_t σ₁)
    (h₂ : cif_handler_t σ₂) : Prop where
  cif_start : callback_sim Rel h₁.handle_cif_start h₂.handle_cif_start
  cif_end : callback_sim Rel h₁.handle_cif_end h₂.handle_cif_end
  block_start : callback_sim Rel h₁.handle_block_start h₂.handle_block_start
  block_end : callback_sim Rel h₁.handle_block_end h₂.handle_block_end
  frame_start : callback_sim Rel h₁.handle_frame_start h₂.handle_frame_start
  frame_end : callback_sim Rel h₁.handle_frame_end h₂.handle_frame_end
  loop_start : callback_sim Rel h₁.handle_loop_start h₂.handle_loop_start
  loop_end : callback_sim Rel h₁.handle_loop_end h₂.handle_loop_end
  packet_start : callback_sim Rel h₁.handle_packet_start h₂.handle_packet_start
  packet_end : callback_sim Rel h₁.handle_packet_end h₂.handle_packet_end
  item : callback_sim Rel h₁.handle_item h₂.handle_item

/-- Two results of a walk agree: the same value, related states. -/
def result_sim {σ₁ σ₂ : Type} (Rel : σ₁ → σ₂ → Prop) (x : Int × σ₁) (y : Int × σ₂) : Prop :=
  x.1 = y.1 ∧ Rel x.2 y.2

/-- Two results of a loop of the walker agree: the same value, the same flag, related
states. -/
def flag_sim {σ₁ σ₂ : Type} (Rel : σ₁ → σ₂ → Prop) (x : Int × Bool × σ₁) (y : Int × Bool × σ₂) :
    Prop :=
  x.1 = y.1 ∧ x.2.1 = y.2.1 ∧ Rel x.2.2 y.2.2

/-! ## The traversal order of the specification -/

/-- The callbacks for a packet: packet-start, one item callback per entry in packet order,
packet-end. -/
def packet_events (packet : cif_packet_t) : List walk_event :=
  walk_event.packet_start packet ::
    (packet.map walk_event.item ++ [walk_event.packet_end packet])

/-- The callbacks for the packets of a loop, packet after packet. -/
def packets_events : List cif_packet_t → List walk_event
  | [] => []
  | packet :: rest => packet_events packet ++ packets_events rest

/-- The callbacks for a loop: loop-start, its packets, loop-end. -/
def loop_events (loop : cif_loop_t) : List walk_event :=
  walk_event.loop_start loop :: (packets_events loop.packets ++ [walk_event.loop_end loop])

/-- The callbacks for the loops of a container, loop after loop. -/
def loops_events : List cif_loop_t → List walk_event
  | [] => []
  | loop :: rest => loop_events loop ++ loops_events rest

mutual

/-- The callbacks for a save frame: frame-start, nested frames, the loops of the frame,
frame-end. -/
def frame_events : cif_container_t → List walk_event
  | .mk code frames loops =>
    walk_event.frame_start (.mk code frames loops) ::
      (frames_events frames ++ loops_events loops
        ++ [walk_event.frame_end (.mk code frames loops)])

/-- The callbacks for the save frames of a container, frame after frame. -/
def frames_events : List cif_container_t → List walk_event
  | [] => []
  | frame :: rest => frame_events frame ++ frames_events rest

end

/-- The callbacks for a data block: block-start, each of its save frames, each of its loops,
block-end. -/
def block_events (block : cif_container_t) : List walk_event :=
  walk_event.block_start block ::
    (frames_events block.frames ++ loops_events block.loops ++ [walk_event.block_end block])

/-- The callbacks for the data blocks of a CIF, block after block. -/
def blocks_events : List cif_container_t → List walk_event
  | [] => []
  | block :: rest => block_events block ++ blocks_events rest

/-- The depth-first traversal in enumeration order: cif-start, the blocks, cif-end. -/
def cif_events (cif : cif_t) : List walk_event :=
  walk_event.cif_start cif :: (blocks_events cif.blocks ++ [walk_event.cif_end cif])

/-- Whether the handler has the callback that an event names. -/
def has_callback {σ : Type} (handler : cif_handler_t σ) : walk_event → Bool
  | .cif_start _ => handler.handle_cif_start.isSome
  | .cif_end _ => handler.handle_cif_end.isSome
  | .block_start _ => handler.handle_block_start.isSome
  | .block_end _ => handler.handle_block_end.isSome
  | .frame_start _ => handler.handle_frame_start.isSome
  | .frame_end _ => handler.handle_frame_end.isSome
  | .loop_start _ => handler.handle_loop_start.isSome
  | .loop_end _ => handler.handle_loop_end.isSome
  | .packet_start _ => handler.handle_packet_start.isSome
  | .packet_end _ => handler.handle_packet_end.isSome
  | .item _ => handler.handle_item.isSome

/-- The log of a walk in which the callbacks that the handler has are invoked for the given
events, in order, and all return `CIF_TRAVERSE_CONTINUE`. -/
def walk_trace {σ : Type} (handler : cif_handler_t σ) (events : List walk_event) : call_log :=
  (events.filter (has_callback handler)).map (fun e => (e, CIF_TRAVERSE_CONTINUE))

/-- A callback that is absent or always returns `CIF_TRAVERSE_CONTINUE`. -/
def callback_continues {α σ : Type} (callback : Option (α → σ → Int × σ)) : Prop :=
  ∀ f, callback = some f → ∀ a s, (f a s).1 = CIF_TRAVERSE_CONTINUE

/-- Every callback of the handler is absent or always returns `CIF_TRAVERSE_CONTINUE`. -/
structure handler_continues {σ : Type} (handler : cif_handler_t σ) : Prop where
  cif_start : callback_continues handler.handle_cif_start
  cif_end : callback_continues handler.handle_cif_end
  block_start : callback_continues handler.handle_block_start
  block_end : callback_continues handler.handle_block_end
  frame_start : callback_continues handler.handle_frame_start
  frame_end : callback_continues handler.handle_frame_end
  loop_start : callback_continues handler.handle_loop_start
  loop_end : callback_continues handler.handle_loop_end
  packet_start : callback_continues handler.handle_packet_start
  packet_end : callback_continues handler.handle_packet_end
  item : callback_continues handler.handle_item

/-! ## Handlers that return directives only, and the examples of the statements -/

/-- One of the four traversal directives: Continue, SkipCurrent, SkipSiblings, End. -/
def directive (v : Int) : Prop :=
  v = CIF_TRAVERSE_CONTINUE ∨ v = CIF_TRAVERSE_SKIP_CURRENT ∨ v = CIF_TRAVERSE_SKIP_SIBLINGS
    ∨ v = CIF_TRAVERSE_END

/-- A callback that is absent or always returns one of the four directives. -/
def callback_directs {α σ : Type} (callback : Option (α → σ → Int × σ)) : Prop :=
  ∀ f, callback = some f → ∀ a s, directive (f a s).1

/-- Every callback of the handler is absent or always returns one of the four directives. -/
structure handler_directs {σ : Type} (handler : cif_handler_t σ) : Prop where
  cif_start : callback_directs handler.handle_cif_start
  cif_end : callback_directs handler.handle_cif_end
  block_start : callback_directs handler.handle_block_start
  block_end : callback_directs handler.handle_block_end
  frame_start : callback_directs handler.handle_frame_start
  frame_end : callback_directs handler.handle_frame_end
  loop_start : callback_directs handler.handle_loop_start
  loop_end : callback_directs handler.handle_loop_end
  packet_start : callback_directs handler.handle_packet_start
  packet_end : callback_directs handler.handle_packet_end
  item : callback_directs handler.handle_item

/-- An item `_a` with the unknown value. -/
def one_item : List UChar × cif_value := (ustr "_a", cif_value.unk)

/-- A loop with one packet, of one item. -/
def one_loop : cif_loop_t := { category := [], names := [ustr "_a"], packets := [[one_item]] }

/-- A save frame with no content. -/
def one_frame : cif_container_t := .mk (ustr "f") [] []

/-- A data block with one save frame and one loop. -/
def one_block : cif_container_t := .mk (ustr "b") [one_frame] [one_loop]

/-- A CIF with one data block. -/
def one_cif : cif_t := { blocks := [one_block] }

/-- The handler without a state of its own whose start callbacks for the CIF, the blocks, the
frames and the loops return `start`, whose packet-start callback returns `packet`, whose item
callback returns `item` and whose end callbacks return `CIF_TRAVERSE_CONTINUE`. -/
def returning (start packet item : Int) : cif_handler_t Unit :=
  { handle_cif_start := some (fun _ s => (start, s))
    handle_cif_end := some (fun _ s => (CIF_TRAVERSE_CONTINUE, s))
    handle_block_start := some (fun _ s => (start, s))
    handle_block_end := some (fun _ s => (CIF_TRAVERSE_CONTINUE, s))
    handle_frame_start := some (fun _ s => (start, s))
    handle_frame_end := some (fun _ s => (CIF_TRAVERSE_CONTINUE, s))
    handle_loop_start := some (fun _ s => (start, s))
    handle_loop_end := some (fun _ s => (CIF_TRAVERSE_CONTINUE, s))
    handle_packet_start := some (fun _ s => (packet, s))
    handle_packet_end := some (fun _ s => (CIF_TRAVERSE_CONTINUE, s))
    handle_item := some (fun _ s => (item, s)) }

/-! ## The store behind `cif_create_block` and `cif_get_block`

The functions work on an SQLite connection through statements whose text (`CREATE_BLOCK_SQL`,
`GET_BLOCK_SQL`, the schema) and the macros around them are not among the sources. The
connection is modelled by the tables that the two functions touch and by the transaction in
progress. The handle `cif` is not null, memory is available and the statements can be
prepared and bound. -/

/-- Modelled from the spec: the status DuplicateCode for a data block (`cif.h`). -/
def CIF_DUP_BLOCKCODE : Int := 11

/-- Modelled from the spec: the status InvalidBlockcode (`cif.h`). -/
def CIF_INVALID_BLOCKCODE : Int := 12

/-- Modelled from the spec: the status NoSuchBlock (`cif.h`). -/
def CIF_NOSUCH_BLOCK : Int := 13

/-- Modelled from the spec: the result of a successful call of the relational engine. -/
def SQLITE_OK : Int := 0

/-- Modelled from the spec: the result of a failed call of the relational engine. -/
def SQLITE_ERROR : Int := 1

/-- Modelled from the spec: the result of a step that violates a constraint. -/
def SQLITE_CONSTRAINT : Int := 19

/-- Modelled from the spec: the result of a step that has run to completion. -/
def SQLITE_DONE : Int := 101

/-- Modelled from the spec: a row `container_code(container_id, code_normalized,
code_original)` of the table of data blocks. -/
structure block_row where
  container_id : Int
  name : List UChar
  name_orig : List UChar
deriving DecidableEq

/-- Modelled from the spec: the tables of the store that the two functions touch, the
identities of the containers and the rows of the data blocks, in insertion order. -/
structure store_tables where
  container : List Int
  data_block : List block_row
deriving DecidableEq

/-- Modelled from the spec: the connection `cif->db`, its tables and, while a transaction is in
progress, the tables as they were when it began. -/
structure sqlite3 where
  current : store_tables
  saved : Option store_tables
deriving DecidableEq

/-- Modelled from the spec: the macro `BEGIN(db)`, which fails inside a transaction. -/
def BEGIN (db : sqlite3) : Int × sqlite3 :=
  match db.saved with
  | some _ => (SQLITE_ERROR, db)
  | none => (SQLITE_OK, { db with saved := some db.current })

/-- Modelled from the spec: the macro `COMMIT(db)`, which fails outside a transaction. -/
def COMMIT (db : sqlite3) : Int × sqlite3 :=
  match db.saved with
  | some _ => (SQLITE_OK, { db with saved := none })
  | none => (SQLITE_ERROR, db)

/-- Modelled from the spec: the macro `ROLLBACK(db)`: the tables are again what they were when
the transaction began; outside a transaction nothing changes. -/
def ROLLBACK (db : sqlite3) : sqlite3 :=
  match db.saved with
  | some t => { current := t, saved := none }
  | none => db

/-- Modelled from the spec: `insert into container(id) values (null)` and
`sqlite3_last_insert_rowid`: a row with a new identity, one more than the greatest in the
table. -/
def insert_container (db : sqlite3) : Int × Int × sqlite3 :=
  (SQLITE_OK, db.current.container.foldl max 0 + 1,
    { db with
      current :=
        { db.current with
          container := db.current.container ++ [db.current.container.foldl max 0 + 1] } })

/-- Modelled from the spec: a step of the statement `create_block` with the identity, the
normalized code and the original code bound: the row is inserted unless a data block with the
same normalized code exists, which violates the uniqueness constraint. -/
def step_create_block (db : sqlite3) (id : Int) (code code_orig : List UChar) : Int × sqlite3 :=
  if db.current.data_block.any (fun r => r.name = code) then (SQLITE_CONSTRAINT, db)
  else
    (SQLITE_DONE,
      { db with
        current :=
          { db.current with
            data_block := db.current.data_block ++
              [{ container_id := id, name := code, name_orig := code_orig }] } })

/-- Modelled from the spec: a step of the statement `get_block` with the normalized code
bound: `some` row for `SQLITE_ROW`, the row of the data block with that normalized code, and
`none` for `SQLITE_DONE`, when there is no such data block. -/
def step_get_block (db : sqlite3) (code : List UChar) : Option block_row :=
  db.current.data_block.find? (fun r => r.name = code)

/-- The functions `cif_normalize_name` and `cif_normalize` of the utilities, which are not
among the sources: each gives a result code and the normalized form. The first one also
validates the name and is given the code to return for an invalid one. -/
structure normalizer where
  cif_normalize_name : List UChar → Int → Int × List UChar
  cif_normalize : List UChar → Int × List UChar

/-- The handle of a data block (`cif_block_t`). -/
structure cif_block_t where
  id : Int
  code : List UChar
  code_orig : List UChar
  parent_id : Int
deriving DecidableEq

/-- `cif_create_block_internal`: the result code, the connection afterwards, and the handle
assigned to `*block` on success. The result without a more specific code (`FAILURE_TERMINUS`)
is taken to be `CIF_ERROR`. -/
def cif_create_block_internal (nz : normalizer) (db : sqlite3) (code : List UChar)
    (lenient : Int) : Int × sqlite3 × Option cif_block_t :=
  let n :=
    if lenient = 0 then nz.cif_normalize_name code CIF_INVALID_BLOCKCODE
    else nz.cif_normalize code
  if n.1 ≠ CIF_OK then (n.1, db, none)
  else
    let b := BEGIN db
    if b.1 = SQLITE_OK then
      let i := insert_container b.2
      if i.1 = SQLITE_OK then
        let st := step_create_block i.2.2 i.2.1 n.2 code
        if st.1 = SQLITE_CONSTRAINT then (CIF_DUP_BLOCKCODE, ROLLBACK st.2, none)
        else if st.1 = SQLITE_DONE then
          let c := COMMIT st.2
          if c.1 = SQLITE_OK then
            (CIF_OK, c.2, some { id := i.2.1, code := n.2, code_orig := code, parent_id := -1 })
          else (CIF_ERROR, ROLLBACK c.2, none)
        else (CIF_ERROR, ROLLBACK st.2, none)
      else (CIF_ERROR, ROLLBACK i.2.2, none)
    else (CIF_ERROR, b.2, none)

/-- `cif_create_block`. -/
def cif_create_block (nz : normalizer) (db : sqlite3) (code : List UChar) :
    Int × sqlite3 × Option cif_block_t :=
  cif_create_block_internal nz db code 0

/-- `cif_get_block`: the result code, the connection afterwards, and the handle assigned to
`*block` on success. -/
def cif_get_block (nz : normalizer) (db : sqlite3) (code : List UChar) :
    Int × sqlite3 × Option cif_block_t :=
  let n := nz.cif_normalize code
  if n.1 ≠ CIF_OK then (n.1, db, none)
  else
    match step_get_block db n.2 with
    | some r =>
      (CIF_OK, db,
        some { id := r.container_id, code := n.2, code_orig := r.name_orig, parent_id := -1 })
    | none => (CIF_NOSUCH_BLOCK, db, none)

/-- The normalized codes of the data blocks of a store. -/
def block_codes (db : sqlite3) : List (List UChar) :=
  db.current.data_block.map block_row.name

/-- The store of a new CIF: no container, no transaction. -/
def empty_store : sqlite3 := { current := { container := [], data_block := [] }, saved := none }

/-- The store after `cif_create_block` has been called for each of the codes in turn,
starting from the store of a new CIF. -/
def created (nz : normalizer) : List (List UChar) → sqlite3
  | [] => empty_store
  | code :: earlier => (cif_create_block nz (created nz earlier) code).2.1

/-- A normalizer for the examples: letters `A` to `Z` are folded to lower case, and a name is
valid unless it is empty. -/
def ascii_normalizer : normalizer :=
  { cif_normalize_name := fun code invalid =>
      if code = [] then (invalid, [])
      else (CIF_OK, code.map (fun c => if 0x41 ≤ c ∧ c ≤ 0x5a then c + 0x20 else c))
    cif_normalize := fun code =>
      (CIF_OK, code.map (fun c => if 0x41 ≤ c ∧ c ≤ 0x5a then c + 0x20 else c)) }

/-! ## The end of `walk_loop`, and handlers that answer by the kind of callback -/

/-- The end of `walk_loop`, on the value of `result` and the state after the loop over the
packets: `if (result != CIF_FINISHED) return result;`, then the loop-end callback. -/
def walk_loop_end {σ : Type} (loop : cif_loop_t) (handler : cif_handler_t σ) (p : Int × σ) :
    Int × σ :=
  if p.1 ≠ CIF_FINISHED then p
  else HANDLER_RESULT handler.handle_loop_end loop p.2 CIF_TRAVERSE_CONTINUE

/-- The eleven kinds of callback. -/
inductive callback_kind where
  | cif_start
  | cif_end
  | block_start
  | block_end
  | frame_start
  | frame_end
  | loop_start
  | loop_end
  | packet_start
  | packet_end
  | item
  deriving DecidableEq, Repr

/-- The kind of callback that an event names. -/
def walk_event.kind : walk_event → callback_kind
  | .cif_start _ => .cif_start
  | .cif_end _ => .cif_end
  | .block_start _ => .block_start
  | .block_end _ => .block_end
  | .frame_start _ => .frame_start
  | .frame_end _ => .frame_end
  | .loop_start _ => .loop_start
  | .loop_end _ => .loop_end
  | .packet_start _ => .packet_start
  | .packet_end _ => .packet_end
  | .item _ => .item

/-- The handler without a state of its own whose callbacks of the kind `kind` return
`CIF_TRAVERSE_SKIP_SIBLINGS` and whose other callbacks return `CIF_TRAVERSE_CONTINUE`. -/
def skipping_siblings_at (kind : callback_kind) : cif_handler_t Unit :=
  { handle_cif_start := some (fun _ s =>
      (if kind = .cif_start then CIF_TRAVERSE_SKIP_SIBLINGS else CIF_TRAVERSE_CONTINUE, s))
    handle_cif_end := some (fun _ s =>
      (if kind = .cif_end then CIF_TRAVERSE_SKIP_SIBLINGS else CIF_TRAVERSE_CONTINUE, s))
    handle_block_start := some (fun _ s =>
      (if kind = .block_start then CIF_TRAVERSE_SKIP_SIBLINGS else CIF_TRAVERSE_CONTINUE, s))
    handle_block_end := some (fun _ s =>
      (if kind = .block_end then CIF_TRAVERSE_SKIP_SIBLINGS else CIF_TRAVERSE_CONTINUE, s))
    handle_frame_start := some (fun _ s =>
      (if kind = .frame_start then CIF_TRAVERSE_SKIP_SIBLINGS else CIF_TRAVERSE_CONTINUE, s))
    handle_frame_end := some (fun _ s =>
      (if kind = .frame_end then CIF_TRAVERSE_SKIP_SIBLINGS else CIF_TRAVERSE_CONTINUE, s))
    handle_loop_start := some (fun _ s =>
      (if kind = .loop_start then CIF_TRAVERSE_SKIP_SIBLINGS else CIF_TRAVERSE_CONTINUE, s))
    handle_loop_end := some (fun _ s =>
      (if kind = .loop_end then CIF_TRAVERSE_SKIP_SIBLINGS else CIF_TRAVERSE_CONTINUE, s))
    handle_packet_start := some (fun _ s =>
      (if kind = .packet_start then CIF_TRAVERSE_SKIP_SIBLINGS else CIF_TRAVERSE_CONTINUE, s))
    handle_packet_end := some (fun _ s =>
      (if kind = .packet_end then CIF_TRAVERSE_SKIP_SIBLINGS else CIF_TRAVERSE_CONTINUE, s))
    handle_item := some (fun _ s =>
      (if kind = .item then CIF_TRAVERSE_SKIP_SIBLINGS else CIF_TRAVERSE_CONTINUE, s)) }

/-- The kinds of the callbacks invoked and the values they returned, in order, when the CIF
is walked by the handler that answers SkipSiblings at `kind`. -/
def skipping_log (kind : callback_kind) (cif : cif_t) : List (callback_kind × Int) :=
  (cif_walk cif (logged (skipping_siblings_at kind)) ((), [])).2.2.map
    (fun e => (e.1.kind, e.2))

end Cif

namespace Linguist

/-! # Theorems -/

/-! ## Facts about `compute_fold_length` -/

theorem fold_category_le_three (allow was_space : Bool) (c : UChar) :
    fold_category allow was_space c ≤ 3 := by
  unfold fold_category
  split
  · split <;> split <;> omega
  · omega

theorem compute_fold_length_fits (fold_start : List UChar) (L T W : Nat) (allow : Bool)
    (h : L ≤ T + W) : compute_fold_length fold_start L T W allow = (L : Int) := by
  unfold compute_fold_length
  rw [if_pos h]

theorem fold_scan_bottom_best_diff (fold_start : List UChar) (T : Nat) (allow : Bool) (W : Nat) :
    ∀ (k : Nat) (s : fold_scan), (k : Int) ≤ W → -((W : Int) + 1) ≤ s.best_diff → s.best_diff < 0 →
      -((W : Int) + 1) ≤ (fold_scan_bottom fold_start T allow k s).best_diff ∧
        (fold_scan_bottom fold_start T allow k s).best_diff < 0 := by
  intro k
  induction k with
  | zero => intro s _ h1 h2; exact ⟨h1, h2⟩
  | succ k ih =>
    intro s hk h1 h2
    simp only [fold_scan_bottom]
    split
    · apply ih
      · push_cast at hk; omega
      · show -((W : Int) + 1) ≤ -((k : Int) + 1); push_cast at hk; omega
      · show -((k : Int) + 1) < 0; omega
    · apply ih
      · push_cast at hk; omega
      · exact h1
      · exact h2

theorem fold_scan_top_best_diff (fold_start : List UChar) (T : Nat) (allow : Bool) (W : Nat) :
    ∀ (n : Nat) (d : Int) (s : fold_scan), 0 ≤ d → d + n = (W : Int) + 1 →
      -((W : Int) + 1) ≤ s.best_diff → s.best_diff ≤ W →
      -((W : Int) + 1) ≤ (fold_scan_top fold_start T allow n d s).best_diff ∧
        (fold_scan_top fold_start T allow n d s).best_diff ≤ W := by
  intro n
  induction n with
  | zero => intro d s _ _ h1 h2; exact ⟨h1, h2⟩
  | succ n ih =>
    intro d s hd hn h1 h2
    simp only [fold_scan_top]
    push_cast at hn
    split
    · exact ⟨by show -((W : Int) + 1) ≤ d; omega, by show d ≤ (W : Int); omega⟩
    · split
      · apply ih (d + 1) _ (by omega) (by omega)
        · show -((W : Int) + 1) ≤ d; omega
        · show d ≤ (W : Int); omega
      · split
        · apply ih (d + 1) _ (by omega) (by omega)
          · show -((W : Int) + 1) ≤ d; omega
          · show d ≤ (W : Int); omega
        · exact ih (d + 1) _ (by omega) (by omega) h1 h2

theorem fold_scan_back_le (fold_start : List UChar) (n : Nat) : fold_scan_back fold_start n ≤ n := by
  induction n with
  | zero => simp [fold_scan_back]
  | succ n ih =>
    simp only [fold_scan_back]
    split
    · exact Nat.le_refl _
    · exact Nat.le_succ_of_le ih

/-- Whatever the line holds, the fold length lies between `0` and `target_length + window` when
the line is longer than that, and is the line length otherwise. -/
theorem compute_fold_length_bounds (fold_start : List UChar) (L T W : Nat) (allow : Bool)
    (hTW : W < T) :
    0 ≤ compute_fold_length fold_start L T W allow ∧
      compute_fold_length fold_start L T W allow ≤ ((T + W : Nat) : Int) ∧
      compute_fold_length fold_start L T W allow ≤ (L : Int) := by
  unfold compute_fold_length
  split
  · refine ⟨by omega, by omega, by omega⟩
  · rename_i hL
    have hb := fold_scan_bottom_best_diff fold_start T allow W W
      { best_category := 0, best_diff := -((W : Int) + 1),
        is_space := is_space_char (fold_start.getD (T - (W + 1)) 0) }
      (le_refl _) (le_refl _) (by show -((W : Int) + 1) < 0; omega)
    have ht : -((W : Int) + 1) ≤ (fold_window_scan fold_start T W allow).best_diff ∧
        (fold_window_scan fold_start T W allow).best_diff ≤ W :=
      fold_scan_top_best_diff fold_start T allow W (W + 1) 0 _
        (le_refl _) (by push_cast; omega) hb.1 (by omega)
    have hs := fold_scan_back_le fold_start (T - (W + 1))
    simp only []
    split
    · refine ⟨by omega, by push_cast; omega, by omega⟩
    · refine ⟨by omega, by omega, by omega⟩

theorem fold_step_category (allow : Bool) (fold_start : List UChar) (T : Nat) (d : Int)
    (sp : Bool)
    (hsp : sp = is_space_char (fold_start.getD (((T : Int) + d).toNat - 1) 0)) :
    fold_category allow sp (fold_start.getD ((T : Int) + d).toNat 0)
      = offset_category allow fold_start T d := by
  subst hsp
  rfl

theorem fold_scan_bottom_inv (fold_start : List UChar) (T : Nat) (allow : Bool) (W : Nat)
    (hTW : W < T) :
    ∀ (k : Nat) (s : fold_scan), k ≤ W →
      s.is_space = is_space_char (fold_start.getD (T - k - 1) 0) →
      scan_inv (offset_category allow fold_start T) W s (-(k : Int)) →
      scan_inv (offset_category allow fold_start T) W (fold_scan_bottom fold_start T allow k s) 0 ∧
        (fold_scan_bottom fold_start T allow k s).is_space
          = is_space_char (fold_start.getD (T - 1) 0) := by
  intro k
  induction k with
  | zero =>
    intro s _ hsp hinv
    exact ⟨by simpa [fold_scan_bottom] using hinv, by simpa [fold_scan_bottom] using hsp⟩
  | succ k ih =>
    intro s hk hsp hinv
    have hidx : ((T : Int) + -((k : Int) + 1)).toNat = T - (k + 1) := by omega
    have hcat := fold_step_category allow fold_start T (-((k : Int) + 1)) s.is_space
      (by rw [hidx, hsp])
    simp only [fold_scan_bottom]
    rw [hcat]
    have hsp' : is_space_char (fold_start.getD ((T : Int) + -((k : Int) + 1)).toNat 0)
        = is_space_char (fold_start.getD (T - k - 1) 0) := by
      rw [hidx]; congr 2
    obtain ⟨hle, hdisj⟩ := hinv
    push_cast at hle hdisj
    split
    · rename_i hge
      apply ih _ (by omega) hsp'
      unfold scan_inv
      dsimp only
      refine ⟨?_, Or.inr ⟨by omega, by omega, rfl, ?_⟩⟩
      · intro d' h1 h2
        rcases (by omega : d' = -((k : Int) + 1) ∨ d' < -((k : Int) + 1)) with h | h
        · subst h; exact le_refl _
        · exact le_trans (hle d' h1 (by omega)) hge
      · intro d' h1 h2 _
        show (-((k : Int) + 1)).natAbs < d'.natAbs ∨
          ((-((k : Int) + 1)).natAbs = d'.natAbs ∧ d' ≤ -((k : Int) + 1))
        omega
    · rename_i hlt
      apply ih _ (by omega) hsp'
      unfold scan_inv
      dsimp only
      refine ⟨?_, ?_⟩
      · intro d' h1 h2
        rcases (by omega : d' = -((k : Int) + 1) ∨ d' < -((k : Int) + 1)) with h | h
        · subst h; exact le_of_lt (not_le.mp hlt)
        · exact hle d' h1 (by omega)
      · rcases hdisj with ⟨h0, _, _⟩ | ⟨hb1, hb2, hb3, hb4⟩
        · exact absurd (Nat.zero_le _) (by rw [h0] at hlt; exact hlt)
        · refine Or.inr ⟨hb1, by omega, hb3, ?_⟩
          intro d' h1 h2 h3
          rcases (by omega : d' = -((k : Int) + 1) ∨ d' < -((k : Int) + 1)) with h | h
          · subst h
            exact absurd (le_of_eq h3.symm) hlt
          · exact hb4 d' h1 (by omega) h3

theorem fold_scan_top_inv (fold_start : List UChar) (T : Nat) (allow : Bool) (W : Nat)
    (hcat3 : ∀ d : Int, 0 ≤ d → d ≤ W → offset_category allow fold_start T d = 3 →
      (∀ d' : Int, 0 ≤ d' → d' < d → offset_category allow fold_start T d' ≠ 3) →
      (∃ q : Int, -(W : Int) ≤ q ∧ q < d ∧ offset_category allow fold_start T q ≠ 0) ∧
      (∀ q : Int, -(W : Int) ≤ q → q < 0 → offset_category allow fold_start T q = 3 → d ≤ -q)) :
    ∀ (n : Nat) (d : Int) (s : fold_scan), 0 ≤ d → d + n = (W : Int) + 1 →
      s.is_space = is_space_char (fold_start.getD (((T : Int) + d).toNat - 1) 0) →
      scan_inv (offset_category allow fold_start T) W s d →
      (∀ d' : Int, 0 ≤ d' → d' < d → offset_category allow fold_start T d' ≠ 3) →
      scan_final (offset_category allow fold_start T) W (fold_scan_top fold_start T allow n d s) := by
  intro n
  induction n with
  | zero =>
    intro d s hd hn _ hinv _
    simp only [fold_scan_top]
    obtain ⟨hle, hdisj⟩ := hinv
    have hdW : d = (W : Int) + 1 := by simpa using hn
    subst hdW
    refine ⟨?_, ?_⟩
    · intro hne
      rcases hdisj with ⟨h0, _, _⟩ | ⟨hb1, hb2, hb3, hb4⟩
      · exact absurd h0 hne
      · refine ⟨hb1, by omega, by rw [hb3]; exact hne, ?_⟩
        intro d' h1 h2
        refine ⟨by rw [hb3]; exact hle d' h1 (by omega), ?_⟩
        intro h3
        exact hb4 d' h1 (by omega) (by rw [h3, hb3])
    · intro h0 d' h1 h2
      have := hle d' h1 (by omega)
      omega
  | succ n ih =>
    intro d s hd hn hsp hinv hno3
    have hcat := fold_step_category allow fold_start T d s.is_space hsp
    have hsp' : is_space_char (fold_start.getD ((T : Int) + d).toNat 0)
        = is_space_char (fold_start.getD (((T : Int) + (d + 1)).toNat - 1) 0) := by
      congr 2; omega
    simp only [fold_scan_top]
    rw [hcat]
    push_cast at hn
    obtain ⟨hle, hdisj⟩ := hinv
    have hno3' : ∀ c : Nat, c = offset_category allow fold_start T d → c ≠ 3 →
        ∀ d' : Int, 0 ≤ d' → d' < d + 1 → offset_category allow fold_start T d' ≠ 3 := by
      intro c hc hc3 d' h1 h2
      rcases (by omega : d' = d ∨ d' < d) with h | h
      · subst h; rw [← hc]; exact hc3
      · exact hno3 d' h1 h
    split
    · rename_i h3
      obtain ⟨⟨q, hq1, hq2, hq3⟩, hlow⟩ := hcat3 d hd (by omega) h3 hno3
      have hbest : s.best_category ≠ 0 := by
        have := hle q hq1 hq2
        omega
      unfold scan_final
      dsimp only
      refine ⟨fun _ => ⟨by omega, by omega, by omega, ?_⟩, fun h0 => absurd h0 hbest⟩
      intro d' h1 h2
      rw [h3]
      refine ⟨fold_category_le_three _ _ _, ?_⟩
      intro h4
      rcases (by omega : d' < 0 ∨ (0 ≤ d' ∧ d' < d) ∨ d ≤ d') with h | h | h
      · have := hlow d' h1 h h4
        omega
      · exact absurd h4 (hno3 d' h.1 h.2)
      · omega
    · rename_i hne3
      split
      · rename_i hgt
        apply ih (d + 1) _ (by omega) (by omega) hsp' _ (hno3' _ rfl hne3)
        unfold scan_inv
        dsimp only
        refine ⟨?_, Or.inr ⟨by omega, by omega, rfl, ?_⟩⟩
        · intro d' h1 h2
          rcases (by omega : d' = d ∨ d' < d) with h | h
          · subst h; exact le_refl _
          · exact le_of_lt (lt_of_le_of_lt (hle d' h1 h) hgt)
        · intro d' h1 h2 h3
          rcases (by omega : d' = d ∨ d' < d) with h | h
          · subst h; omega
          · have := hle d' h1 h
            omega
      · rename_i hngt
        split
        · rename_i heq
          obtain ⟨heq1, heq2⟩ := heq
          apply ih (d + 1) _ (by omega) (by omega) hsp' _ (hno3' _ rfl hne3)
          unfold scan_inv
          dsimp only
          refine ⟨?_, Or.inr ⟨by omega, by omega, rfl, ?_⟩⟩
          · intro d' h1 h2
            rcases (by omega : d' = d ∨ d' < d) with h | h
            · subst h; exact le_refl _
            · rw [heq1]; exact hle d' h1 h
          · intro d' h1 h2 h3
            rcases (by omega : d' = d ∨ d' < d) with h | h
            · subst h; omega
            · rcases hdisj with ⟨_, _, h0⟩ | ⟨hb1, hb2, hb3, hb4⟩
              · omega
              · have := hb4 d' h1 h (by rw [h3, heq1])
                omega
        · rename_i hneq
          apply ih (d + 1) _ (by omega) (by omega) hsp' _ (hno3' _ rfl hne3)
          unfold scan_inv
          dsimp only
          have hcle : offset_category allow fold_start T d ≤ s.best_category := not_lt.mp hngt
          refine ⟨?_, ?_⟩
          · intro d' h1 h2
            rcases (by omega : d' = d ∨ d' < d) with h | h
            · subst h; exact hcle
            · exact hle d' h1 h
          · rcases hdisj with ⟨h0, h0', h0''⟩ | ⟨hb1, hb2, hb3, hb4⟩
            · exfalso
              apply hneq
              refine ⟨by omega, by omega⟩
            · refine Or.inr ⟨hb1, by omega, hb3, ?_⟩
              intro d' h1 h2 h3
              rcases (by omega : d' = d ∨ d' < d) with h | h
              · subst h
                have : ¬ (d' ≤ -s.best_diff) := fun hh => hneq ⟨h3, hh⟩
                omega
              · exact hb4 d' h1 h h3

theorem fold_scan_back_all_semi (fold_start : List UChar) :
    ∀ n : Nat, (∀ i : Nat, 1 ≤ i → i ≤ n → fold_start.getD i 0 = UCHAR_SEMI) →
      fold_scan_back fold_start n = 0 := by
  intro n
  induction n with
  | zero => intro _; rfl
  | succ n ih =>
    intro h
    simp only [fold_scan_back]
    rw [if_neg (by simpa using h (n + 1) (by omega) (le_refl _))]
    exact ih (fun i h1 h2 => h i h1 (by omega))

theorem fold_scan_back_nearest (fold_start : List UChar) (q : Nat) (hq : 1 ≤ q)
    (hne : fold_start.getD q 0 ≠ UCHAR_SEMI) :
    ∀ n : Nat, q ≤ n → (∀ i : Nat, q < i → i ≤ n → fold_start.getD i 0 = UCHAR_SEMI) →
      fold_scan_back fold_start n = q := by
  intro n
  induction n with
  | zero => intro h _; omega
  | succ n ih =>
    intro h1 h2
    simp only [fold_scan_back]
    rcases (by omega : q = n + 1 ∨ q ≤ n) with h | h
    · subst h
      rw [if_pos hne]
    · rw [if_neg (by simpa using h2 (n + 1) (by omega) (le_refl _))]
      exact ih h (fun i h3 h4 => h2 i h3 (by omega))

theorem fold_window_scan_final (fold_start : List UChar) (T W : Nat) (allow : Bool) (hTW : W < T)
    (hcat3 : ∀ d : Int, 0 ≤ d → d ≤ W → offset_category allow fold_start T d = 3 →
      (∀ d' : Int, 0 ≤ d' → d' < d → offset_category allow fold_start T d' ≠ 3) →
      (∃ q : Int, -(W : Int) ≤ q ∧ q < d ∧ offset_category allow fold_start T q ≠ 0) ∧
      (∀ q : Int, -(W : Int) ≤ q → q < 0 → offset_category allow fold_start T q = 3 → d ≤ -q)) :
    scan_final (offset_category allow fold_start T) W (fold_window_scan fold_start T W allow) := by
  unfold fold_window_scan
  have hb := fold_scan_bottom_inv fold_start T allow W hTW W
    { best_category := 0, best_diff := -((W : Int) + 1),
      is_space := is_space_char (fold_start.getD (T - (W + 1)) 0) }
    (le_refl _) (by show is_space_char _ = is_space_char _; congr 2)
    ⟨fun d' h1 h2 => by omega, Or.inl ⟨rfl, rfl, rfl⟩⟩
  refine fold_scan_top_inv fold_start T allow W hcat3 (W + 1) 0 _ (le_refl _) (by push_cast; omega)
    ?_ hb.1 (fun d' h1 h2 => by omega)
  rw [hb.2]
  congr 2

theorem compute_fold_length_of_scan (fold_start : List UChar) (L T W : Nat) (allow : Bool)
    (hL : T + W < L) (h0 : (fold_window_scan fold_start T W allow).best_category = 0) :
    compute_fold_length fold_start L T W allow
      = (fold_scan_back fold_start (T - (W + 1)) : Int) := by
  unfold compute_fold_length
  rw [if_neg (by omega)]
  simp only []
  rw [if_neg (by simpa using h0)]

/-- Fold-point selection as the code performs it, for a line longer than `T + W`, away from the
two cases in which the `break` at the first category-3 boundary of the upper half, at offset
`d`, goes wrong: nothing below `d` in the window is above category 0, so that `best_category`
is still 0, or a category-3 boundary of the lower half is nearer to the target than `d`. -/
theorem compute_fold_length_selects (fold_start : List UChar) (L T W : Nat) (allow : Bool)
    (hTW : W < T) (hL : T + W < L)
    (hcat3 : ∀ d : Int, 0 ≤ d → d ≤ W → offset_category allow fold_start T d = 3 →
      (∀ d' : Int, 0 ≤ d' → d' < d → offset_category allow fold_start T d' ≠ 3) →
      (∃ q : Int, -(W : Int) ≤ q ∧ q < d ∧ offset_category allow fold_start T q ≠ 0) ∧
      (∀ q : Int, -(W : Int) ≤ q → q < 0 → offset_category allow fold_start T q = 3 → d ≤ -q)) :
    ((∃ d : Int, -(W : Int) ≤ d ∧ d ≤ W ∧ offset_category allow fold_start T d ≠ 0) →
      ∃ d : Int, -(W : Int) ≤ d ∧ d ≤ W ∧
        compute_fold_length fold_start L T W allow = (T : Int) + d ∧
        ∀ d' : Int, -(W : Int) ≤ d' → d' ≤ W →
          offset_category allow fold_start T d' ≤ offset_category allow fold_start T d ∧
          (offset_category allow fold_start T d' = offset_category allow fold_start T d →
            d.natAbs < d'.natAbs ∨ (d.natAbs = d'.natAbs ∧ d' ≤ d))) ∧
    ((∀ d : Int, -(W : Int) ≤ d → d ≤ W → offset_category allow fold_start T d = 0) →
      ∀ q : Nat, 1 ≤ q → q ≤ T - (W + 1) → fold_start.getD q 0 ≠ UCHAR_SEMI →
        (∀ i : Nat, q < i → i ≤ T - (W + 1) → fold_start.getD i 0 = UCHAR_SEMI) →
        compute_fold_length fold_start L T W allow = (q : Int)) := by
  have hfin := fold_window_scan_final fold_start T W allow hTW hcat3
  obtain ⟨hpos, hzero⟩ := hfin
  refine ⟨?_, ?_⟩
  · rintro ⟨d, hd1, hd2, hd3⟩
    have hne : (fold_window_scan fold_start T W allow).best_category ≠ 0 := by
      intro h0
      exact hd3 (hzero h0 d hd1 hd2)
    obtain ⟨h1, h2, _, h4⟩ := hpos hne
    refine ⟨_, h1, h2, ?_, h4⟩
    unfold compute_fold_length
    rw [if_neg (by omega)]
    simp only []
    rw [if_pos hne]
  · intro hall q hq1 hq2 hq3 hq4
    have h0 : (fold_window_scan fold_start T W allow).best_category = 0 := by
      by_contra hne
      obtain ⟨h1, h2, h3, _⟩ := hpos hne
      exact h3 (hall _ h1 h2)
    rw [compute_fold_length_of_scan fold_start L T W allow hL h0,
      fold_scan_back_nearest fold_start q hq1 hq3 _ hq2 hq4]

/-- The second window loop from offset `d0`, when the first category-3 boundary at or after
`d0` is at offset `d`: the loop ends there with `best_diff = d`, and `best_category` is 0
exactly if it was 0 before and the boundaries from `d0` to `d - 1` have category 0. -/
theorem fold_scan_top_break (fold_start : List UChar) (T : Nat) (allow : Bool) :
    ∀ (n : Nat) (d0 : Int) (s : fold_scan) (d : Int), 0 ≤ d0 → d0 ≤ d → d < d0 + n →
      s.is_space = is_space_char (fold_start.getD (((T : Int) + d0).toNat - 1) 0) →
      offset_category allow fold_start T d = 3 →
      (∀ d' : Int, d0 ≤ d' → d' < d → offset_category allow fold_start T d' ≠ 3) →
      (fold_scan_top fold_start T allow n d0 s).best_diff = d ∧
        ((fold_scan_top fold_start T allow n d0 s).best_category = 0 ↔
          s.best_category = 0 ∧
            ∀ d' : Int, d0 ≤ d' → d' < d → offset_category allow fold_start T d' = 0) := by
  intro n
  induction n with
  | zero =>
    intro d0 s d _ h1 h2
    simp only [Nat.cast_zero, add_zero] at h2
    omega
  | succ n ih =>
    intro d0 s d h0 h1 h2 hsp h3 hno3
    have hcat := fold_step_category allow fold_start T d0 s.is_space hsp
    have hsp' : is_space_char (fold_start.getD ((T : Int) + d0).toNat 0)
        = is_space_char (fold_start.getD (((T : Int) + (d0 + 1)).toNat - 1) 0) := by
      congr 2; omega
    simp only [fold_scan_top]
    rw [hcat]
    push_cast at h2
    rcases (by omega : d0 = d ∨ d0 < d) with h | h
    · subst h
      rw [if_pos h3]
      refine ⟨rfl, ?_⟩
      constructor
      · intro hz
        exact ⟨hz, fun d' h4 h5 => by omega⟩
      · intro hz
        exact hz.1
    · have hne3 := hno3 d0 (le_refl _) h
      have hno3' : ∀ d' : Int, d0 + 1 ≤ d' → d' < d →
          offset_category allow fold_start T d' ≠ 3 :=
        fun d' h4 h5 => hno3 d' (by omega) h5
      have hall : ∀ c : Nat,
          (c = 0 ∧ ∀ d' : Int, d0 + 1 ≤ d' → d' < d →
            offset_category allow fold_start T d' = 0) →
          offset_category allow fold_start T d0 ≤ c →
          ∀ d' : Int, d0 ≤ d' → d' < d → offset_category allow fold_start T d' = 0 := by
        intro c hc hle d' h4 h5
        rcases (by omega : d' = d0 ∨ d0 + 1 ≤ d') with h6 | h6
        · subst h6; omega
        · exact hc.2 d' h6 h5
      rw [if_neg hne3]
      split
      · rename_i hgt
        obtain ⟨hb, hiff⟩ := ih (d0 + 1)
          { best_category := offset_category allow fold_start T d0, best_diff := d0,
            is_space := is_space_char (fold_start.getD ((T : Int) + d0).toNat 0) }
          d (by omega) (by omega) (by omega) hsp' h3 hno3'
        refine ⟨hb, ?_⟩
        rw [hiff]
        constructor
        · intro hz
          have : offset_category allow fold_start T d0 = 0 := hz.1
          omega
        · intro hz
          have := hz.2 d0 (le_refl _) h
          omega
      · rename_i hngt
        split
        · rename_i heq
          obtain ⟨hb, hiff⟩ := ih (d0 + 1)
            { best_category := offset_category allow fold_start T d0, best_diff := d0,
              is_space := is_space_char (fold_start.getD ((T : Int) + d0).toNat 0) }
            d (by omega) (by omega) (by omega) hsp' h3 hno3'
          refine ⟨hb, ?_⟩
          rw [hiff]
          constructor
          · intro hz
            have hz1 : offset_category allow fold_start T d0 = 0 := hz.1
            exact ⟨by rw [← heq.1]; exact hz1, hall 0 ⟨rfl, hz.2⟩ (by omega)⟩
          · intro hz
            exact ⟨hz.2 d0 (le_refl _) h, fun d' h4 h5 => hz.2 d' (by omega) h5⟩
        · obtain ⟨hb, hiff⟩ := ih (d0 + 1)
            { best_category := s.best_category, best_diff := s.best_diff,
              is_space := is_space_char (fold_start.getD ((T : Int) + d0).toNat 0) }
            d (by omega) (by omega) (by omega) hsp' h3 hno3'
          refine ⟨hb, ?_⟩
          rw [hiff]
          constructor
          · intro hz
            have hz1 : s.best_category = 0 := hz.1
            exact ⟨hz1, hall s.best_category ⟨hz1, hz.2⟩ (not_lt.mp hngt)⟩
          · intro hz
            exact ⟨hz.1, fun d' h4 h5 => hz.2 d' (by omega) h5⟩

/-- What `compute_fold_length` returns, for a line longer than `T + W`, when the offsets `0..W`
hold a category-3 boundary, the first of them at offset `d`: `T + d` if a boundary at an
offset `-W..d-1` has a category other than 0, whether or not a category-3 boundary of the
offsets `-W..-1` is nearer, and the result of the backward scan otherwise. -/
theorem compute_fold_length_at_break (fold_start : List UChar) (L T W : Nat) (allow : Bool)
    (hTW : W < T) (hL : T + W < L) (d : Int) (hd0 : 0 ≤ d) (hdW : d ≤ W)
    (h3 : offset_category allow fold_start T d = 3)
    (hfirst : ∀ d' : Int, 0 ≤ d' → d' < d → offset_category allow fold_start T d' ≠ 3) :
    ((∃ q : Int, -(W : Int) ≤ q ∧ q < d ∧ offset_category allow fold_start T q ≠ 0) →
      compute_fold_length fold_start L T W allow = (T : Int) + d) ∧
    ((∀ q : Int, -(W : Int) ≤ q → q < d → offset_category allow fold_start T q = 0) →
      compute_fold_length fold_start L T W allow
        = (fold_scan_back fold_start (T - (W + 1)) : Int)) := by
  have hb := fold_scan_bottom_inv fold_start T allow W hTW W
    { best_category := 0, best_diff := -((W : Int) + 1),
      is_space := is_space_char (fold_start.getD (T - (W + 1)) 0) }
    (le_refl _) (by show is_space_char _ = is_space_char _; congr 2)
    ⟨fun d' h1 h2 => by omega, Or.inl ⟨rfl, rfl, rfl⟩⟩
  obtain ⟨⟨hle, hdisj⟩, hsp⟩ := hb
  have ht := fold_scan_top_break fold_start T allow (W + 1) 0 _ d (le_refl _) hd0
    (by push_cast; omega) (by rw [hsp]; congr 2) h3 hfirst
  obtain ⟨hdiff, hiff⟩ := ht
  have hscan : (fold_window_scan fold_start T W allow).best_category = 0 ↔
      ∀ q : Int, -(W : Int) ≤ q → q < d → offset_category allow fold_start T q = 0 := by
    unfold fold_window_scan
    simp only []
    rw [hiff]
    constructor
    · rintro ⟨hz, hup⟩ q hq1 hq2
      rcases (by omega : q < 0 ∨ 0 ≤ q) with h | h
      · have := hle q hq1 h
        omega
      · exact hup q h hq2
    · intro hall
      refine ⟨?_, fun d' h4 h5 => hall d' (by omega) h5⟩
      rcases hdisj with ⟨hz, _, _⟩ | ⟨hb1, hb2, hb3, _⟩
      · exact hz
      · rw [← hb3]
        exact hall _ hb1 (by omega)
  have hbest : (fold_window_scan fold_start T W allow).best_diff = d := hdiff
  refine ⟨?_, ?_⟩
  · rintro ⟨q, hq1, hq2, hq3⟩
    have hne : (fold_window_scan fold_start T W allow).best_category ≠ 0 :=
      fun hz => hq3 (hscan.mp hz q hq1 hq2)
    unfold compute_fold_length
    rw [if_neg (by omega)]
    simp only []
    rw [if_pos hne, hbest]
  · intro hall
    exact compute_fold_length_of_scan fold_start L T W allow hL (hscan.mpr hall)

/-! ### Concrete lines -/

theorem getD_replicate_append_left (n : Nat) (a : UChar) (l : List UChar) (i : Nat) (h : i < n) :
    (List.replicate n a ++ l).getD i 0 = a := by
  simp [List.getD_eq_getElem?_getD, List.getElem?_append_left, h]

theorem semicolon_line_length : semicolon_line.length = 2048 := by
  simp only [semicolon_line, List.length_append, List.length_replicate, List.length_cons,
    List.length_nil]

theorem semicolon_line_scan :
    (fold_window_scan semicolon_line 2039 8 false).best_category = 0 := by decide!

theorem semicolon_line_fold : compute_fold_length semicolon_line 2048 2039 8 false = 0 := by
  rw [compute_fold_length_of_scan semicolon_line 2048 2039 8 false (by decide) semicolon_line_scan,
    fold_scan_back_all_semi]
  · rfl
  · intro i h1 h2
    obtain ⟨j, rfl⟩ : ∃ j, i = j + 1 := ⟨i - 1, by omega⟩
    show (List.replicate 2045 UCHAR_SEMI ++ [UCHAR_SP, UCHAR_SEMI]).getD j 0 = UCHAR_SEMI
    exact getD_replicate_append_left _ _ _ _ (by omega)

theorem tie_line_fold : compute_fold_length tie_line 2048 2039 8 false = 2041 := by decide!

theorem tie_line_categories :
    offset_category false tie_line 2039 (-2) = 1 ∧ offset_category false tie_line 2039 2 = 1 := by
  decide!

theorem tie_line_window (d : Int) (h1 : -8 ≤ d) (h2 : d ≤ 8) :
    offset_category false tie_line 2039 d ≤ 1 := by
  interval_cases d <;> decide!

theorem stale_line_fold : compute_fold_length stale_line 2048 2039 8 false = 2030 := by
  have h0 : (fold_window_scan stale_line 2039 8 false).best_category = 0 := by decide!
  rw [compute_fold_length_of_scan stale_line 2048 2039 8 false (by decide) h0,
    fold_scan_back_nearest stale_line 2030 (by decide) (by decide!) _ (by decide)
      (fun i h1 h2 => by omega)]
  rfl

/-! ## Physical lines of a folded text field -/

theorem physical_lines_append_lf (chunk rest : List UChar) (h : ∀ c ∈ chunk, c ≠ UCHAR_LF) :
    physical_lines (chunk ++ UCHAR_LF :: rest) = chunk :: physical_lines rest := by
  induction chunk with
  | nil => simp [physical_lines]
  | cons c cs ih =>
    have hc : c ≠ UCHAR_LF := h c (List.mem_cons_self _ _)
    have ih' := ih (fun x hx => h x (List.mem_cons_of_mem _ hx))
    simp only [List.cons_append, physical_lines, if_neg hc, List.append_eq, ih']

theorem lines_within_chunk (n : Nat) (chunk rest : List UChar) (h : ∀ c ∈ chunk, c ≠ UCHAR_LF)
    (hlen : chunk.length ≤ n) (hrest : lines_within n rest) :
    lines_within n (chunk ++ UCHAR_LF :: rest) := by
  intro l hl
  rw [physical_lines_append_lf chunk rest h] at hl
  rcases List.mem_cons.mp hl with h1 | h1
  · rw [h1]; exact hlen
  · exact hrest l h1

theorem fold_target_window ( do_prefix : Bool) : FOLD_WINDOW < fold_target do_prefix := by
  cases do_prefix <;> decide

theorem fold_target_sum ( do_prefix : Bool) :
    (if do_prefix then PREFIX else []).length + (fold_target do_prefix + FOLD_WINDOW) + 1
      = MAX_LINE_LENGTH := by
  cases do_prefix <;> decide

theorem prefix_no_lf ( do_prefix : Bool) : ∀ c ∈ (if do_prefix then PREFIX else []), c ≠ UCHAR_LF := by
  cases do_prefix <;> decide

theorem print_fold_segment_lines ( do_prefix : Bool) (fold_start : List UChar)
    (hno : ∀ c ∈ fold_start, c ≠ UCHAR_LF) (rest : List UChar)
    (hrest : lines_within MAX_LINE_LENGTH rest) :
    lines_within MAX_LINE_LENGTH
      (print_fold_segment do_prefix fold_start
        (compute_fold_length fold_start fold_start.length (fold_target do_prefix) FOLD_WINDOW
          do_prefix) ++ rest) := by
  have hb := compute_fold_length_bounds fold_start fold_start.length (fold_target do_prefix)
    FOLD_WINDOW do_prefix (fold_target_window do_prefix)
  have hsum := fold_target_sum do_prefix
  generalize compute_fold_length fold_start fold_start.length (fold_target do_prefix) FOLD_WINDOW
    do_prefix = fold_len at hb
  have htake : (fold_start.take fold_len.toNat).length ≤ fold_target do_prefix + FOLD_WINDOW := by
    rw [List.length_take]
    omega
  have hpno := prefix_no_lf do_prefix
  unfold print_fold_segment
  simp only []
  generalize (if do_prefix then PREFIX else []) = pre at hsum hpno
  have hno1 : ∀ c ∈ pre ++ fold_start.take fold_len.toNat, c ≠ UCHAR_LF := by
    intro c hc
    rcases List.mem_append.mp hc with h | h
    · exact hpno c h
    · exact hno c (List.mem_of_mem_take h)
  have hno2 : ∀ c ∈ pre ++ fold_start.take fold_len.toNat ++ [UCHAR_BSL], c ≠ UCHAR_LF := by
    intro c hc
    rcases List.mem_append.mp hc with h | h
    · exact hno1 c h
    · rw [List.mem_singleton.mp h]; decide
  have hlen1 : (pre ++ fold_start.take fold_len.toNat).length ≤ MAX_LINE_LENGTH := by
    rw [List.length_append]; omega
  have hlen2 : (pre ++ fold_start.take fold_len.toNat ++ [UCHAR_BSL]).length
      ≤ MAX_LINE_LENGTH := by
    rw [List.length_append, List.length_append, List.length_singleton]; omega
  split
  · split
    · have h0 : lines_within MAX_LINE_LENGTH ([] ++ UCHAR_LF :: rest) :=
        lines_within_chunk MAX_LINE_LENGTH [] rest (by simp) (by simp) hrest
      have := lines_within_chunk MAX_LINE_LENGTH _ _ hno2 hlen2 h0
      simpa using this
    · have := lines_within_chunk MAX_LINE_LENGTH _ rest hno1 hlen1 hrest
      simpa using this
  · have := lines_within_chunk MAX_LINE_LENGTH _ rest hno2 hlen2 hrest
    simpa using this

theorem print_folded_line_lines (NDEBUG do_prefix : Bool) :
    ∀ (fuel : Nat) (fold_start w : List UChar), (∀ c ∈ fold_start, c ≠ UCHAR_LF) →
      print_folded_line NDEBUG do_prefix fuel fold_start = some w →
      ∀ rest, lines_within MAX_LINE_LENGTH rest → lines_within MAX_LINE_LENGTH (w ++ rest) := by
  intro fuel
  induction fuel with
  | zero => intro fold_start w _ h; simp [print_folded_line] at h
  | succ fuel ih =>
    intro fold_start w hno h rest hrest
    simp only [print_folded_line] at h
    split at h
    · exact absurd h (by simp)
    · split at h
      · cases hrec : print_folded_line NDEBUG do_prefix fuel
          (fold_start.drop (compute_fold_length fold_start fold_start.length
            (fold_target do_prefix) FOLD_WINDOW do_prefix).toNat) with
        | none => rw [hrec] at h; simp at h
        | some w' =>
          rw [hrec] at h
          simp only [Option.map_some', Option.some.injEq] at h
          subst h
          have h1 := ih _ w' (fun c hc => hno c (List.mem_of_mem_drop hc)) hrec rest hrest
          have := print_fold_segment_lines do_prefix fold_start hno (w' ++ rest) h1
          simpa using this
      · simp only [Option.some.injEq] at h
        subst h
        exact print_fold_segment_lines do_prefix fold_start hno rest hrest

theorem print_text_lines_lines (NDEBUG do_prefix : Bool) :
    ∀ (fuel : Nat) (line_start w : List UChar),
      print_text_lines NDEBUG true do_prefix fuel line_start = some w →
      ∀ rest, lines_within MAX_LINE_LENGTH rest → lines_within MAX_LINE_LENGTH (w ++ rest) := by
  intro fuel
  induction fuel with
  | zero => intro line_start w h; simp [print_text_lines] at h
  | succ fuel ih =>
    intro line_start w h rest hrest
    simp only [print_text_lines] at h
    split at h
    · simp only [Option.some.injEq] at h
      subst h
      simpa using hrest
    · have hno : ∀ c ∈ line_start.takeWhile (fun c => !is_line_term c), c ≠ UCHAR_LF := by
        intro c hc hEq
        have := List.mem_takeWhile_imp hc
        subst hEq
        simp [is_line_term] at this
      simp only [not_true_eq_false, if_false] at h
      cases hline : print_folded_line NDEBUG do_prefix
          ((line_start.takeWhile (fun c => !is_line_term c)).length + 1)
          (line_start.takeWhile (fun c => !is_line_term c)) with
      | none => rw [hline] at h; simp at h
      | some w1 =>
        rw [hline] at h
        simp only [] at h
        have hw1 := print_folded_line_lines NDEBUG do_prefix _ _ w1 hno hline
        split at h
        · simp only [Option.some.injEq] at h
          subst h
          exact hw1 rest hrest
        · rename_i next _
          cases hrec : print_text_lines NDEBUG true do_prefix fuel next with
          | none => rw [hrec] at h; simp at h
          | some w2 =>
            rw [hrec] at h
            simp only [Option.map_some', Option.some.injEq] at h
            subst h
            have := hw1 (w2 ++ rest) (ih next w2 hrec rest hrest)
            simpa using this

theorem lines_within_semi : lines_within MAX_LINE_LENGTH [UCHAR_SEMI] := by
  intro l hl
  have : l = [UCHAR_SEMI] := by simpa [physical_lines, UCHAR_SEMI, UCHAR_LF] using hl
  subst this
  decide

theorem print_text_field_folded_lines (NDEBUG : Bool) (str : List UChar) ( do_prefix : Bool)
    (ctx : context) (r : Int × context)
    (h : print_text_field NDEBUG str true do_prefix ctx = some r) :
    ∃ w, r.2.out = ctx.out ++ w ∧ lines_within MAX_LINE_LENGTH w := by
  unfold print_text_field at h
  simp only [Bool.or_true, not_true_eq_false, if_false, if_true] at h
  cases hbody : print_text_lines NDEBUG true do_prefix (str.length + 1) str with
  | none => rw [hbody] at h; simp at h
  | some body =>
    rw [hbody] at h
    simp only [Option.some.injEq] at h
    subst h
    refine ⟨_, rfl, ?_⟩
    have h1 := print_text_lines_lines NDEBUG do_prefix _ str body hbody [UCHAR_SEMI]
      lines_within_semi
    have hopen : ∀ c ∈ UCHAR_SEMI :: ((if do_prefix then PREFIX ++ [UCHAR_BSL] else [])
        ++ [UCHAR_BSL]), c ≠ UCHAR_LF := by
      cases do_prefix <;> decide
    have hlen : (UCHAR_SEMI :: ((if do_prefix then PREFIX ++ [UCHAR_BSL] else [])
        ++ [UCHAR_BSL])).length ≤ MAX_LINE_LENGTH := by
      cases do_prefix <;> decide
    have h2 := lines_within_chunk MAX_LINE_LENGTH _ _ hopen hlen h1
    have h3 := lines_within_chunk MAX_LINE_LENGTH [] _ (by simp) (by simp) h2
    simpa using h3

/-! ## A long line of ordinary characters -/

theorem fold_category_plain (a b : UChar) (ha : plain_char a) (hb : plain_char b) :
    fold_category false (is_space_char a) b = 1 := by
  obtain ⟨ha1, ha2, _⟩ := ha
  obtain ⟨hb1, hb2, hb3, _⟩ := hb
  simp [fold_category, is_space_char, ha1, ha2, hb1, hb2, hb3]

theorem getD_plain (xs : List UChar) (h : ∀ c ∈ xs, plain_char c) (i : Nat) (hi : i < xs.length) :
    plain_char (xs.getD i 0) := by
  rw [List.getD_eq_getElem xs 0 hi]
  exact h _ (List.getElem_mem hi)

theorem offset_category_plain (xs : List UChar) (T W : Nat) (hTW : W < T)
    (hlen : T + W < xs.length) (h : ∀ c ∈ xs, plain_char c) (d : Int) (h1 : -(W : Int) ≤ d)
    (h2 : d ≤ W) : offset_category false xs T d = 1 := by
  unfold offset_category boundary_category
  exact fold_category_plain _ _ (getD_plain xs h _ (by omega)) (getD_plain xs h _ (by omega))

theorem compute_fold_length_plain (xs : List UChar) (L T W : Nat) (hTW : W < T) (hL : T + W < L)
    (hlen : L ≤ xs.length) (h : ∀ c ∈ xs, plain_char c) :
    compute_fold_length xs L T W false = (T : Int) := by
  have hcat := offset_category_plain xs T W hTW (by omega) h
  have hsel := (compute_fold_length_selects xs L T W false hTW hL (by
    intro d h1 h2 h3 _
    rw [hcat d (by omega) h2] at h3
    omega)).1 ⟨0, by omega, by omega, by rw [hcat 0 (by omega) (by omega)]; omega⟩
  obtain ⟨d, hd1, hd2, hres, hbest⟩ := hsel
  have := (hbest 0 (by omega) (by omega)).2
    (by rw [hcat 0 (by omega) (by omega), hcat d hd1 hd2])
  rw [hres]
  omega

theorem print_folded_line_two (NDEBUG : Bool) (fuel : Nat) (xs : List UChar)
    (hlen : xs.length = 3000) (h : ∀ c ∈ xs, plain_char c) (hlast : xs.getD 2999 0 ≠ UCHAR_BSL) :
    print_folded_line NDEBUG false (fuel + 2) xs
      = some (xs.take 2039 ++ [UCHAR_BSL, UCHAR_LF] ++ (xs.drop 2039 ++ [UCHAR_LF])) := by
  have h1 : compute_fold_length xs xs.length (fold_target false) FOLD_WINDOW false = 2039 := by
    rw [hlen]
    exact compute_fold_length_plain xs 3000 2039 8 (by decide) (by decide) (by omega) h
  have hdl : (xs.drop 2039).length = 961 := by rw [List.length_drop, hlen]
  have h2 : compute_fold_length (xs.drop 2039) (xs.drop 2039).length (fold_target false)
      FOLD_WINDOW false = 961 := by
    rw [compute_fold_length_fits _ _ _ _ _ (by rw [hdl]; decide), hdl]
    rfl
  have hl := getD_plain xs h 2999 (by omega)
  have hlast' : (xs.drop 2039).getD 960 0 = xs.getD 2999 0 := by
    simp [List.getD_eq_getElem?_getD, List.getElem?_drop]
  have hseg1 : print_fold_segment false xs 2039 = xs.take 2039 ++ [UCHAR_BSL, UCHAR_LF] := by
    unfold print_fold_segment
    simp [hlen]
  have hseg2 : print_fold_segment false (xs.drop 2039) 961 = xs.drop 2039 ++ [UCHAR_LF] := by
    unfold print_fold_segment
    have e1 : ((961 : Int) - 1).toNat = 960 := by decide
    have e2 : (961 : Int).toNat = 961 := by decide
    simp only [hdl, e1, e2, hlast']
    obtain ⟨hl1, hl2, _⟩ := hl
    have : List.take 961 (List.drop 2039 xs) = List.drop 2039 xs := by
      rw [List.take_of_length_le (by omega)]
    simp [hl1, hl2, hlast, this, UCHAR_SP, UCHAR_TAB, UCHAR_BSL] at hl1 hl2 hlast ⊢
    exact ⟨⟨hl1, hl2⟩, hlast⟩
  have e3 : (2039 : Int).toNat = 2039 := by decide
  have e4 : (961 : Int).toNat = 961 := by decide
  rw [print_folded_line]
  simp only []
  rw [h1, if_neg (by rw [hlen]; simp), hseg1, e3, if_pos (by rw [hdl]; decide)]
  rw [print_folded_line]
  simp only []
  rw [h2, if_neg (by rw [hdl]; simp), hseg2, e4, if_neg (by rw [List.length_drop, hdl]; decide)]
  simp

theorem print_text_field_long_line (NDEBUG : Bool) (ctx : context) (xs : List UChar)
    (hlen : xs.length = 3000) (h : ∀ c ∈ xs, plain_char c) (hlast : xs.getD 2999 0 ≠ UCHAR_BSL) :
    print_text_field NDEBUG xs true false ctx
      = some (CIF_OK,
          { ctx with
            out := ctx.out ++ ([UCHAR_LF, UCHAR_SEMI, UCHAR_BSL, UCHAR_LF] ++ xs.take 2039
              ++ [UCHAR_BSL, UCHAR_LF] ++ xs.drop 2039 ++ [UCHAR_LF, UCHAR_SEMI])
            column := 1 }) := by
  have hne : xs ≠ [] := by
    intro h0
    rw [h0] at hlen
    simp at hlen
  have htw : xs.takeWhile (fun c => !is_line_term c) = xs := by
    rw [List.takeWhile_eq_self_iff]
    intro c hc
    obtain ⟨_, _, _, h4, h5⟩ := h c hc
    simp [is_line_term, h4, h5]
  unfold print_text_field
  simp only [Bool.or_true, not_true_eq_false, if_false, if_true]
  rw [hlen, print_text_lines]
  simp only [if_neg hne, htw, not_true_eq_false, if_false, hlen]
  rw [print_folded_line_two NDEBUG 2999 xs hlen h hlast]
  have hdrop : List.drop 3000 xs = [] := by
    rw [List.drop_eq_nil_iff]; omega
  simp [hdrop]

/-! ## Evaluations -/

theorem physical_lines_no_lf (out : List UChar) (h : ∀ c ∈ out, c ≠ UCHAR_LF) :
    physical_lines out = [out] := by
  induction out with
  | nil => rfl
  | cons c cs ih =>
    have hc : c ≠ UCHAR_LF := h c (List.mem_cons_self _ _)
    simp only [physical_lines, if_neg hc, ih (fun x hx => h x (List.mem_cons_of_mem _ hx))]

theorem print_folded_line_stuck (xs : List UChar) (hlen : 0 < xs.length)
    (h0 : compute_fold_length xs xs.length (fold_target false) FOLD_WINDOW false = 0) :
    ∀ fuel : Nat, print_folded_line true false fuel xs = none := by
  intro fuel
  induction fuel with
  | zero => rfl
  | succ fuel ih =>
    rw [print_folded_line]
    simp only []
    rw [h0]
    simp [hlen, ih]

theorem print_folded_line_abort (xs : List UChar) (fuel : Nat)
    (h0 : compute_fold_length xs xs.length (fold_target false) FOLD_WINDOW false = 0) :
    print_folded_line false false fuel xs = none := by
  cases fuel with
  | zero => rfl
  | succ fuel =>
    rw [print_folded_line]
    simp only []
    rw [h0]
    simp

theorem print_text_field_no_result (NDEBUG : Bool) (ctx : context) (xs : List UChar)
    (hne : xs ≠ []) (htw : xs.takeWhile (fun c => !is_line_term c) = xs)
    (hline : ∀ fuel, print_folded_line NDEBUG false fuel xs = none) :
    print_text_field NDEBUG xs true false ctx = none := by
  unfold print_text_field
  simp only [Bool.or_true, not_true_eq_false, if_false, if_true]
  rw [print_text_lines]
  simp only [if_neg hne, htw, not_true_eq_false, if_false, hline]

theorem semicolon_line_no_result (NDEBUG : Bool) (ctx : context) :
    print_text_field NDEBUG semicolon_line true false ctx = none := by
  have h0 : compute_fold_length semicolon_line semicolon_line.length (fold_target false)
      FOLD_WINDOW false = 0 := by
    rw [semicolon_line_length]; exact semicolon_line_fold
  have hne : semicolon_line ≠ [] := by
    intro h
    have := semicolon_line_length
    rw [h] at this
    simp at this
  have htw : semicolon_line.takeWhile (fun c => !is_line_term c) = semicolon_line := by
    rw [List.takeWhile_eq_self_iff]
    intro c hc
    simp only [semicolon_line, List.mem_append, List.mem_replicate, List.mem_cons,
      List.mem_singleton, List.not_mem_nil, or_false] at hc
    rcases hc with h | ⟨_, h⟩ | h | h <;> subst h <;> decide
  have hline : ∀ fuel, print_folded_line NDEBUG false fuel semicolon_line = none := by
    intro fuel
    cases NDEBUG with
    | true => exact print_folded_line_stuck _ (by rw [semicolon_line_length]; decide) h0 fuel
    | false => exact print_folded_line_abort _ fuel h0
  exact print_text_field_no_result NDEBUG ctx semicolon_line hne htw hline

theorem print_item_bare_in_loop (text out : List UChar) (col : Int) (name : List UChar)
    (hcol : 0 < col) (hfit : 1 + (text.length : Int) + col ≤ 2048) :
    print_item true bare_analyzer 1 (some name) (cif_value.char text false)
        { packet_context with out := out, column := col }
      = some (CIF_OK,
          { packet_context with out := out ++ [UCHAR_SP] ++ text, column := (text.length : Int) }) := by
  have hM : ((MAX_LINE_LENGTH : Nat) : Int) = 2048 := rfl
  have h1 : ¬ ((MAX_LINE_LENGTH : Int) < 1 + (text.length : Int) + col) := by
    rw [hM]; omega
  simp only [print_item, print_value, print_value_text, print_all_ws_runs,
    print_all_ws_runs_loop, bare_analyzer, ensure_space, print_delimited, packet_context,
    zero_context]
  simp [hcol, h1, CIF_OK]

/-! ## The claims -/

/-- C1: whenever `print_text_field` with `do_fold` set completes, every physical line of what it
wrote has at most 2048 characters; a continued segment is written as the prefix and the content,
at most 2047 characters together, then one backslash and the newline; and a single logical line
of 3000 characters that are neither spaces, tabs, semicolons nor line terminators, the last not
a backslash, is written without prefixing as newline, `;`, `\`, newline, its first 2039
characters, `\`, newline, the other 961 characters, newline, `;`. -/
theorem print_text_field_folded_line_length :
    (∀ (NDEBUG : Bool) (str : List UChar) ( do_prefix : Bool) (ctx : context) (r : Int × context),
      print_text_field NDEBUG str true do_prefix ctx = some r →
        ∃ w, r.2.out = ctx.out ++ w ∧ ∀ l ∈ physical_lines w, l.length ≤ 2048) ∧
    (∀ ( do_prefix : Bool) (fold_start : List UChar),
      compute_fold_length fold_start fold_start.length (fold_target do_prefix) FOLD_WINDOW do_prefix
          ≠ (fold_start.length : Int) →
        print_fold_segment do_prefix fold_start
            (compute_fold_length fold_start fold_start.length (fold_target do_prefix) FOLD_WINDOW
              do_prefix)
          = (if do_prefix then PREFIX else [])
              ++ fold_start.take (compute_fold_length fold_start fold_start.length
                  (fold_target do_prefix) FOLD_WINDOW do_prefix).toNat
              ++ [UCHAR_BSL, UCHAR_LF] ∧
        ((if do_prefix then PREFIX else [])
            ++ fold_start.take (compute_fold_length fold_start fold_start.length
                (fold_target do_prefix) FOLD_WINDOW do_prefix).toNat).length ≤ 2047) ∧
    (∀ (NDEBUG : Bool) (ctx : context) (xs : List UChar), xs.length = 3000 →
      (∀ c ∈ xs, plain_char c) → xs.getD 2999 0 ≠ UCHAR_BSL →
        print_text_field NDEBUG xs true false ctx
          = some (CIF_OK,
              { ctx with
                out := ctx.out ++ ([UCHAR_LF, UCHAR_SEMI, UCHAR_BSL, UCHAR_LF] ++ xs.take 2039
                  ++ [UCHAR_BSL, UCHAR_LF] ++ xs.drop 2039 ++ [UCHAR_LF, UCHAR_SEMI])
                column := 1 })) := by
  refine ⟨?_, ?_, ?_⟩
  · intro NDEBUG str do_prefix ctx r h
    exact print_text_field_folded_lines NDEBUG str do_prefix ctx r h
  · intro do_prefix fold_start hne
    have hb := compute_fold_length_bounds fold_start fold_start.length (fold_target do_prefix)
      FOLD_WINDOW do_prefix (fold_target_window do_prefix)
    have hsum := fold_target_sum do_prefix
    refine ⟨?_, ?_⟩
    · unfold print_fold_segment
      simp only []
      rw [if_neg hne]
    · rw [List.length_append, List.length_take]
      have : MAX_LINE_LENGTH = 2048 := rfl
      omega
  · intro NDEBUG ctx xs hlen h hlast
    exact print_text_field_long_line NDEBUG ctx xs hlen h hlast

/-- C1, at the text `ab`: folded without prefixing it is written as newline, `;`, `\`, newline,
`ab`, newline, `;`, no line of which is longer than 2048 characters. -/
theorem print_text_field_folded_line_length_witness :
    ∃ w, ({ zero_context with out := ustr "\n;\\\nab\n;", column := 1 } : context).out
        = zero_context.out ++ w ∧ ∀ l ∈ physical_lines w, l.length ≤ 2048 :=
  print_text_field_folded_line_length.1 true (ustr "ab") false zero_context
    (CIF_OK, { zero_context with out := ustr "\n;\\\nab\n;", column := 1 }) (by decide)

/-- C2: the text `a` followed by a newline is written exactly as the text `a`, with folding,
with prefixing and with both, so the final line terminator of a text cannot be read back: the
loop over the logical lines stops at the end of the text before the empty last line. -/
theorem print_text_field_loses_final_terminator :
    print_text_field true (ustr "a\n") true false zero_context
        = some (CIF_OK, { zero_context with out := ustr "\n;\\\na\n;", column := 1 }) ∧
      print_text_field true (ustr "a") true false zero_context
        = some (CIF_OK, { zero_context with out := ustr "\n;\\\na\n;", column := 1 }) ∧
      print_text_field true (ustr "a\n") false true zero_context
        = print_text_field true (ustr "a") false true zero_context ∧
      print_text_field true (ustr "a\n") true true zero_context
        = print_text_field true (ustr "a") true true zero_context ∧
      print_text_field true (ustr "a\n") false false zero_context
        = some (CIF_OK, { zero_context with out := ustr "\n;a\n\n;", column := 1 }) := by
  decide

/-- C3: for the line of 2048 characters `a`, 2045 semicolons, a space and a semicolon, with the
target 2039, the window 8 and no folding before semicolons, `compute_fold_length` returns 0, and
`print_text_field` folding that line without prefixing never completes, with assertions
compiled in or not. -/
theorem compute_fold_length_zero_segment :
    semicolon_line.length = 2048 ∧
      compute_fold_length semicolon_line 2048 (fold_target false) FOLD_WINDOW false = 0 ∧
      (∀ fuel : Nat, print_folded_line true false fuel semicolon_line = none) ∧
      (∀ (NDEBUG : Bool) (ctx : context),
        print_text_field NDEBUG semicolon_line true false ctx = none) := by
  refine ⟨semicolon_line_length, semicolon_line_fold, ?_, semicolon_line_no_result⟩
  exact print_folded_line_stuck _ (by rw [semicolon_line_length]; decide)
    (by rw [semicolon_line_length]; exact semicolon_line_fold)

/-- C4, as stated, fails: on the line of 2048 characters `a` with semicolons at 2038, 2039 and
2040, target 2039 and window 8, the boundaries at 2037 and 2041 have the best category of the
window and are equally far from the target, and the code returns 2041: no offset `d` with the
result `T + d` is of the best category and nearest to the target with the tie going to the
offset that is not greater. -/
theorem compute_fold_length_tie_goes_up :
    compute_fold_length tie_line 2048 2039 8 false = 2039 + 2 ∧
      offset_category false tie_line 2039 (-2) = offset_category false tie_line 2039 2 ∧
      (∀ d' : Int, -8 ≤ d' → d' ≤ 8 →
        offset_category false tie_line 2039 d' ≤ offset_category false tie_line 2039 2) ∧
      ¬ ∃ d : Int, -8 ≤ d ∧ d ≤ 8 ∧
        compute_fold_length tie_line 2048 2039 8 false = 2039 + d ∧
        ∀ d' : Int, -8 ≤ d' → d' ≤ 8 →
          offset_category false tie_line 2039 d' ≤ offset_category false tie_line 2039 d ∧
          (offset_category false tie_line 2039 d' = offset_category false tie_line 2039 d →
            d.natAbs < d'.natAbs ∨ (d.natAbs = d'.natAbs ∧ d ≤ d')) := by
  refine ⟨tie_line_fold, by rw [tie_line_categories.1, tie_line_categories.2], ?_, ?_⟩
  · intro d' h1 h2
    rw [tie_line_categories.2]
    exact tie_line_window d' h1 h2
  · rintro ⟨d, _, _, hres, hbest⟩
    rw [tie_line_fold] at hres
    have hd : d = 2 := by omega
    subst hd
    have := (hbest (-2) (by decide) (by decide)).2
      (by rw [tie_line_categories.1, tie_line_categories.2])
    omega

/-- C4, amended: for a line longer than `T + W` (with `W < T`), the category of a boundary being
0 before a semicolon when folding there is not allowed and otherwise twice "the character before
is a space or tab" plus "the character after is not": if some boundary of the window has a
category other than 0 the result is `T + d` for an offset `d` in `[-W, W]` of the highest
category in the window, nearest to `T` among those, the higher offset winning a tie in
distance; and if every boundary of the window has category 0 the result is the nearest index
at or below `T - W - 1`, and at least 1, that does not hold a semicolon, when there is one.
This is stated for every window but those in which the first category-3 boundary of the offsets
`0..W`, at offset `d`, has nothing above category 0 at the offsets `-W..d-1` of the window
before it, or has a category-3 boundary at an offset `-W..-1` nearer to `T` than itself. -/
theorem compute_fold_length_fold_point (fold_start : List UChar) (L T W : Nat) (allow : Bool)
    (hTW : W < T) (hL : T + W < L)
    (hcat3 : ∀ d : Int, 0 ≤ d → d ≤ W → offset_category allow fold_start T d = 3 →
      (∀ d' : Int, 0 ≤ d' → d' < d → offset_category allow fold_start T d' ≠ 3) →
      (∃ q : Int, -(W : Int) ≤ q ∧ q < d ∧ offset_category allow fold_start T q ≠ 0) ∧
      (∀ q : Int, -(W : Int) ≤ q → q < 0 → offset_category allow fold_start T q = 3 → d ≤ -q)) :
    ((∃ d : Int, -(W : Int) ≤ d ∧ d ≤ W ∧ offset_category allow fold_start T d ≠ 0) →
      ∃ d : Int, -(W : Int) ≤ d ∧ d ≤ W ∧
        compute_fold_length fold_start L T W allow = (T : Int) + d ∧
        ∀ d' : Int, -(W : Int) ≤ d' → d' ≤ W →
          offset_category allow fold_start T d' ≤ offset_category allow fold_start T d ∧
          (offset_category allow fold_start T d' = offset_category allow fold_start T d →
            d.natAbs < d'.natAbs ∨ (d.natAbs = d'.natAbs ∧ d' ≤ d))) ∧
    ((∀ d : Int, -(W : Int) ≤ d → d ≤ W → offset_category allow fold_start T d = 0) →
      ∀ q : Nat, 1 ≤ q → q ≤ T - (W + 1) → fold_start.getD q 0 ≠ UCHAR_SEMI →
        (∀ i : Nat, q < i → i ≤ T - (W + 1) → fold_start.getD i 0 = UCHAR_SEMI) →
        compute_fold_length fold_start L T W allow = (q : Int)) :=
  compute_fold_length_selects fold_start L T W allow hTW hL hcat3

/-- C4, amended, at the line `aaaaaaaaaaaaaaaa bbbb cccccccc` with target 20 and window 4:
the boundaries at the offsets -3 and 2, after the two spaces, are the ones of category 3, and
the fold goes to the nearer one, at 22. -/
theorem compute_fold_length_fold_point_witness :
    (4 < 20 ∧ 20 + 4 < 30) ∧
      offset_category false (ustr "aaaaaaaaaaaaaaaa bbbb cccccccc") 20 (-3) = 3 ∧
      offset_category false (ustr "aaaaaaaaaaaaaaaa bbbb cccccccc") 20 2 = 3 ∧
      compute_fold_length (ustr "aaaaaaaaaaaaaaaa bbbb cccccccc") 30 20 4 false = 22 ∧
      ∃ d : Int, -((4 : Nat) : Int) ≤ d ∧ d ≤ (4 : Nat) ∧
        compute_fold_length (ustr "aaaaaaaaaaaaaaaa bbbb cccccccc") 30 20 4 false
          = ((20 : Nat) : Int) + d ∧
        ∀ d' : Int, -((4 : Nat) : Int) ≤ d' → d' ≤ (4 : Nat) →
          offset_category false (ustr "aaaaaaaaaaaaaaaa bbbb cccccccc") 20 d'
              ≤ offset_category false (ustr "aaaaaaaaaaaaaaaa bbbb cccccccc") 20 d ∧
          (offset_category false (ustr "aaaaaaaaaaaaaaaa bbbb cccccccc") 20 d'
              = offset_category false (ustr "aaaaaaaaaaaaaaaa bbbb cccccccc") 20 d →
            d.natAbs < d'.natAbs ∨ (d.natAbs = d'.natAbs ∧ d' ≤ d)) :=
  ⟨by decide, by decide, by decide, by decide,
    (compute_fold_length_fold_point (ustr "aaaaaaaaaaaaaaaa bbbb cccccccc") 30 20 4 false
      (by decide) (by decide)
      (by
        intro d h1 h2 h3 _
        have hd : d = 0 ∨ d = 1 ∨ d = 2 ∨ d = 3 ∨ d = 4 := by omega
        rcases hd with rfl | rfl | rfl | rfl | rfl
        · exact absurd h3 (by decide)
        · exact absurd h3 (by decide)
        · refine ⟨⟨-3, by decide, by decide, by decide⟩, ?_⟩
          intro q hq1 hq2 hq3
          have hq : q = -4 ∨ q = -3 ∨ q = -2 ∨ q = -1 := by omega
          rcases hq with rfl | rfl | rfl | rfl
          · decide
          · decide
          · exact absurd hq3 (by decide)
          · exact absurd hq3 (by decide)
        · exact absurd h3 (by decide)
        · exact absurd h3 (by decide))).1
      ⟨-3, by decide, by decide, by decide⟩⟩

/-- C5: for every line, target `T` and window `W` with `T > W`, a line of length `L ≤ T + W` is
one segment: `compute_fold_length` returns `L`, whatever the line holds and whether or not
folding before a semicolon is allowed. -/
theorem compute_fold_length_short_line (fold_start : List UChar) (L T W : Nat) (allow : Bool)
    (_hTW : W < T) (hL : L ≤ T + W) :
    compute_fold_length fold_start L T W allow = (L : Int) :=
  compute_fold_length_fits fold_start L T W allow hL

/-- C5, at the line `a;b c` with the target 2039 and the window 8. -/
theorem compute_fold_length_short_line_witness :
    (8 < 2039 ∧ 5 ≤ 2039 + 8) ∧
      compute_fold_length (ustr "a;b c") 5 2039 8 false = ((5 : Nat) : Int) :=
  ⟨by decide, compute_fold_length_short_line (ustr "a;b c") 5 2039 8 false (by decide) (by decide)⟩

/-- C6: the text `x`, newline, `;b ` (ending in a space), folded and prefixed, is written with
an empty physical line before the closing `;`, which does not begin with the prefix: the
protection of the trailing space ends the segment with a backslash and two newlines.  The text
`line`, newline, `;inside` with prefixing alone is written as the claim says. -/
theorem print_text_field_unprefixed_line :
    print_text_field true (ustr "x\n;b ") true true zero_context
        = some (CIF_OK,
            { zero_context with out := ustr "\n;> \\\\\n> x\n> ;b \\\n\n;", column := 1 }) ∧
      physical_lines (ustr "\n;> \\\\\n> x\n> ;b \\\n\n;")
        = [[], ustr ";> \\\\", ustr "> x", ustr "> ;b \\", [], ustr ";"] ∧
      print_text_field true (ustr "line\n;inside") false true zero_context
        = some (CIF_OK,
            { zero_context with out := ustr "\n;> \\\n> line\n> ;inside\n;", column := 1 }) := by
  decide

/-- C7: three item events in one loop packet, starting at column 0 with an empty whitespace
queue, whose values the analyzer reports as bare words of 1, 2040 and 7 characters, put 2050
characters on one physical line.  After the second value `print_value_text` sets the column to
the length of that value, 2040, where 2042 characters stand on the line, so the third value is
taken to fit. -/
theorem print_item_overlong_line :
    print_item true bare_analyzer 1 (some (ustr "_a")) (cif_value.char [120] false) packet_context
        = some (CIF_OK, { packet_context with out := [120], column := 1 }) ∧
      print_item true bare_analyzer 1 (some (ustr "_b"))
          (cif_value.char (List.replicate 2040 120) false)
          { packet_context with out := [120], column := 1 }
        = some (CIF_OK,
            { packet_context with
              out := [120] ++ [UCHAR_SP] ++ List.replicate 2040 120, column := 2040 }) ∧
      print_item true bare_analyzer 1 (some (ustr "_c"))
          (cif_value.char (List.replicate 7 120) false)
          { packet_context with
            out := [120] ++ [UCHAR_SP] ++ List.replicate 2040 120, column := 2040 }
        = some (CIF_OK,
            { packet_context with
              out := [120] ++ [UCHAR_SP] ++ List.replicate 2040 120 ++ [UCHAR_SP]
                ++ List.replicate 7 120,
              column := 7 }) ∧
      physical_lines ([120] ++ [UCHAR_SP] ++ List.replicate 2040 120 ++ [UCHAR_SP]
          ++ List.replicate 7 120)
        = [[120] ++ [UCHAR_SP] ++ List.replicate 2040 120 ++ [UCHAR_SP] ++ List.replicate 7 120] ∧
      ([120] ++ [UCHAR_SP] ++ List.replicate 2040 120 ++ [UCHAR_SP]
          ++ List.replicate 7 120).length = 2050 := by
  refine ⟨by decide, ?_, ?_, ?_, ?_⟩
  · have := print_item_bare_in_loop (List.replicate 2040 120) [120] 1 (ustr "_b") (by decide)
      (by rw [List.length_replicate]; decide)
    rw [List.length_replicate] at this
    exact this
  · have := print_item_bare_in_loop (List.replicate 7 120)
      ([120] ++ [UCHAR_SP] ++ List.replicate 2040 120) 2040 (ustr "_c") (by decide)
      (by rw [List.length_replicate]; decide)
    rw [List.length_replicate] at this
    exact this
  · apply physical_lines_no_lf
    intro c hc
    simp only [List.mem_append, List.mem_replicate, List.mem_cons, List.mem_singleton,
      List.not_mem_nil, or_false] at hc
    rcases hc with (((h | h) | ⟨_, h⟩) | h) | ⟨_, h⟩ <;> subst h <;> decide
  · simp only [List.length_append, List.length_replicate, List.length_cons, List.length_nil]

/-- C8: `print_value_text` writing the bare word `ab` after the five characters `_name`, the
column being 5 as it should, writes a space and the word, eight characters on the line, and
leaves the column at 2: it assigns the length of the value where it should add it. -/
theorem print_value_text_column_drift :
    ({ packet_context with out := ustr "_name", column := 5 } : context).column
        = output_column (ustr "_name") ∧
      print_value_text true bare_analyzer (ustr "ab") false
          { packet_context with out := ustr "_name", column := 5 } 1
        = some (CIF_OK, { packet_context with out := ustr "_name ab", column := 2 }) ∧
      output_column (ustr "_name ab") = 8 := by
  decide

/-- C9, as stated, fails at column 0: asked for one space before a token of one character,
`ensure_space` writes nothing and leaves the column at 0. -/
theorem ensure_space_column_zero :
    ¬ ((ensure_space 1 1 zero_context).2.out = zero_context.out ++ [UCHAR_SP] ∧
      (ensure_space 1 1 zero_context).2.column = zero_context.column + 1) := by
  decide

/-- C9, amended: for a required space `s` of 0 or 1 and a token length `d`, at a column greater
than 0 `ensure_space` writes exactly one newline and sets the column to 0 if
`column + s + d > 2048`, and otherwise writes exactly `s` spaces and adds `s` to the column; at
column 0 it writes nothing and changes nothing.  It answers `CIF_OK` in all cases. -/
theorem ensure_space_effect (ctx : context) (s d : Int) (hs : s = 0 ∨ s = 1) :
    (0 < ctx.column → ctx.column + s + d > 2048 →
      ensure_space s d ctx = (CIF_OK, { ctx with out := ctx.out ++ [UCHAR_LF], column := 0 })) ∧
    (0 < ctx.column → ctx.column + s + d ≤ 2048 →
      ensure_space s d ctx
        = (CIF_OK, { ctx with out := ctx.out ++ List.replicate s.toNat UCHAR_SP,
                              column := ctx.column + s })) ∧
    (ctx.column ≤ 0 → ensure_space s d ctx = (CIF_OK, ctx)) := by
  have hM : ((MAX_LINE_LENGTH : Nat) : Int) = 2048 := rfl
  refine ⟨?_, ?_, ?_⟩
  · intro h1 h2
    unfold ensure_space
    rw [if_pos h1, if_pos (by rw [hM]; omega)]
  · intro h1 h2
    unfold ensure_space
    rw [if_pos h1, if_neg (by rw [hM]; omega)]
    rcases hs with rfl | rfl
    · simp
    · simp
  · intro h1
    unfold ensure_space
    rw [if_neg (by omega)]

/-- C9, amended, at column 5 for one space before a token of 2043 characters: a newline. -/
theorem ensure_space_effect_witness :
    ((1 : Int) = 0 ∨ (1 : Int) = 1) ∧
      ensure_space 1 2043 { zero_context with out := ustr "_name", column := 5 }
        = (CIF_OK, { zero_context with out := ustr "_name" ++ [UCHAR_LF], column := 0 }) :=
  ⟨Or.inr rfl,
    (ensure_space_effect { zero_context with out := ustr "_name", column := 5 } 1 2043
      (Or.inr rfl)).1 (by decide) (by decide)⟩

/-- C10: for CIF 1.1 output and a queue of two whitespace runs, `print_value` of a List or of a
Table answers `CIF_DISALLOWED_VALUE` having written the first run and no bracket, brace or
element, and the context still holds the second run as its queue: `flush_ws` releases the nodes
of a copy of the pointer, and `context->ws_queue` is not set to null. -/
theorem print_value_cif11_queue_kept :
    print_value true bare_analyzer 1 (cif_value.list [cif_value.unk])
        { zero_context with
          in_container := 1
          ws_queue := ws_node.node [UCHAR_SP] ws_node.null
            (ws_node.node [UCHAR_LF] ws_node.null ws_node.null) } 2
      = some (CIF_DISALLOWED_VALUE,
          { zero_context with
            in_container := 1, out := [UCHAR_SP], column := 1
            ws_queue := ws_node.node [UCHAR_LF] ws_node.null ws_node.null }) ∧
    print_value true bare_analyzer 1 (cif_value.table [(ustr "k", cif_value.unk)])
        { zero_context with
          in_container := 1
          ws_queue := ws_node.node [UCHAR_SP] ws_node.null
            (ws_node.node [UCHAR_LF] ws_node.null ws_node.null) } 2
      = some (CIF_DISALLOWED_VALUE,
          { zero_context with
            in_container := 1, out := [UCHAR_SP], column := 1
            ws_queue := ws_node.node [UCHAR_LF] ws_node.null ws_node.null }) ∧
    zero_context.output_format = format.CIF11 := by
  decide

/-! ## Loop headers and the dummy packet -/

theorem print_ws_pieces_nonneg :
    ∀ (node : ws_node) (ctx : context) (rval : Int), 0 ≤ rval →
      0 ≤ (print_ws_pieces node ctx rval).1 := by
  intro node
  induction node with
  | null => intro ctx rval h; simpa [print_ws_pieces] using h
  | node ws next_piece next_run ih _ =>
    intro ctx rval h
    simp only [print_ws_pieces]
    exact ih _ _ (by omega)

theorem print_ws_pieces_flag :
    ∀ (node : ws_node) (ctx : context) (rval : Int),
      (print_ws_pieces node ctx rval).2.synthesize_packet = ctx.synthesize_packet := by
  intro node
  induction node with
  | null => intro ctx rval; rfl
  | node ws next_piece next_run ih _ =>
    intro ctx rval
    simp only [print_ws_pieces]
    rw [ih]

theorem print_ws_pieces_out :
    ∀ (node : ws_node) (ctx : context) (rval : Int),
      ∃ w, (print_ws_pieces node ctx rval).2.out = ctx.out ++ w := by
  intro node
  induction node with
  | null => intro ctx rval; exact ⟨[], by simp [print_ws_pieces]⟩
  | node ws next_piece next_run ih _ =>
    intro ctx rval
    simp only [print_ws_pieces]
    obtain ⟨w, hw⟩ := ih
      { ctx with
        out := ctx.out ++ ws
        column := if (count_eol ws false 0 (0, 0)).1 ≠ 0 then
            (ws.length : Int) - ((count_eol ws false 0 (0, 0)).2 : Int)
          else ctx.column + (ws.length : Int) } (rval + (ws.length : Int))
    exact ⟨ws ++ w, by rw [hw]; simp⟩

theorem print_ws_run_nonneg (ctx : context) : 0 ≤ (print_ws_run ctx).1 := by
  unfold print_ws_run
  split
  · exact le_refl _
  · exact print_ws_pieces_nonneg _ _ 0 (le_refl _)

theorem print_ws_run_flag (ctx : context) :
    (print_ws_run ctx).2.synthesize_packet = ctx.synthesize_packet := by
  unfold print_ws_run
  split
  · rfl
  · rw [print_ws_pieces_flag]

theorem print_ws_run_out (ctx : context) : ∃ w, (print_ws_run ctx).2.out = ctx.out ++ w := by
  unfold print_ws_run
  split
  · exact ⟨[], by simp⟩
  · exact print_ws_pieces_out _ _ 0

theorem print_u_literal_allowed (str : List UChar) (line1_length : Int) (ctx : context) :
    (print_u_literal SPACE_ALLOWED str line1_length ctx).1 = CIF_OK ∧
      (print_u_literal SPACE_ALLOWED str line1_length ctx).2.synthesize_packet
        = ctx.synthesize_packet ∧
      ∃ w, (print_u_literal SPACE_ALLOWED str line1_length ctx).2.out = ctx.out ++ w ++ str := by
  unfold print_u_literal
  split
  · simp only [SPACE_ALLOWED, lt_self_iff_false, if_false]
    split
    · exact ⟨rfl, rfl, [UCHAR_LF], rfl⟩
    · exact ⟨rfl, rfl, [], by simp⟩
  · exact ⟨rfl, rfl, [], by simp⟩

/-- The loop over the data names succeeds, leaves the request for a dummy packet alone, and
ends its output with the last name. -/
theorem print_loop_names_ok :
    ∀ (names : List (List UChar)) (last : List UChar) (ctx : context) (v : List UChar),
      ctx.out = v ++ last →
      (print_loop_names names CIF_OK ctx).1 = CIF_OK ∧
        (print_loop_names names CIF_OK ctx).2.synthesize_packet = ctx.synthesize_packet ∧
        ∃ w, (print_loop_names names CIF_OK ctx).2.out
          = v ++ w ++ (last :: names).getLast (List.cons_ne_nil _ _) := by
  intro names
  induction names with
  | nil =>
    intro last ctx v hv
    exact ⟨rfl, rfl, [], by simp [print_loop_names, hv]⟩
  | cons name rest ih =>
    intro last ctx v hv
    have hr := print_ws_run_nonneg ctx
    have hf := print_ws_run_flag ctx
    obtain ⟨w1, hw1⟩ := print_ws_run_out ctx
    simp only [print_loop_names, if_true]
    split
    · have hp := print_u_literal_allowed name name.length
        { (print_ws_run ctx).2 with
          out := (print_ws_run ctx).2.out ++ [UCHAR_LF], column := 0 }
      obtain ⟨hp1, hp2, w2, hp3⟩ := hp
      rw [hp1]
      have := ih name _ (v ++ last ++ w1 ++ [UCHAR_LF] ++ w2) (by rw [hp3, hw1, hv])
      obtain ⟨h1, h2, w3, h3⟩ := this
      refine ⟨h1, by rw [h2, hp2]; exact hf, last ++ w1 ++ [UCHAR_LF] ++ w2 ++ w3, ?_⟩
      rw [h3, List.getLast_cons (List.cons_ne_nil _ _)]
      simp
    · rename_i h0
      split
      · rename_i h1
        omega
      · have hp := print_u_literal_allowed name name.length (print_ws_run ctx).2
        obtain ⟨hp1, hp2, w2, hp3⟩ := hp
        rw [hp1]
        have := ih name _ (v ++ last ++ w1 ++ w2) (by rw [hp3, hw1, hv])
        obtain ⟨h1, h2, w3, h3⟩ := this
        refine ⟨h1, by rw [h2, hp2]; exact hf, last ++ w1 ++ w2 ++ w3, ?_⟩
        rw [h3, List.getLast_cons (List.cons_ne_nil _ _)]
        simp

/-- The loop header is always printed, leaves the request for a dummy packet alone, and ends
with the last data name. -/
theorem print_loop_header_ok (names : List (List UChar)) (ctx : context) :
    (print_loop_header names ctx).1 = CIF_OK ∧
      (print_loop_header names ctx).2.synthesize_packet = ctx.synthesize_packet ∧
      ∃ w, (print_loop_header names ctx).2.out
        = ctx.out ++ w ++ (loop_kw :: names).getLast (List.cons_ne_nil _ _) := by
  have hr := print_ws_run_nonneg ctx
  have hf := print_ws_run_flag ctx
  obtain ⟨w1, hw1⟩ := print_ws_run_out ctx
  have hk : ∃ k : Int × context,
      (if (print_ws_run ctx).1 > 0 then print_u_literal SPACE_ALLOWED loop_kw 5 (print_ws_run ctx).2
        else if (print_ws_run ctx).1 = 0 then
          (CIF_OK, { (print_ws_run ctx).2 with
            out := (print_ws_run ctx).2.out ++ [UCHAR_LF] ++ loop_kw, column := 5 })
        else (CIF_ERROR, (print_ws_run ctx).2)) = k ∧ k.1 = CIF_OK ∧
        k.2.synthesize_packet = ctx.synthesize_packet ∧ ∃ w, k.2.out = ctx.out ++ w ++ loop_kw := by
    refine ⟨_, rfl, ?_⟩
    split
    · obtain ⟨h1, h2, w2, h3⟩ := print_u_literal_allowed loop_kw 5 (print_ws_run ctx).2
      exact ⟨h1, by rw [h2, hf], w1 ++ w2, by rw [h3, hw1]; simp⟩
    · split
      · exact ⟨rfl, hf, w1 ++ [UCHAR_LF], by simp [hw1]⟩
      · omega
  obtain ⟨k, hk0, hk1, hk2, w2, hk3⟩ := hk
  simp only [print_loop_header]
  rw [hk0, if_neg (not_not.mpr hk1)]
  obtain ⟨h1, h2, w3, h3⟩ := print_loop_names_ok names loop_kw k.2 (ctx.out ++ w2) hk3
  exact ⟨h1, by rw [h2, hk2], w2 ++ w3, by rw [h3]; simp⟩

/-- The placeholders after the first, while the line has room: each is written after one
space. -/
theorem print_placeholders_spaced :
    ∀ (names more : List (List UChar)) (k : Nat) (ctx : context), 1 ≤ k →
      ctx.column = 2 * (k : Int) - 1 → k + names.length ≤ 1024 →
      print_placeholders (names ++ more) CIF_OK ctx
        = print_placeholders more CIF_OK
            { ctx with
              out := ctx.out ++ (List.replicate names.length [UCHAR_SP, UCHAR_QUERY]).flatten
              column := 2 * ((k + names.length : Nat) : Int) - 1 } := by
  intro names
  induction names with
  | nil =>
    intro more k ctx _ hcol _
    have : ctx = { ctx with out := ctx.out ++ [], column := 2 * ((k + 0 : Nat) : Int) - 1 } := by
      rw [List.append_nil, Nat.add_zero, ← hcol]
    simp only [List.nil_append, List.length_nil, List.replicate_zero, List.flatten_nil]
    rw [← this]
  | cons name rest ih =>
    intro more k ctx hk hcol hlen
    simp only [List.length_cons] at hlen
    have hc0 : ctx.column ≠ 0 := by omega
    have hroom : ¬ (1 + ctx.column + (if SPACE_REQUIRED > 0 then SPACE_REQUIRED else 0)
        > MAX_LINE_LENGTH) := by
      simp only [SPACE_REQUIRED, MAX_LINE_LENGTH]
      norm_num
      omega
    have hp : print_u_literal SPACE_REQUIRED [UCHAR_QUERY] 1 ctx
        = (CIF_OK, { ctx with out := ctx.out ++ [UCHAR_SP, UCHAR_QUERY],
                              column := 2 * ((k + 1 : Nat) : Int) - 1 }) := by
      unfold print_u_literal
      rw [if_pos hc0]
      simp only []
      rw [if_neg (by simpa using hroom)]
      simp only [SPACE_REQUIRED, List.length_singleton]
      norm_num
      rw [hcol]
      ring
    simp only [List.cons_append, print_placeholders, if_true]
    rw [hp]
    simp only [ne_eq, not_true_eq_false, if_false]
    change print_placeholders (rest ++ more) CIF_OK _ = _
    rw [ih more (k + 1)
      { ctx with out := ctx.out ++ [UCHAR_SP, UCHAR_QUERY],
                 column := 2 * ((k + 1 : Nat) : Int) - 1 } (by omega) rfl (by omega)]
    simp only [List.length_cons, List.replicate_succ, List.flatten_cons, List.append_assoc,
      List.cons_append, List.nil_append]
    congr 3
    omega

theorem intersperse_replicate (n : Nat) :
    List.intersperse UCHAR_SP (List.replicate (n + 1) UCHAR_QUERY)
      = UCHAR_QUERY :: (List.replicate n [UCHAR_SP, UCHAR_QUERY]).flatten := by
  induction n with
  | zero => rfl
  | succ n ih =>
    rw [List.replicate_succ, List.replicate_succ, List.intersperse_cons_cons,
      ← List.replicate_succ, ih]
    rfl

/-- The dummy packet from the start of a line, for at most 1024 data names. -/
theorem print_placeholders_line (names : List (List UChar)) (ctx : context)
    (h1 : 1 ≤ names.length) (hn : names.length ≤ 1024) (hcol : ctx.column = 0) :
    print_placeholders names CIF_OK ctx
      = (CIF_OK,
          { ctx with
            out := ctx.out ++ List.intersperse UCHAR_SP (List.replicate names.length UCHAR_QUERY)
            column := 2 * (names.length : Int) - 1 }) := by
  cases names with
  | nil => simp at h1
  | cons name rest =>
    simp only [List.length_cons] at hn
    have hp : print_u_literal SPACE_REQUIRED [UCHAR_QUERY] 1 ctx
        = (CIF_OK, { ctx with out := ctx.out ++ [UCHAR_QUERY], column := 1 }) := by
      unfold print_u_literal
      rw [if_neg (by simpa using hcol)]
      rfl
    simp only [print_placeholders, if_true]
    rw [hp]
    simp only [ne_eq, not_true_eq_false, if_false]
    have := print_placeholders_spaced rest [] 1
      { ctx with out := ctx.out ++ [UCHAR_QUERY], column := 1 } (le_refl _) rfl (by omega)
    rw [List.append_nil] at this
    rw [this]
    simp only [print_placeholders, List.length_cons, intersperse_replicate, List.append_assoc,
      List.singleton_append]
    congr 3
    push_cast
    ring

/-- What `handle_loop_start` does inside a container when a dummy packet is asked for, for a
loop of 1 to 1024 data names. -/
theorem handle_loop_start_packet (names : List (List UChar)) (ctx : context)
    (hc : ctx.in_container ≠ 0) (hs : ctx.synthesize_packet ≠ 0) (h1 : 1 ≤ names.length)
    (hn : names.length ≤ 1024) :
    handle_loop_start names ctx
      = (CIF_OK,
          { (print_loop_header names { ctx with in_ws_run := 0, in_loop := 1 }).2 with
            synthesize_packet := 0
            out := (print_loop_header names { ctx with in_ws_run := 0, in_loop := 1 }).2.out
              ++ [UCHAR_LF]
              ++ List.intersperse UCHAR_SP (List.replicate names.length UCHAR_QUERY)
              ++ [UCHAR_LF]
            column := 2 * (names.length : Int) - 1 }) := by
  obtain ⟨ho, hf, _⟩ := print_loop_header_ok names { ctx with in_ws_run := 0, in_loop := 1 }
  simp only [handle_loop_start]
  rw [if_neg hc, if_pos ⟨ho, by rw [hf]; exact hs⟩,
    print_placeholders_line names _ h1 hn rfl]
  simp

/-- What `handle_loop_start` does inside a container when no dummy packet is asked for. -/
theorem handle_loop_start_plain (names : List (List UChar)) (ctx : context)
    (hc : ctx.in_container ≠ 0) (hs : ctx.synthesize_packet = 0) :
    handle_loop_start names ctx
      = print_loop_header names { ctx with in_ws_run := 0, in_loop := 1 } := by
  obtain ⟨_, hf, _⟩ := print_loop_header_ok names { ctx with in_ws_run := 0, in_loop := 1 }
  simp only [handle_loop_start]
  rw [if_neg hc, if_neg (by rw [hf]; simp [hs])]

theorem intersperse_replicate_snoc (n : Nat) :
    List.intersperse UCHAR_SP (List.replicate (n + 2) UCHAR_QUERY)
      = List.intersperse UCHAR_SP (List.replicate (n + 1) UCHAR_QUERY)
          ++ [UCHAR_SP, UCHAR_QUERY] := by
  rw [intersperse_replicate (n + 1), intersperse_replicate n, List.replicate_succ',
    List.flatten_append]
  simp

/-- The dummy packet from the start of a line for 1025 data names: the last placeholder is
written on a line of its own. -/
theorem print_placeholders_wrap (names : List (List UChar)) (ctx : context)
    (hlen : names.length = 1025) (hcol : ctx.column = 0) :
    print_placeholders names CIF_OK ctx
      = (CIF_OK,
          { ctx with
            out := ctx.out ++ List.intersperse UCHAR_SP (List.replicate 1024 UCHAR_QUERY)
              ++ [UCHAR_LF, UCHAR_QUERY]
            column := 1 }) := by
  cases names with
  | nil => simp at hlen
  | cons name t =>
    simp only [List.length_cons] at hlen
    have ht : t = t.take 1023 ++ t.drop 1023 := (List.take_append_drop 1023 t).symm
    have hd : (t.drop 1023).length = 1 := by rw [List.length_drop]; omega
    have hk : (t.take 1023).length = 1023 := by rw [List.length_take]; omega
    obtain ⟨y, hy⟩ := List.length_eq_one.mp hd
    rw [hy] at ht
    have hp : print_u_literal SPACE_REQUIRED [UCHAR_QUERY] 1 ctx
        = (CIF_OK, { ctx with out := ctx.out ++ [UCHAR_QUERY], column := 1 }) := by
      unfold print_u_literal
      rw [if_neg (by simpa using hcol)]
      rfl
    rw [ht]
    simp only [print_placeholders, if_true]
    rw [hp]
    simp only [ne_eq, not_true_eq_false, if_false]
    rw [print_placeholders_spaced (t.take 1023) [y] 1
      { ctx with out := ctx.out ++ [UCHAR_QUERY], column := 1 } (le_refl _) rfl (by omega), hk]
    have hp2 : print_u_literal SPACE_REQUIRED [UCHAR_QUERY] 1
        { ctx with
          out := ctx.out ++ [UCHAR_QUERY]
            ++ (List.replicate 1023 [UCHAR_SP, UCHAR_QUERY]).flatten
          column := 2 * ((1 + 1023 : Nat) : Int) - 1 }
        = (CIF_OK,
            { ctx with
              out := ctx.out ++ [UCHAR_QUERY]
                ++ (List.replicate 1023 [UCHAR_SP, UCHAR_QUERY]).flatten
                ++ [UCHAR_LF] ++ [UCHAR_QUERY]
              column := 1 }) := by
      unfold print_u_literal
      rw [if_pos (by norm_num)]
      simp only []
      rw [if_pos (by simp only [SPACE_REQUIRED, MAX_LINE_LENGTH]; norm_num),
        if_neg (by simp only [SPACE_REQUIRED]; norm_num)]
      simp only [List.length_singleton]
      norm_num
    simp only [print_placeholders, if_true]
    rw [hp2]
    simp only [ne_eq, not_true_eq_false, if_false, intersperse_replicate 1023,
      List.append_assoc, List.singleton_append, List.cons_append, List.nil_append]

/-- What `handle_loop_start` does inside a container when a dummy packet is asked for, for a
loop of 1025 data names. -/
theorem handle_loop_start_wrap (names : List (List UChar)) (ctx : context)
    (hc : ctx.in_container ≠ 0) (hs : ctx.synthesize_packet ≠ 0) (hlen : names.length = 1025) :
    handle_loop_start names ctx
      = (CIF_OK,
          { (print_loop_header names { ctx with in_ws_run := 0, in_loop := 1 }).2 with
            synthesize_packet := 0
            out := (print_loop_header names { ctx with in_ws_run := 0, in_loop := 1 }).2.out
              ++ [UCHAR_LF]
              ++ List.intersperse UCHAR_SP (List.replicate 1024 UCHAR_QUERY)
              ++ [UCHAR_LF, UCHAR_QUERY] ++ [UCHAR_LF]
            column := 1 }) := by
  obtain ⟨ho, hf, _⟩ := print_loop_header_ok names { ctx with in_ws_run := 0, in_loop := 1 }
  simp only [handle_loop_start]
  rw [if_neg hc, if_pos ⟨ho, by rw [hf]; exact hs⟩, print_placeholders_wrap names _ hlen rfl,
    if_pos rfl]

theorem handle_loop_start_wrap_plain (names : List (List UChar)) (hlen : names.length = 1025) :
    handle_loop_start names loop_context
      = (CIF_OK,
          { (print_loop_header names { loop_context with in_ws_run := 0, in_loop := 1 }).2 with
            synthesize_packet := 0
            out := (print_loop_header names
                { loop_context with in_ws_run := 0, in_loop := 1 }).2.out
              ++ [UCHAR_LF]
              ++ List.intersperse UCHAR_SP (List.replicate 1024 UCHAR_QUERY)
              ++ [UCHAR_LF, UCHAR_QUERY] ++ [UCHAR_LF]
            column := 1 }) :=
  handle_loop_start_wrap names loop_context (by decide) (by decide) hlen

theorem packet_wrap_ne (header : List UChar) :
    header ++ [UCHAR_LF] ++ List.intersperse UCHAR_SP (List.replicate 1024 UCHAR_QUERY)
        ++ [UCHAR_LF, UCHAR_QUERY] ++ [UCHAR_LF]
      ≠ header ++ [UCHAR_LF] ++ List.intersperse UCHAR_SP (List.replicate 1025 UCHAR_QUERY)
        ++ [UCHAR_LF] := by
  rw [intersperse_replicate_snoc 1023]
  simp only [List.append_assoc]
  intro h
  have h1 := List.append_cancel_left h
  have h2 := List.append_cancel_left h1
  have h3 := List.append_cancel_left h2
  revert h3
  decide

theorem many_names_length : many_names.length = 1025 := by
  rw [many_names, List.length_map, List.length_range]

/-- The placeholders after the first: placeholder number `k` is written after a space, or
after a newline when the line holds 1024 placeholders already. -/
theorem print_placeholders_from :
    ∀ (names : List (List UChar)) (k : Nat) (ctx : context), 1 ≤ k →
      ctx.column = 2 * (((k - 1) % 1024 : Nat) : Int) + 1 →
      print_placeholders names CIF_OK ctx
        = (CIF_OK,
            { ctx with
              out := ctx.out ++
                ((List.range' k names.length).map
                  (fun j => placeholder_separator j ++ [UCHAR_QUERY])).flatten
              column := 2 * (((k + names.length - 1) % 1024 : Nat) : Int) + 1 }) := by
  intro names
  induction names with
  | nil =>
    intro k ctx _ hcol
    simp only [print_placeholders, List.length_nil, List.range'_zero, List.map_nil,
      List.flatten_nil, List.append_nil, Nat.add_zero]
    rw [← hcol]
  | cons name rest ih =>
    intro k ctx hk hcol
    have hc0 : ctx.column ≠ 0 := by omega
    have hk0 : k ≠ 0 := by omega
    have hp : print_u_literal SPACE_REQUIRED [UCHAR_QUERY] 1 ctx
        = (CIF_OK, { ctx with out := ctx.out ++ (placeholder_separator k ++ [UCHAR_QUERY]),
                              column := 2 * (((k + 1 - 1) % 1024 : Nat) : Int) + 1 }) := by
      unfold print_u_literal placeholder_separator
      rw [if_pos hc0, if_neg hk0]
      simp only [SPACE_REQUIRED, MAX_LINE_LENGTH, List.length_singleton]
      by_cases hm : k % 1024 = 0
      · rw [if_pos (by rw [hcol]; norm_num; omega), if_neg (by norm_num), if_pos hm]
        simp only [List.append_assoc]
        congr 2
        norm_num
        omega
      · rw [if_neg (by rw [hcol]; norm_num; omega), if_neg hm]
        simp only [List.append_assoc]
        congr 2
        rw [hcol]
        norm_num
        omega
    simp only [print_placeholders, if_true]
    rw [hp]
    simp only [ne_eq, not_true_eq_false, if_false]
    rw [ih (k + 1) _ (by omega) rfl]
    simp only [List.length_cons, List.range'_succ, List.map_cons, List.flatten_cons,
      List.append_assoc]
    congr 3
    omega

/-- The dummy packet from the start of a line, for any number of data names. -/
theorem print_placeholders_packet (names : List (List UChar)) (ctx : context)
    (h1 : 1 ≤ names.length) (hcol : ctx.column = 0) :
    print_placeholders names CIF_OK ctx
      = (CIF_OK,
          { ctx with
            out := ctx.out ++ dummy_packet names.length
            column := 2 * (((names.length - 1) % 1024 : Nat) : Int) + 1 }) := by
  cases names with
  | nil => simp at h1
  | cons name rest =>
    have hp : print_u_literal SPACE_REQUIRED [UCHAR_QUERY] 1 ctx
        = (CIF_OK, { ctx with out := ctx.out ++ [UCHAR_QUERY], column := 1 }) := by
      unfold print_u_literal
      rw [if_neg (by simpa using hcol)]
      rfl
    simp only [print_placeholders, if_true]
    rw [hp]
    simp only [ne_eq, not_true_eq_false, if_false]
    rw [print_placeholders_from rest 1 _ (le_refl _) rfl]
    simp only [dummy_packet, List.length_cons, List.range_eq_range', List.range'_succ,
      List.map_cons, List.flatten_cons, List.append_assoc, placeholder_separator, if_true,
      List.nil_append, Nat.zero_add]
    congr 3
    omega

/-- What `handle_loop_start` does inside a container when a dummy packet is asked for, for a
loop of any number of data names but 0. -/
theorem handle_loop_start_packet_any (names : List (List UChar)) (ctx : context)
    (hc : ctx.in_container ≠ 0) (hs : ctx.synthesize_packet ≠ 0) (h1 : 1 ≤ names.length) :
    handle_loop_start names ctx
      = (CIF_OK,
          { (print_loop_header names { ctx with in_ws_run := 0, in_loop := 1 }).2 with
            synthesize_packet := 0
            out := (print_loop_header names { ctx with in_ws_run := 0, in_loop := 1 }).2.out
              ++ [UCHAR_LF] ++ dummy_packet names.length ++ [UCHAR_LF]
            column := 2 * (((names.length - 1) % 1024 : Nat) : Int) + 1 }) := by
  obtain ⟨ho, hf, _⟩ := print_loop_header_ok names { ctx with in_ws_run := 0, in_loop := 1 }
  simp only [handle_loop_start]
  rw [if_neg hc, if_pos ⟨ho, by rw [hf]; exact hs⟩,
    print_placeholders_packet names _ h1 rfl]
  simp

/-- A dummy packet of `n` placeholders holds the character `?` exactly `n` times. -/
theorem dummy_packet_count (n : Nat) : (dummy_packet n).count UCHAR_QUERY = n := by
  induction n with
  | zero => rfl
  | succ n ih =>
    have hsep : (placeholder_separator n).count UCHAR_QUERY = 0 := by
      unfold placeholder_separator
      split
      · rfl
      · split <;> decide
    unfold dummy_packet at ih ⊢
    rw [List.range_succ, List.map_append, List.flatten_append, List.count_append, ih]
    simp only [List.map_cons, List.map_nil, List.flatten_cons, List.flatten_nil,
      List.append_nil, List.count_append, hsep]
    rfl

/-- The placeholders with the numbers `k` to `k + m - 1`, all below 1024 and above 0, each
come after a space. -/
theorem placeholders_spaced :
    ∀ (m k : Nat), 1 ≤ k → k + m ≤ 1024 →
      ((List.range' k m).map (fun j => placeholder_separator j ++ [UCHAR_QUERY])).flatten
        = (List.replicate m [UCHAR_SP, UCHAR_QUERY]).flatten := by
  intro m
  induction m with
  | zero => intro k _ _; rfl
  | succ m ih =>
    intro k hk hm
    rw [List.range'_succ, List.map_cons, List.flatten_cons, List.replicate_succ,
      List.flatten_cons, ih (k + 1) (by omega) (by omega)]
    congr 1
    unfold placeholder_separator
    rw [if_neg (by omega), if_neg (by omega)]
    rfl

/-- A dummy packet of at most 1024 placeholders is one line: the placeholders with a single
space between them. -/
theorem dummy_packet_line (n : Nat) (hn : n ≤ 1024) :
    dummy_packet n = List.intersperse UCHAR_SP (List.replicate n UCHAR_QUERY) := by
  cases n with
  | zero => rfl
  | succ n =>
    rw [intersperse_replicate n, ← placeholders_spaced n 1 (le_refl _) (by omega)]
    simp only [dummy_packet, List.range_eq_range', List.range'_succ, List.map_cons,
      List.flatten_cons, placeholder_separator, if_true, List.nil_append, Nat.zero_add,
      List.singleton_append]

theorem dummy_packet_succ (n : Nat) :
    dummy_packet (n + 1) = dummy_packet n ++ (placeholder_separator n ++ [UCHAR_QUERY]) := by
  unfold dummy_packet
  rw [List.range_succ, List.map_append, List.flatten_append]
  simp only [List.map_cons, List.map_nil, List.flatten_cons, List.flatten_nil, List.append_nil]

/-- A dummy packet of 1025 placeholders is a line of 1024 and a line of one. -/
theorem dummy_packet_wrap :
    dummy_packet 1025
      = List.intersperse UCHAR_SP (List.replicate 1024 UCHAR_QUERY)
        ++ [UCHAR_LF, UCHAR_QUERY] := by
  rw [dummy_packet_succ 1024, dummy_packet_line 1024 (le_refl _)]
  congr 1

/-! ## The whitespace queue -/

theorem ws_pieces_append_piece (node : ws_node) :
    ∀ q : ws_node, ws_pieces (ws_append_piece q node) = ws_pieces q ++ ws_pieces node := by
  intro q
  induction q with
  | null => rfl
  | node ws next_piece next_run ih _ =>
    simp only [ws_append_piece, ws_pieces, List.cons_append]
    rw [ih]

theorem ws_runs_append_run (node : ws_node) :
    ∀ q : ws_node, ws_runs (ws_append_run q node) = ws_runs q ++ ws_runs node := by
  intro q
  induction q with
  | null => rfl
  | node ws next_piece next_run _ ih =>
    simp only [ws_append_run, ws_runs, List.cons_append]
    rw [ih]

theorem ws_runs_append_to_last_run (text : List UChar) :
    ∀ (q : ws_node) (init : List (List (List UChar))) (last : List (List UChar)),
      ws_runs q = init ++ [last] →
      ws_runs (ws_append_to_last_run q (.node text .null .null)) = init ++ [last ++ [text]] := by
  intro q
  induction q with
  | null =>
    intro init last h
    simp [ws_runs] at h
  | node ws next_piece next_run _ ih =>
    intro init last h
    cases next_run with
    | null =>
      simp only [ws_runs] at h
      cases init with
      | nil =>
        simp only [List.nil_append, List.cons.injEq, and_true] at h
        subst h
        simp [ws_append_to_last_run, ws_append_piece, ws_runs, ws_pieces_append_piece, ws_pieces]
      | cons x rest =>
        simp only [List.cons_append, List.cons.injEq] at h
        have := h.2
        simp at this
    | node ws2 np2 nr2 =>
      cases init with
      | nil =>
        simp [ws_runs] at h
      | cons x rest =>
        simp only [ws_runs, List.cons_append, List.cons.injEq] at h
        obtain ⟨hx, hrest⟩ := h
        subst hx
        have := ih rest last (by simpa [ws_runs] using hrest)
        simp only [ws_append_to_last_run, ws_runs, List.cons_append]
        rw [this]

/-! ## The claims about the loop header and the whitespace queue -/

/-- C11, as stated, fails for a loop of 1025 data names: after 1024 placeholders the line has
2047 characters, and the last placeholder is written after a newline, not after a space. -/
theorem handle_loop_start_packet_wraps :
    many_names.length = 1025 ∧
      handle_loop_start many_names loop_context
        = (CIF_OK,
            { (print_loop_header many_names
                { loop_context with in_ws_run := 0, in_loop := 1 }).2 with
              synthesize_packet := 0
              out := (print_loop_header many_names
                  { loop_context with in_ws_run := 0, in_loop := 1 }).2.out
                ++ [UCHAR_LF]
                ++ List.intersperse UCHAR_SP (List.replicate 1024 UCHAR_QUERY)
                ++ [UCHAR_LF, UCHAR_QUERY] ++ [UCHAR_LF]
              column := 1 }) ∧
      (handle_loop_start many_names loop_context).2.out
        ≠ (print_loop_header many_names
              { loop_context with in_ws_run := 0, in_loop := 1 }).2.out
            ++ [UCHAR_LF]
            ++ List.intersperse UCHAR_SP (List.replicate 1025 UCHAR_QUERY)
            ++ [UCHAR_LF] := by
  have h := handle_loop_start_wrap_plain many_names many_names_length
  refine ⟨many_names_length, h, ?_⟩
  rw [h]
  exact packet_wrap_ne _

/-- C11, amended: inside a container, for a loop of one or more data names,
`handle_loop_start` prints the loop header, which always succeeds and ends with the last data
name.  When a dummy packet is asked for it then writes a newline, the dummy packet and a
newline, clears the request and returns `CIF_OK`.  The dummy packet holds one placeholder `?`
for each data name and nothing else but what precedes each placeholder after the first: a
single space, or a newline instead before every placeholder whose number, counted from 0, is
a multiple of 1024, where the space and the placeholder would take the line past 2048
characters; so the placeholders of a loop of at most 1024 data names are separated by single
spaces.  When no dummy packet is asked for it prints the loop header and nothing else. -/
theorem handle_loop_start_dummy_packet (names : List (List UChar)) (ctx : context)
    (hc : ctx.in_container ≠ 0) (h1 : 1 ≤ names.length) :
    (ctx.synthesize_packet ≠ 0 →
      (handle_loop_start names ctx).1 = CIF_OK ∧
      (handle_loop_start names ctx).2.out
        = (print_loop_header names { ctx with in_ws_run := 0, in_loop := 1 }).2.out
          ++ [UCHAR_LF] ++ dummy_packet names.length ++ [UCHAR_LF] ∧
      (handle_loop_start names ctx).2.synthesize_packet = 0) ∧
    dummy_packet names.length
      = ((List.range names.length).map
          (fun k =>
            (if k = 0 then [] else if k % 1024 = 0 then [UCHAR_LF] else [UCHAR_SP])
              ++ [UCHAR_QUERY])).flatten ∧
    (dummy_packet names.length).count UCHAR_QUERY = names.length ∧
    (names.length ≤ 1024 →
      dummy_packet names.length
        = List.intersperse UCHAR_SP (List.replicate names.length UCHAR_QUERY)) ∧
    (ctx.synthesize_packet = 0 →
      handle_loop_start names ctx
        = print_loop_header names { ctx with in_ws_run := 0, in_loop := 1 }) ∧
    (print_loop_header names { ctx with in_ws_run := 0, in_loop := 1 }).1 = CIF_OK ∧
    (∃ w init last, names = init ++ [last] ∧
      (print_loop_header names { ctx with in_ws_run := 0, in_loop := 1 }).2.out
        = ctx.out ++ w ++ last) := by
  obtain ⟨ho, _, w, hw⟩ := print_loop_header_ok names { ctx with in_ws_run := 0, in_loop := 1 }
  refine ⟨fun hs => ?_, rfl, dummy_packet_count _, dummy_packet_line _,
    fun hs => handle_loop_start_plain names ctx hc hs, ho, ?_⟩
  · rw [handle_loop_start_packet_any names ctx hc hs h1]
    exact ⟨rfl, rfl, rfl⟩
  · have hne : names ≠ [] := by
      intro h
      rw [h] at h1
      simp at h1
    refine ⟨w, names.dropLast, names.getLast hne, (List.dropLast_append_getLast hne).symm, ?_⟩
    rw [hw, List.getLast_cons hne]

/-- C11, amended, at the loop of `_a` and `_b` with no whitespace cached, where the header is
written with a newline before the keyword and before each name, then the packet `? ?`; and at
the loop of 1025 data names, where the packet is a line of 1024 placeholders and a line of
one. -/
theorem handle_loop_start_dummy_packet_witness :
    ((handle_loop_start names_a_b loop_context).2.out = ustr "\nloop_\n_a\n_b\n? ?\n" ∧
      dummy_packet names_a_b.length = ustr "? ?") ∧
    ((handle_loop_start names_a_b loop_context).1 = CIF_OK ∧
      (handle_loop_start names_a_b loop_context).2.out
        = (print_loop_header names_a_b
            { loop_context with in_ws_run := 0, in_loop := 1 }).2.out
          ++ [UCHAR_LF] ++ dummy_packet names_a_b.length ++ [UCHAR_LF] ∧
      (handle_loop_start names_a_b loop_context).2.synthesize_packet = 0) ∧
    ((handle_loop_start many_names loop_context).1 = CIF_OK ∧
      (∃ header : List UChar,
        (handle_loop_start many_names loop_context).2.out
          = header ++ [UCHAR_LF] ++ dummy_packet many_names.length ++ [UCHAR_LF]) ∧
      (handle_loop_start many_names loop_context).2.synthesize_packet = 0 ∧
      dummy_packet many_names.length
        = List.intersperse UCHAR_SP (List.replicate 1024 UCHAR_QUERY)
          ++ [UCHAR_LF, UCHAR_QUERY]) :=
  ⟨⟨by decide, by decide⟩,
    (handle_loop_start_dummy_packet names_a_b loop_context (by decide) (by decide)).1
      (by decide),
    ((handle_loop_start_dummy_packet many_names loop_context (by decide)
      (by rw [many_names_length]; decide)).1 (by decide)).1,
    ⟨_, ((handle_loop_start_dummy_packet many_names loop_context (by decide)
      (by rw [many_names_length]; decide)).1 (by decide)).2.1⟩,
    ((handle_loop_start_dummy_packet many_names loop_context (by decide)
      (by rw [many_names_length]; decide)).1 (by decide)).2.2,
    by rw [many_names_length]; exact dummy_packet_wrap⟩

/-- C12, as stated, fails: for the loop of `_a` and `_b` with a newline cached before the
keyword and one space before each data name, what is written is `loop_ _a _b`, newline, `?`,
space, `?`, newline, with no space before the first placeholder, and the string of the claim
does not occur in it; nor does it occur when only the two spaces are cached, the first of
which is then written before the keyword. -/
theorem handle_loop_start_no_leading_space :
    (handle_loop_start names_a_b
        { loop_context with ws_queue := three_runs [UCHAR_LF] [UCHAR_SP] [UCHAR_SP] }).2.out
        = ustr "\nloop_ _a _b\n? ?\n" ∧
      occurrences (ustr "loop_ _a _b\n ? ?\n") (ustr "\nloop_ _a _b\n? ?\n") = 0 ∧
      (handle_loop_start names_a_b
        { loop_context with ws_queue := two_runs [UCHAR_SP] [UCHAR_SP] }).2.out
        = ustr " loop_ _a\n_b\n? ?\n" ∧
      occurrences (ustr "loop_ _a _b\n ? ?\n") (ustr " loop_ _a\n_b\n? ?\n") = 0 := by
  decide

/-- C12, amended: for the loop of `_a` and `_b`, inside a container, with a dummy packet asked
for, a newline cached before the keyword and one space before each data name,
`handle_loop_start` returns `CIF_OK` and writes `loop_ _a _b`, newline, `?`, space, `?`,
newline after the cached newline, which holds that string exactly once; the queue is then
empty and the request cleared. -/
theorem handle_loop_start_empty_loop (ctx : context) (hc : ctx.in_container ≠ 0)
    (hs : ctx.synthesize_packet ≠ 0)
    (hq : ctx.ws_queue = three_runs [UCHAR_LF] [UCHAR_SP] [UCHAR_SP]) :
    (handle_loop_start names_a_b ctx).1 = CIF_OK ∧
      (handle_loop_start names_a_b ctx).2.out = ctx.out ++ ustr "\nloop_ _a _b\n? ?\n" ∧
      occurrences (ustr "loop_ _a _b\n? ?\n") (ustr "\nloop_ _a _b\n? ?\n") = 1 ∧
      (handle_loop_start names_a_b ctx).2.ws_queue = .null ∧
      (handle_loop_start names_a_b ctx).2.synthesize_packet = 0 := by
  have hh : print_loop_header names_a_b { ctx with in_ws_run := 0, in_loop := 1 }
      = (CIF_OK, { ctx with in_ws_run := 0, in_loop := 1, ws_queue := .null, column := 11,
                            out := ctx.out ++ ustr "\nloop_ _a _b" }) := by
    simp [print_loop_header, print_ws_run, hq, three_runs, print_ws_pieces, count_eol,
      print_u_literal, print_loop_names, names_a_b, ustr, loop_kw, SPACE_ALLOWED, CIF_OK,
      UCHAR_LF, UCHAR_SP, UCHAR_CR, UCHAR_UNDER, MAX_LINE_LENGTH]
  rw [handle_loop_start_packet names_a_b ctx hc hs (by decide) (by decide), hh]
  refine ⟨rfl, ?_, by decide, rfl, rfl⟩
  simp [names_a_b, ustr, UCHAR_LF, UCHAR_SP, UCHAR_QUERY]

/-- C12, amended, at the context with nothing written. -/
theorem handle_loop_start_empty_loop_witness :
    (handle_loop_start names_a_b
        { loop_context with ws_queue := three_runs [UCHAR_LF] [UCHAR_SP] [UCHAR_SP] }).1
        = CIF_OK ∧
      (handle_loop_start names_a_b
        { loop_context with ws_queue := three_runs [UCHAR_LF] [UCHAR_SP] [UCHAR_SP] }).2.out
        = ({ loop_context with
              ws_queue := three_runs [UCHAR_LF] [UCHAR_SP] [UCHAR_SP] } : context).out
            ++ ustr "\nloop_ _a _b\n? ?\n" ∧
      occurrences (ustr "loop_ _a _b\n? ?\n") (ustr "\nloop_ _a _b\n? ?\n") = 1 ∧
      (handle_loop_start names_a_b
        { loop_context with
          ws_queue := three_runs [UCHAR_LF] [UCHAR_SP] [UCHAR_SP] }).2.ws_queue = .null ∧
      (handle_loop_start names_a_b
        { loop_context with
          ws_queue := three_runs [UCHAR_LF] [UCHAR_SP] [UCHAR_SP] }).2.synthesize_packet = 0 :=
  handle_loop_start_empty_loop
    { loop_context with ws_queue := three_runs [UCHAR_LF] [UCHAR_SP] [UCHAR_SP] }
    (by decide) (by decide) rfl

theorem print_ws_pieces_text :
    ∀ (node : ws_node) (ctx : context) (rval : Int),
      (print_ws_pieces node ctx rval).2.out = ctx.out ++ run_text (ws_pieces node) ∧
        (print_ws_pieces node ctx rval).1 = rval + ((run_text (ws_pieces node)).length : Int) ∧
        (print_ws_pieces node ctx rval).2.ws_queue = ctx.ws_queue ∧
        (print_ws_pieces node ctx rval).2.error_count = ctx.error_count := by
  intro node
  induction node with
  | null =>
    intro ctx rval
    simp [print_ws_pieces, ws_pieces, run_text]
  | node ws next_piece next_run ih _ =>
    intro ctx rval
    simp only [print_ws_pieces, ws_pieces, run_text, List.flatten_cons, List.length_append]
    obtain ⟨h1, h2, h3, h4⟩ := ih
      { ctx with
        out := ctx.out ++ ws
        column := if (count_eol ws false 0 (0, 0)).1 ≠ 0 then
            (ws.length : Int) - ((count_eol ws false 0 (0, 0)).2 : Int)
          else ctx.column + (ws.length : Int) } (rval + (ws.length : Int))
    refine ⟨?_, ?_, h3, h4⟩
    · rw [h1]
      simp [run_text]
    · rw [h2]
      simp only [run_text]
      push_cast
      ring

theorem print_ws_run_text (ctx : context) (ws : List UChar) (next_piece next_run : ws_node)
    (hq : ctx.ws_queue = .node ws next_piece next_run) :
    (print_ws_run ctx).2.out = ctx.out ++ run_text (ws :: ws_pieces next_piece) ∧
      (print_ws_run ctx).1 = ((run_text (ws :: ws_pieces next_piece)).length : Int) ∧
      (print_ws_run ctx).2.ws_queue = next_run ∧
      (print_ws_run ctx).2.error_count = ctx.error_count := by
  obtain ⟨h1, h2, h3, h4⟩ := print_ws_pieces_text (.node ws next_piece next_run)
    { ctx with ws_queue := next_run } 0
  simp only [print_ws_run, hq]
  refine ⟨h1, ?_, h3, h4⟩
  rw [h2]
  simp [ws_pieces]

theorem print_all_ws_runs_loop_text :
    ∀ (queue : ws_node) (ctx : context) (rval : Int),
      (print_all_ws_runs_loop queue ctx rval).2.out = ctx.out ++ queue_text queue ∧
        (print_all_ws_runs_loop queue ctx rval).1 = rval + ((queue_text queue).length : Int) ∧
        (queue ≠ .null → (print_all_ws_runs_loop queue ctx rval).2.ws_queue = .null) ∧
        (queue = .null → print_all_ws_runs_loop queue ctx rval = (rval, ctx)) ∧
        (print_all_ws_runs_loop queue ctx rval).2.error_count = ctx.error_count := by
  intro queue
  induction queue with
  | null =>
    intro ctx rval
    simp [print_all_ws_runs_loop, queue_text, ws_runs]
  | node ws next_piece next_run _ ih =>
    intro ctx rval
    obtain ⟨h1, h2, h3, h4⟩ := print_ws_run_text
      { ctx with ws_queue := .node ws next_piece next_run } ws next_piece next_run rfl
    obtain ⟨i1, i2, i3, i4, i5⟩ := ih
      (print_ws_run { ctx with ws_queue := .node ws next_piece next_run }).2
      (rval + (print_ws_run { ctx with ws_queue := .node ws next_piece next_run }).1)
    simp only [print_all_ws_runs_loop]
    refine ⟨?_, ?_, ?_, ?_, ?_⟩
    · rw [i1, h1]
      simp [queue_text, ws_runs]
    · rw [i2, h2]
      simp only [queue_text, ws_runs, List.map_cons, List.flatten_cons, List.length_append]
      push_cast
      ring
    · intro _
      cases hn : next_run with
      | null =>
        rw [hn] at i4
        rw [i4 rfl]
        exact hn ▸ h3
      | node a b c =>
        rw [hn] at i3
        exact i3 (by simp)
    · intro h
      simp at h
    · rw [i5, h4]

theorem print_all_ws_runs_text (ctx : context) :
    (print_all_ws_runs ctx).2.out = ctx.out ++ queue_text ctx.ws_queue ∧
      (print_all_ws_runs ctx).1 = ((queue_text ctx.ws_queue).length : Int) ∧
      (print_all_ws_runs ctx).2.ws_queue = .null ∧
      (print_all_ws_runs ctx).2.error_count = ctx.error_count := by
  obtain ⟨h1, h2, h3, h4, h5⟩ := print_all_ws_runs_loop_text ctx.ws_queue ctx 0
  refine ⟨h1, by rw [print_all_ws_runs, h2]; simp, ?_, h5⟩
  cases hq : ctx.ws_queue with
  | null =>
    rw [print_all_ws_runs, hq]
    rw [hq] at h4
    rw [h4 rfl]
    exact hq
  | node a b c =>
    rw [hq] at h3
    rw [print_all_ws_runs, hq]
    exact h3 (by simp)

theorem ws_runs_concat (ws : List UChar) (next_piece next_run : ws_node) :
    ∃ init last, ws_runs (.node ws next_piece next_run) = init ++ [last] := by
  have hne : ws_runs (.node ws next_piece next_run) ≠ [] := by simp [ws_runs]
  exact ⟨_, _, (List.dropLast_append_getLast hne).symm⟩

theorem queue_text_concat (init : List (List (List UChar))) (last : List (List UChar))
    (piece : List UChar) :
    ((init ++ [last ++ [piece]]).map run_text).flatten
      = ((init ++ [last]).map run_text).flatten ++ piece := by
  simp [run_text]

theorem preserve_whitespace_text (segment : List UChar) (ctx : context) :
    queue_text (preserve_whitespace (some segment) ctx).ws_queue
      = queue_text ctx.ws_queue ++ whitespace_piece segment ctx := by
  cases hq : ctx.ws_queue with
  | null =>
    simp [preserve_whitespace, hq, queue_text, ws_runs, ws_pieces, run_text]
  | node ws next_piece next_run =>
    simp only [preserve_whitespace, hq]
    by_cases hrun : ctx.in_ws_run ≠ 0
    · rw [if_pos hrun]
      obtain ⟨init, last, hl⟩ := ws_runs_concat ws next_piece next_run
      simp only [queue_text]
      rw [ws_runs_append_to_last_run _ _ init last hl, hl]
      exact queue_text_concat init last _
    · rw [if_neg hrun]
      simp only [queue_text]
      rw [ws_runs_append_run]
      simp [ws_runs, ws_pieces, run_text]

theorem whitespace_piece_plain (segment : List UChar) (ctx : context) (heol : ctx.extra_eol = [])
    (hws : ctx.extra_ws = []) : whitespace_piece segment ctx = segment := by
  simp only [whitespace_piece, translate_whitespace, translate_chars, heol, hws, if_true]
  split
  · rfl
  · rename_i h
    simp only [ne_eq, not_not, List.length_eq_zero] at h
    exact h.symm

theorem preserve_all_text :
    ∀ (segments : List (List UChar)) (ctx : context), ctx.extra_eol = [] → ctx.extra_ws = [] →
      queue_text (preserve_all segments ctx).ws_queue
          = queue_text ctx.ws_queue ++ segments.flatten ∧
        (preserve_all segments ctx).out = ctx.out := by
  intro segments
  induction segments with
  | nil =>
    intro ctx _ _
    simp [preserve_all]
  | cons segment rest ih =>
    intro ctx heol hws
    have h := ih (preserve_whitespace (some segment) ctx) heol hws
    simp only [preserve_all, List.foldl_cons] at h ⊢
    rw [h.1, h.2, preserve_whitespace_text, whitespace_piece_plain segment ctx heol hws]
    simp [preserve_whitespace]

/-! ## Lists of unknown values -/

theorem print_value_placeholder (NDEBUG : Bool) (analyze : analyzer) (depth : Nat)
    (e : cif_value) (he : e = .unk ∨ e = .na) (ctx : context) (hq : ctx.ws_queue = .null)
    (index : Nat) (hcol : 1 ≤ ctx.column) (hroom : ctx.column + 2 ≤ 2048) :
    print_value NDEBUG analyze (depth + 1) e ctx (if index ≠ 0 then 1 else 0)
      = some (CIF_OK,
          { ctx with
            out := ctx.out ++ (if index ≠ 0 then [UCHAR_SP] else []) ++ [value_literal e]
            column := ctx.column + (if index ≠ 0 then 2 else 1) }) := by
  have hc0 : ctx.column ≠ 0 := by omega
  have hrun : print_ws_run ctx = (0, ctx) := by simp [print_ws_run, hq]
  have hroom1 : ¬ (2048 < 1 + ctx.column + 1) := by omega
  have hroom0 : ¬ (2048 < 1 + ctx.column) := by omega
  by_cases hi : index ≠ 0
  · rcases he with he | he
    · subst he
      simp [print_value, hi, hrun, print_u_literal, hc0, MAX_LINE_LENGTH, value_literal, CIF_OK,
        hroom1]
    · subst he
      simp [print_value, hi, hrun, print_u_literal, hc0, MAX_LINE_LENGTH, value_literal, CIF_OK,
        hroom1]
  · rcases he with he | he
    · subst he
      simp [print_value, hi, hrun, print_u_literal, hc0, MAX_LINE_LENGTH, value_literal, CIF_OK,
        hroom0]
    · subst he
      simp [print_value, hi, hrun, print_u_literal, hc0, MAX_LINE_LENGTH, value_literal, CIF_OK,
        hroom0]

theorem spaced_literals_length (elements : List cif_value) :
    (spaced_literals elements).length = 2 * elements.length := by
  induction elements with
  | nil => rfl
  | cons e rest ih =>
    simp only [spaced_literals, List.length_cons, ih]
    omega

theorem list_literals_length_le (elements : List cif_value) :
    (list_literals elements).length ≤ 2 * elements.length := by
  cases elements with
  | nil => simp [list_literals]
  | cons e rest =>
    simp only [list_literals, List.length_cons, spaced_literals_length]
    omega

theorem list_literals_intersperse (elements : List cif_value) :
    list_literals elements = List.intersperse UCHAR_SP (elements.map value_literal) := by
  cases elements with
  | nil => rfl
  | cons e rest =>
    simp only [list_literals, List.map_cons]
    induction rest generalizing e with
    | nil => rfl
    | cons e2 rest ih =>
      rw [List.map_cons, List.intersperse_cons_cons, ← ih e2]
      rfl

theorem print_list_elements_placeholders (NDEBUG : Bool) (analyze : analyzer) (depth : Nat) :
    ∀ (elements : List cif_value) (index : Nat) (ctx : context),
      (∀ e ∈ elements, e = .unk ∨ e = .na) → ctx.ws_queue = .null → 1 ≤ ctx.column →
      ctx.column + 2 * (elements.length : Int) ≤ 2048 →
      print_list_elements (print_value NDEBUG analyze (depth + 1)) elements index ctx
        = some (CIF_TRAVERSE_CONTINUE,
            { ctx with
              out := ctx.out ++
                (if index ≠ 0 then spaced_literals elements else list_literals elements)
              column := ctx.column +
                (((if index ≠ 0 then spaced_literals elements
                    else list_literals elements).length : Nat) : Int) }) := by
  intro elements
  induction elements with
  | nil =>
    intro index ctx _ _ _ _
    simp [print_list_elements, spaced_literals, list_literals]
  | cons e rest ih =>
    intro index ctx he hq hcol hroom
    simp only [List.length_cons] at hroom
    have hp := print_value_placeholder NDEBUG analyze depth e (he e (List.mem_cons_self _ _)) ctx
      hq index hcol (by push_cast at hroom; omega)
    simp only [print_list_elements]
    rw [hp]
    simp only []
    rw [if_neg (by decide)]
    rw [ih (index + 1)
      { ctx with
        out := ctx.out ++ (if index ≠ 0 then [UCHAR_SP] else []) ++ [value_literal e]
        column := ctx.column + (if index ≠ 0 then 2 else 1) }
      (fun x hx => he x (List.mem_cons_of_mem _ hx)) hq
      (by simp only []; split <;> omega)
      (by simp only []; push_cast at hroom; split <;> omega)]
    by_cases hi : index ≠ 0
    · simp [hi, spaced_literals, spaced_literals_length]
      ring
    · simp [hi, list_literals, spaced_literals, spaced_literals_length]
      ring

/-- What `print_list` writes for a list of unknown and inapplicable values when the queue is
empty and the line has room. -/
theorem print_list_placeholders (NDEBUG : Bool) (analyze : analyzer) (depth : Nat)
    (elements : List cif_value) (ctx : context) (hfmt : ctx.output_format ≠ format.CIF11)
    (hq : ctx.ws_queue = .null) (he : ∀ e ∈ elements, e = .unk ∨ e = .na)
    (hcol : 0 ≤ ctx.column) (hroom : ctx.column + 2 * (elements.length : Int) + 2 ≤ 2048) :
    print_list (print_value NDEBUG analyze (depth + 1)) elements ctx
      = some (CIF_OK,
          { ctx with
            out := ctx.out ++ [UCHAR_OBRK] ++ list_literals elements ++ [UCHAR_CBRK]
            column := ctx.column + (((list_literals elements).length : Nat) : Int) + 2 }) := by
  have hlen := list_literals_length_le elements
  have ho : print_u_literal SPACE_ALLOWED [UCHAR_OBRK] 1 ctx
      = (CIF_OK, { ctx with out := ctx.out ++ [UCHAR_OBRK], column := ctx.column + 1 }) := by
    unfold print_u_literal
    by_cases hc : ctx.column ≠ 0
    · have : ¬ (2048 < 1 + ctx.column) := by omega
      simp [hc, SPACE_ALLOWED, MAX_LINE_LENGTH, this]
    · have hc' : ctx.column = 0 := not_not.mp hc
      simp [hc']
  simp only [print_list]
  rw [if_neg hfmt, ho]
  simp only []
  rw [if_neg (by decide)]
  rw [print_list_elements_placeholders NDEBUG analyze depth elements 0
    { ctx with out := ctx.out ++ [UCHAR_OBRK], column := ctx.column + 1 } he hq
    (by simp only []; omega) (by simp only []; omega)]
  simp only []
  rw [if_neg (by decide)]
  simp only [print_ws_run, hq, lt_self_iff_false, if_false, ne_eq, not_true_eq_false]
  unfold print_u_literal
  have hc1 : ctx.column + 1 + (((list_literals elements).length : Nat) : Int) ≠ 0 := by omega
  have hroom2 : ¬ (2048 < 1 + (ctx.column + 1 + (((list_literals elements).length : Nat) : Int)))
      := by omega
  simp [hc1, SPACE_ALLOWED, MAX_LINE_LENGTH, hroom2]
  ring

/-! ## The claims about the queue, the header, the scenarios and the options -/

/-- C21: on a queue with a first run, `print_ws_run` writes the pieces of that run in order,
leaves the queue at the run after it, so that the other runs are what they were, and returns
the number of characters written; on an empty queue it returns 0 and changes nothing. -/
theorem print_ws_run_first_run (ctx : context) :
    (∀ (ws : List UChar) (next_piece next_run : ws_node),
      ctx.ws_queue = .node ws next_piece next_run →
        (print_ws_run ctx).2.out = ctx.out ++ run_text (ws :: ws_pieces next_piece) ∧
        (print_ws_run ctx).2.ws_queue = next_run ∧
        ws_runs ctx.ws_queue
          = (ws :: ws_pieces next_piece) :: ws_runs (print_ws_run ctx).2.ws_queue ∧
        (print_ws_run ctx).1 = ((run_text (ws :: ws_pieces next_piece)).length : Int)) ∧
    (ctx.ws_queue = .null → print_ws_run ctx = (0, ctx)) := by
  refine ⟨?_, ?_⟩
  · intro ws next_piece next_run hq
    obtain ⟨h1, h2, h3, _⟩ := print_ws_run_text ctx ws next_piece next_run hq
    refine ⟨h1, h3, ?_, h2⟩
    rw [h3, hq]
    rfl
  · intro hq
    simp [print_ws_run, hq]

/-- C21, at a queue of two runs, the first of two pieces: the two pieces are written, 5 is
returned and the second run is left. -/
theorem print_ws_run_first_run_witness :
    (print_ws_run
        { zero_context with
          ws_queue := .node (ustr "# a") (.node (ustr "\n ") .null .null)
            (.node (ustr " ") .null .null) }).2.out
        = zero_context.out ++ run_text (ustr "# a" :: ws_pieces (.node (ustr "\n ") .null .null)) ∧
      (print_ws_run
        { zero_context with
          ws_queue := .node (ustr "# a") (.node (ustr "\n ") .null .null)
            (.node (ustr " ") .null .null) }).2.ws_queue = .node (ustr " ") .null .null ∧
      ws_runs (.node (ustr "# a") (.node (ustr "\n ") .null .null)
          (.node (ustr " ") .null .null))
        = (ustr "# a" :: ws_pieces (.node (ustr "\n ") .null .null)) ::
            ws_runs (print_ws_run
              { zero_context with
                ws_queue := .node (ustr "# a") (.node (ustr "\n ") .null .null)
                  (.node (ustr " ") .null .null) }).2.ws_queue ∧
      (print_ws_run
        { zero_context with
          ws_queue := .node (ustr "# a") (.node (ustr "\n ") .null .null)
            (.node (ustr " ") .null .null) }).1
        = ((run_text (ustr "# a" :: ws_pieces (.node (ustr "\n ") .null .null))).length : Int) :=
  (print_ws_run_first_run
    { zero_context with
      ws_queue := .node (ustr "# a") (.node (ustr "\n ") .null .null)
        (.node (ustr " ") .null .null) }).1
    (ustr "# a") (.node (ustr "\n ") .null .null) (.node (ustr " ") .null .null) rfl

/-- C22: when the context names no extra whitespace or end-of-line characters, after any
sequence of calls of `preserve_whitespace` with segments, from any context, `print_all_ws_runs`
writes what was queued before and then the segments in the order of the calls, returns the
number of characters written and leaves the queue empty. From an empty queue it writes the
segments and nothing else. -/
theorem print_all_ws_runs_fifo (segments : List (List UChar)) (ctx : context)
    (heol : ctx.extra_eol = []) (hws : ctx.extra_ws = []) :
    (print_all_ws_runs (preserve_all segments ctx)).2.out
        = ctx.out ++ queue_text ctx.ws_queue ++ segments.flatten ∧
      (print_all_ws_runs (preserve_all segments ctx)).1
        = (((queue_text ctx.ws_queue).length + segments.flatten.length : Nat) : Int) ∧
      (print_all_ws_runs (preserve_all segments ctx)).2.ws_queue = .null ∧
      (ctx.ws_queue = .null →
        (print_all_ws_runs (preserve_all segments ctx)).2.out = ctx.out ++ segments.flatten ∧
        (print_all_ws_runs (preserve_all segments ctx)).1 = (segments.flatten.length : Int)) := by
  obtain ⟨h1, h2, h3, _⟩ := print_all_ws_runs_text (preserve_all segments ctx)
  obtain ⟨p1, p2⟩ := preserve_all_text segments ctx heol hws
  have ho : (print_all_ws_runs (preserve_all segments ctx)).2.out
      = ctx.out ++ queue_text ctx.ws_queue ++ segments.flatten := by
    rw [h1, p1, p2, List.append_assoc]
  have hn : (print_all_ws_runs (preserve_all segments ctx)).1
      = (((queue_text ctx.ws_queue).length + segments.flatten.length : Nat) : Int) := by
    rw [h2, p1, List.length_append]
  refine ⟨ho, hn, h3, ?_⟩
  intro hq
  rw [ho, hn, hq]
  simp [queue_text, ws_runs]

/-- C22, at three segments, the second of them empty, handed over with `in_ws_run` set and
an empty queue: `# a`, newline and a space are written in that order. -/
theorem print_all_ws_runs_fifo_witness :
    (print_all_ws_runs
        (preserve_all [ustr "# a", [], ustr "\n "] { zero_context with in_ws_run := 1 })).2.out
        = ({ zero_context with in_ws_run := 1 } : context).out
          ++ queue_text ({ zero_context with in_ws_run := 1 } : context).ws_queue
          ++ [ustr "# a", [], ustr "\n "].flatten ∧
      (print_all_ws_runs
        (preserve_all [ustr "# a", [], ustr "\n "] { zero_context with in_ws_run := 1 })).1
        = (((queue_text ({ zero_context with in_ws_run := 1 } : context).ws_queue).length
            + [ustr "# a", [], ustr "\n "].flatten.length : Nat) : Int) ∧
      (print_all_ws_runs
        (preserve_all [ustr "# a", [], ustr "\n "]
          { zero_context with in_ws_run := 1 })).2.ws_queue = .null ∧
      (({ zero_context with in_ws_run := 1 } : context).ws_queue = .null →
        (print_all_ws_runs
          (preserve_all [ustr "# a", [], ustr "\n "]
            { zero_context with in_ws_run := 1 })).2.out
          = ({ zero_context with in_ws_run := 1 } : context).out
            ++ [ustr "# a", [], ustr "\n "].flatten ∧
        (print_all_ws_runs
          (preserve_all [ustr "# a", [], ustr "\n "]
            { zero_context with in_ws_run := 1 })).1
          = ([ustr "# a", [], ustr "\n "].flatten.length : Int)) :=
  print_all_ws_runs_fifo [ustr "# a", [], ustr "\n "] { zero_context with in_ws_run := 1 }
    rfl rfl

/-- C23: a version comment ended by CR LF with the CR at the end of one piece and the LF at
the start of the next is not removed up to and including its line terminator: the text of
the first run after the first line terminator is `# c` and a newline, but
`consume_version_comment` leaves an empty piece and the second piece, which begins with the
LF.  With the same text in one piece, or with the start of the comment split over two
pieces, the run is left with the text after the terminator; in each case the second run is
kept. -/
theorem consume_version_comment_split_eol :
    ws_runs split_eol_queue = [[ustr "#\\#CIF_2.0\r", ustr "\n# c\n"], [ustr " "]] ∧
      after_first_eol (run_text [ustr "#\\#CIF_2.0\r", ustr "\n# c\n"])
        = some (ustr "# c\n") ∧
      ws_runs (consume_version_comment { start_context with ws_queue := split_eol_queue }).ws_queue
        = [[[], ustr "\n# c\n"], [ustr " "]] ∧
      ws_runs (consume_version_comment { start_context with ws_queue := whole_eol_queue }).ws_queue
        = [[[], ustr "# c\n"], [ustr " "]] ∧
      ws_runs
          (consume_version_comment { start_context with ws_queue := split_header_queue }).ws_queue
        = [[ustr "# c\n"], [ustr " "]] := by
  decide

/-- What `handle_cif_end` does once the version comment is out of the way: the queue is
written, or a newline when it holds no text. -/
theorem print_all_ws_runs_or_newline (c : context) :
    (if (print_all_ws_runs c).1 ≤ 0 then
        ((0 : Int), { (print_all_ws_runs c).2 with
          out := (print_all_ws_runs c).2.out ++ [UCHAR_LF] })
      else (0, (print_all_ws_runs c).2)).1 = 0 ∧
    (if (print_all_ws_runs c).1 ≤ 0 then
        ((0 : Int), { (print_all_ws_runs c).2 with
          out := (print_all_ws_runs c).2.out ++ [UCHAR_LF] })
      else (0, (print_all_ws_runs c).2)).2.out
      = c.out ++ (if queue_text c.ws_queue = [] then [UCHAR_LF] else queue_text c.ws_queue) ∧
    (if (print_all_ws_runs c).1 ≤ 0 then
        ((0 : Int), { (print_all_ws_runs c).2 with
          out := (print_all_ws_runs c).2.out ++ [UCHAR_LF] })
      else (0, (print_all_ws_runs c).2)).2.ws_queue = .null := by
  obtain ⟨h1, h2, h3, _⟩ := print_all_ws_runs_text c
  by_cases hz : queue_text c.ws_queue = []
  · have hle : (print_all_ws_runs c).1 ≤ 0 := by
      rw [h2, hz]
      simp
    rw [if_pos hle, if_pos hz]
    refine ⟨rfl, ?_, h3⟩
    show (print_all_ws_runs c).2.out ++ [UCHAR_LF] = c.out ++ [UCHAR_LF]
    rw [h1, hz, List.append_nil]
  · have hpos : 0 < (queue_text c.ws_queue).length := List.length_pos.mpr hz
    have hle : ¬ (print_all_ws_runs c).1 ≤ 0 := by
      rw [h2]
      omega
    rw [if_neg hle, if_neg hz]
    exact ⟨rfl, h1, h3⟩

/-- The text written by `handle_cif_end`, in terms of the context it prints from. -/
theorem handle_cif_end_text (ctx : context) :
    (handle_cif_end ctx).1 = 0 ∧
    (handle_cif_end ctx).2.out
      = (if ctx.at_start ≠ 0 then { consume_version_comment ctx with at_start := 0 }
          else ctx).out ++
        (if queue_text (if ctx.at_start ≠ 0 then
              { consume_version_comment ctx with at_start := 0 } else ctx).ws_queue = []
          then [UCHAR_LF]
          else queue_text (if ctx.at_start ≠ 0 then
              { consume_version_comment ctx with at_start := 0 } else ctx).ws_queue) ∧
    (handle_cif_end ctx).2.ws_queue = .null :=
  print_all_ws_runs_or_newline
    (if ctx.at_start ≠ 0 then { consume_version_comment ctx with at_start := 0 } else ctx)

/-- The function `consume_version_comment` writes nothing. -/
theorem consume_version_comment_out (ctx : context) :
    (consume_version_comment ctx).out = ctx.out := by
  unfold consume_version_comment
  split
  · rfl
  · split <;> rfl

/-- C24, as stated, fails: at the end of a CIF without a data block, with the version comment
of the input as the only cached run, `handle_cif_end` does not write that run: it consumes
the comment and writes a newline. -/
theorem handle_cif_end_consumes_comment :
    queue_text (.node (ustr "#\\#CIF_1.1\n") .null .null) = ustr "#\\#CIF_1.1\n" ∧
      handle_cif_end
          { start_context with ws_queue := .node (ustr "#\\#CIF_1.1\n") .null .null }
        = (0, { start_context with at_start := 0, out := [UCHAR_LF] }) := by
  decide

/-- C24, amended: `print_header` writes `#\#CIF_2.0` and a newline for CIF 2.0 output and
`#\#CIF_1.1` and a newline for CIF 1.1 output.  `handle_cif_end` writes the text of all cached
runs in order, after `consume_version_comment` has been applied to the queue if no block has
been opened (`at_start`), and writes one newline instead when that text is empty; it leaves
the queue empty and returns 0.  For an empty CIF with an empty queue and CIF 2.0 output the
two handlers write `#\#CIF_2.0`, newline, newline. -/
theorem handle_cif_end_writes_queue :
    (∀ ctx : context, ctx.output_format = format.CIF20 →
      print_header ctx
        = some (CIF_OK, { ctx with out := ctx.out ++ ustr "#\\#CIF_2.0\n", column := 0 })) ∧
    (∀ ctx : context, ctx.output_format = format.CIF11 →
      print_header ctx
        = some (CIF_OK, { ctx with out := ctx.out ++ ustr "#\\#CIF_1.1\n", column := 0 })) ∧
    (∀ ctx : context, ctx.at_start = 0 →
      (handle_cif_end ctx).1 = 0 ∧
      (handle_cif_end ctx).2.out
        = ctx.out ++
          (if queue_text ctx.ws_queue = [] then [UCHAR_LF] else queue_text ctx.ws_queue) ∧
      (handle_cif_end ctx).2.ws_queue = .null) ∧
    (∀ ctx : context, ctx.at_start ≠ 0 →
      (handle_cif_end ctx).1 = 0 ∧
      (handle_cif_end ctx).2.out
        = ctx.out ++
          (if queue_text (consume_version_comment ctx).ws_queue = [] then [UCHAR_LF]
            else queue_text (consume_version_comment ctx).ws_queue) ∧
      (handle_cif_end ctx).2.ws_queue = .null) ∧
    (∃ c, print_header start_context = some (CIF_OK, c) ∧
      handle_cif_end c
        = (0, { start_context with at_start := 0, out := ustr "#\\#CIF_2.0\n\n" })) := by
  refine ⟨?_, ?_, ?_, ?_, ?_⟩
  · intro ctx h
    simp only [print_header, h, headers]
    rfl
  · intro ctx h
    simp only [print_header, h, headers]
    rfl
  · intro ctx h
    have hend := handle_cif_end_text ctx
    rw [if_neg (not_not.mpr h)] at hend
    exact hend
  · intro ctx h
    have hend := handle_cif_end_text ctx
    rw [if_pos h] at hend
    refine ⟨hend.1, ?_, hend.2.2⟩
    rw [hend.2.1]
    show (consume_version_comment ctx).out ++ _ = _
    rw [consume_version_comment_out]
  · exact ⟨_, rfl, by decide⟩

/-- C24, amended, at the end of a CIF with a block and two runs cached, which are written in
order with no newline after them, and at the end of a CIF without a block with the version
comment of the input and a comment cached, of which the comment is written. -/
theorem handle_cif_end_writes_queue_witness :
    (({ zero_context with ws_queue := two_runs (ustr "\n# a") (ustr "\n") } : context).at_start
        = 0 ∧
      (handle_cif_end
        { zero_context with ws_queue := two_runs (ustr "\n# a") (ustr "\n") }).2.out
        = ustr "\n# a\n") ∧
    (({ start_context with
          ws_queue := two_runs (ustr "#\\#CIF_1.1\n# a\n") (ustr " ") } : context).at_start ≠ 0 ∧
      (handle_cif_end
        { start_context with
          ws_queue := two_runs (ustr "#\\#CIF_1.1\n# a\n") (ustr " ") }).2.out
        = ustr "# a\n ") :=
  ⟨⟨by decide,
    ((handle_cif_end_writes_queue.2.2.1
      { zero_context with ws_queue := two_runs (ustr "\n# a") (ustr "\n") }
      (by decide)).2.1).trans (by decide)⟩,
   ⟨by decide,
    ((handle_cif_end_writes_queue.2.2.2.1
      { start_context with ws_queue := two_runs (ustr "#\\#CIF_1.1\n# a\n") (ustr " ") }
      (by decide)).2.1).trans (by decide)⟩⟩

/-- C25: for CIF 2.0 output, from the context in which the parse begins, with an analyzer that
reports `1` as a text of one character that needs no delimiter, the handlers of cif-start,
block-start with the code `a`, the item `_x` with the number `1`, block-end and cif-end
succeed and write the header with its newline, a newline, `data_a`, a newline, `_x 1` and a
newline: the output begins with the header, holds `data_a` at the start of a line, and holds
`_x`, a space and `1`. -/
theorem simple_scalar_output (NDEBUG : Bool) (analyze : analyzer)
    (a : cif_string_analysis_s)
    (ha : analyze (ustr "1") true true MAX_LINE_LENGTH = (CIF_OK, a))
    (hd : a.delim_length = 0) (hdelim : a.delim = []) (hfirst : a.length_first = 1) :
    ∃ c₁ c₂ c₃ c₄,
      print_header start_context = some (CIF_OK, c₁) ∧
      open_block (ustr "a") c₁ = (CIF_OK, c₂) ∧
      print_item NDEBUG analyze 1 (some (ustr "_x")) (.numb (ustr "1")) c₂ = some (CIF_OK, c₃) ∧
      flush_container c₃ = (CIF_OK, c₄) ∧
      (handle_cif_end c₄).1 = 0 ∧
      (handle_cif_end c₄).2.out = ustr "#\\#CIF_2.0\n\ndata_a\n_x 1\n" ∧
      starts_with (ustr "#\\#CIF_2.0\n") (handle_cif_end c₄).2.out = true ∧
      occurrences (ustr "\ndata_a\n") (handle_cif_end c₄).2.out = 1 ∧
      occurrences (ustr "\n_x 1\n") (handle_cif_end c₄).2.out = 1 := by
  refine ⟨{ start_context with out := ustr "#\\#CIF_2.0\n" },
    { start_context with
      out := ustr "#\\#CIF_2.0\n\ndata_a", at_start := 0, in_container := 1, column := 6 },
    { start_context with
      out := ustr "#\\#CIF_2.0\n\ndata_a\n_x 1", at_start := 0, in_container := 1,
      column := 1 },
    { start_context with
      out := ustr "#\\#CIF_2.0\n\ndata_a\n_x 1", at_start := 0, in_container := 0,
      column := 1 },
    by decide, by decide, ?_, by decide, by decide, by decide, by decide, by decide, by decide⟩
  have ha2 : analyze [49] true (format.CIF20 != format.CIF11) 2048 = (CIF_OK, a) := ha
  simp [print_item, print_value, print_value_text, print_ws_run, print_all_ws_runs,
    print_all_ws_runs_loop, print_ws_pieces, start_context, zero_context, ustr, ha2, hd,
    hdelim, hfirst, ensure_space, print_delimited, MAX_LINE_LENGTH, CIF_OK, CIF_ERROR,
    UCHAR_LF, UCHAR_SP]

/-- C25, with the analyzer that reports every text as a single line that needs no
delimiter. -/
theorem simple_scalar_output_witness :
    bare_analyzer (ustr "1") true true MAX_LINE_LENGTH
        = (CIF_OK,
          { delim := [], delim_length := 0, num_lines := 1, length_first := 1,
            length_last := 1, length_max := 1, max_semi_run := 0, contains_text_delim := false,
            has_reserved_start := false, has_trailing_ws := false }) ∧
      ∃ c₁ c₂ c₃ c₄,
        print_header start_context = some (CIF_OK, c₁) ∧
        open_block (ustr "a") c₁ = (CIF_OK, c₂) ∧
        print_item true bare_analyzer 1 (some (ustr "_x")) (.numb (ustr "1")) c₂
          = some (CIF_OK, c₃) ∧
        flush_container c₃ = (CIF_OK, c₄) ∧
        (handle_cif_end c₄).1 = 0 ∧
        (handle_cif_end c₄).2.out = ustr "#\\#CIF_2.0\n\ndata_a\n_x 1\n" ∧
        starts_with (ustr "#\\#CIF_2.0\n") (handle_cif_end c₄).2.out = true ∧
        occurrences (ustr "\ndata_a\n") (handle_cif_end c₄).2.out = 1 ∧
        occurrences (ustr "\n_x 1\n") (handle_cif_end c₄).2.out = 1 :=
  ⟨by decide,
    simple_scalar_output true bare_analyzer
      { delim := [], delim_length := 0, num_lines := 1, length_first := 1,
        length_last := 1, length_max := 1, max_semi_run := 0, contains_text_delim := false,
        has_reserved_start := false, has_trailing_ws := false }
      (by decide) rfl rfl rfl⟩

/-- The function `print_ws_pieces` leaves the output format as it is. -/
theorem print_ws_pieces_format :
    ∀ (node : ws_node) (ctx : context) (rval : Int),
      (print_ws_pieces node ctx rval).2.output_format = ctx.output_format := by
  intro node
  induction node with
  | null => intro ctx rval; rfl
  | node ws next_piece next_run ih _ =>
    intro ctx rval
    simp only [print_ws_pieces]
    rw [ih]

/-- The function `print_ws_run` leaves the output format as it is. -/
theorem print_ws_run_format (ctx : context) :
    (print_ws_run ctx).2.output_format = ctx.output_format := by
  unfold print_ws_run
  split
  · rfl
  · rw [print_ws_pieces_format]

/-- The function `print_all_ws_runs` leaves the output format as it is. -/
theorem print_all_ws_runs_format (ctx : context) :
    (print_all_ws_runs ctx).2.output_format = ctx.output_format := by
  have h : ∀ (queue : ws_node) (c : context) (rval : Int),
      (print_all_ws_runs_loop queue c rval).2.output_format = c.output_format := by
    intro queue
    induction queue with
    | null => intro c rval; rfl
    | node ws next_piece next_run _ ih =>
      intro c rval
      simp only [print_all_ws_runs_loop]
      rw [ih, print_ws_run_format]
  exact h _ _ _

/-- C26: for an output format other than CIF 1.1, so for CIF 2.0, an empty whitespace queue
and a list of `n` elements that are Unknown or NotApplicable, at a column that leaves room for
`2 n + 2` characters, `print_list` succeeds and writes `[`, the literals `?` and `.` of the
elements in order with one space between neighbours and none before the first, and `]`. -/
theorem print_list_unknown_elements (NDEBUG : Bool) (analyze : analyzer) (depth : Nat)
    (elements : List cif_value) (ctx : context) (hfmt : ctx.output_format ≠ format.CIF11)
    (hq : ctx.ws_queue = .null) (he : ∀ e ∈ elements, e = .unk ∨ e = .na)
    (hcol : 0 ≤ ctx.column) (hroom : ctx.column + 2 * (elements.length : Int) + 2 ≤ 2048) :
    ∃ c, print_list (print_value NDEBUG analyze (depth + 1)) elements ctx = some (CIF_OK, c) ∧
      c.out = ctx.out ++ [UCHAR_OBRK]
        ++ List.intersperse UCHAR_SP (elements.map value_literal) ++ [UCHAR_CBRK] := by
  refine ⟨_, print_list_placeholders NDEBUG analyze depth elements ctx hfmt hq he hcol hroom, ?_⟩
  rw [list_literals_intersperse]

/-- C26, at the empty list and at the list of an Unknown, a NotApplicable and an Unknown value,
in a packet at column 0: `[]` and `[? . ?]` are written. -/
theorem print_list_unknown_elements_witness :
    (∃ c, print_list (print_value true bare_analyzer 1) [] packet_context = some (CIF_OK, c) ∧
      c.out = ustr "[]") ∧
    (∃ c, print_list (print_value true bare_analyzer 1) [.unk, .na, .unk] packet_context
        = some (CIF_OK, c) ∧
      c.out = ustr "[? . ?]") :=
  ⟨print_list_unknown_elements true bare_analyzer 0 [] packet_context (by decide) rfl
      (by simp) (by decide) (by decide),
    print_list_unknown_elements true bare_analyzer 0 [.unk, .na, .unk] packet_context
      (by decide) rfl (by simp) (by decide) (by decide)⟩

/-- C27: when the analyzer succeeds and selects a text field (delimiter length 2),
`print_value_text`, after it has written the cached whitespace, prints the text with
`print_text_field`, asking for folding exactly when `length_max > 2048`, or
`length_first ≥ 2048`, or `has_reserved_start`, or `has_trailing_ws`, or `max_semi_run ≥ 2046`,
and for prefixing exactly when `contains_text_delim` or `max_semi_run ≥ 2046`: the two
decisions are functions of the analysis alone, and a run of 2046 semicolons or more asks for
both. -/
theorem print_value_text_fold_decision (NDEBUG : Bool) (analyze : analyzer) (text : List UChar)
    (quoted : Bool) (ctx : context) (ws_needed : Nat) (analysis : cif_string_analysis_s)
    (ha : analyze text (!quoted) (ctx.output_format != format.CIF11) MAX_LINE_LENGTH
      = (CIF_OK, analysis))
    (hd : analysis.delim_length = 2) :
    print_value_text NDEBUG analyze text quoted ctx ws_needed
        = print_text_field NDEBUG text (decide (folds analysis)) (decide (prefixes analysis))
            (if ws_needed > 1 then print_all_ws_runs ctx else print_ws_run ctx).2 ∧
      (analysis.max_semi_run ≥ 2046 → folds analysis ∧ prefixes analysis) := by
  refine ⟨?_, fun h => ⟨Or.inr (Or.inr (Or.inr (Or.inr h))), Or.inr h⟩⟩
  have hfmt : (if ws_needed > 1 then print_all_ws_runs ctx else print_ws_run ctx).2.output_format
      = ctx.output_format := by
    split
    · exact print_all_ws_runs_format ctx
    · exact print_ws_run_format ctx
  have hn : ¬ (if ws_needed > 1 then print_all_ws_runs ctx else print_ws_run ctx).1 < 0 := by
    split
    · rw [(print_all_ws_runs_text ctx).2.1]
      omega
    · exact not_lt.mpr (print_ws_run_nonneg ctx)
  simp only [print_value_text]
  rw [if_neg hn, hfmt, ha]
  have hfold : (decide (analysis.length_max > (MAX_LINE_LENGTH : Int))
        || decide (analysis.length_first ≥ (MAX_LINE_LENGTH : Int))
        || analysis.has_reserved_start
        || analysis.has_trailing_ws
        || decide (analysis.max_semi_run ≥ (MAX_FOLD_LENGTH : Int) - 1))
      = decide (folds analysis) := by
    simp [folds, MAX_LINE_LENGTH, MAX_FOLD_LENGTH, Bool.or_assoc]
  have hpre : (analysis.contains_text_delim
        || decide (analysis.max_semi_run ≥ (MAX_FOLD_LENGTH : Int) - 1))
      = decide (prefixes analysis) := by
    simp [prefixes, MAX_LINE_LENGTH, MAX_FOLD_LENGTH]
  rw [hfold, hpre]
  simp [hd, CIF_OK]

/-- C27, at the text `a`, newline, `;b` with an analyzer that reports a text-field delimiter
in it: the text is printed as a text field that is prefixed and not folded. -/
theorem print_value_text_fold_decision_witness :
    print_value_text true text_delim_analyzer (ustr "a\n;b") false packet_context 2
        = print_text_field true (ustr "a\n;b") false true packet_context ∧
      print_text_field true (ustr "a\n;b") false true packet_context
        = some (CIF_OK, { packet_context with out := ustr "\n;> \\\n> a\n> ;b\n;", column := 1 }) :=
  ⟨(print_value_text_fold_decision true text_delim_analyzer (ustr "a\n;b") false packet_context 2
      { delim := [UCHAR_LF, UCHAR_SEMI], delim_length := 2, num_lines := 2, length_first := 1,
        length_last := 2, length_max := 2, max_semi_run := 1, contains_text_delim := true,
        has_reserved_start := false, has_trailing_ws := false }
      (by decide) rfl).1,
    by decide⟩

/-- C28: `error_callback` counts the error; when `halt_on_error` is set it returns the code
and changes nothing else; when it is not set it returns `CIF_OK`, `synthesize_packet` is set
afterwards exactly when it was set before or the code is `CIF_EMPTY_LOOP`, and nothing but the
error counter and that flag changes. -/
theorem error_callback_policy (code : Int) (ctx : context) :
    (error_callback code ctx).2.error_count = (ctx.error_count + 1) % 4294967296 ∧
    (ctx.halt_on_error ≠ 0 →
      (error_callback code ctx).1 = code ∧
      { (error_callback code ctx).2 with error_count := ctx.error_count } = ctx) ∧
    (ctx.halt_on_error = 0 →
      (error_callback code ctx).1 = CIF_OK ∧
      ((error_callback code ctx).2.synthesize_packet ≠ 0
        ↔ ctx.synthesize_packet ≠ 0 ∨ code = CIF_EMPTY_LOOP) ∧
      { (error_callback code ctx).2 with
        error_count := ctx.error_count, synthesize_packet := ctx.synthesize_packet } = ctx) := by
  refine ⟨?_, ?_, ?_⟩
  · unfold error_callback
    simp only []
    split
    · rfl
    · split <;> rfl
  · intro h
    unfold error_callback
    simp only []
    rw [if_pos h]
    exact ⟨rfl, rfl⟩
  · intro h
    unfold error_callback
    simp only []
    rw [if_neg (not_not.mpr h)]
    by_cases hc : code = CIF_EMPTY_LOOP
    · rw [if_pos hc]
      refine ⟨rfl, ?_, rfl⟩
      simp [hc]
    · rw [if_neg hc]
      refine ⟨rfl, ?_, rfl⟩
      simp [hc]

/-- C28, at the code `CIF_EMPTY_LOOP` without `halt_on_error`, where the flag becomes set, and
at the same code with `halt_on_error`, where the code is returned and the flag stays clear. -/
theorem error_callback_policy_witness :
    (zero_context.halt_on_error = 0 ∧
      error_callback CIF_EMPTY_LOOP zero_context
        = (CIF_OK, { zero_context with error_count := 1, synthesize_packet := 1 }) ∧
      (error_callback CIF_EMPTY_LOOP zero_context).1 = CIF_OK ∧
      ((error_callback CIF_EMPTY_LOOP zero_context).2.synthesize_packet ≠ 0
        ↔ zero_context.synthesize_packet ≠ 0 ∨ CIF_EMPTY_LOOP = CIF_EMPTY_LOOP)) ∧
    (({ zero_context with halt_on_error := 1 } : context).halt_on_error ≠ 0 ∧
      error_callback CIF_EMPTY_LOOP { zero_context with halt_on_error := 1 }
        = (CIF_EMPTY_LOOP, { zero_context with halt_on_error := 1, error_count := 1 }) ∧
      (error_callback CIF_EMPTY_LOOP { zero_context with halt_on_error := 1 }).1
        = CIF_EMPTY_LOOP) :=
  ⟨⟨rfl, by decide,
      ((error_callback_policy CIF_EMPTY_LOOP zero_context).2.2 rfl).1,
      ((error_callback_policy CIF_EMPTY_LOOP zero_context).2.2 rfl).2.1⟩,
    ⟨by decide, by decide,
      ((error_callback_policy CIF_EMPTY_LOOP { zero_context with halt_on_error := 1 }).2.1
        (by decide)).1⟩⟩

/-- C29: whatever the parse does and whatever the context, the exit status is 0 exactly when
the parse returns `CIF_OK` and leaves the error counter at 0, 1 exactly when it returns
`CIF_OK` and leaves the error counter positive, and 3 exactly when it does not return
`CIF_OK`; there is no other exit status once a parse is attempted. -/
theorem main_exit_status (parse : context → Int × context) (ctx : context) :
    ((main parse ctx).1 = 0 ↔ (parse ctx).1 = CIF_OK ∧ (parse ctx).2.error_count = 0) ∧
    ((main parse ctx).1 = 1 ↔ (parse ctx).1 = CIF_OK ∧ 0 < (parse ctx).2.error_count) ∧
    ((main parse ctx).1 = 3 ↔ (parse ctx).1 ≠ CIF_OK) ∧
    ((main parse ctx).1 = 0 ∨ (main parse ctx).1 = 1 ∨ (main parse ctx).1 = 3) := by
  unfold main
  simp only []
  by_cases hr : (parse ctx).1 ≠ CIF_OK
  · rw [if_pos hr]
    simp [hr]
  · have hr2 : (parse ctx).1 = CIF_OK := not_not.mp hr
    rw [if_neg hr, if_neg hr]
    by_cases he : (parse ctx).2.error_count ≠ 0
    · rw [if_pos he]
      simp [hr2, he, Nat.pos_of_ne_zero he]
    · have he2 : (parse ctx).2.error_count = 0 := not_not.mp he
      rw [if_neg he]
      simp [hr2, he2]

/-- C30: `process_args_output_prefixing` does not record its argument as the text-prefixing
setting: with no argument or the argument `1` it sets `no_fold11_output` to 1, with the
argument `0` it sets `no_fold11_output` to 0, and it leaves `prefix11_output` as it is in each
case; `process_args_output_folding` with the argument `1` sets `no_fold11_output` to 0. -/
theorem process_args_output_prefixing_sets_folding (ctx : context) :
    process_args_output_prefixing none ctx = some { ctx with no_fold11_output := 1 } ∧
    process_args_output_prefixing (some (ustr "1")) ctx
      = some { ctx with no_fold11_output := 1 } ∧
    process_args_output_prefixing (some (ustr "0")) ctx
      = some { ctx with no_fold11_output := 0 } ∧
    process_args_output_folding (some (ustr "1")) ctx
      = some { ctx with no_fold11_output := 0 } ∧
    process_args_output_prefixing (some (ustr "1"))
        { zero_context with prefix11_output := 0, no_fold11_output := 0 }
      = some { zero_context with prefix11_output := 0, no_fold11_output := 1 } := by
  refine ⟨rfl, ?_, ?_, ?_, by decide⟩
  · have h : to_boolean (ustr "1") = 1 := by decide
    simp only [process_args_output_prefixing, h]
    rfl
  · have h : to_boolean (ustr "0") = 0 := by decide
    simp only [process_args_output_prefixing, h]
    rfl
  · have h : to_boolean (ustr "1") = 1 := by decide
    simp only [process_args_output_folding, h]
    rfl

/-! ## The claims about the options, the container depth and the folded lines -/

theorem long_line_plain : ∀ c ∈ long_line, plain_char c := by
  intro c hc
  have h : c = 0x61 := List.eq_of_mem_replicate hc
  subst h
  unfold plain_char
  decide

theorem long_line_length : long_line.length = 3000 := List.length_replicate _ _

/-- C31: with folding of the output disallowed (`no_fold11_output` 1) and a value of one line
of 3000 characters `a`, for which the analyzer selects a text field, `print_value_text` does
not return `CIF_OVERLENGTH_LINE`: it returns `CIF_OK` and writes a folded text field, with
the fold marker on the opening line and a backslash-newline continuation after the first 2039
characters. -/
theorem print_value_text_folds_when_disallowed :
    ({ packet_context with no_fold11_output := 1 } : context).no_fold11_output = 1 ∧
      print_value_text true text_field_analyzer long_line false
          { packet_context with no_fold11_output := 1 } 0
        = some (CIF_OK,
            { packet_context with
              no_fold11_output := 1
              out := [UCHAR_LF, UCHAR_SEMI, UCHAR_BSL, UCHAR_LF] ++ List.replicate 2039 0x61
                ++ [UCHAR_BSL, UCHAR_LF] ++ List.replicate 961 0x61 ++ [UCHAR_LF, UCHAR_SEMI]
              column := 1 }) := by
  refine ⟨rfl, ?_⟩
  have hfield : ∀ ctx : context, print_text_field true long_line true false ctx
      = some (CIF_OK,
          { ctx with
            out := ctx.out ++ ([UCHAR_LF, UCHAR_SEMI, UCHAR_BSL, UCHAR_LF] ++ long_line.take 2039
              ++ [UCHAR_BSL, UCHAR_LF] ++ long_line.drop 2039 ++ [UCHAR_LF, UCHAR_SEMI])
            column := 1 }) := by
    intro ctx
    refine print_text_field_long_line true ctx long_line long_line_length long_line_plain ?_
    have hget := getD_replicate_append_left 3000 0x61 [] 2999 (by omega)
    rw [List.append_nil] at hget
    rw [long_line, hget]
    decide
  have htake : long_line.take 2039 = List.replicate 2039 0x61 := by
    rw [long_line, List.take_replicate]
    rfl
  have hdrop : long_line.drop 2039 = List.replicate 961 0x61 := by
    rw [long_line, List.drop_replicate]
  have hrun : print_ws_run { packet_context with no_fold11_output := 1 }
      = (0, { packet_context with no_fold11_output := 1 }) := rfl
  have hlen : ((long_line.length : Nat) : Int) = 3000 := by rw [long_line_length]; rfl
  simp only [print_value_text]
  rw [if_neg (by decide : ¬ (0 > 1)), hrun]
  simp only [text_field_analyzer, hlen]
  rw [if_neg (by decide), if_neg (by decide), if_neg (by decide), if_neg (by decide),
    if_pos (by decide)]
  have hb1 : (decide ((3000 : Int) > (MAX_LINE_LENGTH : Int))
      || decide ((3000 : Int) ≥ (MAX_LINE_LENGTH : Int)) || false || false
      || decide ((0 : Int) ≥ (MAX_FOLD_LENGTH : Int) - 1)) = true := by decide
  have hb2 : (false || decide ((0 : Int) ≥ (MAX_FOLD_LENGTH : Int) - 1)) = false := by decide
  rw [hb1, hb2, hfield, htake, hdrop]
  rfl

/-- C32: `process_args_input_encoding` does the opposite of what the option is documented to
do.  Given the name `utf-8` it clears the encoding name and the flag (left to
auto-detection), whatever the options held before; given `auto` it records the name `auto`
as the default encoding and forces its use.  For every argument, the name is recorded and
forced exactly when the argument is `auto`. -/
theorem process_args_input_encoding_inverted :
    process_args_input_encoding zero_parse_opts (some (ustr "utf-8"))
        = some { default_encoding_name := none, force_default_encoding := 0 } ∧
      process_args_input_encoding
          { default_encoding_name := some (ustr "latin1"), force_default_encoding := 1 }
          (some (ustr "utf-8"))
        = some { default_encoding_name := none, force_default_encoding := 0 } ∧
      process_args_input_encoding zero_parse_opts (some (ustr "auto"))
        = some { default_encoding_name := some (ustr "auto"), force_default_encoding := 1 } ∧
      (∀ (parse_opts : cif_parse_opts_s) (encoding : List UChar),
        process_args_input_encoding parse_opts (some encoding)
          = some (if encoding = ustr "auto" then
              { default_encoding_name := some encoding, force_default_encoding := 1 }
            else { default_encoding_name := none, force_default_encoding := 0 })) := by
  refine ⟨by decide, by decide, by decide, ?_⟩
  intro parse_opts encoding
  unfold process_args_input_encoding
  by_cases h : encoding = ustr "auto"
  · simp [h]
  · simp [h]

theorem tolower_eq_iff (c d : UChar) (hd : ¬ (0x41 ≤ d ∧ d ≤ 0x5a)) :
    tolower c = d ↔ same_letter c d := by
  unfold tolower same_letter
  constructor
  · intro h
    split at h
    · rename_i hc
      exact Or.inr (Or.inl ⟨hc.1, hc.2, h.symm⟩)
    · exact Or.inl h
  · rintro (h | ⟨h1, h2, h3⟩ | ⟨h1, h2, _⟩)
    · subst h
      rw [if_neg hd]
    · rw [if_pos ⟨h1, h2⟩, h3]
    · exact absurd ⟨h1, h2⟩ hd

theorem map_tolower_eq_iff (val word : List UChar)
    (hword : ∀ d ∈ word, ¬ (0x41 ≤ d ∧ d ≤ 0x5a)) :
    val.map tolower = word ↔ same_ignoring_case val word := by
  unfold same_ignoring_case
  induction val generalizing word with
  | nil =>
    cases word with
    | nil => simp
    | cons d rest => simp
  | cons c cs ih =>
    cases word with
    | nil => simp
    | cons d rest =>
      rw [List.map_cons, List.cons.injEq, List.forall₂_cons,
        tolower_eq_iff c d (hword d (List.mem_cons_self _ _)),
        ih rest (fun x hx => hword x (List.mem_cons_of_mem _ hx))]

theorem same_ignoring_case_length (a b : List UChar) (h : same_ignoring_case a b) :
    a.length = b.length := List.Forall₂.length_eq h

/-- C33: `to_boolean` returns 1 exactly for the strings that are `1`, `yes` or `true` without
regard to ASCII letter case, 0 exactly for those that are `0`, `no` or `false` without regard
to ASCII letter case, and -1 for every other string, among them the empty string and every
string of more than five characters. -/
theorem to_boolean_values (val : List UChar) :
    (to_boolean val = 1 ↔ same_ignoring_case val (ustr "1") ∨ same_ignoring_case val (ustr "yes")
        ∨ same_ignoring_case val (ustr "true")) ∧
    (to_boolean val = 0 ↔ same_ignoring_case val (ustr "0") ∨ same_ignoring_case val (ustr "no")
        ∨ same_ignoring_case val (ustr "false")) ∧
    (to_boolean val = 1 ∨ to_boolean val = 0 ∨ to_boolean val = -1) ∧
    to_boolean [] = -1 ∧
    (5 < val.length → to_boolean val = -1) := by
  have h1 := map_tolower_eq_iff val (ustr "1") (by decide)
  have h2 := map_tolower_eq_iff val (ustr "yes") (by decide)
  have h3 := map_tolower_eq_iff val (ustr "true") (by decide)
  have h4 := map_tolower_eq_iff val (ustr "0") (by decide)
  have h5 := map_tolower_eq_iff val (ustr "no") (by decide)
  have h6 := map_tolower_eq_iff val (ustr "false") (by decide)
  have hlen : ∀ word : List UChar, word.length ≤ 5 → val.length > 5 →
      ¬ same_ignoring_case val word := by
    intro word hw hv h
    have := same_ignoring_case_length val word h
    omega
  have hne : ∀ a b : List UChar, a ≠ b → val.map tolower = a → val.map tolower ≠ b := by
    intro a b hab ha hb
    exact hab (ha.symm.trans hb)
  have hnone : ∀ {p q r : Prop}, ¬ (p ∨ q ∨ r) → ¬ ¬ (¬ p ∧ ¬ q ∧ ¬ r) :=
    fun h hh => hh ⟨fun e => h (Or.inl e), fun e => h (Or.inr (Or.inl e)),
      fun e => h (Or.inr (Or.inr e))⟩
  have hsome : ∀ {p q r : Prop}, (p ∨ q ∨ r) → ¬ (¬ p ∧ ¬ q ∧ ¬ r) :=
    fun h hh => h.elim hh.1 (fun h' => h'.elim hh.2.1 hh.2.2)
  rw [← h1, ← h2, ← h3, ← h4, ← h5, ← h6]
  by_cases hl : val.length > 5
  · have n1 := hlen (ustr "1") (by decide) hl
    have n2 := hlen (ustr "yes") (by decide) hl
    have n3 := hlen (ustr "true") (by decide) hl
    have n4 := hlen (ustr "0") (by decide) hl
    have n5 := hlen (ustr "no") (by decide) hl
    have n6 := hlen (ustr "false") (by decide) hl
    rw [← h1] at n1
    rw [← h2] at n2
    rw [← h3] at n3
    rw [← h4] at n4
    rw [← h5] at n5
    rw [← h6] at n6
    have hv : to_boolean val = -1 := by
      unfold to_boolean
      simp only []
      rw [if_pos hl]
    rw [hv]
    refine ⟨?_, ?_, Or.inr (Or.inr rfl), by decide, fun _ => rfl⟩
    · simp [n1, n2, n3]
    · simp [n4, n5, n6]
  · by_cases ht : val.map tolower = ustr "1" ∨ val.map tolower = ustr "yes"
        ∨ val.map tolower = ustr "true"
    · have hv : to_boolean val = 1 := by
        unfold to_boolean
        simp only []
        rw [if_neg hl, if_pos (hsome ht)]
      rw [hv]
      refine ⟨by simp [ht], ?_, Or.inl rfl, by decide, fun h => absurd h (by omega)⟩
      have f1 : val.map tolower ≠ ustr "0" := by
        rcases ht with h | h | h <;> exact hne _ _ (by decide) h
      have f2 : val.map tolower ≠ ustr "no" := by
        rcases ht with h | h | h <;> exact hne _ _ (by decide) h
      have f3 : val.map tolower ≠ ustr "false" := by
        rcases ht with h | h | h <;> exact hne _ _ (by decide) h
      simp [f1, f2, f3]
    · by_cases hf : val.map tolower = ustr "0" ∨ val.map tolower = ustr "no"
          ∨ val.map tolower = ustr "false"
      · have hv : to_boolean val = 0 := by
          unfold to_boolean
          simp only []
          rw [if_neg hl, if_neg (hnone ht), if_pos (hsome hf)]
        rw [hv]
        exact ⟨by simp [ht], by simp [hf], Or.inr (Or.inl rfl), by decide,
          fun h => absurd h (by omega)⟩
      · have hv : to_boolean val = -1 := by
          unfold to_boolean
          simp only []
          rw [if_neg hl, if_neg (hnone ht), if_neg (hnone hf)]
        rw [hv]
        exact ⟨by simp [ht], by simp [hf], Or.inr (Or.inr rfl), by decide,
          fun h => absurd h (by omega)⟩

/-- C33, at `TRUE`, which is `true` without regard to case, and at a string of six
characters. -/
theorem to_boolean_values_witness :
    to_boolean (ustr "TRUE") = 1 ∧ (5 < (ustr "maybe!").length ∧ to_boolean (ustr "maybe!") = -1) :=
  ⟨(to_boolean_values (ustr "TRUE")).1.mpr
      (Or.inr (Or.inr ((map_tolower_eq_iff (ustr "TRUE") (ustr "true") (by decide)).mp
        (by decide)))),
    by decide, (to_boolean_values (ustr "maybe!")).2.2.2.2 (by decide)⟩

/-- C35: the text `a`, LF, LF, `b` has an empty logical line, for which `compute_fold_length`
returns 0; the assertion `0 < fold_len && fold_len <= limit` of `print_text_field` fails on
it, so that with assertions compiled in the folded field has no result.  With assertions
compiled out the empty line is written as an empty segment and the result is `CIF_OK`. -/
theorem print_text_field_empty_line_assert :
    compute_fold_length [] 0 (fold_target false) FOLD_WINDOW false = 0 ∧
      print_text_field false (ustr "a\n\nb") true false zero_context = none ∧
      print_text_field false (ustr "a\n\nb") true true zero_context = none ∧
      print_text_field true (ustr "a\n\nb") true false zero_context
        = some (CIF_OK, { zero_context with out := ustr "\n;\\\na\n\nb\n;", column := 1 }) := by
  decide

/-- C39: `print_u_literal` with `SPACE_FORBIDDEN` returns `CIF_OVERLENGTH_LINE`, with the
context as it was, exactly when the column is not 0 and `column + line1_length` is over 2048;
in every other case it writes the literal alone and adds its length to the column.  For a
column that is a number of characters, not 0 is greater than 0. -/
theorem print_u_literal_forbidden (str : List UChar) (line1_length : Int) (ctx : context) :
    ((ctx.column ≠ 0 ∧ ctx.column + line1_length > 2048) →
      print_u_literal SPACE_FORBIDDEN str line1_length ctx = (CIF_OVERLENGTH_LINE, ctx)) ∧
    (¬ (ctx.column ≠ 0 ∧ ctx.column + line1_length > 2048) →
      print_u_literal SPACE_FORBIDDEN str line1_length ctx
        = (CIF_OK, { ctx with out := ctx.out ++ str, column := ctx.column + str.length })) ∧
    (0 ≤ ctx.column →
      ((print_u_literal SPACE_FORBIDDEN str line1_length ctx).1 = CIF_OVERLENGTH_LINE
        ↔ ctx.column > 0 ∧ ctx.column + line1_length > 2048)) := by
  have hover : (ctx.column ≠ 0 ∧ ctx.column + line1_length > 2048) →
      print_u_literal SPACE_FORBIDDEN str line1_length ctx = (CIF_OVERLENGTH_LINE, ctx) := by
    rintro ⟨hc, hl⟩
    unfold print_u_literal
    have hl' : (2048 : Int) < line1_length + ctx.column := by omega
    simp [hc, SPACE_FORBIDDEN, MAX_LINE_LENGTH, hl']
  have hfit : ¬ (ctx.column ≠ 0 ∧ ctx.column + line1_length > 2048) →
      print_u_literal SPACE_FORBIDDEN str line1_length ctx
        = (CIF_OK, { ctx with out := ctx.out ++ str, column := ctx.column + str.length }) := by
    intro h
    unfold print_u_literal
    by_cases hc : ctx.column ≠ 0
    · have hl' : line1_length + ctx.column ≤ 2048 := by
        by_contra hl
        exact h ⟨hc, by omega⟩
      have hl2 : ¬ ((2048 : Int) < line1_length + ctx.column) := by omega
      simp [hc, SPACE_FORBIDDEN, MAX_LINE_LENGTH, hl2]
    · have hc' : ctx.column = 0 := not_not.mp hc
      simp [hc']
  refine ⟨hover, hfit, ?_⟩
  intro h0
  constructor
  · intro h
    by_contra hn
    have hn' : ¬ (ctx.column ≠ 0 ∧ ctx.column + line1_length > 2048) := by
      rintro ⟨h1, h2⟩
      exact hn ⟨by omega, h2⟩
    rw [hfit hn'] at h
    have h' : (CIF_OK : Int) = CIF_OVERLENGTH_LINE := h
    exact absurd h' (by decide)
  · rintro ⟨h1, h2⟩
    rw [hover ⟨by omega, h2⟩]

/-- C39, at the colon of a table entry: after a key that ends at column 2048 it is refused,
after a key that ends at column 2047 it is written at once. -/
theorem print_u_literal_forbidden_witness :
    print_u_literal SPACE_FORBIDDEN [UCHAR_COLON] 1 { packet_context with column := 2048 }
        = (CIF_OVERLENGTH_LINE, { packet_context with column := 2048 }) ∧
      print_u_literal SPACE_FORBIDDEN [UCHAR_COLON] 1 { packet_context with column := 2047 }
        = (CIF_OK, { packet_context with out := [UCHAR_COLON], column := 2048 }) ∧
      (print_u_literal SPACE_FORBIDDEN [UCHAR_COLON] 1
        { packet_context with column := 2048 }).1 = CIF_OVERLENGTH_LINE :=
  ⟨(print_u_literal_forbidden [UCHAR_COLON] 1 { packet_context with column := 2048 }).1
      (by decide),
    (print_u_literal_forbidden [UCHAR_COLON] 1 { packet_context with column := 2047 }).2.1
      (by decide),
    ((print_u_literal_forbidden [UCHAR_COLON] 1 { packet_context with column := 2048 }).2.2
      (by decide)).mpr (by decide)⟩

/-- C40: on every invocation, whatever `halt_on_error` and `quiet` are, `error_callback`
adds one to the error counter, an `unsigned` of 32 bits, and leaves `quiet` and
`halt_on_error` as they are; when `halt_on_error` is set it does not change
`synthesize_packet`, whatever the code. -/
theorem error_callback_counts (code : Int) (ctx : context) :
    (error_callback code ctx).2.error_count = (ctx.error_count + 1) % 4294967296 ∧
    (ctx.error_count < 4294967295 →
      (error_callback code ctx).2.error_count = ctx.error_count + 1) ∧
    (error_callback code ctx).2.quiet = ctx.quiet ∧
    (error_callback code ctx).2.halt_on_error = ctx.halt_on_error ∧
    (ctx.halt_on_error ≠ 0 →
      (error_callback code ctx).2.synthesize_packet = ctx.synthesize_packet) := by
  have hcount : (error_callback code ctx).2.error_count
      = (ctx.error_count + 1) % 4294967296 := by
    unfold error_callback
    simp only []
    split
    · rfl
    · split <;> rfl
  refine ⟨hcount, ?_, ?_, ?_, ?_⟩
  · intro h
    rw [hcount]
    exact Nat.mod_eq_of_lt (by omega)
  · unfold error_callback
    simp only []
    split
    · rfl
    · split <;> rfl
  · unfold error_callback
    simp only []
    split
    · rfl
    · split <;> rfl
  · intro h
    unfold error_callback
    simp only []
    rw [if_pos h]

/-- C40, at the code `CIF_EMPTY_LOOP` with `halt_on_error` and `quiet` set and three errors
counted before: the count becomes four and `synthesize_packet` stays clear. -/
theorem error_callback_counts_witness :
    (error_callback CIF_EMPTY_LOOP
        { zero_context with halt_on_error := 1, quiet := 1, error_count := 3 }).2.error_count
        = 3 + 1 ∧
      (error_callback CIF_EMPTY_LOOP
        { zero_context with halt_on_error := 1, quiet := 1, error_count := 3 }).2.synthesize_packet
        = 0 :=
  ⟨(error_callback_counts CIF_EMPTY_LOOP
      { zero_context with halt_on_error := 1, quiet := 1, error_count := 3 }).2.1 (by decide),
    (error_callback_counts CIF_EMPTY_LOOP
      { zero_context with halt_on_error := 1, quiet := 1, error_count := 3 }).2.2.2.2
      (by decide)⟩

/-- C38: `print_item` with a null name or outside any container writes nothing and returns
Continue.  With an empty queue the context is unchanged.  With a queue whose first run is
`first` the queue is left with one run, `first` followed, when not in a loop, by the pieces
of the second run if there is one; `in_ws_run` is set and nothing else changes. -/
theorem print_item_suppressed (NDEBUG : Bool) (analyze : analyzer) (depth : Nat)
    (name : Option (List UChar)) (value : cif_value) (ctx : context)
    (h : ¬ (ctx.in_container ≠ 0 ∧ name.isSome = true)) :
    ∃ c, print_item NDEBUG analyze depth name value ctx = some (CIF_TRAVERSE_CONTINUE, c) ∧
      c.out = ctx.out ∧
      (ctx.ws_queue = .null → c = ctx) ∧
      (∀ (first : List (List UChar)) (later : List (List (List UChar))),
        ws_runs ctx.ws_queue = first :: later →
          ws_runs c.ws_queue = [first ++ (if ctx.in_loop = 0 then later.headD [] else [])] ∧
          c = { ctx with ws_queue := c.ws_queue, in_ws_run := 1 }) := by
  unfold print_item
  rw [if_pos h]
  cases hq : ctx.ws_queue with
  | null =>
    refine ⟨ctx, rfl, rfl, fun _ => rfl, ?_⟩
    intro first later hr
    simp [ws_runs] at hr
  | node ws next_piece next_run =>
    simp only []
    refine ⟨_, rfl, rfl, fun hn => by simp at hn, ?_⟩
    intro first later hr
    simp only [ws_runs, List.cons.injEq] at hr
    obtain ⟨hfirst, hlater⟩ := hr
    subst hfirst
    refine ⟨?_, rfl⟩
    by_cases hl : ctx.in_loop ≠ 0
    · simp only []
      rw [if_pos hl, if_neg hl]
      simp [ws_set_next_run, ws_runs]
    · have hl0 : ctx.in_loop = 0 := not_not.mp hl
      simp only []
      rw [if_neg hl, if_pos hl0]
      cases next_run with
      | null =>
        simp only [ws_runs] at hlater
        subst hlater
        simp [ws_runs]
      | node ws2 next_piece2 next_run2 =>
        simp only [ws_runs] at hlater
        subst hlater
        simp [ws_set_next_run, ws_append_piece, ws_runs, ws_pieces_append_piece, ws_pieces]

/-- C38, at an item with a null name and a queue of three runs: outside a loop the first two
runs are merged and the third is discarded, in a loop only the first run is kept. -/
theorem print_item_suppressed_witness :
    (∃ c, print_item true bare_analyzer 1 none .unk
          { zero_context with in_container := 1,
                              ws_queue := three_runs (ustr " ") (ustr "\n") (ustr "# c") }
        = some (CIF_TRAVERSE_CONTINUE, c) ∧
      ws_runs c.ws_queue = [[ustr " ", ustr "\n"]] ∧ c.in_ws_run = 1) ∧
    (∃ c, print_item true bare_analyzer 1 none .unk
          { packet_context with ws_queue := three_runs (ustr " ") (ustr "\n") (ustr "# c") }
        = some (CIF_TRAVERSE_CONTINUE, c) ∧
      ws_runs c.ws_queue = [[ustr " "]] ∧ c.in_ws_run = 1) :=
  ⟨(print_item_suppressed true bare_analyzer 1 none .unk
      { zero_context with in_container := 1,
                          ws_queue := three_runs (ustr " ") (ustr "\n") (ustr "# c") }
      (by decide)).elim (fun c hc => ⟨c, hc.1,
        (hc.2.2.2 [ustr " "] [[ustr "\n"], [ustr "# c"]] rfl).1,
        by rw [(hc.2.2.2 [ustr " "] [[ustr "\n"], [ustr "# c"]] rfl).2]⟩),
    (print_item_suppressed true bare_analyzer 1 none .unk
      { packet_context with ws_queue := three_runs (ustr " ") (ustr "\n") (ustr "# c") }
      (by decide)).elim (fun c hc => ⟨c, hc.1,
        (hc.2.2.2 [ustr " "] [[ustr "\n"], [ustr "# c"]] rfl).1,
        by rw [(hc.2.2.2 [ustr " "] [[ustr "\n"], [ustr "# c"]] rfl).2]⟩)⟩

/-! ## The container depth -/

theorem print_ws_pieces_depth :
    ∀ (node : ws_node) (ctx : context) (rval : Int),
      (print_ws_pieces node ctx rval).2.in_container = ctx.in_container := by
  intro node
  induction node with
  | null => intro ctx rval; rfl
  | node ws next_piece next_run ih _ =>
    intro ctx rval
    simp only [print_ws_pieces]
    rw [ih]

theorem print_ws_run_depth (ctx : context) :
    (print_ws_run ctx).2.in_container = ctx.in_container := by
  unfold print_ws_run
  split
  · rfl
  · rw [print_ws_pieces_depth]

theorem print_all_ws_runs_depth (ctx : context) :
    (print_all_ws_runs ctx).2.in_container = ctx.in_container := by
  have h : ∀ (queue : ws_node) (c : context) (rval : Int),
      (print_all_ws_runs_loop queue c rval).2.in_container = c.in_container := by
    intro queue
    induction queue with
    | null => intro c rval; rfl
    | node ws next_piece next_run _ ih =>
      intro c rval
      simp only [print_all_ws_runs_loop]
      rw [ih, print_ws_run_depth]
  exact h _ _ _

theorem ensure_space_depth (minimum_space data_length : Int) (ctx : context) :
    (ensure_space minimum_space data_length ctx).2.in_container = ctx.in_container := by
  unfold ensure_space
  split
  · split
    · rfl
    · split <;> rfl
  · rfl

theorem print_u_literal_depth (preceding_space : Int) (str : List UChar) (line1_length : Int)
    (ctx : context) :
    (print_u_literal preceding_space str line1_length ctx).2.in_container = ctx.in_container := by
  unfold print_u_literal
  simp only []
  split_ifs <;> rfl

theorem print_code_depth (code : List UChar) (ctx : context) (type : List UChar) :
    (print_code code ctx type).2.in_container = ctx.in_container := by
  unfold print_code
  simp only []
  split
  · split
    · rw [ensure_space_depth, print_all_ws_runs_depth]
    · split
      · show (ensure_space _ _ _).2.in_container = _
        rw [ensure_space_depth, print_all_ws_runs_depth]
      · show (ensure_space _ _ _).2.in_container = _
        rw [ensure_space_depth, print_all_ws_runs_depth]
  · split
    · exact print_all_ws_runs_depth ctx
    · exact print_all_ws_runs_depth ctx

theorem consume_version_comment_depth (ctx : context) :
    (consume_version_comment ctx).in_container = ctx.in_container := by
  unfold consume_version_comment
  split
  · rfl
  · split <;> rfl

/-- The operations of the emitter leave `in_container` as it is, whatever the store finds. -/
theorem emitter_ops_keeps_depth (code type : List UChar) (flush : Int) :
    keeps_depth { emitter_ops code type with flush := flush } :=
  ⟨fun ctx => print_code_depth code ctx type, print_all_ws_runs_depth,
    fun ctx => print_u_literal_depth _ _ _ ctx, fun _ => rfl⟩

/-- The output operations of `finish_frame` succeed when the stream takes what is written. -/
theorem emitter_ops_output_ok (code type : List UChar) (flush : Int) :
    frame_end_output_ok { emitter_ops code type with flush := flush } :=
  ⟨fun ctx => by
      show 0 ≤ (print_all_ws_runs ctx).1
      rw [(print_all_ws_runs_text ctx).2.1]
      exact Int.natCast_nonneg _,
    fun ctx => (print_u_literal_allowed save_kw 5 ctx).1, fun _ => rfl⟩

/-- The change of `in_container` by the handler of one event. -/
theorem handle_container_event_depth (event : container_event) (ops : container_ops)
    (ctx : context) (hk : keeps_depth ops)
    (hs : event = .frame_start → ctx.in_container ≠ 0)
    (ho : event = .frame_end → frame_end_output_ok ops) :
    (handle_container_event event ops ctx).2.in_container
      = ctx.in_container + event_step event := by
  obtain ⟨k1, k2, k3, k4⟩ := hk
  cases event with
  | block_start =>
    simp only [handle_container_event, open_block_with, event_step]
    rw [k1]
    simp only []
    split
    · rw [consume_version_comment_depth]
    · rfl
  | frame_start =>
    have hne := hs rfl
    simp only [handle_container_event, open_frame_with, event_step]
    rw [if_pos hne, k1]
  | frame_end =>
    obtain ⟨o1, o2, o3⟩ := ho rfl
    simp only [handle_container_event, finish_frame_with, event_step, flush_container_with]
    split
    · split
      · rw [if_neg (by rw [o2]; simp)]
        simp only []
        rw [k3]
        simp only []
        rw [k2]
        rfl
      · split
        · rw [if_neg (by rw [o3]; simp)]
          simp only []
          rw [k4]
          simp only []
          rw [k2]
          rfl
        · have := o1 ctx
          omega
    · simp only []
      rw [k2]
      rfl
  | block_end =>
    simp only [handle_container_event, flush_container_with, event_step]
    rfl

theorem run_container_events_depth :
    ∀ (events : List (container_event × container_ops)) (ctx : context),
      (∀ x ∈ events, keeps_depth x.2) →
      well_nested_from ctx.in_container (events.map Prod.fst) = true →
      (∀ x ∈ events, x.1 = container_event.frame_end → frame_end_output_ok x.2) →
      (run_container_events events ctx).map (fun r => r.2.in_container)
        = (depths_from ctx.in_container (events.map Prod.fst)).take
            (run_container_events events ctx).length := by
  intro events
  induction events with
  | nil => intro ctx _ _ _; rfl
  | cons x rest ih =>
    intro ctx hk hw ho
    obtain ⟨event, ops⟩ := x
    have hstep := handle_container_event_depth event ops ctx
      (hk (event, ops) (List.mem_cons_self _ _))
      (by
        intro he
        subst he
        simp only [List.map_cons, well_nested_from, Bool.and_eq_true, decide_eq_true_eq] at hw
        omega)
      (ho (event, ops) (List.mem_cons_self _ _))
    have hw' : well_nested_from (ctx.in_container + event_step event)
        (rest.map Prod.fst) = true := by
      cases event <;>
        simp only [List.map_cons, well_nested_from, Bool.and_eq_true, decide_eq_true_eq] at hw <;>
        simp only [event_step]
      · rw [hw.1]; exact hw.2
      · exact hw.2
      · exact hw.2
      · rw [hw.1]; exact hw.2
    simp only [run_container_events, List.map_cons, depths_from]
    by_cases hr : (handle_container_event event ops ctx).1 ≠ CIF_OK
    · rw [if_pos hr]
      simp [hstep]
    · rw [if_neg hr]
      rw [← hstep] at hw'
      have := ih (handle_container_event event ops ctx).2
        (fun y hy => hk y (List.mem_cons_of_mem _ hy)) hw'
        (fun y hy => ho y (List.mem_cons_of_mem _ hy))
      simp only [List.map_cons, List.length_cons, List.take_succ_cons]
      rw [this, hstep]

theorem depths_from_nonneg :
    ∀ (events : List container_event) (depth : Int), 0 ≤ depth →
      well_nested_from depth events = true → ∀ d ∈ depths_from depth events, 0 ≤ d := by
  intro events
  induction events with
  | nil => intro depth _ _ d hd; simp [depths_from] at hd
  | cons event rest ih =>
    intro depth h0 hw d hd
    simp only [depths_from, List.mem_cons] at hd
    have hstep : 0 ≤ depth + event_step event ∧
        well_nested_from (depth + event_step event) rest = true := by
      cases event <;>
        simp only [well_nested_from, Bool.and_eq_true, decide_eq_true_eq] at hw <;>
        simp only [event_step]
      · exact ⟨by omega, by rw [hw.1]; exact hw.2⟩
      · exact ⟨by omega, hw.2⟩
      · exact ⟨by omega, hw.2⟩
      · exact ⟨by omega, by rw [hw.1]; exact hw.2⟩
    rcases hd with hd | hd
    · rw [hd]; exact hstep.1
    · exact ih _ hstep.1 hstep.2 d hd

/-- C34, as stated, fails: when writing the cached whitespace fails in `finish_frame`, the
handler returns `CIF_ERROR` before it reaches `flush_container`, and `in_container` stays at
2 after the frame-end event, where the nesting depth is 1. -/
theorem finish_frame_failed_output_depth :
    well_nested_from 0 [.block_start, .frame_start, .frame_end] = true ∧
      depths_from 0 [.block_start, .frame_start, .frame_end] = [1, 2, 1] ∧
      (run_container_events
          [(.block_start, emitter_ops (ustr "b") data_kw),
            (.frame_start, emitter_ops (ustr "f") save_kw),
            (.frame_end, failing_output_ops)] zero_context).map
          (fun r => (r.1, r.2.in_container))
        = [(CIF_OK, 1), (CIF_OK, 2), (CIF_ERROR, 2)] := by
  decide

/-- C34, amended: for every well-nested sequence of container events handled from
`in_container = 0`, with operations that leave `in_container` alone, `in_container` equals
the nesting depth after each event handled, whether or not the store operations and the
output of the start handlers succeed, provided the output operations of the frame-end
handlers succeed; it is never negative.  When the output of `finish_frame` fails inside a
container, the handler returns an error and leaves `in_container` as it was. -/
theorem container_depth_tracked :
    (∀ (events : List (container_event × container_ops)) (ctx : context),
      ctx.in_container = 0 →
      (∀ x ∈ events, keeps_depth x.2) →
      well_nested_from 0 (events.map Prod.fst) = true →
      (∀ x ∈ events, x.1 = container_event.frame_end → frame_end_output_ok x.2) →
        (run_container_events events ctx).map (fun r => r.2.in_container)
            = (depths_from 0 (events.map Prod.fst)).take
                (run_container_events events ctx).length ∧
          ∀ r ∈ run_container_events events ctx, 0 ≤ r.2.in_container) ∧
    (∀ (ops : container_ops) (ctx : context), keeps_depth ops → ctx.in_container ≠ 0 →
      ((ops.print_all_ws_runs ctx).1 < 0 ∨
        (0 < (ops.print_all_ws_runs ctx).1 ∧
          (ops.print_u_literal { (ops.print_all_ws_runs ctx).2 with in_ws_run := 0 }).1
            ≠ CIF_OK) ∨
        ((ops.print_all_ws_runs ctx).1 = 0 ∧
          (ops.u_fprintf { (ops.print_all_ws_runs ctx).2 with in_ws_run := 0 }).1 ≠ 7)) →
        (finish_frame_with ops ctx).1 ≠ CIF_OK ∧
          (finish_frame_with ops ctx).2.in_container = ctx.in_container) := by
  refine ⟨?_, ?_⟩
  · intro events ctx h0 hk hw ho
    have hw' : well_nested_from ctx.in_container (events.map Prod.fst) = true := by
      rw [h0]; exact hw
    have hmap := run_container_events_depth events ctx hk hw' ho
    rw [h0] at hmap
    refine ⟨hmap, ?_⟩
    intro r hr
    have hmem : r.2.in_container
        ∈ (run_container_events events ctx).map (fun r => r.2.in_container) :=
      List.mem_map_of_mem _ hr
    rw [hmap] at hmem
    exact depths_from_nonneg _ 0 (le_refl _) hw _ (List.mem_of_mem_take hmem)
  · intro ops ctx hk hne hfail
    obtain ⟨_, k2, k3, k4⟩ := hk
    have hne' : ({ (ops.print_all_ws_runs ctx).2 with in_ws_run := 0 } : context).in_container
        ≠ 0 := by
      show (ops.print_all_ws_runs ctx).2.in_container ≠ 0
      rw [k2]
      exact hne
    simp only [finish_frame_with]
    rw [if_pos hne']
    rcases hfail with h | ⟨h1, h2⟩ | ⟨h1, h2⟩
    · rw [if_neg (by omega), if_neg (by omega)]
      exact ⟨(by decide : (CIF_ERROR : Int) ≠ CIF_OK), k2 ctx⟩
    · rw [if_pos h1, if_pos h2]
      refine ⟨h2, ?_⟩
      rw [k3]
      exact k2 ctx
    · rw [if_neg (by omega), if_pos h1, if_pos h2]
      refine ⟨(by decide : (CIF_ERROR : Int) ≠ CIF_OK), ?_⟩
      show (ops.u_fprintf _).2.in_container = _
      rw [k4]
      exact k2 ctx

/-- C34, amended, at a block with a save frame whose block-end finds the store failing: the
depths are 1, 2, 1 and 0; and at the failure of `print_all_ws_runs` in a frame-end at depth
2. -/
theorem container_depth_tracked_witness :
    (run_container_events
        [(.block_start, emitter_ops (ustr "b") data_kw),
          (.frame_start, emitter_ops (ustr "f") save_kw),
          (.frame_end, emitter_ops [] save_kw),
          (.block_end, failing_store_ops)] zero_context).map (fun r => r.2.in_container)
        = [1, 2, 1, 0] ∧
      ((finish_frame_with failing_output_ops { zero_context with in_container := 2 }).1
          ≠ CIF_OK ∧
        (finish_frame_with failing_output_ops
          { zero_context with in_container := 2 }).2.in_container = 2) :=
  ⟨((container_depth_tracked.1
      [(.block_start, emitter_ops (ustr "b") data_kw),
        (.frame_start, emitter_ops (ustr "f") save_kw),
        (.frame_end, emitter_ops [] save_kw),
        (.block_end, failing_store_ops)] zero_context rfl
      (by
        intro x hx
        simp only [List.mem_cons, List.mem_singleton, List.not_mem_nil, or_false] at hx
        rcases hx with h | h | h | h <;> subst h
        · exact emitter_ops_keeps_depth _ _ CIF_OK
        · exact emitter_ops_keeps_depth _ _ CIF_OK
        · exact emitter_ops_keeps_depth _ _ CIF_OK
        · exact emitter_ops_keeps_depth _ _ CIF_ERROR)
      (by decide)
      (by
        intro x hx he
        simp only [List.mem_cons, List.mem_singleton, List.not_mem_nil, or_false] at hx
        rcases hx with h | h | h | h <;> subst h
        · exact absurd he (by decide)
        · exact absurd he (by decide)
        · exact emitter_ops_output_ok _ _ CIF_OK
        · exact absurd he (by decide))).1).trans (by decide),
    container_depth_tracked.2 failing_output_ops { zero_context with in_container := 2 }
      ⟨fun ctx => print_code_depth _ ctx _, fun _ => rfl,
        fun ctx => print_u_literal_depth _ _ _ ctx, fun _ => rfl⟩
      (by decide) (Or.inl (by decide))⟩

/-! ## Folded lines do not begin with a semicolon -/

theorem fold_category_semi (was_space : Bool) (c : UChar)
    (h : fold_category false was_space c ≠ 0) : c ≠ UCHAR_SEMI := by
  intro hc
  apply h
  subst hc
  simp [fold_category]

theorem fold_scan_bottom_semi (fold_start : List UChar) (T : Nat) :
    ∀ (k : Nat) (s : fold_scan),
      (s.best_category ≠ 0 → fold_start.getD ((T : Int) + s.best_diff).toNat 0 ≠ UCHAR_SEMI) →
      ((fold_scan_bottom fold_start T false k s).best_category ≠ 0 →
        fold_start.getD ((T : Int) + (fold_scan_bottom fold_start T false k s).best_diff).toNat 0
          ≠ UCHAR_SEMI) := by
  intro k
  induction k with
  | zero => intro s hs; exact hs
  | succ k ih =>
    intro s hs
    simp only [fold_scan_bottom]
    apply ih
    split
    · intro hne
      exact fold_category_semi _ _ hne
    · exact hs

theorem fold_scan_top_semi (fold_start : List UChar) (T : Nat) :
    ∀ (n : Nat) (diff : Int) (s : fold_scan),
      (s.best_category ≠ 0 → fold_start.getD ((T : Int) + s.best_diff).toNat 0 ≠ UCHAR_SEMI) →
      ((fold_scan_top fold_start T false n diff s).best_category ≠ 0 →
        fold_start.getD ((T : Int) + (fold_scan_top fold_start T false n diff s).best_diff).toNat 0
          ≠ UCHAR_SEMI) := by
  intro n
  induction n with
  | zero => intro diff s hs; exact hs
  | succ n ih =>
    intro diff s hs
    simp only [fold_scan_top]
    split
    · rename_i h3
      intro _
      exact fold_category_semi _ _ (by rw [h3]; decide)
    · split
      · apply ih
        intro hne
        exact fold_category_semi _ _ hne
      · split
        · apply ih
          intro hne
          exact fold_category_semi _ _ hne
        · apply ih
          exact hs

theorem fold_scan_back_semi (fold_start : List UChar) :
    ∀ n : Nat, 0 < fold_scan_back fold_start n →
      fold_start.getD (fold_scan_back fold_start n) 0 ≠ UCHAR_SEMI := by
  intro n
  induction n with
  | zero => intro h; simp [fold_scan_back] at h
  | succ n ih =>
    intro h
    simp only [fold_scan_back] at h ⊢
    split
    · rename_i hne
      exact hne
    · rename_i hne
      rw [if_neg hne] at h
      exact ih h

/-- A fold position inside the line is not followed by a semicolon when folding before
semicolons is not allowed. -/
theorem compute_fold_length_not_before_semi (fold_start : List UChar) (L T W : Nat)
    (hpos : 0 < compute_fold_length fold_start L T W false)
    (hlt : compute_fold_length fold_start L T W false < L) :
    fold_start.getD (compute_fold_length fold_start L T W false).toNat 0 ≠ UCHAR_SEMI := by
  unfold compute_fold_length at hpos hlt ⊢
  split
  · rename_i hfit
    rw [if_pos hfit] at hlt
    omega
  · rename_i hfit
    rw [if_neg hfit] at hpos
    simp only [] at hpos ⊢
    split
    · rename_i hcat
      unfold fold_window_scan at hcat ⊢
      simp only [] at hcat ⊢
      exact fold_scan_top_semi fold_start T (W + 1) 0 _
        (fold_scan_bottom_semi fold_start T W _ (fun h => absurd rfl h)) hcat
    · rename_i hcat
      rw [if_neg hcat] at hpos
      rw [Int.toNat_ofNat]
      exact fold_scan_back_semi fold_start _ (by exact_mod_cast hpos)

/-- The property of a physical line not to begin with a semicolon, for the lines of a chunk
without a newline followed by a newline and more text. -/
theorem lines_no_semi_chunk (chunk rest : List UChar) (hno : ∀ c ∈ chunk, c ≠ UCHAR_LF)
    (hhead : chunk.head? ≠ some UCHAR_SEMI)
    (hrest : ∀ l ∈ physical_lines rest, l.head? ≠ some UCHAR_SEMI) :
    ∀ l ∈ physical_lines (chunk ++ UCHAR_LF :: rest), l.head? ≠ some UCHAR_SEMI := by
  intro l hl
  rw [physical_lines_append_lf chunk rest hno] at hl
  rcases List.mem_cons.mp hl with h | h
  · rw [h]; exact hhead
  · exact hrest l h

theorem head_take_append (fold_start tail : List UChar) (n : Nat)
    (hhead : fold_start.head? ≠ some UCHAR_SEMI) (htail : tail.head? ≠ some UCHAR_SEMI) :
    (fold_start.take n ++ tail).head? ≠ some UCHAR_SEMI := by
  cases fold_start with
  | nil => simpa using htail
  | cons c cs =>
    cases n with
    | zero => simpa using htail
    | succ n => simpa using hhead

theorem print_fold_segment_no_semi (fold_start : List UChar) (fold_len : Int)
    (hno : ∀ c ∈ fold_start, c ≠ UCHAR_LF) (hhead : fold_start.head? ≠ some UCHAR_SEMI)
    (rest : List UChar) (hrest : ∀ l ∈ physical_lines rest, l.head? ≠ some UCHAR_SEMI) :
    ∀ l ∈ physical_lines (print_fold_segment false fold_start fold_len ++ rest),
      l.head? ≠ some UCHAR_SEMI := by
  have hno1 : ∀ c ∈ fold_start.take fold_len.toNat, c ≠ UCHAR_LF :=
    fun c hc => hno c (List.mem_of_mem_take hc)
  have hno2 : ∀ c ∈ fold_start.take fold_len.toNat ++ [UCHAR_BSL], c ≠ UCHAR_LF := by
    intro c hc
    rcases List.mem_append.mp hc with h | h
    · exact hno1 c h
    · rw [List.mem_singleton.mp h]; decide
  have hh1 : (fold_start.take fold_len.toNat).head? ≠ some UCHAR_SEMI := by
    have := head_take_append fold_start [] fold_len.toNat hhead (by simp)
    simpa using this
  have hh2 : (fold_start.take fold_len.toNat ++ [UCHAR_BSL]).head? ≠ some UCHAR_SEMI :=
    head_take_append fold_start [UCHAR_BSL] fold_len.toNat hhead (by decide)
  unfold print_fold_segment
  simp only [Bool.false_eq_true, if_false, List.nil_append]
  split
  · split
    · have h0 : ∀ l ∈ physical_lines ([] ++ UCHAR_LF :: rest), l.head? ≠ some UCHAR_SEMI :=
        lines_no_semi_chunk [] rest (by simp) (by simp) hrest
      have := lines_no_semi_chunk _ _ hno2 hh2 h0
      simpa using this
    · have := lines_no_semi_chunk _ rest hno1 hh1 hrest
      simpa using this
  · have := lines_no_semi_chunk _ rest hno2 hh2 hrest
    simpa using this

theorem print_folded_line_no_semi (NDEBUG : Bool) :
    ∀ (fuel : Nat) (fold_start w : List UChar), (∀ c ∈ fold_start, c ≠ UCHAR_LF) →
      fold_start.head? ≠ some UCHAR_SEMI →
      print_folded_line NDEBUG false fuel fold_start = some w →
      ∀ rest, (∀ l ∈ physical_lines rest, l.head? ≠ some UCHAR_SEMI) →
        ∀ l ∈ physical_lines (w ++ rest), l.head? ≠ some UCHAR_SEMI := by
  intro fuel
  induction fuel with
  | zero => intro fold_start w _ _ h; simp [print_folded_line] at h
  | succ fuel ih =>
    intro fold_start w hno hhead h rest hrest
    simp only [print_folded_line] at h
    split at h
    · exact absurd h (by simp)
    · split at h
      · rename_i hmore
        cases hrec : print_folded_line NDEBUG false fuel
          (fold_start.drop (compute_fold_length fold_start fold_start.length
            (fold_target false) FOLD_WINDOW false).toNat) with
        | none => rw [hrec] at h; simp at h
        | some w' =>
          rw [hrec] at h
          simp only [Option.map_some', Option.some.injEq] at h
          subst h
          have hhead' : (fold_start.drop (compute_fold_length fold_start fold_start.length
              (fold_target false) FOLD_WINDOW false).toNat).head? ≠ some UCHAR_SEMI := by
            rw [List.length_drop] at hmore
            by_cases hpos : 0 < compute_fold_length fold_start fold_start.length
                (fold_target false) FOLD_WINDOW false
            · have hlt : compute_fold_length fold_start fold_start.length
                  (fold_target false) FOLD_WINDOW false < (fold_start.length : Int) := by
                omega
              have hsemi := compute_fold_length_not_before_semi fold_start fold_start.length
                (fold_target false) FOLD_WINDOW hpos hlt
              intro hh
              apply hsemi
              rw [List.head?_drop] at hh
              rw [List.getD_eq_getElem?_getD, hh]
              rfl
            · have h0 : (compute_fold_length fold_start fold_start.length
                  (fold_target false) FOLD_WINDOW false).toNat = 0 := by
                omega
              rw [h0, List.drop_zero]
              exact hhead
          have h1 := ih _ w' (fun c hc => hno c (List.mem_of_mem_drop hc)) hhead' hrec rest hrest
          have := print_fold_segment_no_semi fold_start
            (compute_fold_length fold_start fold_start.length (fold_target false) FOLD_WINDOW
              false) hno hhead (w' ++ rest) h1
          simpa using this
      · simp only [Option.some.injEq] at h
        subst h
        exact print_fold_segment_no_semi fold_start
          (compute_fold_length fold_start fold_start.length (fold_target false) FOLD_WINDOW
            false) hno hhead rest hrest

theorem drop_takeWhile_cases (p : UChar → Bool) :
    ∀ text : List UChar, text.drop (text.takeWhile p).length = [] ∨
      ∃ t next, text.drop (text.takeWhile p).length = t :: next ∧ p t = false ∧
        text = text.takeWhile p ++ t :: next := by
  intro text
  induction text with
  | nil => exact Or.inl rfl
  | cons c cs ih =>
    by_cases hc : p c = true
    · simp only [List.takeWhile_cons, hc, if_true, List.length_cons, List.drop_succ_cons]
      rcases ih with h | ⟨t, next, h1, h2, h3⟩
      · exact Or.inl h
      · exact Or.inr ⟨t, next, h1, h2, by rw [List.cons_append, ← h3]⟩
    · have hc' : p c = false := by simpa using hc
      simp only [List.takeWhile_cons, hc', Bool.false_eq_true, if_false, List.length_nil,
        List.drop_zero]
      exact Or.inr ⟨c, cs, rfl, hc', rfl⟩

theorem print_text_lines_no_semi (NDEBUG : Bool) :
    ∀ (fuel : Nat) (line_start w : List UChar), no_line_starts_with_semi line_start →
      print_text_lines NDEBUG true false fuel line_start = some w →
      ∀ rest, (∀ l ∈ physical_lines rest, l.head? ≠ some UCHAR_SEMI) →
        ∀ l ∈ physical_lines (w ++ rest), l.head? ≠ some UCHAR_SEMI := by
  intro fuel
  induction fuel with
  | zero => intro line_start w _ h; simp [print_text_lines] at h
  | succ fuel ih =>
    intro line_start w hchain h rest hrest
    simp only [print_text_lines] at h
    split at h
    · simp only [Option.some.injEq] at h
      subst h
      simpa using hrest
    · have hno : ∀ c ∈ line_start.takeWhile (fun c => !is_line_term c), c ≠ UCHAR_LF := by
        intro c hc hEq
        have := List.mem_takeWhile_imp hc
        subst hEq
        simp [is_line_term] at this
      have hhead : (line_start.takeWhile (fun c => !is_line_term c)).head?
          ≠ some UCHAR_SEMI := by
        cases line_start with
        | nil => simp
        | cons c cs =>
          have hc : c ≠ UCHAR_SEMI := by
            unfold no_line_starts_with_semi at hchain
            exact (List.chain_cons.mp hchain).1 (by decide)
          simp only [List.takeWhile_cons]
          split
          · simpa using hc
          · simp
      simp only [not_true_eq_false, if_false] at h
      cases hline : print_folded_line NDEBUG false
          ((line_start.takeWhile (fun c => !is_line_term c)).length + 1)
          (line_start.takeWhile (fun c => !is_line_term c)) with
      | none => rw [hline] at h; simp at h
      | some w1 =>
        rw [hline] at h
        simp only [] at h
        have hw1 := print_folded_line_no_semi NDEBUG _ _ w1 hno hhead hline
        rcases drop_takeWhile_cases (fun c => !is_line_term c) line_start with hd | hd
        · rw [hd] at h
          simp only [List.getD_nil, List.drop_nil] at h
          split at h
          · simp only [Option.some.injEq] at h
            subst h
            exact hw1 rest hrest
          · rename_i heq
            split at heq <;> simp at heq
        · obtain ⟨t, next, hd1, hd2, hd3⟩ := hd
          have hterm : is_line_term t = true := by simpa using hd2
          have hsub : List.Chain (fun a b => is_line_term a = true → b ≠ UCHAR_SEMI) t next := by
            unfold no_line_starts_with_semi at hchain
            rw [hd3] at hchain
            exact (List.chain_split.mp hchain).2
          rw [hd1] at h
          split at h
          · simp only [Option.some.injEq] at h
            subst h
            exact hw1 rest hrest
          · rename_i t' next' heq
            have hnext : no_line_starts_with_semi next' := by
              unfold no_line_starts_with_semi
              split at heq
              · rename_i hcrlf
                simp only [List.drop_succ_cons, List.drop_zero] at heq
                rw [heq] at hsub
                have ht' : t' = UCHAR_LF := by
                  have := hcrlf.2
                  rw [heq] at this
                  simpa using this
                rw [ht'] at hsub
                exact (List.chain_cons.mp hsub).2
              · simp only [List.cons.injEq] at heq
                rw [← heq.2]
                exact List.Chain.imp' (fun _ _ hab => hab) (fun c hc _ => hc hterm) hsub
            cases hrec : print_text_lines NDEBUG true false fuel next' with
            | none => rw [hrec] at h; simp at h
            | some w2 =>
              rw [hrec] at h
              simp only [Option.map_some', Option.some.injEq] at h
              subst h
              have := hw1 (w2 ++ rest) (ih next' w2 hnext hrec rest hrest)
              simpa using this

theorem no_line_starts_with_semi_of_plain (text : List UChar) (h : ∀ c ∈ text, plain_char c) :
    no_line_starts_with_semi text := by
  unfold no_line_starts_with_semi
  have hall : ∀ (l : List UChar) (a : UChar), (∀ c ∈ l, c ≠ UCHAR_SEMI) →
      List.Chain (fun a b => is_line_term a = true → b ≠ UCHAR_SEMI) a l := by
    intro l
    induction l with
    | nil => intro a _; exact List.Chain.nil
    | cons c cs ih =>
      intro a hl
      exact List.Chain.cons (fun _ => hl c (List.mem_cons_self _ _))
        (ih c (fun x hx => hl x (List.mem_cons_of_mem _ hx)))
  exact hall text _ (fun c hc => (h c hc).2.2.1)

/-- C36: for every text in which no logical line begins with a semicolon, whenever
`print_text_field` with `do_fold` set and `do_prefix` clear completes, it has written the
opening line `;\`, then lines none of which begins with a semicolon, then the closing `;`.
When folding before a semicolon is not allowed, `compute_fold_length` never returns a
position inside the line, other than 0, that is followed by a semicolon. -/
theorem print_text_field_no_early_end :
    (∀ (NDEBUG : Bool) (str : List UChar) (ctx : context) (r : Int × context),
      no_line_starts_with_semi str →
      print_text_field NDEBUG str true false ctx = some r →
        ∃ body, r.2.out
            = ctx.out ++ ([UCHAR_LF, UCHAR_SEMI, UCHAR_BSL, UCHAR_LF] ++ body ++ [UCHAR_SEMI]) ∧
          ∀ l ∈ physical_lines body, l.head? ≠ some UCHAR_SEMI) ∧
    (∀ (fold_start : List UChar) (L T W : Nat),
      0 < compute_fold_length fold_start L T W false →
      compute_fold_length fold_start L T W false < L →
        fold_start.getD (compute_fold_length fold_start L T W false).toNat 0 ≠ UCHAR_SEMI) := by
  refine ⟨?_, compute_fold_length_not_before_semi⟩
  intro NDEBUG str ctx r hstr h
  unfold print_text_field at h
  simp only [Bool.or_true, not_true_eq_false, if_false, if_true, Bool.false_eq_true,
    List.append_nil] at h
  cases hbody : print_text_lines NDEBUG true false (str.length + 1) str with
  | none => rw [hbody] at h; simp at h
  | some body =>
    rw [hbody] at h
    simp only [Option.some.injEq] at h
    subst h
    refine ⟨body, rfl, ?_⟩
    have := print_text_lines_no_semi NDEBUG _ str body hstr hbody [] (by simp [physical_lines])
    simpa using this

/-- C36, at the line of 3000 characters `a`, which is folded after 2039 characters, and at a
line of 2048 characters with semicolons at the indices 2038, 2039 and 2040, which is folded
at 2041. -/
theorem print_text_field_no_early_end_witness :
    (∃ body,
      ({ zero_context with
          out := zero_context.out ++ ([UCHAR_LF, UCHAR_SEMI, UCHAR_BSL, UCHAR_LF]
            ++ long_line.take 2039 ++ [UCHAR_BSL, UCHAR_LF] ++ long_line.drop 2039
            ++ [UCHAR_LF, UCHAR_SEMI])
          column := 1 } : context).out
        = zero_context.out ++ ([UCHAR_LF, UCHAR_SEMI, UCHAR_BSL, UCHAR_LF] ++ body
            ++ [UCHAR_SEMI]) ∧
      ∀ l ∈ physical_lines body, l.head? ≠ some UCHAR_SEMI) ∧
    tie_line.getD (compute_fold_length tie_line 2048 2039 8 false).toNat 0 ≠ UCHAR_SEMI :=
  ⟨print_text_field_no_early_end.1 true long_line zero_context
      (CIF_OK,
        { zero_context with
          out := zero_context.out ++ ([UCHAR_LF, UCHAR_SEMI, UCHAR_BSL, UCHAR_LF]
            ++ long_line.take 2039 ++ [UCHAR_BSL, UCHAR_LF] ++ long_line.drop 2039
            ++ [UCHAR_LF, UCHAR_SEMI])
          column := 1 })
      (no_line_starts_with_semi_of_plain long_line long_line_plain)
      (print_text_field_long_line true zero_context long_line long_line_length long_line_plain
        (by
          have hget := getD_replicate_append_left 3000 0x61 [] 2999 (by omega)
          rw [List.append_nil] at hget
          rw [long_line, hget]
          decide)),
    print_text_field_no_early_end.2 tie_line 2048 2039 8
      (by rw [tie_line_fold]; decide) (by rw [tie_line_fold]; decide)⟩

end Linguist

namespace Cif

open Linguist

/-! ## The walker: a value that stops the walk is returned by the last callback invoked -/

theorem stops_end : stops CIF_TRAVERSE_END := by decide

theorem not_stops_continue : ¬ stops CIF_TRAVERSE_CONTINUE := by decide

theorem not_stops_finished : ¬ stops CIF_FINISHED := by decide

theorem log_clean_refl {σ : Type} (v : Int) (s : σ) (log0 : call_log) :
    log_clean log0 (v, (s, log0)) :=
  ⟨[], by simp, by simp⟩

theorem log_clean_of_good {σ : Type} {log0 : call_log} {x : Int × (σ × call_log)}
    (h : log_good log0 x) (hx : ¬ stops x.1) : log_clean log0 x := by
  rcases h with h | ⟨init, e, _, _, he, hxe⟩
  · exact h
  · exact absurd (hxe ▸ he) hx

theorem log_clean_value {σ : Type} {log0 : call_log} {x : Int × (σ × call_log)}
    (h : log_clean log0 x) (v : Int) : log_clean log0 (v, x.2) := h

theorem log_clean_trans {σ : Type} {log0 : call_log} {x y : Int × (σ × call_log)}
    (hx : log_clean log0 x) (hy : log_clean x.2.2 y) : log_clean log0 y := by
  obtain ⟨n1, h1, c1⟩ := hx
  obtain ⟨n2, h2, c2⟩ := hy
  refine ⟨n1 ++ n2, by rw [h2, h1, List.append_assoc], ?_⟩
  intro e he
  rcases List.mem_append.mp he with h | h
  · exact c1 e h
  · exact c2 e h

theorem log_good_trans {σ : Type} {log0 : call_log} {x y : Int × (σ × call_log)}
    (hx : log_clean log0 x) (hy : log_good x.2.2 y) : log_good log0 y := by
  rcases hy with hy | ⟨init, e, h2, c2, he, hye⟩
  · exact Or.inl (log_clean_trans hx hy)
  · obtain ⟨n1, h1, c1⟩ := hx
    refine Or.inr ⟨n1 ++ init, e, by rw [h2, h1]; simp, ?_, he, hye⟩
    intro e' he'
    rcases List.mem_append.mp he' with h | h
    · exact c1 e' h
    · exact c2 e' h

theorem log_good_call {α σ : Type} (event : α → walk_event) (cb : Option (α → σ → Int × σ))
    (a : α) (s : σ) (log0 : call_log) :
    log_good log0
      (HANDLER_RESULT (logged_callback event cb) a (s, log0) CIF_TRAVERSE_CONTINUE) := by
  cases cb with
  | none => exact Or.inl ⟨[], by simp [HANDLER_RESULT, logged_callback], by simp⟩
  | some f =>
    by_cases hst : stops (f a s).1
    · exact Or.inr ⟨[], (event a, (f a s).1), by simp [HANDLER_RESULT, logged_callback],
        by simp, hst, rfl⟩
    · refine Or.inl ⟨[(event a, (f a s).1)], by simp [HANDLER_RESULT, logged_callback], ?_⟩
      intro e he
      rw [List.mem_singleton.mp he]
      exact hst

theorem not_stops_of_or {v : Int}
    (h : v = CIF_TRAVERSE_CONTINUE ∨ v = CIF_TRAVERSE_SKIP_CURRENT) : ¬ stops v := by
  rcases h with h | h <;> rw [h] <;> decide

theorem not_stops_skip_siblings {v : Int} (h : v = CIF_TRAVERSE_SKIP_SIBLINGS) : ¬ stops v := by
  rw [h]; decide

theorem walk_packet_items_good {σ : Type} (h : cif_handler_t σ) (p : cif_packet_t) :
    ∀ (items : List (List UChar × cif_value)) (s : σ) (log0 : call_log),
      log_good log0 (walk_packet_items (logged h) p items (s, log0)) := by
  intro items
  induction items with
  | nil =>
    intro s log0
    exact log_good_call walk_event.packet_end h.handle_packet_end p s log0
  | cons i rest ih =>
    intro s log0
    have hc : log_good log0 (walk_item i (logged h) (s, log0)) :=
      log_good_call walk_event.item h.handle_item i s log0
    simp only [walk_packet_items]
    split
    · rename_i h1
      exact log_good_trans (log_clean_of_good hc (not_stops_of_or h1)) (ih _ _)
    · split
      · rename_i h2
        exact Or.inl (log_clean_value (log_clean_of_good hc (not_stops_skip_siblings h2)) _)
      · exact hc

theorem walk_packet_good {σ : Type} (h : cif_handler_t σ) (p : cif_packet_t) (s : σ)
    (log0 : call_log) : log_good log0 (walk_packet p (logged h) (s, log0)) := by
  have hc := log_good_call walk_event.packet_start h.handle_packet_start p s log0
  simp only [walk_packet]
  split
  · exact hc
  · rename_i h1
    have h1' : (HANDLER_RESULT (logged h).handle_packet_start p (s, log0)
        CIF_TRAVERSE_CONTINUE).1 = CIF_TRAVERSE_CONTINUE := not_not.mp h1
    exact log_good_trans (log_clean_of_good hc (by rw [show (HANDLER_RESULT
      (logged_callback walk_event.packet_start h.handle_packet_start) p (s, log0)
      CIF_TRAVERSE_CONTINUE).1 = CIF_TRAVERSE_CONTINUE from h1']; exact not_stops_continue))
      (walk_packet_items_good h p _ _ _)

theorem walk_loop_packets_good {σ : Type} (h : cif_handler_t σ) :
    ∀ (packets : List cif_packet_t) (s : σ) (log0 : call_log),
      log_good log0 (walk_loop_packets (logged h) packets (s, log0)) := by
  intro packets
  induction packets with
  | nil => intro s log0; exact Or.inl (log_clean_refl _ _ _)
  | cons p rest ih =>
    intro s log0
    have hc := walk_packet_good h p s log0
    simp only [walk_loop_packets]
    split
    · rename_i h1
      exact log_good_trans (log_clean_of_good hc (not_stops_of_or h1)) (ih _ _)
    · split
      · rename_i h2
        exact Or.inl (log_clean_value (log_clean_of_good hc (not_stops_skip_siblings h2)) _)
      · exact hc

theorem walk_loop_good {σ : Type} (h : cif_handler_t σ) (l : cif_loop_t) (s : σ)
    (log0 : call_log) : log_good log0 (walk_loop l (logged h) (s, log0)) := by
  have hc : log_good log0 (HANDLER_RESULT (logged h).handle_loop_start l (s, log0)
      CIF_TRAVERSE_CONTINUE) := log_good_call walk_event.loop_start h.handle_loop_start l s log0
  simp only [walk_loop]
  split
  · exact hc
  · rename_i h1
    have hcl := log_clean_of_good hc (by rw [not_not.mp h1]; exact not_stops_continue)
    have hp := walk_loop_packets_good h l.packets
      (HANDLER_RESULT (logged h).handle_loop_start l (s, log0) CIF_TRAVERSE_CONTINUE).2.1
      (HANDLER_RESULT (logged h).handle_loop_start l (s, log0) CIF_TRAVERSE_CONTINUE).2.2
    split
    · exact log_good_trans hcl hp
    · rename_i h2
      have hpc := log_clean_of_good hp (by rw [not_not.mp h2]; exact not_stops_finished)
      exact log_good_trans (log_clean_trans hcl hpc)
        (log_good_call walk_event.loop_end h.handle_loop_end l _ _)

theorem walk_loops_loop_off {σ : Type} (h : cif_handler_t σ) :
    ∀ (loops : List cif_loop_t) (result : Int) (s : σ),
      walk_loops_loop h loops result false s = (result, s) := by
  intro loops
  induction loops with
  | nil => intro result s; rfl
  | cons l rest ih => intro result s; simp [walk_loops_loop, ih]

theorem walk_loops_loop_good {σ : Type} (h : cif_handler_t σ) :
    ∀ (loops : List cif_loop_t) (result : Int) (s : σ) (log0 : call_log), ¬ stops result →
      log_good log0 (walk_loops_loop (logged h) loops result true (s, log0)) := by
  intro loops
  induction loops with
  | nil => intro result s log0 _; exact Or.inl (log_clean_refl _ _ _)
  | cons l rest ih =>
    intro result s log0 _
    have hc := walk_loop_good h l s log0
    simp only [walk_loops_loop, if_true]
    split
    · rename_i h1
      exact log_good_trans (log_clean_of_good hc (not_stops_of_or h1.symm))
        (ih _ _ _ (not_stops_of_or h1.symm))
    · rw [walk_loops_loop_off]
      exact hc

theorem walk_container_end_good {σ : Type} (h : cif_handler_t σ) (c : cif_container_t)
    (depth : Nat) (s : σ) (log0 : call_log) :
    log_good log0 (walk_container_end c depth (logged h) (walk_loops c (logged h) (s, log0))) := by
  have hl : log_good log0 (walk_loops c (logged h) (s, log0)) :=
    walk_loops_loop_good h c.loops CIF_OK s log0 (by decide)
  simp only [walk_container_end]
  split
  · rename_i h1
    have hcl := log_clean_of_good hl (not_stops_of_or h1)
    split
    · exact log_good_trans hcl (log_good_call walk_event.frame_end h.handle_frame_end c _ _)
    · exact log_good_trans hcl (log_good_call walk_event.block_end h.handle_block_end c _ _)
  · split
    · rename_i h2
      exact Or.inl (log_clean_value (log_clean_of_good hl (not_stops_skip_siblings h2)) _)
    · exact hl

theorem walk_frames_off {σ : Type} (h : cif_handler_t σ) :
    ∀ (frames : List cif_container_t) (depth : Nat) (result : Int) (handle_loops : Bool) (s : σ),
      walk_frames h frames depth result false handle_loops s = (result, handle_loops, s) := by
  intro frames
  induction frames with
  | nil => intro depth result hl s; simp [walk_frames]
  | cons f rest ih => intro depth result hl s; simp [walk_frames, ih]

mutual

theorem walk_container_good {σ : Type} (h : cif_handler_t σ) :
    ∀ (c : cif_container_t) (depth : Nat) (s : σ) (log0 : call_log),
      log_good log0 (walk_container (logged h) c depth (s, log0))
  | .mk code frames loops, depth, s, log0 => by
    have hstart : log_good log0
        (if depth ≠ 0 then
          HANDLER_RESULT (logged h).handle_frame_start (cif_container_t.mk code frames loops)
            (s, log0) CIF_TRAVERSE_CONTINUE
        else
          HANDLER_RESULT (logged h).handle_block_start (cif_container_t.mk code frames loops)
            (s, log0) CIF_TRAVERSE_CONTINUE) := by
      split
      · exact log_good_call walk_event.frame_start h.handle_frame_start _ s log0
      · exact log_good_call walk_event.block_start h.handle_block_start _ s log0
    simp only [walk_container, walk_container_loops]
    generalize (if depth ≠ 0 then
          HANDLER_RESULT (logged h).handle_frame_start (cif_container_t.mk code frames loops)
            (s, log0) CIF_TRAVERSE_CONTINUE
        else
          HANDLER_RESULT (logged h).handle_block_start (cif_container_t.mk code frames loops)
            (s, log0) CIF_TRAVERSE_CONTINUE) = r at hstart
    split
    · exact hstart
    · rename_i h1
      have hcl := log_clean_of_good hstart (by rw [not_not.mp h1]; exact not_stops_continue)
      have hf := walk_frames_good h frames (depth + 1) CIF_OK r.2.1 r.2.2
      split
      · rename_i h2
        exact log_good_trans hcl (hf.2 (by simpa using h2))
      · rename_i h2
        have hfc := hf.1 (by simpa using h2)
        exact log_good_trans (log_clean_trans hcl hfc)
          (walk_container_end_good h _ depth _ _)

theorem walk_frames_good {σ : Type} (h : cif_handler_t σ) :
    ∀ (frames : List cif_container_t) (depth : Nat) (result : Int) (s : σ) (log0 : call_log),
      ((walk_frames (logged h) frames depth result true true (s, log0)).2.1 = true →
        log_clean log0 ((walk_frames (logged h) frames depth result true true (s, log0)).1,
          (walk_frames (logged h) frames depth result true true (s, log0)).2.2)) ∧
      ((walk_frames (logged h) frames depth result true true (s, log0)).2.1 = false →
        log_good log0 ((walk_frames (logged h) frames depth result true true (s, log0)).1,
          (walk_frames (logged h) frames depth result true true (s, log0)).2.2))
  | [], depth, result, s, log0 => by
    simp only [walk_frames]
    exact ⟨fun _ => log_clean_refl _ _ _, fun _ => Or.inl (log_clean_refl _ _ _)⟩
  | f :: rest, depth, result, s, log0 => by
    have hc := walk_container_good h f depth s log0
    have ih := walk_frames_good h rest depth
      (walk_container (logged h) f depth (s, log0)).1
      (walk_container (logged h) f depth (s, log0)).2.1
      (walk_container (logged h) f depth (s, log0)).2.2
    simp only [walk_frames, if_true]
    split
    · rename_i h1
      have hcl := log_clean_of_good hc (not_stops_of_or h1)
      exact ⟨fun hf => log_clean_trans hcl (ih.1 hf), fun hf => log_good_trans hcl (ih.2 hf)⟩
    · split
      · rename_i h2
        rw [walk_frames_off]
        exact ⟨fun _ => log_clean_of_good hc (not_stops_skip_siblings h2),
          fun hf => absurd hf (by simp)⟩
      · rw [walk_frames_off]
        exact ⟨fun hf => absurd hf (by simp), fun _ => hc⟩

end

theorem walk_blocks_off {σ : Type} (h : cif_handler_t σ) :
    ∀ (blocks : List cif_container_t) (result : Int) (s : σ),
      walk_blocks h blocks result false s = (result, false, s) := by
  intro blocks
  induction blocks with
  | nil => intro result s; simp [walk_blocks]
  | cons b rest ih => intro result s; simp [walk_blocks, ih]

theorem log_final_of_good {σ : Type} {log0 : call_log} {x : Int × (σ × call_log)}
    (h : log_good log0 x) (hx : x.1 ≠ CIF_TRAVERSE_END) : log_final log0 x := by
  rcases h with h | ⟨init, e, h1, h2, h3, h4⟩
  · exact Or.inl h
  · exact Or.inr ⟨init, e, h1, h2, h3, by rw [if_neg (by rw [← h4]; exact hx)]; exact h4⟩

theorem log_final_ok_of_good {σ : Type} {log0 : call_log} {x : Int × (σ × call_log)}
    (h : log_good log0 x)
    (hx : x.1 = CIF_TRAVERSE_CONTINUE ∨ x.1 = CIF_TRAVERSE_SKIP_CURRENT
      ∨ x.1 = CIF_TRAVERSE_SKIP_SIBLINGS ∨ x.1 = CIF_TRAVERSE_END) :
    log_final log0 (CIF_OK, x.2) := by
  rcases h with h | ⟨init, e, h1, h2, h3, h4⟩
  · exact Or.inl h
  · refine Or.inr ⟨init, e, h1, h2, h3, ?_⟩
    have he : e.2 = CIF_TRAVERSE_END := by
      rw [← h4]
      rcases hx with hx | hx | hx | hx
      · exact absurd (h4 ▸ h3) (by rw [hx]; decide)
      · exact absurd (h4 ▸ h3) (by rw [hx]; decide)
      · exact absurd (h4 ▸ h3) (by rw [hx]; decide)
      · exact hx
    rw [if_pos he]

theorem log_final_trans {σ : Type} {log0 : call_log} {x y : Int × (σ × call_log)}
    (hx : log_clean log0 x) (hy : log_final x.2.2 y) : log_final log0 y := by
  rcases hy with hy | ⟨init, e, h2, c2, he, hye⟩
  · exact Or.inl (log_clean_trans hx hy)
  · obtain ⟨n1, h1, c1⟩ := hx
    refine Or.inr ⟨n1 ++ init, e, by rw [h2, h1]; simp, ?_, he, hye⟩
    intro e' he'
    rcases List.mem_append.mp he' with h | h
    · exact c1 e' h
    · exact c2 e' h

theorem walk_blocks_good {σ : Type} (h : cif_handler_t σ) :
    ∀ (blocks : List cif_container_t) (result : Int) (s : σ) (log0 : call_log),
      ((walk_blocks (logged h) blocks result true (s, log0)).2.1 = true →
        log_clean log0 ((walk_blocks (logged h) blocks result true (s, log0)).1,
          (walk_blocks (logged h) blocks result true (s, log0)).2.2)) ∧
      ((walk_blocks (logged h) blocks result true (s, log0)).2.1 = false →
        log_final log0 ((walk_blocks (logged h) blocks result true (s, log0)).1,
          (walk_blocks (logged h) blocks result true (s, log0)).2.2)) := by
  intro blocks
  induction blocks with
  | nil =>
    intro result s log0
    simp only [walk_blocks]
    exact ⟨fun _ => log_clean_refl _ _ _, fun _ => Or.inl (log_clean_refl _ _ _)⟩
  | cons b rest ih =>
    intro result s log0
    have hc := walk_container_good h b 0 s log0
    have ih' := ih (walk_container (logged h) b 0 (s, log0)).1
      (walk_container (logged h) b 0 (s, log0)).2.1
      (walk_container (logged h) b 0 (s, log0)).2.2
    simp only [walk_blocks, if_true]
    split
    · rename_i h1
      rw [walk_blocks_off]
      refine ⟨fun hf => absurd hf (by simp), fun _ => ?_⟩
      exact log_final_ok_of_good hc (by
        rcases h1 with h1 | h1
        · exact Or.inr (Or.inr (Or.inl h1))
        · exact Or.inr (Or.inr (Or.inr h1)))
    · rename_i h1
      split
      · rename_i h2
        have hcl := log_clean_of_good hc (not_stops_of_or h2)
        exact ⟨fun hf => log_clean_trans hcl (ih'.1 hf), fun hf => log_final_trans hcl (ih'.2 hf)⟩
      · rw [walk_blocks_off]
        refine ⟨fun hf => absurd hf (by simp), fun _ => ?_⟩
        exact log_final_of_good hc (fun hE => h1 (Or.inr hE))

theorem cif_walk_final {σ : Type} (cif : cif_t) (h : cif_handler_t σ) (s : σ) (log0 : call_log) :
    log_final log0 (cif_walk cif (logged h) (s, log0)) := by
  have hc : log_good log0 (HANDLER_RESULT (logged h).handle_cif_start cif (s, log0)
      CIF_TRAVERSE_CONTINUE) := log_good_call walk_event.cif_start h.handle_cif_start cif s log0
  simp only [cif_walk]
  split
  · rename_i h1
    have hcl := log_clean_of_good hc (by rw [h1]; exact not_stops_continue)
    have hb := walk_blocks_good h cif.blocks CIF_OK
      (HANDLER_RESULT (logged h).handle_cif_start cif (s, log0) CIF_TRAVERSE_CONTINUE).2.1
      (HANDLER_RESULT (logged h).handle_cif_start cif (s, log0) CIF_TRAVERSE_CONTINUE).2.2
    simp only [cif_walk_end]
    split
    · rename_i h2
      have hbc := log_clean_trans hcl (hb.1 h2)
      have he := log_good_call walk_event.cif_end h.handle_cif_end cif
        (walk_blocks (logged h) cif.blocks CIF_OK true
          (HANDLER_RESULT (logged h).handle_cif_start cif (s, log0) CIF_TRAVERSE_CONTINUE).2).2.2.1
        (walk_blocks (logged h) cif.blocks CIF_OK true
          (HANDLER_RESULT (logged h).handle_cif_start cif (s, log0) CIF_TRAVERSE_CONTINUE).2).2.2.2
      split
      · rename_i h3
        exact log_final_trans hbc (log_final_ok_of_good he h3)
      · rename_i h3
        exact log_final_trans hbc (log_final_of_good he
          (fun hE => h3 (Or.inr (Or.inr (Or.inr hE)))))
    · rename_i h2
      exact log_final_trans hcl (hb.2 (by simpa using h2))
  · rename_i h1
    split
    · rename_i h2
      exact log_final_ok_of_good hc (Or.inr h2)
    · rename_i h2
      exact log_final_of_good hc (fun hE => h2 (Or.inr (Or.inr hE)))

theorem append_cons_eq_concat {α : Type} {pre post init : List α} {e e0 : α}
    (h : pre ++ e :: post = init ++ [e0]) : (post = [] ∧ e = e0) ∨ e ∈ init := by
  rcases List.eq_nil_or_concat post with hp | ⟨post', z, hp⟩
  · subst hp
    have := List.append_inj' h rfl
    exact Or.inl ⟨rfl, by simpa using this.2⟩
  · subst hp
    have h' : (pre ++ e :: post') ++ [z] = init ++ [e0] := by simpa using h
    have := List.append_inj' h' rfl
    exact Or.inr (by rw [← this.1]; simp)

theorem cif_walk_stop_last {σ : Type} (cif : cif_t) (h : cif_handler_t σ) (s : σ)
    (pre post : call_log) (e : walk_event × Int)
    (hlog : (cif_walk cif (logged h) (s, [])).2.2 = pre ++ e :: post) (he : stops e.2) :
    post = [] ∧
      (cif_walk cif (logged h) (s, [])).1 = if e.2 = CIF_TRAVERSE_END then CIF_OK else e.2 := by
  rcases cif_walk_final cif h s [] with ⟨new, h1, c1⟩ | ⟨init, e0, h1, c1, _, h4⟩
  · exfalso
    rw [List.nil_append] at h1
    exact c1 e (by rw [← h1, hlog]; simp) he
  · rw [List.nil_append, hlog] at h1
    rcases append_cons_eq_concat h1 with ⟨hp, hee⟩ | hmem
    · subst hee
      exact ⟨hp, h4⟩
    · exact absurd he (c1 e hmem)

/-! ## Two handlers that work alike walk alike -/

section sim

variable {σ₁ σ₂ : Type} {Rel : σ₁ → σ₂ → Prop} {h₁ : cif_handler_t σ₁} {h₂ : cif_handler_t σ₂}

theorem result_sim_of_eq {x : Int × σ₁} {y : Int × σ₂} (hv : x.1 = y.1) (hr : Rel x.2 y.2) :
    result_sim Rel x y := ⟨hv, hr⟩

theorem walk_packet_items_sim (hs : handler_sim Rel h₁ h₂) (p : cif_packet_t) :
    ∀ (items : List (List UChar × cif_value)) (s₁ : σ₁) (s₂ : σ₂), Rel s₁ s₂ →
      result_sim Rel (walk_packet_items h₁ p items s₁) (walk_packet_items h₂ p items s₂) := by
  intro items
  induction items with
  | nil =>
    intro s₁ s₂ hrel
    simp only [walk_packet_items]
    exact hs.packet_end p s₁ s₂ hrel
  | cons item rest ih =>
    intro s₁ s₂ hrel
    have hr := hs.item item s₁ s₂ hrel
    simp only [walk_packet_items, walk_item]
    rw [hr.1]
    by_cases c1 : (HANDLER_RESULT h₂.handle_item item s₂ CIF_TRAVERSE_CONTINUE).1
        = CIF_TRAVERSE_CONTINUE ∨
        (HANDLER_RESULT h₂.handle_item item s₂ CIF_TRAVERSE_CONTINUE).1
          = CIF_TRAVERSE_SKIP_CURRENT
    · rw [if_pos c1, if_pos c1]
      exact ih _ _ hr.2
    · rw [if_neg c1, if_neg c1]
      by_cases c2 : (HANDLER_RESULT h₂.handle_item item s₂ CIF_TRAVERSE_CONTINUE).1
          = CIF_TRAVERSE_SKIP_SIBLINGS
      · rw [if_pos c2, if_pos c2]
        exact ⟨rfl, hr.2⟩
      · rw [if_neg c2, if_neg c2]
        exact hr

theorem walk_packet_sim (hs : handler_sim Rel h₁ h₂) (p : cif_packet_t) (s₁ : σ₁) (s₂ : σ₂)
    (hrel : Rel s₁ s₂) : result_sim Rel (walk_packet p h₁ s₁) (walk_packet p h₂ s₂) := by
  have hr := hs.packet_start p s₁ s₂ hrel
  simp only [walk_packet]
  rw [hr.1]
  by_cases c1 : (HANDLER_RESULT h₂.handle_packet_start p s₂ CIF_TRAVERSE_CONTINUE).1
      ≠ CIF_TRAVERSE_CONTINUE
  · rw [if_pos c1, if_pos c1]
    exact hr
  · rw [if_neg c1, if_neg c1]
    exact walk_packet_items_sim hs p p _ _ hr.2

theorem walk_loop_packets_sim (hs : handler_sim Rel h₁ h₂) :
    ∀ (packets : List cif_packet_t) (s₁ : σ₁) (s₂ : σ₂), Rel s₁ s₂ →
      result_sim Rel (walk_loop_packets h₁ packets s₁) (walk_loop_packets h₂ packets s₂) := by
  intro packets
  induction packets with
  | nil =>
    intro s₁ s₂ hrel
    simp only [walk_loop_packets]
    exact ⟨rfl, hrel⟩
  | cons p rest ih =>
    intro s₁ s₂ hrel
    have hr := walk_packet_sim hs p s₁ s₂ hrel
    simp only [walk_loop_packets]
    rw [hr.1]
    by_cases c1 : (walk_packet p h₂ s₂).1 = CIF_TRAVERSE_CONTINUE ∨
        (walk_packet p h₂ s₂).1 = CIF_TRAVERSE_SKIP_CURRENT
    · rw [if_pos c1, if_pos c1]
      exact ih _ _ hr.2
    · rw [if_neg c1, if_neg c1]
      by_cases c2 : (walk_packet p h₂ s₂).1 = CIF_TRAVERSE_SKIP_SIBLINGS
      · rw [if_pos c2, if_pos c2]
        exact ⟨rfl, hr.2⟩
      · rw [if_neg c2, if_neg c2]
        exact hr

theorem walk_loop_sim (hs : handler_sim Rel h₁ h₂) (l : cif_loop_t) (s₁ : σ₁) (s₂ : σ₂)
    (hrel : Rel s₁ s₂) : result_sim Rel (walk_loop l h₁ s₁) (walk_loop l h₂ s₂) := by
  have hr := hs.loop_start l s₁ s₂ hrel
  simp only [walk_loop]
  rw [hr.1]
  by_cases c1 : (HANDLER_RESULT h₂.handle_loop_start l s₂ CIF_TRAVERSE_CONTINUE).1
      ≠ CIF_TRAVERSE_CONTINUE
  · rw [if_pos c1, if_pos c1]
    exact hr
  · rw [if_neg c1, if_neg c1]
    have hp := walk_loop_packets_sim hs l.packets _ _ hr.2
    rw [hp.1]
    by_cases c2 : (walk_loop_packets h₂ l.packets
        (HANDLER_RESULT h₂.handle_loop_start l s₂ CIF_TRAVERSE_CONTINUE).2).1 ≠ CIF_FINISHED
    · rw [if_pos c2, if_pos c2]
      exact hp
    · rw [if_neg c2, if_neg c2]
      exact hs.loop_end l _ _ hp.2

theorem walk_loops_loop_sim (hs : handler_sim Rel h₁ h₂) :
    ∀ (loops : List cif_loop_t) (result : Int) (handle_loops : Bool) (s₁ : σ₁) (s₂ : σ₂),
      Rel s₁ s₂ →
      result_sim Rel (walk_loops_loop h₁ loops result handle_loops s₁)
        (walk_loops_loop h₂ loops result handle_loops s₂) := by
  intro loops
  induction loops with
  | nil =>
    intro result hl s₁ s₂ hrel
    simp only [walk_loops_loop]
    exact ⟨rfl, hrel⟩
  | cons l rest ih =>
    intro result hl s₁ s₂ hrel
    have hr := walk_loop_sim hs l s₁ s₂ hrel
    simp only [walk_loops_loop]
    cases hl with
    | false =>
      simp only [Bool.false_eq_true, if_false]
      exact ih _ _ _ _ hrel
    | true =>
      simp only [if_true]
      rw [hr.1]
      by_cases c1 : (walk_loop l h₂ s₂).1 = CIF_TRAVERSE_SKIP_CURRENT ∨
          (walk_loop l h₂ s₂).1 = CIF_TRAVERSE_CONTINUE
      · rw [if_pos c1, if_pos c1]
        exact ih _ _ _ _ hr.2
      · rw [if_neg c1, if_neg c1]
        exact ih _ _ _ _ hr.2

theorem walk_container_end_sim (hs : handler_sim Rel h₁ h₂) (c : cif_container_t) (depth : Nat)
    (x : Int × σ₁) (y : Int × σ₂) (hr : result_sim Rel x y) :
    result_sim Rel (walk_container_end c depth h₁ x) (walk_container_end c depth h₂ y) := by
  simp only [walk_container_end]
  rw [hr.1]
  by_cases c1 : y.1 = CIF_TRAVERSE_CONTINUE ∨ y.1 = CIF_TRAVERSE_SKIP_CURRENT
  · rw [if_pos c1, if_pos c1]
    by_cases c2 : depth ≠ 0
    · rw [if_pos c2, if_pos c2]
      exact hs.frame_end c _ _ hr.2
    · rw [if_neg c2, if_neg c2]
      exact hs.block_end c _ _ hr.2
  · rw [if_neg c1, if_neg c1]
    by_cases c2 : y.1 = CIF_TRAVERSE_SKIP_SIBLINGS
    · rw [if_pos c2, if_pos c2]
      exact ⟨rfl, hr.2⟩
    · rw [if_neg c2, if_neg c2]
      exact hr

theorem walk_container_loops_sim (hs : handler_sim Rel h₁ h₂) (c : cif_container_t)
    (depth : Nat) (x : Int × Bool × σ₁) (y : Int × Bool × σ₂) (hr : flag_sim Rel x y) :
    result_sim Rel (walk_container_loops c depth h₁ x) (walk_container_loops c depth h₂ y) := by
  simp only [walk_container_loops]
  rw [hr.2.1]
  by_cases c1 : ¬ y.2.1 = true
  · rw [if_pos c1, if_pos c1]
    exact ⟨hr.1, hr.2.2⟩
  · rw [if_neg c1, if_neg c1]
    exact walk_container_end_sim hs c depth _ _
      (walk_loops_loop_sim hs c.loops CIF_OK true _ _ hr.2.2)

mutual

theorem walk_container_sim (hs : handler_sim Rel h₁ h₂) :
    ∀ (c : cif_container_t) (depth : Nat) (s₁ : σ₁) (s₂ : σ₂), Rel s₁ s₂ →
      result_sim Rel (walk_container h₁ c depth s₁) (walk_container h₂ c depth s₂)
  | .mk code frames loops, depth, s₁, s₂, hrel => by
    have hstart : result_sim Rel
        (if depth ≠ 0 then
          HANDLER_RESULT h₁.handle_frame_start (cif_container_t.mk code frames loops) s₁
            CIF_TRAVERSE_CONTINUE
        else
          HANDLER_RESULT h₁.handle_block_start (cif_container_t.mk code frames loops) s₁
            CIF_TRAVERSE_CONTINUE)
        (if depth ≠ 0 then
          HANDLER_RESULT h₂.handle_frame_start (cif_container_t.mk code frames loops) s₂
            CIF_TRAVERSE_CONTINUE
        else
          HANDLER_RESULT h₂.handle_block_start (cif_container_t.mk code frames loops) s₂
            CIF_TRAVERSE_CONTINUE) := by
      by_cases c0 : depth ≠ 0
      · rw [if_pos c0, if_pos c0]
        exact hs.frame_start _ s₁ s₂ hrel
      · rw [if_neg c0, if_neg c0]
        exact hs.block_start _ s₁ s₂ hrel
    simp only [walk_container]
    generalize (if depth ≠ 0 then
          HANDLER_RESULT h₁.handle_frame_start (cif_container_t.mk code frames loops) s₁
            CIF_TRAVERSE_CONTINUE
        else
          HANDLER_RESULT h₁.handle_block_start (cif_container_t.mk code frames loops) s₁
            CIF_TRAVERSE_CONTINUE) = r₁ at hstart
    generalize (if depth ≠ 0 then
          HANDLER_RESULT h₂.handle_frame_start (cif_container_t.mk code frames loops) s₂
            CIF_TRAVERSE_CONTINUE
        else
          HANDLER_RESULT h₂.handle_block_start (cif_container_t.mk code frames loops) s₂
            CIF_TRAVERSE_CONTINUE) = r₂ at hstart
    rw [hstart.1]
    by_cases c1 : r₂.1 ≠ CIF_TRAVERSE_CONTINUE
    · rw [if_pos c1, if_pos c1]
      exact hstart
    · rw [if_neg c1, if_neg c1]
      exact walk_container_loops_sim hs _ depth _ _
        (walk_frames_sim hs frames (depth + 1) CIF_OK true true r₁.2 r₂.2 hstart.2)

theorem walk_frames_sim (hs : handler_sim Rel h₁ h₂) :
    ∀ (frames : List cif_container_t) (depth : Nat) (result : Int) (handle_frames : Bool)
      (handle_loops : Bool) (s₁ : σ₁) (s₂ : σ₂), Rel s₁ s₂ →
      flag_sim Rel (walk_frames h₁ frames depth result handle_frames handle_loops s₁)
        (walk_frames h₂ frames depth result handle_frames handle_loops s₂)
  | [], depth, result, hf, hl, s₁, s₂, hrel => by
    simp only [walk_frames]
    exact ⟨rfl, rfl, hrel⟩
  | f :: rest, depth, result, hf, hl, s₁, s₂, hrel => by
    have hc := walk_container_sim hs f depth s₁ s₂ hrel
    simp only [walk_frames]
    cases hf with
    | false =>
      simp only [Bool.false_eq_true, if_false]
      exact walk_frames_sim hs rest depth result false hl s₁ s₂ hrel
    | true =>
      simp only [if_true]
      rw [hc.1]
      by_cases c1 : (walk_container h₂ f depth s₂).1 = CIF_TRAVERSE_CONTINUE ∨
          (walk_container h₂ f depth s₂).1 = CIF_TRAVERSE_SKIP_CURRENT
      · rw [if_pos c1, if_pos c1]
        exact walk_frames_sim hs rest depth _ true hl _ _ hc.2
      · rw [if_neg c1, if_neg c1]
        by_cases c2 : (walk_container h₂ f depth s₂).1 = CIF_TRAVERSE_SKIP_SIBLINGS
        · rw [if_pos c2, if_pos c2]
          exact walk_frames_sim hs rest depth _ false hl _ _ hc.2
        · rw [if_neg c2, if_neg c2]
          exact walk_frames_sim hs rest depth _ false false _ _ hc.2

end

theorem walk_blocks_sim (hs : handler_sim Rel h₁ h₂) :
    ∀ (blocks : List cif_container_t) (result : Int) (handle_blocks : Bool) (s₁ : σ₁) (s₂ : σ₂),
      Rel s₁ s₂ →
      flag_sim Rel (walk_blocks h₁ blocks result handle_blocks s₁)
        (walk_blocks h₂ blocks result handle_blocks s₂) := by
  intro blocks
  induction blocks with
  | nil =>
    intro result hb s₁ s₂ hrel
    simp only [walk_blocks]
    exact ⟨rfl, rfl, hrel⟩
  | cons b rest ih =>
    intro result hb s₁ s₂ hrel
    have hc := walk_container_sim hs b 0 s₁ s₂ hrel
    simp only [walk_blocks]
    cases hb with
    | false =>
      simp only [Bool.false_eq_true, if_false]
      exact ih _ _ _ _ hrel
    | true =>
      simp only [if_true]
      rw [hc.1]
      by_cases c1 : (walk_container h₂ b 0 s₂).1 = CIF_TRAVERSE_SKIP_SIBLINGS ∨
          (walk_container h₂ b 0 s₂).1 = CIF_TRAVERSE_END
      · rw [if_pos c1, if_pos c1]
        exact ih _ _ _ _ hc.2
      · rw [if_neg c1, if_neg c1]
        by_cases c2 : (walk_container h₂ b 0 s₂).1 = CIF_TRAVERSE_CONTINUE ∨
            (walk_container h₂ b 0 s₂).1 = CIF_TRAVERSE_SKIP_CURRENT
        · rw [if_pos c2, if_pos c2]
          exact ih _ _ _ _ hc.2
        · rw [if_neg c2, if_neg c2]
          exact ih _ _ _ _ hc.2

theorem cif_walk_end_sim (hs : handler_sim Rel h₁ h₂) (cif : cif_t) (x : Int × Bool × σ₁)
    (y : Int × Bool × σ₂) (hr : flag_sim Rel x y) :
    result_sim Rel (cif_walk_end cif h₁ x) (cif_walk_end cif h₂ y) := by
  simp only [cif_walk_end]
  rw [hr.2.1]
  by_cases c1 : y.2.1 = true
  · rw [if_pos c1, if_pos c1]
    have he := hs.cif_end cif _ _ hr.2.2
    rw [he.1]
    by_cases c2 : (HANDLER_RESULT h₂.handle_cif_end cif y.2.2 CIF_TRAVERSE_CONTINUE).1
          = CIF_TRAVERSE_CONTINUE ∨
        (HANDLER_RESULT h₂.handle_cif_end cif y.2.2 CIF_TRAVERSE_CONTINUE).1
          = CIF_TRAVERSE_SKIP_CURRENT ∨
        (HANDLER_RESULT h₂.handle_cif_end cif y.2.2 CIF_TRAVERSE_CONTINUE).1
          = CIF_TRAVERSE_SKIP_SIBLINGS ∨
        (HANDLER_RESULT h₂.handle_cif_end cif y.2.2 CIF_TRAVERSE_CONTINUE).1
          = CIF_TRAVERSE_END
    · rw [if_pos c2, if_pos c2]
      exact ⟨rfl, he.2⟩
    · rw [if_neg c2, if_neg c2]
      exact he
  · rw [if_neg c1, if_neg c1]
    exact ⟨hr.1, hr.2.2⟩

theorem cif_walk_sim (hs : handler_sim Rel h₁ h₂) (cif : cif_t) (s₁ : σ₁) (s₂ : σ₂)
    (hrel : Rel s₁ s₂) : result_sim Rel (cif_walk cif h₁ s₁) (cif_walk cif h₂ s₂) := by
  have hr := hs.cif_start cif s₁ s₂ hrel
  simp only [cif_walk]
  rw [hr.1]
  by_cases c1 : (HANDLER_RESULT h₂.handle_cif_start cif s₂ CIF_TRAVERSE_CONTINUE).1
      = CIF_TRAVERSE_CONTINUE
  · rw [if_pos c1, if_pos c1]
    exact cif_walk_end_sim hs cif _ _ (walk_blocks_sim hs cif.blocks CIF_OK true _ _ hr.2)
  · rw [if_neg c1, if_neg c1]
    by_cases c2 : (HANDLER_RESULT h₂.handle_cif_start cif s₂ CIF_TRAVERSE_CONTINUE).1
          = CIF_TRAVERSE_SKIP_CURRENT ∨
        (HANDLER_RESULT h₂.handle_cif_start cif s₂ CIF_TRAVERSE_CONTINUE).1
          = CIF_TRAVERSE_SKIP_SIBLINGS ∨
        (HANDLER_RESULT h₂.handle_cif_start cif s₂ CIF_TRAVERSE_CONTINUE).1
          = CIF_TRAVERSE_END
    · rw [if_pos c2, if_pos c2]
      exact ⟨rfl, hr.2⟩
    · rw [if_neg c2, if_neg c2]
      exact hr

end sim

theorem logged_callback_sim {α σ : Type} (event : α → walk_event)
    (callback : Option (α → σ → Int × σ)) :
    callback_sim (fun (x : σ × call_log) (y : σ) => x.1 = y) (logged_callback event callback)
      callback := by
  intro a s₁ s₂ hrel
  subst hrel
  cases callback with
  | none => exact ⟨rfl, rfl⟩
  | some f => exact ⟨rfl, rfl⟩

theorem logged_sim {σ : Type} (h : cif_handler_t σ) :
    handler_sim (fun (x : σ × call_log) (y : σ) => x.1 = y) (logged h) h :=
  { cif_start := logged_callback_sim _ _
    cif_end := logged_callback_sim _ _
    block_start := logged_callback_sim _ _
    block_end := logged_callback_sim _ _
    frame_start := logged_callback_sim _ _
    frame_end := logged_callback_sim _ _
    loop_start := logged_callback_sim _ _
    loop_end := logged_callback_sim _ _
    packet_start := logged_callback_sim _ _
    packet_end := logged_callback_sim _ _
    item := logged_callback_sim _ _ }

/-- Recording the callbacks does not change the walk. -/
theorem cif_walk_logged {σ : Type} (cif : cif_t) (h : cif_handler_t σ) (s : σ) (log : call_log) :
    (cif_walk cif (logged h) (s, log)).1 = (cif_walk cif h s).1 ∧
      (cif_walk cif (logged h) (s, log)).2.1 = (cif_walk cif h s).2 :=
  cif_walk_sim (logged_sim h) cif (s, log) s rfl

theorem filled_callback_sim {α σ : Type} (callback : Option (α → σ → Int × σ)) :
    callback_sim (fun (x y : σ) => x = y) (filled_callback callback) callback := by
  intro a s₁ s₂ hrel
  subst hrel
  cases callback with
  | none => exact ⟨rfl, rfl⟩
  | some f => exact ⟨rfl, rfl⟩

theorem filled_sim {σ : Type} (h : cif_handler_t σ) :
    handler_sim (fun (x y : σ) => x = y) (filled h) h :=
  { cif_start := filled_callback_sim _
    cif_end := filled_callback_sim _
    block_start := filled_callback_sim _
    block_end := filled_callback_sim _
    frame_start := filled_callback_sim _
    frame_end := filled_callback_sim _
    loop_start := filled_callback_sim _
    loop_end := filled_callback_sim _
    packet_start := filled_callback_sim _
    packet_end := filled_callback_sim _
    item := filled_callback_sim _ }

/-- An absent callback works as one that returns `CIF_TRAVERSE_CONTINUE`. -/
theorem cif_walk_filled {σ : Type} (cif : cif_t) (h : cif_handler_t σ) (s : σ) :
    cif_walk cif (filled h) s = cif_walk cif h s := by
  have := cif_walk_sim (filled_sim h) cif s s rfl
  exact Prod.ext this.1 this.2

/-! ## The walk when every callback returns Continue -/

theorem walk_trace_append {σ : Type} (h : cif_handler_t σ) (a b : List walk_event) :
    walk_trace h (a ++ b) = walk_trace h a ++ walk_trace h b := by
  simp [walk_trace]

theorem walk_trace_cons {σ : Type} (h : cif_handler_t σ) (e : walk_event)
    (b : List walk_event) : walk_trace h (e :: b) = walk_trace h [e] ++ walk_trace h b :=
  walk_trace_append h [e] b

theorem call_trace {α σ : Type} (h : cif_handler_t σ) (event : α → walk_event)
    (callback : Option (α → σ → Int × σ)) (hc : callback_continues callback) (a : α)
    (hev : has_callback h (event a) = callback.isSome) (s : σ) (log : call_log) :
    ∃ s', HANDLER_RESULT (logged_callback event callback) a (s, log) CIF_TRAVERSE_CONTINUE
      = (CIF_TRAVERSE_CONTINUE, (s', log ++ walk_trace h [event a])) := by
  cases callback with
  | none =>
    refine ⟨s, ?_⟩
    simp [HANDLER_RESULT, logged_callback, walk_trace, hev]
  | some f =>
    refine ⟨(f a s).2, ?_⟩
    simp [HANDLER_RESULT, logged_callback, walk_trace, hev, hc f rfl a s]

theorem walk_packet_items_trace {σ : Type} (h : cif_handler_t σ) (hc : handler_continues h)
    (p : cif_packet_t) :
    ∀ (items : List (List UChar × cif_value)) (s : σ) (log : call_log),
      ∃ s', walk_packet_items (logged h) p items (s, log)
        = (CIF_TRAVERSE_CONTINUE,
            (s', log ++ walk_trace h (items.map walk_event.item ++ [walk_event.packet_end p]))) := by
  intro items
  induction items with
  | nil =>
    intro s log
    simp only [walk_packet_items, List.map_nil, List.nil_append]
    exact call_trace h walk_event.packet_end h.handle_packet_end hc.packet_end p rfl s log
  | cons it rest ih =>
    intro s log
    obtain ⟨s1, e1⟩ := call_trace h walk_event.item h.handle_item hc.item it rfl s log
    have e1' : walk_item it (logged h) (s, log)
        = (CIF_TRAVERSE_CONTINUE, (s1, log ++ walk_trace h [walk_event.item it])) := e1
    obtain ⟨s2, e2⟩ := ih s1 (log ++ walk_trace h [walk_event.item it])
    refine ⟨s2, ?_⟩
    simp only [walk_packet_items]
    rw [e1', if_pos (Or.inl rfl), e2, List.append_assoc, ← walk_trace_append]
    rfl

theorem walk_packet_trace {σ : Type} (h : cif_handler_t σ) (hc : handler_continues h)
    (p : cif_packet_t) (s : σ) (log : call_log) :
    ∃ s', walk_packet p (logged h) (s, log)
      = (CIF_TRAVERSE_CONTINUE, (s', log ++ walk_trace h (packet_events p))) := by
  obtain ⟨s1, e1⟩ :=
    call_trace h walk_event.packet_start h.handle_packet_start hc.packet_start p rfl s log
  have e1' : HANDLER_RESULT (logged h).handle_packet_start p (s, log) CIF_TRAVERSE_CONTINUE
      = (CIF_TRAVERSE_CONTINUE, (s1, log ++ walk_trace h [walk_event.packet_start p])) := e1
  obtain ⟨s2, e2⟩ := walk_packet_items_trace h hc p p s1
    (log ++ walk_trace h [walk_event.packet_start p])
  refine ⟨s2, ?_⟩
  simp only [walk_packet]
  rw [e1', if_neg (not_not.mpr rfl), e2, List.append_assoc, ← walk_trace_append]
  rfl

theorem walk_loop_packets_trace {σ : Type} (h : cif_handler_t σ) (hc : handler_continues h) :
    ∀ (packets : List cif_packet_t) (s : σ) (log : call_log),
      ∃ s', walk_loop_packets (logged h) packets (s, log)
        = (CIF_FINISHED, (s', log ++ walk_trace h (packets_events packets))) := by
  intro packets
  induction packets with
  | nil =>
    intro s log
    exact ⟨s, by simp [walk_loop_packets, packets_events, walk_trace]⟩
  | cons p rest ih =>
    intro s log
    obtain ⟨s1, e1⟩ := walk_packet_trace h hc p s log
    obtain ⟨s2, e2⟩ := ih s1 (log ++ walk_trace h (packet_events p))
    refine ⟨s2, ?_⟩
    simp only [walk_loop_packets]
    rw [e1, if_pos (Or.inl rfl), e2, List.append_assoc, ← walk_trace_append]
    rfl

theorem walk_loop_trace {σ : Type} (h : cif_handler_t σ) (hc : handler_continues h)
    (l : cif_loop_t) (s : σ) (log : call_log) :
    ∃ s', walk_loop l (logged h) (s, log)
      = (CIF_TRAVERSE_CONTINUE, (s', log ++ walk_trace h (loop_events l))) := by
  obtain ⟨s1, e1⟩ :=
    call_trace h walk_event.loop_start h.handle_loop_start hc.loop_start l rfl s log
  have e1' : HANDLER_RESULT (logged h).handle_loop_start l (s, log) CIF_TRAVERSE_CONTINUE
      = (CIF_TRAVERSE_CONTINUE, (s1, log ++ walk_trace h [walk_event.loop_start l])) := e1
  obtain ⟨s2, e2⟩ := walk_loop_packets_trace h hc l.packets s1
    (log ++ walk_trace h [walk_event.loop_start l])
  obtain ⟨s3, e3⟩ := call_trace h walk_event.loop_end h.handle_loop_end hc.loop_end l rfl s2
    (log ++ walk_trace h [walk_event.loop_start l] ++ walk_trace h (packets_events l.packets))
  have e3' : HANDLER_RESULT (logged h).handle_loop_end l
      (s2, log ++ walk_trace h [walk_event.loop_start l]
        ++ walk_trace h (packets_events l.packets)) CIF_TRAVERSE_CONTINUE
      = (CIF_TRAVERSE_CONTINUE, (s3, log ++ walk_trace h [walk_event.loop_start l]
        ++ walk_trace h (packets_events l.packets) ++ walk_trace h [walk_event.loop_end l])) := e3
  refine ⟨s3, ?_⟩
  simp only [walk_loop]
  rw [e1', if_neg (not_not.mpr rfl), e2, if_neg (not_not.mpr rfl), e3']
  rw [loop_events, walk_trace_cons h (walk_event.loop_start l)
    (packets_events l.packets ++ [walk_event.loop_end l])]
  simp only [walk_trace_append, List.append_assoc]

theorem walk_loops_loop_trace {σ : Type} (h : cif_handler_t σ) (hc : handler_continues h) :
    ∀ (loops : List cif_loop_t) (result : Int) (s : σ) (log : call_log),
      result = CIF_TRAVERSE_CONTINUE →
      ∃ s', walk_loops_loop (logged h) loops result true (s, log)
        = (CIF_TRAVERSE_CONTINUE, (s', log ++ walk_trace h (loops_events loops))) := by
  intro loops
  induction loops with
  | nil =>
    intro result s log hres
    exact ⟨s, by simp [walk_loops_loop, loops_events, walk_trace, hres]⟩
  | cons l rest ih =>
    intro result s log _
    obtain ⟨s1, e1⟩ := walk_loop_trace h hc l s log
    obtain ⟨s2, e2⟩ := ih CIF_TRAVERSE_CONTINUE s1 (log ++ walk_trace h (loop_events l)) rfl
    refine ⟨s2, ?_⟩
    simp only [walk_loops_loop, if_true]
    rw [e1, if_pos (Or.inr rfl), e2, List.append_assoc, ← walk_trace_append]
    rfl

theorem walk_container_end_trace {σ : Type} (h : cif_handler_t σ) (hc : handler_continues h)
    (c : cif_container_t) (depth : Nat) (s : σ) (log : call_log) :
    ∃ s', walk_container_end c depth (logged h) (walk_loops c (logged h) (s, log))
      = (CIF_TRAVERSE_CONTINUE,
          (s', log ++ walk_trace h (loops_events c.loops ++
            [if depth ≠ 0 then walk_event.frame_end c else walk_event.block_end c]))) := by
  obtain ⟨s1, e1⟩ := walk_loops_loop_trace h hc c.loops CIF_OK s log rfl
  have e1' : walk_loops c (logged h) (s, log)
      = (CIF_TRAVERSE_CONTINUE, (s1, log ++ walk_trace h (loops_events c.loops))) := e1
  simp only [walk_container_end]
  rw [e1', if_pos (Or.inl rfl)]
  by_cases c0 : depth ≠ 0
  · rw [if_pos c0, if_pos c0]
    obtain ⟨s2, e2⟩ := call_trace h walk_event.frame_end h.handle_frame_end hc.frame_end c rfl
      s1 (log ++ walk_trace h (loops_events c.loops))
    refine ⟨s2, ?_⟩
    rw [walk_trace_append, ← List.append_assoc]
    exact e2
  · rw [if_neg c0, if_neg c0]
    obtain ⟨s2, e2⟩ := call_trace h walk_event.block_end h.handle_block_end hc.block_end c rfl
      s1 (log ++ walk_trace h (loops_events c.loops))
    refine ⟨s2, ?_⟩
    rw [walk_trace_append, ← List.append_assoc]
    exact e2

mutual

theorem walk_container_trace {σ : Type} (h : cif_handler_t σ) (hc : handler_continues h) :
    ∀ (c : cif_container_t) (depth : Nat) (s : σ) (log : call_log),
      ∃ s', walk_container (logged h) c depth (s, log)
        = (CIF_TRAVERSE_CONTINUE,
            (s', log ++ walk_trace h (if depth ≠ 0 then frame_events c else block_events c)))
  | .mk code frames loops, depth, s, log => by
    have hstart : ∃ s1,
        (if depth ≠ 0 then
          HANDLER_RESULT (logged h).handle_frame_start (cif_container_t.mk code frames loops)
            (s, log) CIF_TRAVERSE_CONTINUE
        else
          HANDLER_RESULT (logged h).handle_block_start (cif_container_t.mk code frames loops)
            (s, log) CIF_TRAVERSE_CONTINUE)
        = (CIF_TRAVERSE_CONTINUE, (s1, log ++ walk_trace h
            [if depth ≠ 0 then walk_event.frame_start (cif_container_t.mk code frames loops)
              else walk_event.block_start (cif_container_t.mk code frames loops)])) := by
      by_cases c0 : depth ≠ 0
      · rw [if_pos c0, if_pos c0]
        exact call_trace h walk_event.frame_start h.handle_frame_start hc.frame_start _ rfl s log
      · rw [if_neg c0, if_neg c0]
        exact call_trace h walk_event.block_start h.handle_block_start hc.block_start _ rfl s log
    obtain ⟨s1, e1⟩ := hstart
    obtain ⟨s2, e2⟩ := walk_frames_trace h hc frames (depth + 1) CIF_OK s1
      (log ++ walk_trace h
        [if depth ≠ 0 then walk_event.frame_start (cif_container_t.mk code frames loops)
          else walk_event.block_start (cif_container_t.mk code frames loops)]) rfl
      (Nat.succ_ne_zero depth)
    obtain ⟨s3, e3⟩ := walk_container_end_trace h hc (cif_container_t.mk code frames loops)
      depth s2 (log ++ walk_trace h
        [if depth ≠ 0 then walk_event.frame_start (cif_container_t.mk code frames loops)
          else walk_event.block_start (cif_container_t.mk code frames loops)]
        ++ walk_trace h (frames_events frames))
    refine ⟨s3, ?_⟩
    simp only [walk_container, walk_container_loops]
    rw [e1, if_neg (not_not.mpr rfl), e2, if_neg (by simp), e3]
    by_cases c0 : depth ≠ 0
    · simp only [if_pos c0]
      rw [frame_events, walk_trace_cons h
        (walk_event.frame_start (cif_container_t.mk code frames loops))
        (frames_events frames ++ loops_events loops
          ++ [walk_event.frame_end (cif_container_t.mk code frames loops)])]
      simp only [cif_container_t.loops, walk_trace_append, List.append_assoc]
    · simp only [if_neg c0]
      rw [block_events, walk_trace_cons h
        (walk_event.block_start (cif_container_t.mk code frames loops))
        (frames_events (cif_container_t.mk code frames loops).frames
          ++ loops_events (cif_container_t.mk code frames loops).loops
          ++ [walk_event.block_end (cif_container_t.mk code frames loops)])]
      simp only [cif_container_t.loops, cif_container_t.frames, walk_trace_append,
        List.append_assoc]

theorem walk_frames_trace {σ : Type} (h : cif_handler_t σ) (hc : handler_continues h) :
    ∀ (frames : List cif_container_t) (depth : Nat) (result : Int) (s : σ) (log : call_log),
      result = CIF_TRAVERSE_CONTINUE → depth ≠ 0 →
      ∃ s', walk_frames (logged h) frames depth result true true (s, log)
        = (CIF_TRAVERSE_CONTINUE, true, (s', log ++ walk_trace h (frames_events frames)))
  | [], depth, result, s, log, hres, _ =>
    ⟨s, by simp [walk_frames, frames_events, walk_trace, hres]⟩
  | f :: rest, depth, result, s, log, _, hd => by
    obtain ⟨s1, e1⟩ := walk_container_trace h hc f depth s log
    rw [if_pos hd] at e1
    obtain ⟨s2, e2⟩ := walk_frames_trace h hc rest depth CIF_TRAVERSE_CONTINUE s1
      (log ++ walk_trace h (frame_events f)) rfl hd
    refine ⟨s2, ?_⟩
    simp only [walk_frames, if_true]
    rw [e1, if_pos (Or.inl rfl), e2, List.append_assoc, ← walk_trace_append]
    rfl

end

theorem walk_blocks_trace {σ : Type} (h : cif_handler_t σ) (hc : handler_continues h) :
    ∀ (blocks : List cif_container_t) (result : Int) (s : σ) (log : call_log),
      result = CIF_TRAVERSE_CONTINUE →
      ∃ s', walk_blocks (logged h) blocks result true (s, log)
        = (CIF_TRAVERSE_CONTINUE, true, (s', log ++ walk_trace h (blocks_events blocks))) := by
  intro blocks
  induction blocks with
  | nil =>
    intro result s log hres
    exact ⟨s, by simp [walk_blocks, blocks_events, walk_trace, hres]⟩
  | cons b rest ih =>
    intro result s log _
    obtain ⟨s1, e1⟩ := walk_container_trace h hc b 0 s log
    rw [if_neg (by simp)] at e1
    obtain ⟨s2, e2⟩ := ih CIF_TRAVERSE_CONTINUE s1 (log ++ walk_trace h (block_events b)) rfl
    refine ⟨s2, ?_⟩
    simp only [walk_blocks, if_true]
    rw [e1, if_neg (by decide : ¬ ((CIF_TRAVERSE_CONTINUE : Int) = CIF_TRAVERSE_SKIP_SIBLINGS ∨
        (CIF_TRAVERSE_CONTINUE : Int) = CIF_TRAVERSE_END)), if_pos (Or.inl rfl), e2,
      List.append_assoc, ← walk_trace_append]
    rfl

theorem cif_walk_trace {σ : Type} (h : cif_handler_t σ) (hc : handler_continues h)
    (cif : cif_t) (s : σ) (log : call_log) :
    ∃ s', cif_walk cif (logged h) (s, log)
      = (CIF_OK, (s', log ++ walk_trace h (cif_events cif))) := by
  obtain ⟨s1, e1⟩ :=
    call_trace h walk_event.cif_start h.handle_cif_start hc.cif_start cif rfl s log
  have e1' : HANDLER_RESULT (logged h).handle_cif_start cif (s, log) CIF_TRAVERSE_CONTINUE
      = (CIF_TRAVERSE_CONTINUE, (s1, log ++ walk_trace h [walk_event.cif_start cif])) := e1
  obtain ⟨s2, e2⟩ := walk_blocks_trace h hc cif.blocks CIF_OK s1
    (log ++ walk_trace h [walk_event.cif_start cif]) rfl
  obtain ⟨s3, e3⟩ := call_trace h walk_event.cif_end h.handle_cif_end hc.cif_end cif rfl s2
    (log ++ walk_trace h [walk_event.cif_start cif] ++ walk_trace h (blocks_events cif.blocks))
  have e3' : HANDLER_RESULT (logged h).handle_cif_end cif
      (s2, log ++ walk_trace h [walk_event.cif_start cif]
        ++ walk_trace h (blocks_events cif.blocks)) CIF_TRAVERSE_CONTINUE
      = (CIF_TRAVERSE_CONTINUE, (s3, log ++ walk_trace h [walk_event.cif_start cif]
        ++ walk_trace h (blocks_events cif.blocks) ++ walk_trace h [walk_event.cif_end cif])) := e3
  refine ⟨s3, ?_⟩
  simp only [cif_walk, cif_walk_end]
  rw [e1', if_pos rfl, e2, if_pos rfl, e3', if_pos (Or.inl rfl)]
  rw [cif_events, walk_trace_cons h (walk_event.cif_start cif)
    (blocks_events cif.blocks ++ [walk_event.cif_end cif])]
  simp only [walk_trace_append, List.append_assoc]

/-! ## The walk when every callback returns a directive -/

theorem HANDLER_RESULT_directs {α σ : Type} (callback : Option (α → σ → Int × σ))
    (hd : callback_directs callback) (a : α) (s : σ) :
    directive (HANDLER_RESULT callback a s CIF_TRAVERSE_CONTINUE).1 := by
  cases callback with
  | none => exact Or.inl rfl
  | some f => exact hd f rfl a s

theorem walk_packet_items_directs {σ : Type} (h : cif_handler_t σ) (hd : handler_directs h)
    (p : cif_packet_t) :
    ∀ (items : List (List UChar × cif_value)) (s : σ),
      directive (walk_packet_items h p items s).1 := by
  intro items
  induction items with
  | nil =>
    intro s
    exact HANDLER_RESULT_directs _ hd.packet_end p s
  | cons it rest ih =>
    intro s
    simp only [walk_packet_items]
    split
    · exact ih _
    · split
      · exact Or.inl rfl
      · exact HANDLER_RESULT_directs _ hd.item it s

theorem walk_packet_directs {σ : Type} (h : cif_handler_t σ) (hd : handler_directs h)
    (p : cif_packet_t) (s : σ) : directive (walk_packet p h s).1 := by
  simp only [walk_packet]
  split
  · exact HANDLER_RESULT_directs _ hd.packet_start p s
  · exact walk_packet_items_directs h hd p p _

theorem walk_loop_packets_directs {σ : Type} (h : cif_handler_t σ) (hd : handler_directs h) :
    ∀ (packets : List cif_packet_t) (s : σ),
      directive (walk_loop_packets h packets s).1 ∨
        (walk_loop_packets h packets s).1 = CIF_FINISHED := by
  intro packets
  induction packets with
  | nil =>
    intro s
    exact Or.inr rfl
  | cons p rest ih =>
    intro s
    simp only [walk_loop_packets]
    split
    · exact ih _
    · split
      · exact Or.inl (Or.inl rfl)
      · exact Or.inl (walk_packet_directs h hd p s)

theorem walk_loop_directs {σ : Type} (h : cif_handler_t σ) (hd : handler_directs h)
    (l : cif_loop_t) (s : σ) : directive (walk_loop l h s).1 := by
  simp only [walk_loop]
  split
  · exact HANDLER_RESULT_directs _ hd.loop_start l s
  · split
    · rename_i h2
      rcases walk_loop_packets_directs h hd l.packets
        (HANDLER_RESULT h.handle_loop_start l s CIF_TRAVERSE_CONTINUE).2 with h3 | h3
      · exact h3
      · exact absurd h3 h2
    · exact HANDLER_RESULT_directs _ hd.loop_end l _

theorem walk_loops_loop_directs {σ : Type} (h : cif_handler_t σ) (hd : handler_directs h) :
    ∀ (loops : List cif_loop_t) (result : Int) (handle_loops : Bool) (s : σ),
      directive result → directive (walk_loops_loop h loops result handle_loops s).1 := by
  intro loops
  induction loops with
  | nil =>
    intro result hl s hres
    exact hres
  | cons l rest ih =>
    intro result hl s hres
    simp only [walk_loops_loop]
    split
    · split
      · exact ih _ _ _ (walk_loop_directs h hd l s)
      · exact ih _ _ _ (walk_loop_directs h hd l s)
    · exact ih _ _ _ hres

theorem walk_container_end_directs {σ : Type} (h : cif_handler_t σ) (hd : handler_directs h)
    (c : cif_container_t) (depth : Nat) (x : Int × σ) (hx : directive x.1) :
    directive (walk_container_end c depth h x).1 := by
  simp only [walk_container_end]
  split
  · split
    · exact HANDLER_RESULT_directs _ hd.frame_end c _
    · exact HANDLER_RESULT_directs _ hd.block_end c _
  · split
    · exact Or.inl rfl
    · exact hx

theorem walk_container_loops_directs {σ : Type} (h : cif_handler_t σ) (hd : handler_directs h)
    (c : cif_container_t) (depth : Nat) (x : Int × Bool × σ) (hx : directive x.1) :
    directive (walk_container_loops c depth h x).1 := by
  simp only [walk_container_loops]
  split
  · exact hx
  · exact walk_container_end_directs h hd c depth _
      (walk_loops_loop_directs h hd c.loops CIF_OK true _ (Or.inl rfl))

mutual

theorem walk_container_directs {σ : Type} (h : cif_handler_t σ) (hd : handler_directs h) :
    ∀ (c : cif_container_t) (depth : Nat) (s : σ), directive (walk_container h c depth s).1
  | .mk code frames loops, depth, s => by
    have hstart : directive
        (if depth ≠ 0 then
          HANDLER_RESULT h.handle_frame_start (cif_container_t.mk code frames loops) s
            CIF_TRAVERSE_CONTINUE
        else
          HANDLER_RESULT h.handle_block_start (cif_container_t.mk code frames loops) s
            CIF_TRAVERSE_CONTINUE).1 := by
      split
      · exact HANDLER_RESULT_directs _ hd.frame_start _ s
      · exact HANDLER_RESULT_directs _ hd.block_start _ s
    simp only [walk_container]
    generalize (if depth ≠ 0 then
          HANDLER_RESULT h.handle_frame_start (cif_container_t.mk code frames loops) s
            CIF_TRAVERSE_CONTINUE
        else
          HANDLER_RESULT h.handle_block_start (cif_container_t.mk code frames loops) s
            CIF_TRAVERSE_CONTINUE) = r at hstart
    split
    · exact hstart
    · exact walk_container_loops_directs h hd _ depth _
        (walk_frames_directs h hd frames (depth + 1) CIF_OK true true r.2 (Or.inl rfl))

theorem walk_frames_directs {σ : Type} (h : cif_handler_t σ) (hd : handler_directs h) :
    ∀ (frames : List cif_container_t) (depth : Nat) (result : Int) (handle_frames : Bool)
      (handle_loops : Bool) (s : σ), directive result →
      directive (walk_frames h frames depth result handle_frames handle_loops s).1
  | [], depth, result, hf, hl, s, hres => by
    simp only [walk_frames]
    exact hres
  | f :: rest, depth, result, hf, hl, s, hres => by
    have hc := walk_container_directs h hd f depth s
    simp only [walk_frames]
    split
    · split
      · exact walk_frames_directs h hd rest depth _ true hl _ hc
      · split
        · exact walk_frames_directs h hd rest depth _ false hl _ hc
        · exact walk_frames_directs h hd rest depth _ false false _ hc
    · exact walk_frames_directs h hd rest depth result false hl s hres

end

theorem walk_blocks_directs {σ : Type} (h : cif_handler_t σ) (hd : handler_directs h) :
    ∀ (blocks : List cif_container_t) (result : Int) (handle_blocks : Bool) (s : σ),
      (handle_blocks = false → result = CIF_OK) →
      (walk_blocks h blocks result handle_blocks s).2.1 = false →
      (walk_blocks h blocks result handle_blocks s).1 = CIF_OK := by
  intro blocks
  induction blocks with
  | nil =>
    intro result hb s hres
    simp only [walk_blocks]
    exact hres
  | cons b rest ih =>
    intro result hb s hres
    have hc := walk_container_directs h hd b 0 s
    simp only [walk_blocks]
    split
    · split
      · exact ih _ _ _ (fun _ => rfl)
      · rename_i h1
        split
        · exact ih _ _ _ (fun hf => absurd hf (by simp))
        · rename_i h2
          exfalso
          rcases hc with hc | hc | hc | hc
          · exact h2 (Or.inl hc)
          · exact h2 (Or.inr hc)
          · exact h1 (Or.inl hc)
          · exact h1 (Or.inr hc)
    · rename_i h0
      exact ih _ _ _ (fun _ => hres (by simpa using h0))

theorem cif_walk_directs {σ : Type} (h : cif_handler_t σ) (hd : handler_directs h)
    (cif : cif_t) (s : σ) : (cif_walk cif h s).1 = CIF_OK := by
  have hs := HANDLER_RESULT_directs _ hd.cif_start cif s
  simp only [cif_walk]
  split
  · simp only [cif_walk_end]
    split
    · have he := HANDLER_RESULT_directs _ hd.cif_end cif
        (walk_blocks h cif.blocks CIF_OK true
          (HANDLER_RESULT h.handle_cif_start cif s CIF_TRAVERSE_CONTINUE).2).2.2
      unfold directive at he
      rw [if_pos he]
    · rename_i h2
      exact walk_blocks_directs h hd cif.blocks CIF_OK true _ (fun hf => absurd hf (by simp))
        (by simpa using h2)
  · rename_i h1
    split
    · rfl
    · rename_i h2
      exfalso
      rcases hs with hs | hs | hs | hs
      · exact h1 hs
      · exact h2 (Or.inl hs)
      · exact h2 (Or.inr (Or.inl hs))
      · exact h2 (Or.inr (Or.inr hs))

/-! ## Single steps of the loops of the walker -/

theorem walk_frames_result {σ : Type} (h : cif_handler_t σ) (c : cif_container_t) (depth' : Nat)
    (frames : List cif_container_t) (depth : Nat) (r₁ r₂ : Int) (s : σ) :
    walk_container_loops c depth' h (walk_frames h frames depth r₁ true true s)
      = walk_container_loops c depth' h (walk_frames h frames depth r₂ true true s) := by
  cases frames with
  | nil => simp [walk_frames, walk_container_loops]
  | cons f rest => simp only [walk_frames, if_true]

theorem walk_loops_loop_result {σ : Type} (h : cif_handler_t σ) (c : cif_container_t)
    (depth : Nat) (loops : List cif_loop_t) (r₁ r₂ : Int) (s : σ)
    (h₁ : r₁ = CIF_TRAVERSE_CONTINUE ∨ r₁ = CIF_TRAVERSE_SKIP_CURRENT)
    (h₂ : r₂ = CIF_TRAVERSE_CONTINUE ∨ r₂ = CIF_TRAVERSE_SKIP_CURRENT) :
    walk_container_end c depth h (walk_loops_loop h loops r₁ true s)
      = walk_container_end c depth h (walk_loops_loop h loops r₂ true s) := by
  cases loops with
  | nil => simp [walk_loops_loop, walk_container_end, h₁, h₂]
  | cons l rest => simp only [walk_loops_loop, if_true]

theorem walk_blocks_result {σ : Type} (h : cif_handler_t σ) (cif : cif_t)
    (blocks : List cif_container_t) (r₁ r₂ : Int) (s : σ) :
    cif_walk_end cif h (walk_blocks h blocks r₁ true s)
      = cif_walk_end cif h (walk_blocks h blocks r₂ true s) := by
  cases blocks with
  | nil => simp [walk_blocks, cif_walk_end]
  | cons b rest => simp only [walk_blocks, if_true]

theorem walk_container_start {σ : Type} (h : cif_handler_t σ) (c : cif_container_t)
    (depth : Nat) (s : σ) (r : Int × σ)
    (hr : (if depth ≠ 0 then HANDLER_RESULT h.handle_frame_start c s CIF_TRAVERSE_CONTINUE
      else HANDLER_RESULT h.handle_block_start c s CIF_TRAVERSE_CONTINUE) = r)
    (hv : r.1 ≠ CIF_TRAVERSE_CONTINUE) : walk_container h c depth s = r := by
  cases c with
  | mk code frames loops =>
    simp only [walk_container]
    rw [hr, if_pos hv]

/-! ## The claims about the walker -/

/-- C13: for every CIF and every handler, when a callback returns End, whichever of the eleven
it is, that invocation is the last one of the walk, and `cif_walk` returns `CIF_OK`. The
invocations are those recorded by the logged handler, which walks as the handler does. -/
theorem cif_walk_end_directive {σ : Type} (cif : cif_t) (h : cif_handler_t σ) (s : σ)
    (pre post : call_log) (e : walk_event × Int)
    (hlog : (cif_walk cif (logged h) (s, [])).2.2 = pre ++ e :: post)
    (he : e.2 = CIF_TRAVERSE_END) :
    post = [] ∧ (cif_walk cif h s).1 = CIF_OK ∧
      (cif_walk cif (logged h) (s, [])).2.1 = (cif_walk cif h s).2 := by
  have hl := cif_walk_stop_last cif h s pre post e hlog (by rw [he]; exact stops_end)
  refine ⟨hl.1, ?_, (cif_walk_logged cif h s []).2⟩
  rw [← (cif_walk_logged cif h s []).1, hl.2, if_pos he]

/-- C13, at a CIF of one block with an empty save frame and a loop of one packet of one item,
walked by a handler whose item callback returns End: the item callback is the seventh and last
invocation, and the walk returns `CIF_OK`. -/
theorem cif_walk_end_directive_witness :
    (cif_walk one_cif (logged (returning CIF_TRAVERSE_CONTINUE CIF_TRAVERSE_CONTINUE CIF_TRAVERSE_END)) ((), [])).2.2
        = [(walk_event.cif_start one_cif, CIF_TRAVERSE_CONTINUE),
            (walk_event.block_start one_block, CIF_TRAVERSE_CONTINUE),
            (walk_event.frame_start one_frame, CIF_TRAVERSE_CONTINUE),
            (walk_event.frame_end one_frame, CIF_TRAVERSE_CONTINUE),
            (walk_event.loop_start one_loop, CIF_TRAVERSE_CONTINUE),
            (walk_event.packet_start [one_item], CIF_TRAVERSE_CONTINUE)]
          ++ (walk_event.item one_item, CIF_TRAVERSE_END) :: [] ∧
      (([] : call_log) = [] ∧
        (cif_walk one_cif (returning CIF_TRAVERSE_CONTINUE CIF_TRAVERSE_CONTINUE CIF_TRAVERSE_END) ()).1 = CIF_OK ∧
        (cif_walk one_cif (logged (returning CIF_TRAVERSE_CONTINUE CIF_TRAVERSE_CONTINUE CIF_TRAVERSE_END))
          ((), [])).2.1
          = (cif_walk one_cif (returning CIF_TRAVERSE_CONTINUE CIF_TRAVERSE_CONTINUE CIF_TRAVERSE_END) ()).2) :=
  ⟨rfl, cif_walk_end_directive one_cif (returning CIF_TRAVERSE_CONTINUE CIF_TRAVERSE_CONTINUE CIF_TRAVERSE_END) ()
    [(walk_event.cif_start one_cif, CIF_TRAVERSE_CONTINUE),
      (walk_event.block_start one_block, CIF_TRAVERSE_CONTINUE),
      (walk_event.frame_start one_frame, CIF_TRAVERSE_CONTINUE),
      (walk_event.frame_end one_frame, CIF_TRAVERSE_CONTINUE),
      (walk_event.loop_start one_loop, CIF_TRAVERSE_CONTINUE),
      (walk_event.packet_start [one_item], CIF_TRAVERSE_CONTINUE)]
    [] (walk_event.item one_item, CIF_TRAVERSE_END) rfl rfl⟩

/-- C14: a callback for a packet that returns `CIF_FINISHED` does not end the walk. On the CIF
of one block with an empty save frame and a loop of one packet of one item, when the item
callback returns `CIF_FINISHED` the callbacks loop-end, block-end and cif-end are still
invoked after it and `cif_walk` returns `CIF_OK`, not `CIF_FINISHED`; likewise when the
packet-start callback returns it. With `CIF_ERROR` in its place the item callback is the last
invocation and `cif_walk` returns `CIF_ERROR`. -/
theorem walk_loop_absorbs_finished :
    cif_walk one_cif
        (logged (returning CIF_TRAVERSE_CONTINUE CIF_TRAVERSE_CONTINUE CIF_FINISHED)) ((), [])
        = (CIF_OK, ((),
            [(walk_event.cif_start one_cif, CIF_TRAVERSE_CONTINUE),
              (walk_event.block_start one_block, CIF_TRAVERSE_CONTINUE),
              (walk_event.frame_start one_frame, CIF_TRAVERSE_CONTINUE),
              (walk_event.frame_end one_frame, CIF_TRAVERSE_CONTINUE),
              (walk_event.loop_start one_loop, CIF_TRAVERSE_CONTINUE),
              (walk_event.packet_start [one_item], CIF_TRAVERSE_CONTINUE),
              (walk_event.item one_item, CIF_FINISHED),
              (walk_event.loop_end one_loop, CIF_TRAVERSE_CONTINUE),
              (walk_event.block_end one_block, CIF_TRAVERSE_CONTINUE),
              (walk_event.cif_end one_cif, CIF_TRAVERSE_CONTINUE)])) ∧
      cif_walk one_cif
        (logged (returning CIF_TRAVERSE_CONTINUE CIF_FINISHED CIF_TRAVERSE_CONTINUE)) ((), [])
        = (CIF_OK, ((),
            [(walk_event.cif_start one_cif, CIF_TRAVERSE_CONTINUE),
              (walk_event.block_start one_block, CIF_TRAVERSE_CONTINUE),
              (walk_event.frame_start one_frame, CIF_TRAVERSE_CONTINUE),
              (walk_event.frame_end one_frame, CIF_TRAVERSE_CONTINUE),
              (walk_event.loop_start one_loop, CIF_TRAVERSE_CONTINUE),
              (walk_event.packet_start [one_item], CIF_FINISHED),
              (walk_event.loop_end one_loop, CIF_TRAVERSE_CONTINUE),
              (walk_event.block_end one_block, CIF_TRAVERSE_CONTINUE),
              (walk_event.cif_end one_cif, CIF_TRAVERSE_CONTINUE)])) ∧
      cif_walk one_cif
        (logged (returning CIF_TRAVERSE_CONTINUE CIF_TRAVERSE_CONTINUE CIF_ERROR)) ((), [])
        = (CIF_ERROR, ((),
            [(walk_event.cif_start one_cif, CIF_TRAVERSE_CONTINUE),
              (walk_event.block_start one_block, CIF_TRAVERSE_CONTINUE),
              (walk_event.frame_start one_frame, CIF_TRAVERSE_CONTINUE),
              (walk_event.frame_end one_frame, CIF_TRAVERSE_CONTINUE),
              (walk_event.loop_start one_loop, CIF_TRAVERSE_CONTINUE),
              (walk_event.packet_start [one_item], CIF_TRAVERSE_CONTINUE),
              (walk_event.item one_item, CIF_ERROR)])) :=
  ⟨rfl, rfl, rfl⟩

/-- C15: a start callback that returns SkipCurrent. For cif-start, `cif_walk` returns `CIF_OK`
with the state that the callback left. For block-start, frame-start, loop-start and
packet-start, the walk of the element returns SkipCurrent with the state that the start
callback left, so that neither a callback for a descendant nor the end callback of the
element has run, and the loop over the siblings goes on from that state as it would without
the element: what the caller makes of the loop is the same for the siblings with the element
in front and for the later siblings alone. -/
theorem cif_walk_skip_current {σ : Type} (h : cif_handler_t σ) :
    (∀ (cif : cif_t) (s s' : σ),
      HANDLER_RESULT h.handle_cif_start cif s CIF_TRAVERSE_CONTINUE
          = (CIF_TRAVERSE_SKIP_CURRENT, s') →
        cif_walk cif h s = (CIF_OK, s')) ∧
    (∀ (cif : cif_t) (b : cif_container_t) (rest : List cif_container_t) (result : Int)
        (s s' : σ),
      HANDLER_RESULT h.handle_block_start b s CIF_TRAVERSE_CONTINUE
          = (CIF_TRAVERSE_SKIP_CURRENT, s') →
        walk_container h b 0 s = (CIF_TRAVERSE_SKIP_CURRENT, s') ∧
        cif_walk_end cif h (walk_blocks h (b :: rest) result true s)
          = cif_walk_end cif h (walk_blocks h rest result true s')) ∧
    (∀ (c : cif_container_t) (depth' : Nat) (f : cif_container_t) (rest : List cif_container_t)
        (depth : Nat) (result : Int) (s s' : σ),
      HANDLER_RESULT h.handle_frame_start f s CIF_TRAVERSE_CONTINUE
          = (CIF_TRAVERSE_SKIP_CURRENT, s') →
        walk_container h f (depth + 1) s = (CIF_TRAVERSE_SKIP_CURRENT, s') ∧
        walk_container_loops c depth' h (walk_frames h (f :: rest) (depth + 1) result true true s)
          = walk_container_loops c depth' h
              (walk_frames h rest (depth + 1) result true true s')) ∧
    (∀ (c : cif_container_t) (depth : Nat) (l : cif_loop_t) (rest : List cif_loop_t)
        (result : Int) (s s' : σ),
      result = CIF_TRAVERSE_CONTINUE ∨ result = CIF_TRAVERSE_SKIP_CURRENT →
      HANDLER_RESULT h.handle_loop_start l s CIF_TRAVERSE_CONTINUE
          = (CIF_TRAVERSE_SKIP_CURRENT, s') →
        walk_loop l h s = (CIF_TRAVERSE_SKIP_CURRENT, s') ∧
        walk_container_end c depth h (walk_loops_loop h (l :: rest) result true s)
          = walk_container_end c depth h (walk_loops_loop h rest result true s')) ∧
    (∀ (p : cif_packet_t) (rest : List cif_packet_t) (s s' : σ),
      HANDLER_RESULT h.handle_packet_start p s CIF_TRAVERSE_CONTINUE
          = (CIF_TRAVERSE_SKIP_CURRENT, s') →
        walk_packet p h s = (CIF_TRAVERSE_SKIP_CURRENT, s') ∧
        walk_loop_packets h (p :: rest) s = walk_loop_packets h rest s') := by
  refine ⟨?_, ?_, ?_, ?_, ?_⟩
  · intro cif s s' hs
    simp only [cif_walk]
    rw [hs, if_neg (by decide : ¬ ((CIF_TRAVERSE_SKIP_CURRENT : Int) = CIF_TRAVERSE_CONTINUE)),
      if_pos (Or.inl rfl)]
  · intro cif b rest result s s' hs
    have hw : walk_container h b 0 s = (CIF_TRAVERSE_SKIP_CURRENT, s') :=
      walk_container_start h b 0 s _ (by rw [if_neg (by simp)]; exact hs)
        (by decide : (CIF_TRAVERSE_SKIP_CURRENT : Int) ≠ CIF_TRAVERSE_CONTINUE)
    refine ⟨hw, ?_⟩
    simp only [walk_blocks, if_true]
    rw [hw, if_neg (by decide : ¬ ((CIF_TRAVERSE_SKIP_CURRENT : Int) = CIF_TRAVERSE_SKIP_SIBLINGS ∨
        (CIF_TRAVERSE_SKIP_CURRENT : Int) = CIF_TRAVERSE_END)), if_pos (Or.inr rfl)]
    exact walk_blocks_result h cif rest _ _ s'
  · intro c depth' f rest depth result s s' hs
    have hw : walk_container h f (depth + 1) s = (CIF_TRAVERSE_SKIP_CURRENT, s') :=
      walk_container_start h f (depth + 1) s _ (by rw [if_pos (by simp)]; exact hs)
        (by decide : (CIF_TRAVERSE_SKIP_CURRENT : Int) ≠ CIF_TRAVERSE_CONTINUE)
    refine ⟨hw, ?_⟩
    simp only [walk_frames, if_true]
    rw [hw, if_pos (Or.inr rfl)]
    exact walk_frames_result h c depth' rest (depth + 1) _ _ s'
  · intro c depth l rest result s s' hres hs
    have hw : walk_loop l h s = (CIF_TRAVERSE_SKIP_CURRENT, s') := by
      simp only [walk_loop]
      rw [hs, if_pos (by decide : ¬ ((CIF_TRAVERSE_SKIP_CURRENT : Int) = CIF_TRAVERSE_CONTINUE))]
    refine ⟨hw, ?_⟩
    simp only [walk_loops_loop, if_true]
    rw [hw, if_pos (Or.inl rfl)]
    exact walk_loops_loop_result h c depth rest _ _ s' (Or.inr rfl) hres
  · intro p rest s s' hs
    have hw : walk_packet p h s = (CIF_TRAVERSE_SKIP_CURRENT, s') := by
      simp only [walk_packet]
      rw [hs, if_pos (by decide : ¬ ((CIF_TRAVERSE_SKIP_CURRENT : Int) = CIF_TRAVERSE_CONTINUE))]
    refine ⟨hw, ?_⟩
    simp only [walk_loop_packets]
    rw [hw, if_pos (Or.inr rfl)]

/-- C15, at the handler whose start callbacks all return SkipCurrent and which records its
invocations: the walk of a CIF is the single invocation of cif-start and returns `CIF_OK`, and
the walk of a loop with a packet in front of no other is the single invocation of
packet-start for that packet. -/
theorem cif_walk_skip_current_witness :
    cif_walk one_cif
        (logged (returning CIF_TRAVERSE_SKIP_CURRENT CIF_TRAVERSE_SKIP_CURRENT
          CIF_TRAVERSE_CONTINUE)) ((), [])
        = (CIF_OK, ((), [(walk_event.cif_start one_cif, CIF_TRAVERSE_SKIP_CURRENT)])) ∧
      (walk_packet [one_item]
          (logged (returning CIF_TRAVERSE_SKIP_CURRENT CIF_TRAVERSE_SKIP_CURRENT
            CIF_TRAVERSE_CONTINUE)) ((), [])
          = (CIF_TRAVERSE_SKIP_CURRENT,
              ((), [(walk_event.packet_start [one_item], CIF_TRAVERSE_SKIP_CURRENT)])) ∧
        walk_loop_packets
            (logged (returning CIF_TRAVERSE_SKIP_CURRENT CIF_TRAVERSE_SKIP_CURRENT
              CIF_TRAVERSE_CONTINUE)) [[one_item]] ((), [])
          = walk_loop_packets
            (logged (returning CIF_TRAVERSE_SKIP_CURRENT CIF_TRAVERSE_SKIP_CURRENT
              CIF_TRAVERSE_CONTINUE)) []
            ((), [(walk_event.packet_start [one_item], CIF_TRAVERSE_SKIP_CURRENT)])) :=
  ⟨(cif_walk_skip_current
      (logged (returning CIF_TRAVERSE_SKIP_CURRENT CIF_TRAVERSE_SKIP_CURRENT
        CIF_TRAVERSE_CONTINUE))).1 one_cif ((), [])
      ((), [(walk_event.cif_start one_cif, CIF_TRAVERSE_SKIP_CURRENT)]) rfl,
    (cif_walk_skip_current
      (logged (returning CIF_TRAVERSE_SKIP_CURRENT CIF_TRAVERSE_SKIP_CURRENT
        CIF_TRAVERSE_CONTINUE))).2.2.2.2 [one_item] [] ((), [])
      ((), [(walk_event.packet_start [one_item], CIF_TRAVERSE_SKIP_CURRENT)]) rfl⟩

/-- The handlers `returning` with Continue everywhere return Continue only. -/
theorem returning_continues :
    handler_continues
      (returning CIF_TRAVERSE_CONTINUE CIF_TRAVERSE_CONTINUE CIF_TRAVERSE_CONTINUE) :=
  { cif_start := by intro f hf a s; cases hf; rfl
    cif_end := by intro f hf a s; cases hf; rfl
    block_start := by intro f hf a s; cases hf; rfl
    block_end := by intro f hf a s; cases hf; rfl
    frame_start := by intro f hf a s; cases hf; rfl
    frame_end := by intro f hf a s; cases hf; rfl
    loop_start := by intro f hf a s; cases hf; rfl
    loop_end := by intro f hf a s; cases hf; rfl
    packet_start := by intro f hf a s; cases hf; rfl
    packet_end := by intro f hf a s; cases hf; rfl
    item := by intro f hf a s; cases hf; rfl }

/-- The handlers `returning` with directives return directives only. -/
theorem returning_directs (start packet item : Int) (h₁ : directive start)
    (h₂ : directive packet) (h₃ : directive item) :
    handler_directs (returning start packet item) :=
  { cif_start := by intro f hf a s; cases hf; exact h₁
    cif_end := by intro f hf a s; cases hf; exact Or.inl rfl
    block_start := by intro f hf a s; cases hf; exact h₁
    block_end := by intro f hf a s; cases hf; exact Or.inl rfl
    frame_start := by intro f hf a s; cases hf; exact h₁
    frame_end := by intro f hf a s; cases hf; exact Or.inl rfl
    loop_start := by intro f hf a s; cases hf; exact h₁
    loop_end := by intro f hf a s; cases hf; exact Or.inl rfl
    packet_start := by intro f hf a s; cases hf; exact h₂
    packet_end := by intro f hf a s; cases hf; exact Or.inl rfl
    item := by intro f hf a s; cases hf; exact h₃ }

/-- C16: when every callback of the handler is absent or returns Continue, `cif_walk` returns
`CIF_OK` and the callbacks invoked are exactly those that the handler has for the events of
the depth-first traversal in enumeration order, `cif_events`; and for every handler, the
walk is the same when each absent callback is replaced by one that returns Continue. -/
theorem cif_walk_depth_first :
    (∀ {σ : Type} (cif : cif_t) (h : cif_handler_t σ) (s : σ), handler_continues h →
      (cif_walk cif h s).1 = CIF_OK ∧
        (cif_walk cif (logged h) (s, [])).2.2 = walk_trace h (cif_events cif) ∧
        (cif_walk cif (logged h) (s, [])).2.1 = (cif_walk cif h s).2) ∧
    (∀ {σ : Type} (cif : cif_t) (h : cif_handler_t σ) (s : σ),
      cif_walk cif (filled h) s = cif_walk cif h s) := by
  refine ⟨?_, ?_⟩
  · intro σ cif h s hc
    obtain ⟨s', e⟩ := cif_walk_trace h hc cif s []
    have hl := cif_walk_logged cif h s []
    refine ⟨?_, ?_, hl.2⟩
    · rw [← hl.1, e]
    · rw [e]
      simp
  · intro σ cif h s
    exact cif_walk_filled cif h s

/-- C16, at the CIF of one block with an empty save frame and a loop of one packet of one
item, walked by a handler all of whose callbacks return Continue: the walk returns `CIF_OK`
after cif-start, block-start, frame-start, frame-end, loop-start, packet-start, item,
packet-end, loop-end, block-end, cif-end. -/
theorem cif_walk_depth_first_witness :
    cif_events one_cif
        = [walk_event.cif_start one_cif, walk_event.block_start one_block,
            walk_event.frame_start one_frame, walk_event.frame_end one_frame,
            walk_event.loop_start one_loop, walk_event.packet_start [one_item],
            walk_event.item one_item, walk_event.packet_end [one_item],
            walk_event.loop_end one_loop, walk_event.block_end one_block,
            walk_event.cif_end one_cif] ∧
      ((cif_walk one_cif
          (returning CIF_TRAVERSE_CONTINUE CIF_TRAVERSE_CONTINUE CIF_TRAVERSE_CONTINUE) ()).1
          = CIF_OK ∧
        (cif_walk one_cif
          (logged (returning CIF_TRAVERSE_CONTINUE CIF_TRAVERSE_CONTINUE CIF_TRAVERSE_CONTINUE))
          ((), [])).2.2
          = walk_trace
              (returning CIF_TRAVERSE_CONTINUE CIF_TRAVERSE_CONTINUE CIF_TRAVERSE_CONTINUE)
              (cif_events one_cif) ∧
        (cif_walk one_cif
          (logged (returning CIF_TRAVERSE_CONTINUE CIF_TRAVERSE_CONTINUE CIF_TRAVERSE_CONTINUE))
          ((), [])).2.1
          = (cif_walk one_cif
              (returning CIF_TRAVERSE_CONTINUE CIF_TRAVERSE_CONTINUE CIF_TRAVERSE_CONTINUE)
              ()).2) :=
  ⟨rfl, cif_walk_depth_first.1 one_cif
    (returning CIF_TRAVERSE_CONTINUE CIF_TRAVERSE_CONTINUE CIF_TRAVERSE_CONTINUE) ()
    returning_continues⟩

/-- C17: SkipSiblings. When the walk of an item, a packet, a loop, a save frame or a data
block returns SkipSiblings, as it does when the start callback of the element returns it, the
loop over the siblings ends in the state that the element left, whatever siblings come
after it: the walk of the packet, of the loop and of the container return Continue, and
after a block `cif_walk` returns `CIF_OK`. For every handler whose callbacks return
directives only, `cif_walk` returns `CIF_OK`. -/
theorem cif_walk_skip_siblings {σ : Type} (h : cif_handler_t σ) :
    (∀ (p : cif_packet_t) (item : List UChar × cif_value)
        (rest : List (List UChar × cif_value)) (s s' : σ),
      walk_item item h s = (CIF_TRAVERSE_SKIP_SIBLINGS, s') →
        walk_packet_items h p (item :: rest) s = (CIF_TRAVERSE_CONTINUE, s')) ∧
    (∀ (p : cif_packet_t) (rest : List cif_packet_t) (s s' : σ),
      walk_packet p h s = (CIF_TRAVERSE_SKIP_SIBLINGS, s') →
        walk_loop_packets h (p :: rest) s = (CIF_TRAVERSE_CONTINUE, s')) ∧
    (∀ (c : cif_container_t) (depth : Nat) (l : cif_loop_t) (rest : List cif_loop_t)
        (result : Int) (s s' : σ),
      walk_loop l h s = (CIF_TRAVERSE_SKIP_SIBLINGS, s') →
        walk_container_end c depth h (walk_loops_loop h (l :: rest) result true s)
          = (CIF_TRAVERSE_CONTINUE, s')) ∧
    (∀ (f : cif_container_t) (rest : List cif_container_t) (depth : Nat) (result : Int)
        (s s' : σ),
      walk_container h f depth s = (CIF_TRAVERSE_SKIP_SIBLINGS, s') →
        walk_frames h (f :: rest) depth result true true s
          = (CIF_TRAVERSE_SKIP_SIBLINGS, true, s')) ∧
    (∀ (cif : cif_t) (b : cif_container_t) (rest : List cif_container_t) (result : Int)
        (s s' : σ),
      walk_container h b 0 s = (CIF_TRAVERSE_SKIP_SIBLINGS, s') →
        cif_walk_end cif h (walk_blocks h (b :: rest) result true s) = (CIF_OK, s')) ∧
    (∀ (c : cif_container_t) (depth : Nat) (l : cif_loop_t) (p : cif_packet_t) (s s' : σ),
      ((if depth ≠ 0 then HANDLER_RESULT h.handle_frame_start c s CIF_TRAVERSE_CONTINUE
          else HANDLER_RESULT h.handle_block_start c s CIF_TRAVERSE_CONTINUE)
          = (CIF_TRAVERSE_SKIP_SIBLINGS, s') →
        walk_container h c depth s = (CIF_TRAVERSE_SKIP_SIBLINGS, s')) ∧
      (HANDLER_RESULT h.handle_loop_start l s CIF_TRAVERSE_CONTINUE
          = (CIF_TRAVERSE_SKIP_SIBLINGS, s') →
        walk_loop l h s = (CIF_TRAVERSE_SKIP_SIBLINGS, s')) ∧
      (HANDLER_RESULT h.handle_packet_start p s CIF_TRAVERSE_CONTINUE
          = (CIF_TRAVERSE_SKIP_SIBLINGS, s') →
        walk_packet p h s = (CIF_TRAVERSE_SKIP_SIBLINGS, s'))) ∧
    (handler_directs h → ∀ (cif : cif_t) (s : σ), (cif_walk cif h s).1 = CIF_OK) := by
  refine ⟨?_, ?_, ?_, ?_, ?_, ?_, ?_⟩
  · intro p item rest s s' hw
    simp only [walk_packet_items]
    rw [hw, if_neg (by decide : ¬ ((CIF_TRAVERSE_SKIP_SIBLINGS : Int) = CIF_TRAVERSE_CONTINUE ∨
        (CIF_TRAVERSE_SKIP_SIBLINGS : Int) = CIF_TRAVERSE_SKIP_CURRENT)), if_pos rfl]
  · intro p rest s s' hw
    simp only [walk_loop_packets]
    rw [hw, if_neg (by decide : ¬ ((CIF_TRAVERSE_SKIP_SIBLINGS : Int) = CIF_TRAVERSE_CONTINUE ∨
        (CIF_TRAVERSE_SKIP_SIBLINGS : Int) = CIF_TRAVERSE_SKIP_CURRENT)), if_pos rfl]
  · intro c depth l rest result s s' hw
    simp only [walk_loops_loop, if_true]
    rw [hw, if_neg (by decide : ¬ ((CIF_TRAVERSE_SKIP_SIBLINGS : Int) = CIF_TRAVERSE_SKIP_CURRENT ∨
        (CIF_TRAVERSE_SKIP_SIBLINGS : Int) = CIF_TRAVERSE_CONTINUE)), walk_loops_loop_off]
    simp only [walk_container_end]
    rw [if_pos trivial, if_neg (by decide : ¬ ((CIF_TRAVERSE_SKIP_SIBLINGS : Int)
        = CIF_TRAVERSE_CONTINUE ∨
        (CIF_TRAVERSE_SKIP_SIBLINGS : Int) = CIF_TRAVERSE_SKIP_CURRENT))]
  · intro f rest depth result s s' hw
    simp only [walk_frames, if_true]
    rw [hw, if_neg (by decide : ¬ ((CIF_TRAVERSE_SKIP_SIBLINGS : Int) = CIF_TRAVERSE_CONTINUE ∨
        (CIF_TRAVERSE_SKIP_SIBLINGS : Int) = CIF_TRAVERSE_SKIP_CURRENT)), if_pos rfl,
      walk_frames_off]
  · intro cif b rest result s s' hw
    simp only [walk_blocks, if_true]
    rw [hw, if_pos (Or.inl rfl), walk_blocks_off]
    simp [cif_walk_end]
  · intro c depth l p s s'
    refine ⟨?_, ?_, ?_⟩
    · intro hs
      exact walk_container_start h c depth s _ hs
        (by decide : (CIF_TRAVERSE_SKIP_SIBLINGS : Int) ≠ CIF_TRAVERSE_CONTINUE)
    · intro hs
      simp only [walk_loop]
      rw [hs, if_pos (by decide : ¬ ((CIF_TRAVERSE_SKIP_SIBLINGS : Int) = CIF_TRAVERSE_CONTINUE))]
    · intro hs
      simp only [walk_packet]
      rw [hs, if_pos (by decide : ¬ ((CIF_TRAVERSE_SKIP_SIBLINGS : Int) = CIF_TRAVERSE_CONTINUE))]
  · intro hd cif s
    exact cif_walk_directs h hd cif s

/-- C17, at the handler whose item callback returns SkipSiblings and which records its
invocations: in a packet of two items only the first is handed to the item callback, and the
walk of the packet returns Continue; and the walk of a CIF by a handler whose start callbacks
return SkipSiblings returns `CIF_OK`. -/
theorem cif_walk_skip_siblings_witness :
    walk_packet_items
        (logged (returning CIF_TRAVERSE_CONTINUE CIF_TRAVERSE_CONTINUE
          CIF_TRAVERSE_SKIP_SIBLINGS)) [one_item, one_item] [one_item, one_item] ((), [])
        = (CIF_TRAVERSE_CONTINUE,
            ((), [(walk_event.item one_item, CIF_TRAVERSE_SKIP_SIBLINGS)])) ∧
      (cif_walk one_cif
        (returning CIF_TRAVERSE_SKIP_SIBLINGS CIF_TRAVERSE_SKIP_SIBLINGS
          CIF_TRAVERSE_SKIP_SIBLINGS) ()).1 = CIF_OK :=
  ⟨(cif_walk_skip_siblings
      (logged (returning CIF_TRAVERSE_CONTINUE CIF_TRAVERSE_CONTINUE
        CIF_TRAVERSE_SKIP_SIBLINGS))).1 [one_item, one_item] one_item [one_item] ((), [])
      ((), [(walk_event.item one_item, CIF_TRAVERSE_SKIP_SIBLINGS)]) rfl,
    (cif_walk_skip_siblings
      (returning CIF_TRAVERSE_SKIP_SIBLINGS CIF_TRAVERSE_SKIP_SIBLINGS
        CIF_TRAVERSE_SKIP_SIBLINGS)).2.2.2.2.2.2
      (returning_directs _ _ _ (Or.inr (Or.inr (Or.inl rfl))) (Or.inr (Or.inr (Or.inl rfl)))
        (Or.inr (Or.inr (Or.inl rfl)))) one_cif ()⟩

/-! ## The store -/

theorem find_append_new (rows : List block_row) (r : block_row) (n : List UChar)
    (hn : r.name = n) (hnone : rows.any (fun r => r.name = n) = false) :
    (rows ++ [r]).find? (fun r => r.name = n) = some r := by
  induction rows with
  | nil => simp [hn]
  | cons x rest ih =>
    simp only [List.any_cons, Bool.or_eq_false_iff] at hnone
    simp only [List.cons_append, List.find?_cons, hnone.1]
    exact ih hnone.2

theorem find_none_of_forall (rows : List block_row) (n : List UChar)
    (h : ∀ r ∈ rows, r.name ≠ n) : rows.find? (fun r => r.name = n) = none := by
  rw [List.find?_eq_none]
  intro r hr
  simpa using h r hr

theorem any_name_of_mem (rows : List block_row) (n : List UChar) (r : block_row)
    (hr : r ∈ rows) (hn : r.name = n) : rows.any (fun r => r.name = n) = true := by
  rw [List.any_eq_true]
  exact ⟨r, hr, by simpa using hn⟩

/-- A duplicate: the result and the connection. -/
theorem cif_create_block_dup (nz : normalizer) (db : sqlite3) (code n : List UChar)
    (hs : db.saved = none)
    (hn : nz.cif_normalize_name code CIF_INVALID_BLOCKCODE = (CIF_OK, n))
    (hdup : db.current.data_block.any (fun r => r.name = n) = true) :
    cif_create_block nz db code = (CIF_DUP_BLOCKCODE, db, none) := by
  cases db with
  | mk current saved =>
    simp only at hs hdup
    subst hs
    simp [cif_create_block, cif_create_block_internal, hn, BEGIN, insert_container,
      step_create_block, hdup, ROLLBACK, SQLITE_OK, SQLITE_CONSTRAINT, CIF_OK]

/-- No duplicate: the result and the connection. -/
theorem cif_create_block_new (nz : normalizer) (db : sqlite3) (code n : List UChar)
    (hs : db.saved = none)
    (hn : nz.cif_normalize_name code CIF_INVALID_BLOCKCODE = (CIF_OK, n))
    (hnew : db.current.data_block.any (fun r => r.name = n) = false) :
    cif_create_block nz db code
      = (CIF_OK,
          { current :=
              { container := db.current.container ++ [db.current.container.foldl max 0 + 1]
                data_block := db.current.data_block ++
                  [{ container_id := db.current.container.foldl max 0 + 1, name := n,
                     name_orig := code }] }
            saved := none },
          some { id := db.current.container.foldl max 0 + 1, code := n, code_orig := code,
                 parent_id := -1 }) := by
  cases db with
  | mk current saved =>
    simp only at hs hnew
    subst hs
    simp [cif_create_block, cif_create_block_internal, hn, BEGIN, insert_container,
      step_create_block, hnew, COMMIT, SQLITE_OK, SQLITE_CONSTRAINT, SQLITE_DONE, CIF_OK]

/-- What `cif_create_block` can do to a store outside a transaction: nothing, or add the
block. -/
theorem cif_create_block_cases (nz : normalizer) (db : sqlite3) (code : List UChar)
    (hs : db.saved = none) :
    (cif_create_block nz db code).2.1 = db ∨
      (db.current.data_block.any
          (fun r => r.name = (nz.cif_normalize_name code CIF_INVALID_BLOCKCODE).2) = false ∧
        (cif_create_block nz db code).2.1
          = { current :=
                { container := db.current.container ++ [db.current.container.foldl max 0 + 1]
                  data_block := db.current.data_block ++
                    [{ container_id := db.current.container.foldl max 0 + 1,
                       name := (nz.cif_normalize_name code CIF_INVALID_BLOCKCODE).2,
                       name_orig := code }] }
              saved := none }) := by
  by_cases h1 : (nz.cif_normalize_name code CIF_INVALID_BLOCKCODE).1 = CIF_OK
  · have hn : nz.cif_normalize_name code CIF_INVALID_BLOCKCODE
        = (CIF_OK, (nz.cif_normalize_name code CIF_INVALID_BLOCKCODE).2) := by
      rw [← h1]
    cases hd : db.current.data_block.any
        (fun r => r.name = (nz.cif_normalize_name code CIF_INVALID_BLOCKCODE).2) with
    | true =>
      left
      rw [cif_create_block_dup nz db code _ hs hn hd]
    | false =>
      right
      refine ⟨rfl, ?_⟩
      rw [cif_create_block_new nz db code _ hs hn hd]
  · left
    simp [cif_create_block, cif_create_block_internal, h1]

theorem nodup_append_new (rows : List block_row) (r : block_row)
    (hnd : (rows.map block_row.name).Nodup)
    (hnew : rows.any (fun x => x.name = r.name) = false) :
    ((rows ++ [r]).map block_row.name).Nodup := by
  rw [List.map_append, List.nodup_append]
  refine ⟨hnd, by simp, ?_⟩
  intro a ha hb
  simp only [List.map_cons, List.map_nil, List.mem_singleton] at hb
  subst hb
  obtain ⟨x, hx, hxa⟩ := List.mem_map.mp ha
  have := any_name_of_mem rows r.name x hx hxa
  rw [hnew] at this
  exact Bool.false_ne_true this

theorem cif_create_block_keeps (nz : normalizer) (db : sqlite3) (code : List UChar)
    (hs : db.saved = none) (hnd : (block_codes db).Nodup) :
    (cif_create_block nz db code).2.1.saved = none ∧
      (block_codes (cif_create_block nz db code).2.1).Nodup := by
  rcases cif_create_block_cases nz db code hs with h | ⟨hnew, h⟩
  · rw [h]
    exact ⟨hs, hnd⟩
  · rw [h]
    exact ⟨rfl, nodup_append_new db.current.data_block _ hnd hnew⟩

theorem created_keeps (nz : normalizer) :
    ∀ codes : List (List UChar),
      (created nz codes).saved = none ∧ (block_codes (created nz codes)).Nodup := by
  intro codes
  induction codes with
  | nil => exact ⟨rfl, List.nodup_nil⟩
  | cons code earlier ih => exact cif_create_block_keeps nz _ code ih.1 ih.2

/-! ## The claims about the store -/

/-- C18: `cif_create_block` with a valid code whose normalized form is the normalized code of
an existing data block returns `CIF_DUP_BLOCKCODE` and leaves the connection, the table of
containers included, as it was; `cif_create_block` keeps the normalized codes of the data
blocks pairwise different; and they are pairwise different in every store made from the store
of a new CIF by calls of `cif_create_block`. -/
theorem cif_create_block_unique :
    (∀ (nz : normalizer) (db : sqlite3) (code n : List UChar), db.saved = none →
      nz.cif_normalize_name code CIF_INVALID_BLOCKCODE = (CIF_OK, n) → n ∈ block_codes db →
        cif_create_block nz db code = (CIF_DUP_BLOCKCODE, db, none)) ∧
    (∀ (nz : normalizer) (db : sqlite3) (code : List UChar), db.saved = none →
      (block_codes db).Nodup → (block_codes (cif_create_block nz db code).2.1).Nodup) ∧
    (∀ (nz : normalizer) (codes : List (List UChar)), (block_codes (created nz codes)).Nodup) := by
  refine ⟨?_, ?_, ?_⟩
  · intro nz db code n hs hn hmem
    obtain ⟨r, hr, hrn⟩ := List.mem_map.mp hmem
    exact cif_create_block_dup nz db code n hs hn
      (any_name_of_mem db.current.data_block n r hr hrn)
  · intro nz db code hs hnd
    exact (cif_create_block_keeps nz db code hs hnd).2
  · intro nz codes
    exact (created_keeps nz codes).2

/-- C18, at the store in which the block `Ab` was created, with codes normalized by folding
`A` to `Z` to lower case: creating `aB` returns `CIF_DUP_BLOCKCODE` and the store is the same,
with the one container and the one block. -/
theorem cif_create_block_unique_witness :
    created ascii_normalizer [ustr "Ab"]
        = { current :=
              { container := [1]
                data_block :=
                  [{ container_id := 1, name := ustr "ab", name_orig := ustr "Ab" }] }
            saved := none } ∧
      cif_create_block ascii_normalizer (created ascii_normalizer [ustr "Ab"]) (ustr "aB")
        = (CIF_DUP_BLOCKCODE, created ascii_normalizer [ustr "Ab"], none) :=
  ⟨by decide,
    cif_create_block_unique.1 ascii_normalizer (created ascii_normalizer [ustr "Ab"])
      (ustr "aB") (ustr "ab") (by decide) (by decide) (by decide)⟩

/-- C19: after `cif_create_block` has succeeded for a code, `cif_get_block` for any code whose
normalized form is the normalized code of the new block returns `CIF_OK`, leaves the store as
it is and gives a handle with the identity of the new block and, as original code, the code
given at creation; and `cif_get_block` for a code whose normalized form is the normalized code
of no data block returns `CIF_NOSUCH_BLOCK` and leaves the store as it is. -/
theorem cif_get_block_round_trip :
    (∀ (nz : normalizer) (db db' : sqlite3) (code code' : List UChar) (blk : cif_block_t),
      cif_create_block nz db code = (CIF_OK, db', some blk) →
      nz.cif_normalize code' = (CIF_OK, blk.code) →
        ∃ blk', cif_get_block nz db' code' = (CIF_OK, db', some blk') ∧ blk'.id = blk.id ∧
          blk'.code_orig = code ∧ blk'.code = blk.code) ∧
    (∀ (nz : normalizer) (db : sqlite3) (code n : List UChar),
      nz.cif_normalize code = (CIF_OK, n) → n ∉ block_codes db →
        cif_get_block nz db code = (CIF_NOSUCH_BLOCK, db, none)) := by
  refine ⟨?_, ?_⟩
  · intro nz db db' code code' blk hc hn'
    have hs : db.saved = none := by
      cases hsv : db.saved with
      | none => rfl
      | some t =>
        exfalso
        simp only [cif_create_block, cif_create_block_internal, BEGIN, hsv, if_true] at hc
        split at hc
        · simp at hc
        · rw [if_neg (by decide)] at hc
          simp at hc
    by_cases h1 : (nz.cif_normalize_name code CIF_INVALID_BLOCKCODE).1 = CIF_OK
    · have hn : nz.cif_normalize_name code CIF_INVALID_BLOCKCODE
          = (CIF_OK, (nz.cif_normalize_name code CIF_INVALID_BLOCKCODE).2) := by
        rw [← h1]
      cases hd : db.current.data_block.any
          (fun r => r.name = (nz.cif_normalize_name code CIF_INVALID_BLOCKCODE).2) with
      | true =>
        rw [cif_create_block_dup nz db code _ hs hn hd] at hc
        simp at hc
      | false =>
        rw [cif_create_block_new nz db code _ hs hn hd] at hc
        simp only [Prod.mk.injEq, Option.some.injEq, true_and] at hc
        obtain ⟨hdb, hblk⟩ := hc
        subst hdb
        subst hblk
        simp only at hn'
        refine ⟨{ id := db.current.container.foldl max 0 + 1,
                  code := (nz.cif_normalize_name code CIF_INVALID_BLOCKCODE).2,
                  code_orig := code, parent_id := -1 }, ?_, rfl, rfl, rfl⟩
        simp only [cif_get_block, hn', step_get_block]
        rw [find_append_new db.current.data_block
          { container_id := db.current.container.foldl max 0 + 1,
            name := (nz.cif_normalize_name code CIF_INVALID_BLOCKCODE).2, name_orig := code }
          (nz.cif_normalize_name code CIF_INVALID_BLOCKCODE).2 rfl hd]
        simp
    · exfalso
      simp [cif_create_block, cif_create_block_internal, h1] at hc
  · intro nz db code n hn hnone
    have hf : ∀ r ∈ db.current.data_block, r.name ≠ n := by
      intro r hr hrn
      exact hnone (List.mem_map.mpr ⟨r, hr, hrn⟩)
    simp only [cif_get_block, hn, step_get_block]
    rw [find_none_of_forall db.current.data_block n hf]
    simp

/-- C19, with codes normalized by folding `A` to `Z` to lower case: after the block `Ab` has
been created in the store of a new CIF, `cif_get_block` for `aB` gives the block with the
identity 1 and the original code `Ab`, and `cif_get_block` for `c` returns
`CIF_NOSUCH_BLOCK`. -/
theorem cif_get_block_round_trip_witness :
    (∃ blk', cif_get_block ascii_normalizer (created ascii_normalizer [ustr "Ab"]) (ustr "aB")
        = (CIF_OK, created ascii_normalizer [ustr "Ab"], some blk') ∧ blk'.id = 1 ∧
          blk'.code_orig = ustr "Ab" ∧ blk'.code = ustr "ab") ∧
      cif_get_block ascii_normalizer (created ascii_normalizer [ustr "Ab"]) (ustr "c")
        = (CIF_NOSUCH_BLOCK, created ascii_normalizer [ustr "Ab"], none) :=
  ⟨cif_get_block_round_trip.1 ascii_normalizer empty_store
      (created ascii_normalizer [ustr "Ab"]) (ustr "Ab") (ustr "aB")
      { id := 1, code := ustr "ab", code_orig := ustr "Ab", parent_id := -1 }
      (by decide) (by decide),
    cif_get_block_round_trip.2 ascii_normalizer (created ascii_normalizer [ustr "Ab"])
      (ustr "c") (ustr "c") (by decide) (by decide)⟩

/-! ## SkipSiblings and the end callbacks -/

theorem walk_loop_end_eq {σ : Type} (l : cif_loop_t) (h : cif_handler_t σ) (s : σ) :
    walk_loop l h s
      = (if (HANDLER_RESULT h.handle_loop_start l s CIF_TRAVERSE_CONTINUE).1
            ≠ CIF_TRAVERSE_CONTINUE then
          HANDLER_RESULT h.handle_loop_start l s CIF_TRAVERSE_CONTINUE
        else walk_loop_end l h (walk_loop_packets h l.packets
          (HANDLER_RESULT h.handle_loop_start l s CIF_TRAVERSE_CONTINUE).2)) := rfl

/-- C37: SkipSiblings and the end callbacks, for every handler.  The state after is the state
that the callback or the element left, so that nothing else has been invoked.
Returned by an item callback it ends the walk of the packet with Continue, without
packet-end.  The walk of a packet returns it when packet-start or packet-end does, and the
walk of the loop then ends with Continue, without loop-end.  The walk of a loop returns it
when loop-start or loop-end does, and the walk of the container then ends with Continue,
without block-end or frame-end.  The walk of a block returns it when block-start or block-end
does, and `cif_walk` then ends with `CIF_OK`, without cif-end.  The walk of a save frame
returns it when frame-start or frame-end does, and then the remaining frames are skipped, the
loops of the parent are walked and the end callback of the parent is invoked as after any
frame. -/
theorem skip_siblings_end_callbacks {σ : Type} (h : cif_handler_t σ) :
    (∀ (p : cif_packet_t) (item : List UChar × cif_value)
        (rest : List (List UChar × cif_value)) (s s' : σ),
      HANDLER_RESULT h.handle_item item s CIF_TRAVERSE_CONTINUE
          = (CIF_TRAVERSE_SKIP_SIBLINGS, s') →
        walk_packet_items h p (item :: rest) s = (CIF_TRAVERSE_CONTINUE, s')) ∧
    (∀ (l : cif_loop_t) (p : cif_packet_t) (rest : List cif_packet_t) (s s' : σ),
      (HANDLER_RESULT h.handle_packet_start p s CIF_TRAVERSE_CONTINUE
          = (CIF_TRAVERSE_SKIP_SIBLINGS, s') →
        walk_packet p h s = (CIF_TRAVERSE_SKIP_SIBLINGS, s')) ∧
      (HANDLER_RESULT h.handle_packet_end p s CIF_TRAVERSE_CONTINUE
          = (CIF_TRAVERSE_SKIP_SIBLINGS, s') →
        walk_packet_items h p [] s = (CIF_TRAVERSE_SKIP_SIBLINGS, s')) ∧
      (walk_packet p h s = (CIF_TRAVERSE_SKIP_SIBLINGS, s') →
        walk_loop_end l h (walk_loop_packets h (p :: rest) s)
          = (CIF_TRAVERSE_CONTINUE, s'))) ∧
    (∀ (c : cif_container_t) (depth : Nat) (l : cif_loop_t) (rest : List cif_loop_t)
        (result : Int) (s s' : σ),
      (HANDLER_RESULT h.handle_loop_start l s CIF_TRAVERSE_CONTINUE
          = (CIF_TRAVERSE_SKIP_SIBLINGS, s') →
        walk_loop l h s = (CIF_TRAVERSE_SKIP_SIBLINGS, s')) ∧
      (HANDLER_RESULT h.handle_loop_end l s CIF_TRAVERSE_CONTINUE
          = (CIF_TRAVERSE_SKIP_SIBLINGS, s') →
        walk_loop_end l h (CIF_FINISHED, s) = (CIF_TRAVERSE_SKIP_SIBLINGS, s')) ∧
      (walk_loop l h s = (CIF_TRAVERSE_SKIP_SIBLINGS, s') →
        walk_container_end c depth h (walk_loops_loop h (l :: rest) result true s)
          = (CIF_TRAVERSE_CONTINUE, s'))) ∧
    (∀ (cif : cif_t) (b : cif_container_t) (rest : List cif_container_t) (result : Int)
        (s s' : σ),
      (HANDLER_RESULT h.handle_block_start b s CIF_TRAVERSE_CONTINUE
          = (CIF_TRAVERSE_SKIP_SIBLINGS, s') →
        walk_container h b 0 s = (CIF_TRAVERSE_SKIP_SIBLINGS, s')) ∧
      (HANDLER_RESULT h.handle_block_end b s CIF_TRAVERSE_CONTINUE
          = (CIF_TRAVERSE_SKIP_SIBLINGS, s') →
        walk_container_end b 0 h (CIF_TRAVERSE_CONTINUE, s)
          = (CIF_TRAVERSE_SKIP_SIBLINGS, s')) ∧
      (walk_container h b 0 s = (CIF_TRAVERSE_SKIP_SIBLINGS, s') →
        cif_walk_end cif h (walk_blocks h (b :: rest) result true s) = (CIF_OK, s'))) ∧
    (∀ (c f : cif_container_t) (rest : List cif_container_t) (depth : Nat) (result : Int)
        (s s' : σ),
      (HANDLER_RESULT h.handle_frame_start f s CIF_TRAVERSE_CONTINUE
          = (CIF_TRAVERSE_SKIP_SIBLINGS, s') →
        walk_container h f (depth + 1) s = (CIF_TRAVERSE_SKIP_SIBLINGS, s')) ∧
      (HANDLER_RESULT h.handle_frame_end f s CIF_TRAVERSE_CONTINUE
          = (CIF_TRAVERSE_SKIP_SIBLINGS, s') →
        walk_container_end f (depth + 1) h (CIF_TRAVERSE_CONTINUE, s)
          = (CIF_TRAVERSE_SKIP_SIBLINGS, s')) ∧
      (walk_container h f (depth + 1) s = (CIF_TRAVERSE_SKIP_SIBLINGS, s') →
        walk_container_loops c depth h
            (walk_frames h (f :: rest) (depth + 1) result true true s)
          = walk_container_end c depth h (walk_loops c h s')) ∧
      (walk_container_end c depth h (CIF_TRAVERSE_CONTINUE, s)
        = if depth ≠ 0 then HANDLER_RESULT h.handle_frame_end c s CIF_TRAVERSE_CONTINUE
          else HANDLER_RESULT h.handle_block_end c s CIF_TRAVERSE_CONTINUE)) := by
  have hss1 : ¬ ((CIF_TRAVERSE_SKIP_SIBLINGS : Int) = CIF_TRAVERSE_CONTINUE ∨
      (CIF_TRAVERSE_SKIP_SIBLINGS : Int) = CIF_TRAVERSE_SKIP_CURRENT) := by decide
  have hss2 : ¬ ((CIF_TRAVERSE_SKIP_SIBLINGS : Int) = CIF_TRAVERSE_SKIP_CURRENT ∨
      (CIF_TRAVERSE_SKIP_SIBLINGS : Int) = CIF_TRAVERSE_CONTINUE) := by decide
  have hss3 : ¬ ((CIF_TRAVERSE_SKIP_SIBLINGS : Int) = CIF_TRAVERSE_CONTINUE) := by decide
  refine ⟨?_, ?_, ?_, ?_, ?_⟩
  · intro p item rest s s' hw
    simp only [walk_packet_items, walk_item]
    rw [hw, if_neg hss1, if_pos rfl]
  · intro l p rest s s'
    refine ⟨?_, ?_, ?_⟩
    · intro hs
      simp only [walk_packet]
      rw [hs, if_pos hss3]
    · intro hs
      simp only [walk_packet_items]
      exact hs
    · intro hw
      simp only [walk_loop_packets]
      rw [hw, if_neg hss1, if_pos rfl]
      simp only [walk_loop_end]
      rw [if_pos (by decide : (CIF_TRAVERSE_CONTINUE : Int) ≠ CIF_FINISHED)]
  · intro c depth l rest result s s'
    refine ⟨?_, ?_, ?_⟩
    · intro hs
      simp only [walk_loop]
      rw [hs, if_pos hss3]
    · intro hs
      simp only [walk_loop_end]
      rw [if_neg (by simp)]
      exact hs
    · intro hw
      simp only [walk_loops_loop, if_true]
      rw [hw, if_neg hss2, walk_loops_loop_off]
      simp [walk_container_end, hss1]
  · intro cif b rest result s s'
    refine ⟨?_, ?_, ?_⟩
    · intro hs
      exact walk_container_start h b 0 s _ (by simpa using hs) hss3
    · intro hs
      simp [walk_container_end, hs]
    · intro hw
      simp only [walk_blocks, if_true]
      rw [hw, if_pos (Or.inl rfl), walk_blocks_off]
      simp [cif_walk_end]
  · intro c f rest depth result s s'
    refine ⟨?_, ?_, ?_, ?_⟩
    · intro hs
      exact walk_container_start h f (depth + 1) s _ (by simpa using hs) hss3
    · intro hs
      simp [walk_container_end, hs]
    · intro hw
      simp only [walk_frames, if_true]
      rw [hw, if_neg hss1, if_pos rfl, walk_frames_off]
      simp [walk_container_loops]
    · simp [walk_container_end]

/-- C37, at a CIF of one block with a save frame and a loop of one packet of one item, with
handlers that record their invocations: after SkipSiblings from frame-start the loop of the
block is walked and block-end invoked; after SkipSiblings from the item callback neither
packet-end is invoked, from packet-start nor loop-end, from loop-start nor block-end, and
from block-start nor cif-end. -/
theorem skip_siblings_end_callbacks_witness :
    (walk_container_loops one_block 0 (logged (skipping_siblings_at .frame_start))
        (walk_frames (logged (skipping_siblings_at .frame_start)) [one_frame] 1 CIF_OK true true
          ((), []))).2.2.map (fun e => (e.1.kind, e.2))
      = [(.frame_start, CIF_TRAVERSE_SKIP_SIBLINGS), (.loop_start, CIF_TRAVERSE_CONTINUE),
          (.packet_start, CIF_TRAVERSE_CONTINUE), (.item, CIF_TRAVERSE_CONTINUE),
          (.packet_end, CIF_TRAVERSE_CONTINUE), (.loop_end, CIF_TRAVERSE_CONTINUE),
          (.block_end, CIF_TRAVERSE_CONTINUE)] ∧
    walk_packet_items (logged (skipping_siblings_at .item)) [one_item] [one_item] ((), [])
      = (CIF_TRAVERSE_CONTINUE, ((), [(walk_event.item one_item, CIF_TRAVERSE_SKIP_SIBLINGS)])) ∧
    skipping_log .item one_cif
      = [(.cif_start, CIF_TRAVERSE_CONTINUE), (.block_start, CIF_TRAVERSE_CONTINUE),
          (.frame_start, CIF_TRAVERSE_CONTINUE), (.frame_end, CIF_TRAVERSE_CONTINUE),
          (.loop_start, CIF_TRAVERSE_CONTINUE), (.packet_start, CIF_TRAVERSE_CONTINUE),
          (.item, CIF_TRAVERSE_SKIP_SIBLINGS), (.loop_end, CIF_TRAVERSE_CONTINUE),
          (.block_end, CIF_TRAVERSE_CONTINUE), (.cif_end, CIF_TRAVERSE_CONTINUE)] ∧
    skipping_log .packet_start one_cif
      = [(.cif_start, CIF_TRAVERSE_CONTINUE), (.block_start, CIF_TRAVERSE_CONTINUE),
          (.frame_start, CIF_TRAVERSE_CONTINUE), (.frame_end, CIF_TRAVERSE_CONTINUE),
          (.loop_start, CIF_TRAVERSE_CONTINUE), (.packet_start, CIF_TRAVERSE_SKIP_SIBLINGS),
          (.block_end, CIF_TRAVERSE_CONTINUE), (.cif_end, CIF_TRAVERSE_CONTINUE)] ∧
    skipping_log .loop_start one_cif
      = [(.cif_start, CIF_TRAVERSE_CONTINUE), (.block_start, CIF_TRAVERSE_CONTINUE),
          (.frame_start, CIF_TRAVERSE_CONTINUE), (.frame_end, CIF_TRAVERSE_CONTINUE),
          (.loop_start, CIF_TRAVERSE_SKIP_SIBLINGS), (.cif_end, CIF_TRAVERSE_CONTINUE)] ∧
    skipping_log .block_start one_cif
      = [(.cif_start, CIF_TRAVERSE_CONTINUE), (.block_start, CIF_TRAVERSE_SKIP_SIBLINGS)] ∧
    skipping_log .frame_end one_cif
      = [(.cif_start, CIF_TRAVERSE_CONTINUE), (.block_start, CIF_TRAVERSE_CONTINUE),
          (.frame_start, CIF_TRAVERSE_CONTINUE), (.frame_end, CIF_TRAVERSE_SKIP_SIBLINGS),
          (.loop_start, CIF_TRAVERSE_CONTINUE), (.packet_start, CIF_TRAVERSE_CONTINUE),
          (.item, CIF_TRAVERSE_CONTINUE), (.packet_end, CIF_TRAVERSE_CONTINUE),
          (.loop_end, CIF_TRAVERSE_CONTINUE), (.block_end, CIF_TRAVERSE_CONTINUE),
          (.cif_end, CIF_TRAVERSE_CONTINUE)] :=
  ⟨(congrArg (fun r => r.2.2.map (fun e => (e.1.kind, e.2)))
      (((skip_siblings_end_callbacks (logged (skipping_siblings_at .frame_start))).2.2.2.2
        one_block one_frame [] 0 CIF_OK ((), [])
        ((), [(walk_event.frame_start one_frame, CIF_TRAVERSE_SKIP_SIBLINGS)])).2.2.1 rfl)).trans
      (by decide),
    (skip_siblings_end_callbacks (logged (skipping_siblings_at .item))).1 [one_item] one_item []
      ((), []) ((), [(walk_event.item one_item, CIF_TRAVERSE_SKIP_SIBLINGS)]) rfl,
    by decide, by decide, by decide, by decide, by decide⟩

end Cif
